import Mathlib

/-!
# Mini-Java AST generator: a shallow embedding of `y.tab.c`

The development follows the generated parser `Absolute_Syntax_Tree_Gen/y.tab.c`:

* the node model (`TREE`, `newnode`, `newleaf`),
* the parser tables and the LALR driver `yyparse` with its semantic actions,
* the tree printer `printBT` and the driver `main`.

Conventions of the embedding.

* A C value of type `TREE*` is a value of the inductive type `TREE`; the constructor
  `TREE.null` is the pointer `NULL` (an absent sub-tree) and `TREE.node` is a pointer to
  an allocated node together with that node's fields.  Allocation always succeeds.
* The semantic value type `YACC` (declared in `header.c`, which is not part of the
  sources at hand) is used by the parser through its two fields `v` (a string) and
  `ptr` (a `TREE*`) only; the embedding is the record with exactly these fields.
* The scanner `yylex` is external to `y.tab.c`.  It is represented by the list of tokens
  that it is going to deliver.
* The value stack of the parser is a C array, so a cell above the stack pointer keeps
  the value that was written to it last.  The embedding keeps these stale cells,
  because the default action `$$ = $1` of an empty rule reads one of them.
* A cell of the value stack that was never written holds indeterminate bytes, given by the
  parameter `uninit`.  The parser only copies such a value.  For the tree printer a `ptr`
  field found there is NULL when it is zero and a wild pointer otherwise: following it is
  undefined.
* Undefined behaviour is the result `none`: of `printBT` when `strcpy`/`strcat` write past
  the end of the buffer `new_prefix`, of `main` also when `printBT` follows a wild pointer.
  Strings are measured in the bytes of their UTF-8 encoding.
-/

set_option maxRecDepth 100000
set_option maxHeartbeats 4000000

namespace MiniJava

/-! ## Node model -/

/-- A value of type `TREE*`: `null` is `NULL`, `node` points to a node with fields
`opr`, `value`, `c1`, `c2`, `c3`, `c4`. -/
inductive TREE where
  | null : TREE
  | node (opr : String) (value : String) (c1 c2 c3 c4 : TREE) : TREE
  deriving DecidableEq, Repr, Inhabited

namespace TREE

/-- The test `p == NULL`. -/
def isNull : TREE → Bool
  | null => true
  | node _ _ _ _ _ _ => false

/-- The field `opr` of the node pointed to (the empty string for `NULL`). -/
def label : TREE → String
  | null => ""
  | node o _ _ _ _ _ => o

/-- The field `value` of the node pointed to (the empty string for `NULL`). -/
def val : TREE → String
  | null => ""
  | node _ v _ _ _ _ => v

/-- The field `c1` of the node pointed to. -/
def c1 : TREE → TREE
  | null => null
  | node _ _ c _ _ _ => c

/-- The field `c2` of the node pointed to. -/
def c2 : TREE → TREE
  | null => null
  | node _ _ _ c _ _ => c

/-- The field `c3` of the node pointed to. -/
def c3 : TREE → TREE
  | null => null
  | node _ _ _ _ c _ => c

/-- The field `c4` of the node pointed to. -/
def c4 : TREE → TREE
  | null => null
  | node _ _ _ _ _ c => c

/-- The number of nodes of a tree. -/
def size : TREE → Nat
  | null => 0
  | node _ _ c1 c2 c3 c4 => 1 + c1.size + c2.size + c3.size + c4.size

end TREE

/-- The semantic value type `YYSTYPE` (`#define YYSTYPE YACC`). -/
structure YACC where
  v : String
  ptr : TREE
  deriving DecidableEq, Repr, Inhabited

/-- The global `TREE* nptr = NULL`, which is never assigned. -/
def nptr : TREE := TREE.null

/-- `newnode(o, c1, c2, c3, c4)`: an internal node; its value is the placeholder `"N/A"`. -/
def newnode (o : String) (c1 c2 c3 c4 : TREE) : TREE :=
  TREE.node o "N/A" c1 c2 c3 c4

/-- `newleaf(o, v)`: a node with label `o`, value `v` and four `NULL` children. -/
def newleaf (o : String) (v : String) : TREE :=
  TREE.node o v TREE.null TREE.null TREE.null TREE.null

/-! ## Parser tables -/

def YYFINAL : Int := 6
def YYLAST : Int := 235
def YYNTOKENS : Int := 59
def YYUNDEFTOK : Int := 2
def YYMAXUTOK : Int := 305
def YYPACT_NINF : Int := -72
def YYEMPTY : Int := -2
def YYEOF : Int := 0
def YYTERROR : Int := 1
def YYINITDEPTH : Nat := 200
def YYMAXDEPTH : Nat := 10000

/-- YYTRANSLATE table: the symbol number of each token code that yylex can return. -/
def yytranslate : List Int :=
  [
   0, 2, 2, 2, 2, 2, 2, 2, 2, 2, 2, 2, 2, 2, 2,
   2, 2, 2, 2, 2, 2, 2, 2, 2, 2, 2, 2, 2, 2, 2,
   2, 2, 2, 2, 2, 2, 2, 2, 2, 2, 53, 56, 2, 2, 58,
   2, 2, 2, 2, 2, 2, 2, 2, 2, 2, 2, 2, 2, 2, 57,
   2, 2, 2, 2, 2, 2, 2, 2, 2, 2, 2, 2, 2, 2, 2,
   2, 2, 2, 2, 2, 2, 2, 2, 2, 2, 2, 2, 2, 2, 2,
   2, 54, 2, 55, 2, 2, 2, 2, 2, 2, 2, 2, 2, 2, 2,
   2, 2, 2, 2, 2, 2, 2, 2, 2, 2, 2, 2, 2, 2, 2,
   2, 2, 2, 51, 2, 52, 2, 2, 2, 2, 2, 2, 2, 2, 2,
   2, 2, 2, 2, 2, 2, 2, 2, 2, 2, 2, 2, 2, 2, 2,
   2, 2, 2, 2, 2, 2, 2, 2, 2, 2, 2, 2, 2, 2, 2,
   2, 2, 2, 2, 2, 2, 2, 2, 2, 2, 2, 2, 2, 2, 2,
   2, 2, 2, 2, 2, 2, 2, 2, 2, 2, 2, 2, 2, 2, 2,
   2, 2, 2, 2, 2, 2, 2, 2, 2, 2, 2, 2, 2, 2, 2,
   2, 2, 2, 2, 2, 2, 2, 2, 2, 2, 2, 2, 2, 2, 2,
   2, 2, 2, 2, 2, 2, 2, 2, 2, 2, 2, 2, 2, 2, 2,
   2, 2, 2, 2, 2, 2, 2, 2, 2, 2, 2, 2, 2, 2, 2,
   2, 1, 2, 3, 4, 5, 6, 7, 8, 9, 10, 11, 12, 13, 14,
   15, 16, 17, 18, 19, 20, 21, 22, 23, 24, 25, 26, 27, 28, 29,
   30, 31, 32, 33, 34, 35, 36, 37, 38, 39, 40, 41, 42, 43, 44,
   45, 46, 47, 48, 49, 50
  ]

/-- For each state, the index in `yytable` of the portion describing that state. -/
def yypact : List Int :=
  [
   82, -72, -72, 21, 44, 53, -72, 37, -72, -72, 26, 82, 27, 34, -72,
   -72, -72, -72, -72, -72, 42, 50, 34, 36, 58, 103, 109, 97, 84, 106,
   126, 126, -72, -72, 150, 126, 98, 147, 148, 193, 156, 151, -72, 138, -72,
   122, -72, 192, 194, 85, 46, 92, -4, 124, 126, -72, -72, 45, 5, -72,
   -72, 84, 84, 159, 84, 84, 84, -72, -72, -72, -72, -72, -72, -72, -72,
   -72, 0, 160, 126, -27, 126, 126, 126, 126, 126, 126, 126, 126, 126, 126,
   126, 126, 126, -72, -72, 126, 9, 94, 154, -72, 126, -72, 138, -72, -72,
   -72, 84, -72, 161, -72, 34, -72, 0, -72, 162, -72, 163, -72, 126, 142,
   -72, -72, 194, 85, 46, 46, 92, 92, 92, 92, -4, -4, -72, -72, -72,
   192, 165, 4, -8, 107, -26, 166, 84, 167, 170, 0, -72, -12, 76, 168,
   138, 84, -72, 169, 139, 69, 96, 1, -72, -72, 158, -72, -72, -72, -72,
   -72, -72, 126, 171, -72, -72, 172, -72, 173, 100, -72, -72, 164, 192, -72,
   -72, -72, -72, 174, 167, -72, -72
  ]

/-- For each state, its default reduction (rule number); zero means the default is an error. -/
def yydefact : List Int :=
  [
   0, 5, 6, 0, 0, 8, 1, 0, 7, 4, 0, 0, 0, 0, 2,
   62, 58, 60, 59, 61, 0, 0, 0, 0, 0, 0, 0, 0, 14, 0,
   0, 0, 93, 94, 0, 0, 0, 0, 0, 21, 0, 0, 17, 18, 16,
   0, 15, 36, 74, 76, 79, 84, 87, 91, 0, 32, 33, 0, 0, 91,
   3, 14, 14, 0, 14, 14, 14, 64, 67, 68, 72, 65, 66, 69, 71,
   70, 0, 0, 0, 41, 0, 0, 0, 0, 0, 0, 0, 0, 0, 0,
   0, 0, 0, 34, 35, 0, 0, 0, 0, 30, 0, 31, 0, 92, 10,
   9, 14, 11, 0, 13, 0, 55, 0, 51, 52, 56, 46, 43, 0, 0,
   38, 44, 73, 75, 77, 78, 83, 82, 81, 80, 85, 86, 88, 89, 90,
   63, 0, 0, 0, 0, 41, 0, 14, 0, 0, 0, 45, 41, 94, 41,
   0, 14, 22, 0, 91, 0, 0, 0, 20, 12, 0, 54, 57, 53, 37,
   40, 39, 0, 0, 29, 26, 0, 23, 0, 0, 49, 50, 0, 42, 19,
   27, 25, 24, 0, 47, 28, 48
  ]

/-- For each nonterminal, the base index used to look up its goto state. -/
def yypgoto : List Int :=
  [
   -72, -72, -72, 203, -72, -72, -54, -72, -72, -72, -72, -72, -72, -11, 175,
   49, -72, -72, -49, 40, -72, -72, -71, -72, -72, -9, 176, -42, -29, 155,
   146, 117, 105, 113, -28
  ]

/-- For each nonterminal, its default goto state. -/
def yydefgoto : List Int :=
  [
   -1, 3, 12, 4, 5, 9, 36, 37, 38, 39, 64, 40, 98, 41, 42,
   120, 149, 43, 78, 161, 177, 44, 113, 114, 115, 45, 46, 95, 47, 48,
   49, 50, 51, 52, 59
  ]

/-- The packed action and goto table: positive shifts, negative reduces the opposite rule. -/
def yytable : List Int :=
  [
   53, 76, 55, 56, 20, 80, 58, 104, 105, 80, 107, 108, 109, 23, 110,
   118, 118, 79, 80, 30, 31, 6, 80, 90, 91, 96, 80, 77, 92, 102,
   121, 119, 119, 53, 53, 111, 53, 53, 53, 32, 33, 144, 15, 16, 17,
   18, 119, 7, 100, 155, 117, 112, 141, 15, 16, 17, 18, 35, 174, 8,
   152, 103, 132, 133, 134, 136, 135, 146, 138, 84, 85, 19, 140, 10, 163,
   86, 87, 11, 53, 14, 32, 33, 19, 21, 30, 31, 1, 2, 159, 147,
   24, 150, 15, 16, 17, 18, 29, 168, 35, 30, 31, 143, 97, 22, 32,
   33, 82, 83, 167, 154, 157, 30, 31, 25, 53, 30, 31, 88, 89, 32,
   33, 19, 35, 53, 34, 170, 153, 154, 154, 32, 33, 32, 33, -41, 119,
   32, 33, 35, 178, 93, 94, 26, 32, 33, 171, 173, 154, 35, 28, 35,
   60, 137, 172, 35, 93, 94, 182, 32, 33, 54, 35, 32, 33, 183, 156,
   27, 67, 68, 69, 70, 71, 72, 73, 74, 75, 35, 77, 32, 148, 35,
   67, 68, 69, 70, 71, 72, 73, 74, 75, 126, 127, 128, 129, 175, 176,
   35, 164, 165, 166, 124, 125, 130, 131, 57, 61, 62, 63, 65, 66, 80,
   106, 139, 81, 142, 13, 116, 151, 77, 158, 184, 145, 160, 162, 179, 186,
   169, 119, 123, 180, 181, 185, 0, 99, 101, 0, 122
  ]

/-- Guard table for `yytable`: entry i is valid for the symbol or state recorded here. -/
def yycheck : List Int :=
  [
   28, 43, 30, 31, 13, 17, 35, 61, 62, 17, 64, 65, 66, 22, 14,
   42, 42, 45, 17, 15, 16, 0, 17, 27, 28, 54, 17, 54, 32, 57,
   79, 58, 58, 61, 62, 35, 64, 65, 66, 35, 36, 112, 8, 9, 10,
   11, 58, 3, 57, 57, 78, 51, 106, 8, 9, 10, 11, 53, 57, 6,
   56, 56, 90, 91, 92, 56, 95, 116, 97, 23, 24, 37, 100, 36, 145,
   29, 30, 51, 106, 52, 35, 36, 37, 41, 15, 16, 4, 5, 142, 118,
   54, 119, 8, 9, 10, 11, 12, 151, 53, 15, 16, 110, 57, 53, 35,
   36, 21, 22, 150, 137, 139, 15, 16, 55, 142, 15, 16, 25, 26, 35,
   36, 37, 53, 151, 40, 56, 137, 155, 156, 35, 36, 35, 36, 57, 58,
   35, 36, 53, 167, 15, 16, 38, 35, 36, 155, 156, 174, 53, 51, 53,
   52, 57, 56, 53, 15, 16, 56, 35, 36, 53, 53, 35, 36, 174, 57,
   56, 42, 43, 44, 45, 46, 47, 48, 49, 50, 53, 54, 35, 36, 53,
   42, 43, 44, 45, 46, 47, 48, 49, 50, 84, 85, 86, 87, 35, 36,
   53, 147, 148, 149, 82, 83, 88, 89, 53, 57, 57, 13, 51, 57, 17,
   51, 57, 18, 52, 11, 55, 51, 54, 52, 55, 58, 54, 52, 52, 184,
   56, 58, 81, 56, 56, 56, -1, 57, 57, -1, 80
  ]

/-- For each state, the symbol that accesses it. -/
def yystos : List Int :=
  [
   0, 4, 5, 60, 62, 63, 0, 3, 6, 64, 36, 51, 61, 62, 52,
   8, 9, 10, 11, 37, 84, 41, 53, 84, 54, 55, 38, 56, 51, 12,
   15, 16, 35, 36, 40, 53, 65, 66, 67, 68, 70, 72, 73, 76, 80,
   84, 85, 87, 88, 89, 90, 91, 92, 93, 53, 93, 93, 53, 87, 93,
   52, 57, 57, 13, 69, 51, 57, 42, 43, 44, 45, 46, 47, 48, 49,
   50, 86, 54, 77, 93, 17, 18, 21, 22, 23, 24, 29, 30, 25, 26,
   27, 28, 32, 15, 16, 86, 87, 57, 71, 73, 84, 85, 93, 56, 65,
   65, 51, 65, 65, 65, 14, 35, 51, 81, 82, 83, 55, 93, 42, 58,
   74, 77, 88, 89, 90, 90, 91, 91, 91, 91, 92, 92, 93, 93, 93,
   87, 56, 57, 87, 57, 93, 65, 52, 84, 81, 58, 77, 87, 36, 75,
   93, 51, 56, 72, 93, 57, 57, 87, 52, 65, 54, 78, 52, 81, 74,
   74, 74, 86, 65, 56, 56, 72, 56, 72, 57, 35, 36, 79, 87, 52,
   56, 56, 56, 72, 55, 56, 78
  ]

/-- For each rule, the symbol number of the nonterminal it derives. -/
def yyr1 : List Int :=
  [
   0, 59, 60, 61, 62, 63, 63, 64, 64, 65, 65, 65, 65, 65, 65,
   66, 66, 67, 67, 68, 69, 69, 70, 70, 70, 70, 70, 70, 70, 70,
   71, 71, 72, 72, 72, 72, 72, 73, 73, 74, 74, 74, 75, 76, 76,
   77, 77, 78, 78, 79, 79, 80, 81, 81, 81, 82, 82, 83, 84, 84,
   84, 84, 84, 85, 86, 86, 86, 86, 86, 86, 86, 86, 86, 87, 87,
   88, 88, 89, 89, 89, 90, 90, 90, 90, 90, 91, 91, 91, 92, 92,
   92, 92, 93, 93, 93
  ]

/-- For each rule, the number of symbols on its right-hand side. -/
def yyr2 : List Int :=
  [
   0, 2, 6, 12, 2, 1, 1, 1, 0, 3, 3, 3, 5, 3, 0,
   1, 1, 1, 1, 7, 4, 0, 5, 6, 7, 7, 6, 7, 8, 6,
   1, 1, 2, 2, 2, 2, 1, 5, 3, 3, 3, 0, 3, 3, 3,
   3, 2, 3, 4, 1, 1, 3, 1, 3, 3, 1, 1, 3, 1, 1,
   1, 1, 1, 3, 1, 1, 1, 1, 1, 1, 1, 1, 1, 3, 1,
   3, 1, 3, 3, 1, 3, 3, 3, 3, 1, 3, 3, 1, 3, 3,
   3, 1, 3, 1, 1
  ]

/-- The cells of a table from index `n` on (the table without its first `n` cells). -/
def cellsFrom (t : List Int) (n : Nat) : List Int :=
  Nat.rec (motive := fun _ => List Int → List Int) (fun l => l) (fun _ ih l => ih l.tail) n t

/-- Reading entry `i` of a table (`t[i]`). -/
def tbl (t : List Int) (i : Int) : Int := (cellsFrom t i.toNat).headD 0

/-- `YYTRANSLATE(YYX)`: the symbol number of the token code `yyx` returned by `yylex`. -/
def YYTRANSLATE (yyx : Int) : Int :=
  if 0 ≤ yyx ∧ yyx ≤ YYMAXUTOK then tbl yytranslate yyx else YYUNDEFTOK

/-! ## Tokens -/

/-- One token as delivered by the scanner: the code that `yylex` returns and the
semantic value that it leaves in `yylval`. -/
structure Token where
  code : Int
  lval : YACC
  deriving DecidableEq, Repr, Inhabited

/-- A token of code `code` whose text is `text`; the scanner leaves the field `ptr` of
`yylval` at `NULL`. -/
def tok (code : Int) (text : String) : Token := ⟨code, ⟨text, TREE.null⟩⟩

def T_CLASS : Int := 258
def T_PUBLIC : Int := 259
def T_PRIVATE : Int := 260
def T_STATIC : Int := 261
def T_FINAL : Int := 262
def T_VOID : Int := 263
def T_INT : Int := 264
def T_CHAR : Int := 265
def T_DOUBLE : Int := 266
def T_IF : Int := 267
def T_ELSE : Int := 268
def T_NEW : Int := 269
def T_INC : Int := 270
def T_DEC : Int := 271
def T_LOGOR : Int := 272
def T_LOGAND : Int := 273
def T_OR : Int := 274
def T_AND : Int := 275
def T_EQ : Int := 276
def T_NEQ : Int := 277
def T_GTEQ : Int := 278
def T_LTEQ : Int := 279
def T_ADD : Int := 280
def T_SUB : Int := 281
def T_MUL : Int := 282
def T_DIV : Int := 283
def T_GT : Int := 284
def T_LT : Int := 285
def T_XOR : Int := 286
def T_MOD : Int := 287
def T_LS : Int := 288
def T_RS : Int := 289
def T_NUM : Int := 290
def T_ID : Int := 291
def T_STRING : Int := 292
def T_ARGS : Int := 293
def T_PRINT : Int := 294
def T_FOR : Int := 295
def T_MAIN : Int := 296
def T_ASSGN : Int := 297
def T_MULASSGN : Int := 298
def T_DIVASSGN : Int := 299
def T_MODASSGN : Int := 300
def T_ADDASSGN : Int := 301
def T_SUBASSGN : Int := 302
def T_ANDASSGN : Int := 303
def T_XORASSGN : Int := 304
def T_ORASSGN : Int := 305

/-! ## Semantic actions -/

namespace YACC

/-- The assignment `(yyval).ptr = p`. -/
def setPtr (yyval : YACC) (p : TREE) : YACC := { yyval with ptr := p }

/-- The assignment `(yyval).v = strdup (x)`. -/
def setV (yyval : YACC) (x : String) : YACC := { yyval with v := x }

end YACC

/-- The `switch (yyn)` of `yyreduce`: the semantic action of rule `yyn`.
`yyvsp i` is `yyvsp[i]`, `yyval` enters as `yyvsp[1-yylen]`, `root` is `ast->root`.
The result is the final `yyval` and the final `ast->root`. -/
def yyaction (yyn : Int) (yyvsp : Int → YACC) (yyval : YACC) (root : TREE) : YACC × TREE :=
  match yyn with
  | 2 =>
    let p := newnode "CLASS DECLARATION" (yyvsp (-5)).ptr (newleaf "classname" (yyvsp (-5)).v)
      (yyvsp (-1)).ptr nptr
    (yyval.setPtr p, p)
  | 3 => (yyval.setPtr (newnode "METHOD DECLARATION" (yyvsp (-11)).ptr (yyvsp (-10)).ptr
      (yyvsp (-7)).ptr (yyvsp (-1)).ptr), root)
  | 4 => (yyval.setPtr (newnode "modifier" (yyvsp (-1)).ptr (yyvsp 0).ptr nptr nptr), root)
  | 5 => (yyval.setPtr (newleaf "access modifier" (yyvsp 0).v), root)
  | 6 => (yyval.setPtr (newleaf "access modifier" (yyvsp 0).v), root)
  | 7 => (yyval.setPtr (newleaf "access modifier" (yyvsp 0).v), root)
  | 8 => (yyval.setPtr nptr, root)
  | 9 => (yyval.setPtr (newnode "DECLARATION" (yyvsp (-2)).ptr (yyvsp 0).ptr nptr nptr), root)
  | 10 => (yyval.setPtr (newnode "INITIALIZATION" (yyvsp (-2)).ptr (yyvsp 0).ptr nptr nptr), root)
  | 11 => (yyval.setPtr (newnode "IF ELSE STATEMNET" (yyvsp (-2)).ptr (yyvsp (-1)).ptr
      (yyvsp 0).ptr nptr), root)
  | 12 => (yyval.setPtr (newnode "FOR LOOP" (yyvsp (-4)).ptr (yyvsp (-2)).ptr
      (yyvsp 0).ptr nptr), root)
  | 13 => (yyval.setPtr (newnode "STATEMENT" (yyvsp (-2)).ptr (yyvsp 0).ptr nptr nptr), root)
  | 15 => (yyval.setPtr (newnode "ASSIGNMENT STATEMENT" (yyvsp 0).ptr nptr nptr nptr), root)
  | 16 => (yyval.setPtr (newnode "ARRAY INITIALISATION STATEMENT"
      (yyvsp 0).ptr nptr nptr nptr), root)
  | 17 => (yyval.setPtr (newnode "VARIABLE DECLARATION" (yyvsp 0).ptr nptr nptr nptr), root)
  | 18 => (yyval.setPtr (newnode "ARRAY DECLARATION STATEMENT" (yyvsp 0).ptr nptr nptr nptr), root)
  | 19 => (yyval.setPtr (newnode "IF STATEMENT" (yyvsp (-4)).ptr (yyvsp (-1)).ptr nptr nptr), root)
  | 20 => (yyval.setPtr (newnode "ELSE STATEMENT" (yyvsp (-1)).ptr nptr nptr nptr), root)
  | 21 => (yyval.setPtr nptr, root)
  | 22 => (yyval.setPtr (newnode "FOR CONDITION" nptr nptr nptr nptr), root)
  | 23 => (yyval.setPtr (newnode "FOR CONDITION" (yyvsp (-3)).ptr nptr nptr nptr), root)
  | 24 => (yyval.setPtr (newnode "FOR CONDITION" (yyvsp (-4)).ptr (yyvsp (-2)).ptr nptr nptr), root)
  | 25 => (yyval.setPtr (newnode "FOR CONDITION" (yyvsp (-4)).ptr nptr (yyvsp (-1)).ptr nptr), root)
  | 26 => (yyval.setPtr (newnode "FOR CONDITION" nptr (yyvsp (-2)).ptr nptr nptr), root)
  | 27 => (yyval.setPtr (newnode "FOR CONDITION" nptr (yyvsp (-3)).ptr (yyvsp (-1)).ptr nptr), root)
  | 28 => (yyval.setPtr (newnode "FOR CONDITION" (yyvsp (-5)).ptr (yyvsp (-3)).ptr
      (yyvsp (-1)).ptr nptr), root)
  | 29 => (yyval.setPtr (newnode "FOR CONDITION" nptr nptr (yyvsp (-1)).ptr nptr), root)
  | 30 => (yyval.setPtr ((yyvsp 0).ptr), root)
  | 31 => (yyval.setPtr ((yyvsp 0).ptr), root)
  | 32 => (yyval.setPtr (newnode "UNARY OPERATION" (newleaf "increment" (yyvsp (-1)).v)
      (yyvsp 0).ptr nptr nptr), root)
  | 33 => (yyval.setPtr (newnode "UNARY OPERATION" (newleaf "increment" (yyvsp (-1)).v)
      (yyvsp 0).ptr nptr nptr), root)
  | 34 => (yyval.setPtr (newnode "UNARY OPERATION" (yyvsp (-1)).ptr (newleaf "increment"
      (yyvsp 0).v) nptr nptr), root)
  | 35 => (yyval.setPtr (newnode "UNARY OPERATION" (yyvsp (-1)).ptr (newleaf "increment"
      (yyvsp 0).v) nptr nptr), root)
  | 37 => (yyval.setPtr (newnode "variable initialisation" (yyvsp (-4)).ptr
      (yyvsp (-3)).ptr (yyvsp (-1)).ptr (yyvsp 0).ptr), root)
  | 38 => (yyval.setPtr (newnode "variable declaration" (yyvsp (-2)).ptr (yyvsp (-1)).ptr
      (yyvsp 0).ptr nptr), root)
  | 39 => (yyval.setPtr (newnode "declaration continued" (yyvsp (-1)).ptr
      (yyvsp 0).ptr nptr nptr), root)
  | 40 => (yyval.setPtr (newnode "declaration continued" (yyvsp (-1)).ptr
      (yyvsp 0).ptr nptr nptr), root)
  | 41 => (yyval.setPtr nptr, root)
  | 42 => (yyval.setPtr (newnode (yyvsp (-1)).v (yyvsp (-2)).ptr (yyvsp 0).ptr nptr nptr), root)
  | 43 => (yyval.setPtr (newnode "array declaration" (yyvsp (-2)).ptr (yyvsp (-1)).ptr
      (yyvsp 0).ptr nptr), root)
  | 44 => (yyval.setPtr (newnode "array declaration" (yyvsp (-2)).ptr (yyvsp (-1)).ptr
      (yyvsp 0).ptr nptr), root)
  | 45 => (yyval.setPtr (newnode "bracket" (yyvsp (-1)).ptr (yyvsp 0).ptr nptr nptr), root)
  | 46 => (yyval.setPtr nptr, root)
  | 47 => (yyval.setPtr ((yyvsp (-1)).ptr), root)
  | 48 => (yyval.setPtr (newnode "bracket" (yyvsp (-2)).ptr (yyvsp 0).ptr nptr nptr), root)
  | 49 => (yyval.setPtr (newleaf "num" (yyvsp 0).v), root)
  | 50 => (yyval.setPtr (newleaf "id" (yyvsp 0).v), root)
  | 51 => (yyval.setPtr (newnode (yyvsp (-1)).v (yyvsp (-2)).ptr (yyvsp (-1)).ptr
      (yyvsp 0).ptr nptr), root)
  | 52 => (yyval.setPtr ((yyvsp 0).ptr), root)
  | 53 => (yyval.setPtr (newnode "," (yyvsp (-2)).ptr (yyvsp 0).ptr nptr nptr), root)
  | 54 => (yyval.setPtr (newnode "new" (yyvsp (-1)).ptr (yyvsp 0).ptr nptr nptr), root)
  | 55 => (yyval.setPtr (newleaf "num" (yyvsp 0).v), root)
  | 56 => (yyval.setPtr ((yyvsp 0).ptr), root)
  | 57 => (yyval.setPtr ((yyvsp (-1)).ptr), root)
  | 58 => (yyval.setPtr (newleaf "datatype" (yyvsp 0).v), root)
  | 59 => (yyval.setPtr (newleaf "datatype" (yyvsp 0).v), root)
  | 60 => (yyval.setPtr (newleaf "datatype" (yyvsp 0).v), root)
  | 61 => (yyval.setPtr (newleaf "datatype" (yyvsp 0).v), root)
  | 62 => (yyval.setPtr (newleaf "datatype" (yyvsp 0).v), root)
  | 63 => (yyval.setPtr (newnode (yyvsp (-1)).v (yyvsp (-2)).ptr (yyvsp 0).ptr nptr nptr), root)
  | 64 => (yyval.setV ((yyvsp 0).v), root)
  | 65 => (yyval.setV ((yyvsp 0).v), root)
  | 66 => (yyval.setV ((yyvsp 0).v), root)
  | 67 => (yyval.setV ((yyvsp 0).v), root)
  | 68 => (yyval.setV ((yyvsp 0).v), root)
  | 69 => (yyval.setV ((yyvsp 0).v), root)
  | 70 => (yyval.setV ((yyvsp 0).v), root)
  | 71 => (yyval.setV ((yyvsp 0).v), root)
  | 72 => (yyval.setV ((yyvsp 0).v), root)
  | 73 => (yyval.setPtr (newnode (yyvsp (-1)).v (yyvsp (-2)).ptr (yyvsp 0).ptr nptr nptr), root)
  | 74 => (yyval.setPtr ((yyvsp 0).ptr), root)
  | 75 => (yyval.setPtr (newnode (yyvsp (-1)).v (yyvsp (-2)).ptr (yyvsp 0).ptr nptr nptr), root)
  | 76 => (yyval.setPtr ((yyvsp 0).ptr), root)
  | 77 => (yyval.setPtr (newnode (yyvsp (-1)).v (yyvsp (-2)).ptr (yyvsp 0).ptr nptr nptr), root)
  | 78 => (yyval.setPtr (newnode (yyvsp (-1)).v (yyvsp (-2)).ptr (yyvsp 0).ptr nptr nptr), root)
  | 79 => (yyval.setPtr ((yyvsp 0).ptr), root)
  | 80 => (yyval.setPtr (newnode (yyvsp (-1)).v (yyvsp (-2)).ptr (yyvsp 0).ptr nptr nptr), root)
  | 81 => (yyval.setPtr (newnode (yyvsp (-1)).v (yyvsp (-2)).ptr (yyvsp 0).ptr nptr nptr), root)
  | 82 => (yyval.setPtr (newnode (yyvsp (-1)).v (yyvsp (-2)).ptr (yyvsp 0).ptr nptr nptr), root)
  | 83 => (yyval.setPtr (newnode (yyvsp (-1)).v (yyvsp (-2)).ptr (yyvsp 0).ptr nptr nptr), root)
  | 84 => (yyval.setPtr ((yyvsp 0).ptr), root)
  | 85 => (yyval.setPtr (newnode (yyvsp (-1)).v (yyvsp (-2)).ptr (yyvsp 0).ptr nptr nptr), root)
  | 86 => (yyval.setPtr (newnode (yyvsp (-1)).v (yyvsp (-2)).ptr (yyvsp 0).ptr nptr nptr), root)
  | 87 => (yyval.setPtr ((yyvsp 0).ptr), root)
  | 88 => (yyval.setPtr (newnode (yyvsp (-1)).v (yyvsp (-2)).ptr (yyvsp 0).ptr nptr nptr), root)
  | 89 => (yyval.setPtr (newnode (yyvsp (-1)).v (yyvsp (-2)).ptr (yyvsp 0).ptr nptr nptr), root)
  | 90 => (yyval.setPtr (newnode (yyvsp (-1)).v (yyvsp (-2)).ptr (yyvsp 0).ptr nptr nptr), root)
  | 91 => (yyval.setPtr ((yyvsp 0).ptr), root)
  | 92 => (yyval.setPtr ((yyvsp (-1)).ptr), root)
  | 93 => (yyval.setPtr (newleaf "num" (yyvsp 0).v), root)
  | 94 => (yyval.setPtr (newleaf "id" (yyvsp 0).v), root)
  | _ => (yyval, root)

/-! ## The LALR driver -/

/-- The variables of `yyparse` and the globals it uses.

* `yyss` is the state stack, top first (`*yyssp` is its head).
* `yyvs` holds the cells of the value stack that are in use, top first (`yyvsp[0]` is its
  head, `yyvsp[-k]` its entry `k`); cell 0 of the array, on which `yyvsp` starts and which
  the parser never writes, is not part of it.
* `above` holds the cells of the value-stack array above `yyvsp` that have been written
  before, nearest first (`yyvsp[1]` is its head); the C code never clears a popped cell.
* `yyin` is the input that the scanner has not delivered yet.
* `root` is `ast->root`. -/
structure YYState where
  yyss : List Int
  yyvs : List YACC
  above : List YACC
  yystacksize : Nat
  yychar : Int
  yylval : YACC
  yyin : List Token
  yynerrs : Int
  yyerrstatus : Int
  root : TREE
  deriving DecidableEq, Repr

/-- How one pass through the labels of `yyparse` ends: back at `yybackup` with a new
state on the stack, or at `yyreturn` with `yyresult`. -/
inductive Outcome where
  | continue_ (s : YYState) : Outcome
  | return_ (yyresult : Int) (s : YYState) : Outcome
  deriving DecidableEq, Repr

namespace YYState

/-- The value `yyvsp[i]`.  `uninit size index` is the indeterminate content that cell
`index` of the value-stack array of capacity `size` has before the parser writes it.
For `i ≤ 0` the cell is in use, or it is the unwritten cell 0.  For `i > 0` the cell lies
above the stack pointer: it holds the value written there last, or its initial content. -/
def yyvsp (uninit : Nat → Nat → YACC) (s : YYState) (i : Int) : YACC :=
  if i ≤ 0 then s.yyvs.getD (-i).toNat (uninit s.yystacksize 0)
  else s.above.getD (i - 1).toNat (uninit s.yystacksize (s.yyvs.length + i.toNat))

/-- `YYPOPSTACK (n)`: both stack pointers go down by `n`; the popped cells stay in memory. -/
def YYPOPSTACK (s : YYState) (n : Nat) : YYState :=
  { s with yyss := s.yyss.drop n, yyvs := s.yyvs.drop n,
           above := (s.yyvs.take n).reverse ++ s.above }

/-- `*++yyvsp = x`. -/
def pushValue (s : YYState) (x : YACC) : YYState :=
  { s with yyvs := x :: s.yyvs, above := s.above.tail }

end YYState

/-- The scanner call `yychar = yylex ()`: the next token's code is returned and its
semantic value stored in `yylval`; at the end of the input `yylex` returns 0. -/
def yylex (s : YYState) : YYState :=
  match s.yyin with
  | [] => { s with yychar := 0 }
  | t :: rest => { s with yychar := t.code, yylval := t.lval, yyin := rest }

/-- `yyerror`: the user's error routine only counts. -/
def yyerror (s : YYState) : YYState := { s with yynerrs := s.yynerrs + 1 }

/-- `yyreturn`: the stacks are popped down to their bottom and `yyresult` is returned. -/
def yyreturn (s : YYState) (yyresult : Int) : Outcome :=
  Outcome.return_ yyresult (s.YYPOPSTACK (s.yyss.length - 1))

def yyacceptlab (s : YYState) : Outcome := yyreturn s 0

def yyabortlab (s : YYState) : Outcome := yyreturn s 1

def yyexhaustedlab (s : YYState) : Outcome := yyreturn (yyerror s) 2

/-- `yysetstate`: the new state is on the stack; grow the stacks if they are full, accept
in the final state, otherwise go on with `yybackup`. -/
def yysetstate (s : YYState) : Outcome :=
  let yystate := s.yyss.headD 0
  if s.yystacksize ≤ s.yyss.length then
    if YYMAXDEPTH ≤ s.yystacksize then yyexhaustedlab s
    else
      let yystacksize := min (2 * s.yystacksize) YYMAXDEPTH
      let s := { s with yystacksize := yystacksize, above := [] }
      if yystacksize ≤ s.yyss.length then yyabortlab s
      else if yystate = YYFINAL then yyacceptlab s
      else Outcome.continue_ s
  else if yystate = YYFINAL then yyacceptlab s
  else Outcome.continue_ s

/-- `yynewstate`: push the state `yystate`. -/
def yynewstate (s : YYState) (yystate : Int) : Outcome :=
  yysetstate { s with yyss := yystate :: s.yyss }

/-- `yyreduce`: reduce by rule `yyn`, run its action, and push the goto state. -/
def yyreduce (uninit : Nat → Nat → YACC) (s : YYState) (yyn : Int) : Outcome :=
  let yylen := tbl yyr2 yyn
  let yyval := s.yyvsp uninit (1 - yylen)
  let (yyval, root) := yyaction yyn (s.yyvsp uninit) yyval s.root
  let s := { s with root := root }
  let s := (s.YYPOPSTACK yylen.toNat).pushValue yyval
  let yyn := tbl yyr1 yyn
  let top := s.yyss.headD 0
  let yystate := tbl yypgoto (yyn - YYNTOKENS) + top
  let yystate :=
    if 0 ≤ yystate ∧ yystate ≤ YYLAST ∧ tbl yycheck yystate = top then tbl yytable yystate
    else tbl yydefgoto (yyn - YYNTOKENS)
  yynewstate s yystate

/-- The loop of `yyerrlab1`: pop states until one can shift the error token.  The result
is the state to go to after that shift, or `none` when the stack ran empty (`YYABORT`). -/
def yyerrpop : List Int → YYState → YYState × Option Int
  | [], s => (s, none)
  | yystate :: rest, s =>
    let yyn := tbl yypact yystate
    let yyn1 := yyn + YYTERROR
    if yyn ≠ YYPACT_NINF ∧ 0 ≤ yyn1 ∧ yyn1 ≤ YYLAST ∧ tbl yycheck yyn1 = YYTERROR
        ∧ 0 < tbl yytable yyn1 then
      (s, some (tbl yytable yyn1))
    else
      match rest with
      | [] => (s, none)
      | _ :: _ => yyerrpop rest (s.YYPOPSTACK 1)

/-- `yyerrlab1`: enter recovery, pop to a state that shifts `error`, and shift it. -/
def yyerrlab1 (s : YYState) : Outcome :=
  let s := { s with yyerrstatus := 3 }
  match yyerrpop s.yyss s with
  | (s, none) => yyabortlab s
  | (s, some yyn) => yynewstate (s.pushValue s.yylval) yyn

/-- `yyerrlab`: a syntax error was detected. -/
def yyerrlab (s : YYState) : Outcome :=
  let s := if s.yyerrstatus = 0 then yyerror { s with yynerrs := s.yynerrs + 1 } else s
  if s.yyerrstatus = 3 then
    if s.yychar ≤ YYEOF then
      if s.yychar = YYEOF then yyabortlab s else yyerrlab1 s
    else yyerrlab1 { s with yychar := YYEMPTY }
  else yyerrlab1 s

/-- `yydefault`: the default action of the current state. -/
def yydefault (uninit : Nat → Nat → YACC) (s : YYState) : Outcome :=
  let yyn := tbl yydefact (s.yyss.headD 0)
  if yyn = 0 then yyerrlab s else yyreduce uninit s yyn

/-- `yybackup`: decide what to do in the current state, reading a lookahead token if one
is needed, and do it: shift, reduce, or report an error. -/
def yybackup (uninit : Nat → Nat → YACC) (s : YYState) : Outcome :=
  let yyn := tbl yypact (s.yyss.headD 0)
  if yyn = YYPACT_NINF then yydefault uninit s
  else
    let s := if s.yychar = YYEMPTY then yylex s else s
    let s := if s.yychar ≤ YYEOF then { s with yychar := YYEOF } else s
    let yytoken := if s.yychar ≤ YYEOF then YYEOF else YYTRANSLATE s.yychar
    let yyn := yyn + yytoken
    if yyn < 0 ∨ YYLAST < yyn ∨ tbl yycheck yyn ≠ yytoken then yydefault uninit s
    else
      let yyn := tbl yytable yyn
      if yyn ≤ 0 then yyreduce uninit s (-yyn)
      else
        let s := if s.yyerrstatus ≠ 0 then { s with yyerrstatus := s.yyerrstatus - 1 } else s
        let s := { s with yychar := YYEMPTY }
        yynewstate (s.pushValue s.yylval) yyn

/-- The parser loop, `fuel` passes through `yybackup` at most. -/
def yyloop (uninit : Nat → Nat → YACC) : Nat → YYState → Option (Int × YYState)
  | 0, _ => none
  | fuel + 1, s =>
    match yybackup uninit s with
    | Outcome.return_ yyresult s => some (yyresult, s)
    | Outcome.continue_ s => yyloop uninit fuel s

/-- The variables at the start of `yyparse`: state 0 on the state stack, the value stack
pointer at the (unwritten) bottom cell, no lookahead, no errors. -/
def yyinit (root : TREE) (yyin : List Token) : YYState :=
  { yyss := [0], yyvs := [], above := [], yystacksize := YYINITDEPTH,
    yychar := YYEMPTY, yylval := ⟨"", TREE.null⟩, yyin := yyin, yynerrs := 0, yyerrstatus := 0,
    root := root }

/-- `yyparse ()` on the input `yyin`, with `ast->root` initially `root`.  The result is
`yyresult` and the final variables; `none` only when `fuel` passes do not suffice. -/
def yyparse (fuel : Nat) (uninit : Nat → Nat → YACC) (root : TREE) (yyin : List Token) :
    Option (Int × YYState) :=
  match yysetstate (yyinit root yyin) with
  | Outcome.return_ yyresult s => some (yyresult, s)
  | Outcome.continue_ s => yyloop uninit fuel s

/-! ## The tree printer -/

/-- `printBT(prefix, node, isLeft)`.  The output file `fp` is the list of the lines written
so far; the three `fprintf` calls for one node (prefix, branch glyph, content and newline)
append one line.  `new_prefix` is what `strcpy`/`strcat` write to the local buffer
`char new_prefix[1000]`: the bytes of the prefix and of the segment in UTF-8 and one
terminating zero byte.  When they do not fit, the call writes past the end of the buffer:
its behaviour is undefined and the result is `none`.  Otherwise the result is the output
file and the tree that `node` points to, as the call leaves them. -/
def printBT (fp : List String) (pfx : String) : TREE → Int → Option (List String × TREE)
  | TREE.null, _ => some (fp, TREE.null)
  | TREE.node opr value c1 c2 c3 c4, isLeft =>
    let fp := fp ++ [pfx ++ (if isLeft = 0 then "└──" else "├──") ++
      (if c1.isNull && c2.isNull && c3.isNull && c4.isNull
       then "(" ++ opr ++ ", " ++ value ++ ")\n" else opr ++ "\n")]
    let new_prefix := if isLeft = 0 then pfx ++ "    " else pfx ++ "│   "
    if 1000 < new_prefix.utf8ByteSize + 1 then none
    else if !c1.isNull && c2.isNull && c3.isNull && c4.isNull then
      (printBT fp new_prefix c1 0).bind fun r1 =>
      (printBT r1.1 new_prefix c2 0).bind fun r2 =>
      (printBT r2.1 new_prefix c3 0).bind fun r3 =>
      (printBT r3.1 new_prefix c4 0).bind fun r4 =>
      some (r4.1, TREE.node opr value r1.2 r2.2 r3.2 r4.2)
    else if !c1.isNull && !c2.isNull && c3.isNull && c4.isNull then
      (printBT fp new_prefix c1 1).bind fun r1 =>
      (printBT r1.1 new_prefix c2 0).bind fun r2 =>
      (printBT r2.1 new_prefix c3 0).bind fun r3 =>
      (printBT r3.1 new_prefix c4 0).bind fun r4 =>
      some (r4.1, TREE.node opr value r1.2 r2.2 r3.2 r4.2)
    else if !c1.isNull && !c2.isNull && !c3.isNull && c4.isNull then
      (printBT fp new_prefix c1 1).bind fun r1 =>
      (printBT r1.1 new_prefix c2 1).bind fun r2 =>
      (printBT r2.1 new_prefix c3 0).bind fun r3 =>
      (printBT r3.1 new_prefix c4 0).bind fun r4 =>
      some (r4.1, TREE.node opr value r1.2 r2.2 r3.2 r4.2)
    else if !c1.isNull && !c2.isNull && !c3.isNull && !c4.isNull then
      (printBT fp new_prefix c1 1).bind fun r1 =>
      (printBT r1.1 new_prefix c2 1).bind fun r2 =>
      (printBT r2.1 new_prefix c3 1).bind fun r3 =>
      (printBT r3.1 new_prefix c4 0).bind fun r4 =>
      some (r4.1, TREE.node opr value r1.2 r2.2 r3.2 r4.2)
    else some (fp, TREE.node opr value c1 c2 c3 c4)
/-! ## The driver -/

/-- What a run of `main` leaves behind: the text written to standard output and the lines
written to the output file `AST.txt` (the file is opened, hence truncated, in any case). -/
structure Output where
  stdout : List String
  fp : List String
  deriving DecidableEq, Repr
/-! ## Token streams used in the statements -/

/-- The tokens of `public class A { public static void main ( String [ ] args ) {`. -/
def classOpen : List Token :=
  [tok T_PUBLIC "public", tok T_CLASS "class", tok T_ID "A", tok 123 "\x7b",
   tok T_PUBLIC "public", tok T_STATIC "static", tok T_VOID "void", tok T_MAIN "main",
   tok 40 "(", tok T_STRING "String", tok 91 "[", tok 93 "]", tok T_ARGS "args", tok 41 ")",
   tok 123 "\x7b"]

/-- The tokens of the two closing braces of method and class. -/
def classClose : List Token := [tok 125 "\x7d", tok 125 "\x7d"]

/-- The token stream of `public class A { public static void main(String[] args) { body } }`. -/
def program (body : List Token) : List Token := classOpen ++ body ++ classClose

/-- The root's method body: slot 4 of the node in slot 3 of the root. -/
def bodyOf (root : TREE) : TREE := root.c3.c4

/-- A stack array whose cells are all zero before the parser writes them. -/
def zeroStack : Nat → Nat → YACC := fun _ _ => ⟨"", TREE.null⟩

/-! ## Relabelling of token texts and of indeterminate values

The parser never inspects a semantic value: it copies values and wraps them in fresh
nodes.  A substitution turns one run into another run on different texts and different
indeterminate cell contents. -/

/-- The labels and values that the semantic actions write themselves. -/
def literals : List String :=
  ["", "N/A", "CLASS DECLARATION", "classname", "METHOD DECLARATION", "modifier",
   "access modifier", "DECLARATION", "INITIALIZATION", "IF ELSE STATEMNET", "FOR LOOP",
   "STATEMENT", "ASSIGNMENT STATEMENT", "ARRAY INITIALISATION STATEMENT",
   "VARIABLE DECLARATION", "ARRAY DECLARATION STATEMENT", "IF STATEMENT", "ELSE STATEMENT",
   "FOR CONDITION", "UNARY OPERATION", "increment", "variable initialisation",
   "variable declaration", "declaration continued", "array declaration", "bracket", "num",
   "id", ",", "new", "datatype"]

namespace TREE

/-- Substitution in a tree: a node that no semantic action can build (its value is not the
placeholder and its first slot is occupied) stands for the tree `g label`; in every other
node the two strings are relabelled by `h`. -/
def subst (h : String → String) (g : String → TREE) : TREE → TREE
  | null => null
  | node o v c1 c2 c3 c4 =>
    if v != "N/A" && !c1.isNull then g o
    else node (h o) (h v) (c1.subst h g) (c2.subst h g) (c3.subst h g) (c4.subst h g)

end TREE

namespace YACC

/-- Substitution in a semantic value. -/
def subst (h : String → String) (g : String → TREE) (x : YACC) : YACC :=
  ⟨h x.v, x.ptr.subst h g⟩

end YACC

namespace Token

/-- Substitution in the semantic value of a token. -/
def subst (h : String → String) (g : String → TREE) (t : Token) : Token :=
  ⟨t.code, t.lval.subst h g⟩

end Token

namespace YYState

/-- Substitution in every semantic value that the parser variables hold. -/
def subst (h : String → String) (g : String → TREE) (s : YYState) : YYState :=
  { s with yyvs := s.yyvs.map (YACC.subst h g), above := s.above.map (YACC.subst h g),
           yylval := s.yylval.subst h g, yyin := s.yyin.map (Token.subst h g),
           root := s.root.subst h g }

end YYState

namespace Outcome

/-- Substitution in the variables that an outcome carries. -/
def subst (h : String → String) (g : String → TREE) : Outcome → Outcome
  | continue_ s => continue_ (s.subst h g)
  | return_ r s => return_ r (s.subst h g)

end Outcome

/-- The observable outcome of a run of `yyparse`: its result, the error counter, the root
held by the AST owner, and the number of tokens that the scanner has not delivered. -/
structure Report where
  yyresult : Int
  yynerrs : Int
  root : TREE
  unread : Nat
  deriving DecidableEq, Repr

/-- The report of a finished run. -/
def report (r : Int × YYState) : Report :=
  ⟨r.1, r.2.yynerrs, r.2.root, r.2.yyin.length⟩

/-- A string that names cell `index` of the value-stack array of capacity `size`; it starts
with the character of code 0, which no token text and no label contains. -/
def cellName (size index : Nat) : String :=
  ⟨Char.ofNat 0 :: (List.replicate size 'a' ++ 'b' :: List.replicate index 'a')⟩

/-- The cell that a string names, if it names one. -/
def cellOf (s : String) : Option (Nat × Nat) :=
  match s.data with
  | [] => none
  | c :: rest =>
    if c = Char.ofNat 0 then
      some ((rest.takeWhile (fun x => x == 'a')).length,
            ((rest.dropWhile (fun x => x == 'a')).drop 1).length)
    else none

/-- A symbolic stack array: every unwritten cell holds its own name and a place-holder
tree labelled with that name. -/
def symStack : Nat → Nat → YACC :=
  fun size index =>
    ⟨cellName size index,
     TREE.node (cellName size index) "" (newleaf "" "") TREE.null TREE.null TREE.null⟩

/-- A string that names the text variable number `k`; it starts with the character of
code 1, which no token text and no label contains. -/
def varName (k : Nat) : String := ⟨Char.ofNat 1 :: List.replicate k 'a'⟩

/-- The text variable that a string names, if it names one. -/
def varOf (s : String) : Option Nat :=
  match s.data with
  | [] => none
  | c :: rest => if c = Char.ofNat 1 then some rest.length else none

/-- Instantiating the text variables: a variable name becomes the text `texts k`. -/
def instText (texts : Nat → String) (s : String) : String :=
  match varOf s with
  | some k => texts k
  | none => s

/-- The relabelling that reads a cell name as the text held by that cell in `uninit`,
instantiates the text variables, and leaves every other string alone. -/
def relabel (uninit : Nat → Nat → YACC) (texts : Nat → String) (s : String) : String :=
  match cellOf s with
  | some (a, b) => (uninit a b).v
  | none => instText texts s

/-- The tree that a place-holder labelled `s` stands for: the tree held by the named cell. -/
def cellTree (uninit : Nat → Nat → YACC) (s : String) : TREE :=
  match cellOf s with
  | some (a, b) => (uninit a b).ptr
  | none => TREE.null

namespace TREE

/-- A tree without place-holders in which no string is a cell name. -/
def plain : TREE → Bool
  | null => true
  | node o v c1 c2 c3 c4 =>
    !(v != "N/A" && !c1.isNull) && (cellOf o).isNone && (cellOf v).isNone
      && c1.plain && c2.plain && c3.plain && c4.plain

/-- Instantiating the text variables in every string of a tree. -/
def inst (texts : Nat → String) : TREE → TREE
  | null => null
  | node o v c1 c2 c3 c4 =>
    node (instText texts o) (instText texts v) (c1.inst texts) (c2.inst texts) (c3.inst texts)
      (c4.inst texts)

end TREE

namespace Token

/-- A token whose text is no cell name and whose `ptr` field is a plain tree. -/
def plain (t : Token) : Bool := (cellOf t.lval.v).isNone && t.lval.ptr.plain

/-- Instantiating the text variables in the semantic value of a token. -/
def inst (texts : Nat → String) (t : Token) : Token :=
  ⟨t.code, ⟨instText texts t.lval.v, t.lval.ptr.inst texts⟩⟩

end Token

namespace Report

/-- Instantiating the text variables in the root of a report. -/
def inst (texts : Nat → String) (rep : Report) : Report :=
  { rep with root := rep.root.inst texts }

end Report

/-- The check, by running the parser on the symbolic stack array, that the token stream
`toks` (which has no text variables) yields a report with `f report = a`. -/
def closedCheck {α : Type} [DecidableEq α] (n : Nat) (toks : List Token) (f : Report → α)
    (a : α) : Bool :=
  toks.all Token.plain && decide (toks.map (Token.inst (fun _ => "")) = toks) &&
    match (yyparse n symStack TREE.null toks).map report with
    | some rep => rep.root.plain && decide (f (rep.inst (fun _ => "")) = a)
    | none => false

/-! ## Vocabulary of the statements -/

/-- The thirteen binary operators of the expression ladder. -/
inductive BinOp where
  | lor | land | eq | ne | ge | le | gt | lt | add | sub | mul | div | mod
  deriving DecidableEq, Repr

namespace BinOp

/-- The token code of a binary operator. -/
def code : BinOp → Int
  | lor => T_LOGOR | land => T_LOGAND | eq => T_EQ | ne => T_NEQ
  | ge => T_GTEQ | le => T_LTEQ | gt => T_GT | lt => T_LT
  | add => T_ADD | sub => T_SUB | mul => T_MUL | div => T_DIV | mod => T_MOD

/-- The source text of a binary operator. -/
def lexeme : BinOp → String
  | lor => "||" | land => "&&" | eq => "==" | ne => "!="
  | ge => ">=" | le => "<=" | gt => ">" | lt => "<"
  | add => "+" | sub => "-" | mul => "*" | div => "/" | mod => "%"

/-- The ladder level of a binary operator, 0 being the tightest. -/
def level : BinOp → Nat
  | mul => 0 | div => 0 | mod => 0
  | add => 1 | sub => 1
  | gt => 2 | lt => 2 | ge => 2 | le => 2
  | eq => 3 | ne => 3
  | land => 4
  | lor => 5

/-- The token the scanner delivers for a binary operator. -/
def token (op : BinOp) : Token := tok op.code op.lexeme

end BinOp

/-- The rule numbers of the thirteen binary productions. -/
def binaryRules : List Int := [73, 75, 77, 78, 80, 81, 82, 83, 85, 86, 88, 89, 90]

/-- The nine assignment operators. -/
inductive AssignOp where
  | assgn | add | sub | mul | div | mod | and | xor | or
  deriving DecidableEq, Repr

namespace AssignOp

/-- The token code of an assignment operator. -/
def code : AssignOp → Int
  | assgn => T_ASSGN | add => T_ADDASSGN | sub => T_SUBASSGN | mul => T_MULASSGN
  | div => T_DIVASSGN | mod => T_MODASSGN | and => T_ANDASSGN | xor => T_XORASSGN
  | or => T_ORASSGN

/-- The source text of an assignment operator. -/
def lexeme : AssignOp → String
  | assgn => "=" | add => "+=" | sub => "-=" | mul => "*="
  | div => "/=" | mod => "%=" | and => "&=" | xor => "^=" | or => "|="

/-- The token the scanner delivers for an assignment operator. -/
def token (op : AssignOp) : Token := tok op.code op.lexeme

end AssignOp

/-- The semicolon token. -/
def semi : Token := tok 59 ";"

/-- An identifier token. -/
def ident (name : String) : Token := tok T_ID name

/-- A number token. -/
def number (digits : String) : Token := tok T_NUM digits

namespace TREE

/-- The occupied child slots of a node, as a list of four flags. -/
def occupied : TREE → List Bool
  | null => []
  | node _ _ c1 c2 c3 c4 => [!c1.isNull, !c2.isNull, !c3.isNull, !c4.isNull]

/-- The occupied slots of this one node form a prefix 1..k of the four slots. -/
def contiguousHere (t : TREE) : Bool :=
  t.occupied ∈ [[], [false, false, false, false], [true, false, false, false],
    [true, true, false, false], [true, true, true, false], [true, true, true, true]]

/-- Every node of the tree has its occupied slots in a prefix 1..k. -/
def contiguousAll : TREE → Bool
  | null => true
  | node o v c1 c2 c3 c4 =>
    (node o v c1 c2 c3 c4).contiguousHere && c1.contiguousAll && c2.contiguousAll && c3.contiguousAll
      && c4.contiguousAll

/-- The pre-order listing of the nodes: a node before its children, children in slot
order. -/
def preorder : TREE → List TREE
  | null => []
  | node o v c1 c2 c3 c4 =>
    node o v c1 c2 c3 c4 :: (c1.preorder ++ c2.preorder ++ c3.preorder ++ c4.preorder)

/-- The content of the line of a node: label and value in parentheses when the four slots
are absent, the label alone otherwise. -/
def content (t : TREE) : String :=
  if t.c1.isNull && t.c2.isNull && t.c3.isNull && t.c4.isNull
  then "(" ++ t.label ++ ", " ++ t.val ++ ")" else t.label

/-- The values of the leaves read from left to right, children in slot order. -/
def leafValues : TREE → List String
  | null => []
  | node _ v c1 c2 c3 c4 =>
    if c1.isNull && c2.isNull && c3.isNull && c4.isNull then [v]
    else c1.leafValues ++ c2.leafValues ++ c3.leafValues ++ c4.leafValues

/-- The number of nodes of the tree, the root included, that equal `sub`. -/
def occurrences : TREE → TREE → Nat
  | null, _ => 0
  | node o v c1 c2 c3 c4, sub =>
    (if node o v c1 c2 c3 c4 = sub then 1 else 0) + c1.occurrences sub + c2.occurrences sub
      + c3.occurrences sub + c4.occurrences sub

/-- The number of nodes of the tree that carry the label `l`. -/
def countLabel (l : String) : TREE → Nat
  | null => 0
  | node o _ c1 c2 c3 c4 =>
    (if o = l then 1 else 0) + c1.countLabel l + c2.countLabel l + c3.countLabel l
      + c4.countLabel l

end TREE

/-- The rows of the drawing as the specification words them: for every node, in pre-order,
the indentation with its glyph and the content; a child is drawn as the last one when no
later slot is occupied. -/
def rows : String → TREE → Bool → List (String × String)
  | _, TREE.null, _ => []
  | pfx, TREE.node o v c1 c2 c3 c4, last =>
    let deeper := pfx ++ (if last then "    " else "│   ")
    (pfx ++ (if last then "└──" else "├──"), (TREE.node o v c1 c2 c3 c4).content)
      :: (rows deeper c1 (c2.isNull && c3.isNull && c4.isNull)
          ++ rows deeper c2 (c3.isNull && c4.isNull)
          ++ rows deeper c3 c4.isNull
          ++ rows deeper c4 true)

/-- The line of text of a row. -/
def rowLine (r : String × String) : String := r.1 ++ r.2 ++ "\n"

/-- The rules whose action builds a leaf. -/
def leafRules : List Int := [5, 6, 7, 49, 50, 55, 58, 59, 60, 61, 62, 93, 94]

/-- The rules whose action builds an internal node. -/
def nodeRules : List Int :=
  [2, 3, 4, 9, 10, 11, 12, 13, 15, 16, 17, 18, 19, 20, 22, 23, 24, 25, 26, 27, 28, 29, 32, 33,
   34, 35, 37, 38, 39, 40, 42, 43, 44, 45, 48, 51, 53, 54, 63, 73, 75, 77, 78, 80, 81, 82, 83,
   85, 86, 88, 89, 90]

/-- The positions on the right-hand side of rule `yyn`, as offsets from the top of the
value stack, whose sub-tree the action places in a slot and which are non-terminals that
never yield an absent result (every non-terminal except ELSE, X, B, W2 and S). -/
def neverAbsent (yyn : Int) : List Int :=
  if yyn = 2 then [-5, -1]
  else if yyn = 3 then [-11, -10, -7]
  else if yyn = 4 then [-1]
  else if yyn ∈ [9, 10, 11, 13, 26] then [-2]
  else if yyn ∈ [12, 19] then [-4]
  else if yyn ∈ [15, 16, 17, 18, 32, 33] then [0]
  else if yyn = 23 then [-3]
  else if yyn = 24 then [-4, -2]
  else if yyn = 25 then [-4, -1]
  else if yyn = 27 then [-3, -1]
  else if yyn = 28 then [-5, -3, -1]
  else if yyn ∈ [29, 34, 35, 39] then [-1]
  else if yyn = 37 then [-4, -3, -1]
  else if yyn ∈ [38, 44] then [-2, -1]
  else if yyn = 54 then [-1, 0]
  else if yyn ∈ [42, 43, 48, 51, 53, 63] ∨ yyn ∈ binaryRules then [-2, 0]
  else []

/-- The five kinds of statement of a method body. -/
inductive StmtKind where
  | declr | assgn | ifelse | forloop | unrexpr
  deriving DecidableEq, Repr

/-- A statement as the statement productions see it: its kind, the sub-tree of its first
component (declaration, assignment, if, for-header, unary expression) and, for `ifelse`
and `forloop`, the sub-tree of its second component (else clause, loop body). -/
structure Stmt where
  kind : StmtKind
  first : TREE
  second : TREE
  deriving DecidableEq, Repr

namespace Stmt

/-- The production that reduces a statement of this kind followed by the rest. -/
def rule (st : Stmt) : Int :=
  match st.kind with
  | StmtKind.declr => 9
  | StmtKind.assgn => 10
  | StmtKind.ifelse => 11
  | StmtKind.forloop => 12
  | StmtKind.unrexpr => 13

/-- The values of the right-hand side when the production is reduced with `rest` as the
value of the trailing S. -/
def frame (st : Stmt) (rest : TREE) (i : Int) : YACC :=
  match st.kind with
  | StmtKind.ifelse =>
    if i = -2 then ⟨"", st.first⟩ else if i = -1 then ⟨"", st.second⟩ else ⟨"", rest⟩
  | StmtKind.forloop =>
    if i = -4 then ⟨"", st.first⟩ else if i = -2 then ⟨"", st.second⟩
    else if i = 0 then ⟨"", rest⟩ else ⟨"", TREE.null⟩
  | _ =>
    if i = -2 then ⟨"", st.first⟩ else if i = 0 then ⟨"", rest⟩ else ⟨";", TREE.null⟩

/-- The node built for the statement in front of the rest. -/
def apply (st : Stmt) (rest : TREE) : TREE :=
  (yyaction st.rule (st.frame rest) ⟨"", TREE.null⟩ TREE.null).1.ptr

end Stmt

/-- The tree the statement productions build, bottom-up, for a sequence of statements
ending in the value `rest0` of the empty sequence. -/
def buildBody : List Stmt → TREE → TREE
  | [], rest0 => rest0
  | st :: more, rest0 => st.apply (buildBody more rest0)

/-- The glyph in front of the content of a line. -/
def glyph (isLeft : Int) : String := if isLeft = 0 then "└──" else "├──"

/-- The indentation handed to the children of a node. -/
def deeper (pfx : String) (isLeft : Int) : String :=
  if isLeft = 0 then pfx ++ "    " else pfx ++ "│   "

/-- The tokens of the method body `int x; x = 1+2;`. -/
def bodyA : List Token :=
  [tok T_INT "int", ident "x", semi, ident "x", tok T_ASSGN "=", number "1", tok T_ADD "+",
   number "2", semi]

/-- The tokens of the method body `int x x = 1;`, in which a semicolon is missing. -/
def bodyNoSemi : List Token :=
  [tok T_INT "int", ident "x", ident "x", tok T_ASSGN "=", number "1", semi]

/-- The eight for-header rules. -/
def forHeaderRules : List Int := [22, 23, 24, 25, 26, 27, 28, 29]

/-- The builder rules outside the for-header rules whose node can have a gap among its
occupied slots: rules 11 and 12 put the rest of the statements in slot 3 behind the else
clause or loop body, rule 43 puts the name in slot 3 behind the brackets, and rules 40, 45
and 51 put the `ptr` field of a token or of an operator value, which no action sets, in
slot 1 or 2. -/
def gapRules : List Int := [11, 12, 40, 43, 45, 51]

/-- The rules that build a node with newnode although no slot need be occupied: rule 22
passes four absent arguments, rule 20 has its only slot absent for an empty block, and
rules 40 and 45 place the `ptr` field of a token and a possibly absent continuation. -/
def childlessRules : List Int := [20, 22, 40, 45]

/-- The builder rules whose node always has its occupied slots in a prefix. -/
def contiguousRules : List Int :=
  (leafRules ++ nodeRules).filter (fun yyn => yyn ∉ forHeaderRules ∧ yyn ∉ gapRules)

/-- A tree built by the class-declaration action, rule 2. -/
def isClassNode (t : TREE) : Prop :=
  ∃ (yyvsp : Int → YACC) (yyval : YACC) (root : TREE), t = (yyaction 2 yyvsp yyval root).1.ptr

/-- The invariant of the driver loop behind acceptance: when state 3, which is entered by
the goto on START, or the final state 6 is on the state stack, the root is a node built
by rule 2. -/
def rootInv (s : YYState) : Prop := (3 ∈ s.yyss ∨ 6 ∈ s.yyss) → isClassNode s.root

/-- The state in which a step of the driver ends. -/
def Outcome.state : Outcome → YYState
  | Outcome.continue_ s => s
  | Outcome.return_ _ s => s

/-- The invariant as a property of the outcome of a step: it holds of the state when the
loop goes on, and a return with result 0 leaves a root built by rule 2. -/
def Outcome.good : Outcome → Prop
  | Outcome.continue_ s => rootInv s
  | Outcome.return_ yyresult s => yyresult = 0 → isClassNode s.root

/-! ## Expressions of the ladder grammar -/

namespace BinOp

/-- The rank of the non-terminal that the production of a binary operator yields: 1 for
MULTEXPR up to 6 for LOGICALOREXPR; a primary has rank 0. -/
def rank (op : BinOp) : Nat := op.level + 1

/-- The production of a binary operator. -/
def rule : BinOp → Int
  | lor => 73 | land => 75 | eq => 77 | ne => 78
  | lt => 80 | gt => 81 | le => 82 | ge => 83
  | add => 85 | sub => 86 | mul => 88 | div => 89 | mod => 90

/-- The state the parser enters by shifting a binary operator. -/
def shifted : BinOp → Int
  | lor => 80 | land => 81 | eq => 82 | ne => 83
  | ge => 84 | le => 85 | gt => 86 | lt => 87
  | add => 88 | sub => 89 | mul => 90 | div => 91 | mod => 92

end BinOp

/-- An expression as the ladder grammar derives it: a number, an identifier, an expression
in parentheses, or two expressions joined by a binary operator. -/
inductive Ex where
  | num (text : String) : Ex
  | id (text : String) : Ex
  | paren (e : Ex) : Ex
  | bin (op : BinOp) (l r : Ex) : Ex
  deriving DecidableEq, Repr

namespace Ex

/-- The tokens of an expression, in source order. -/
def tokens : Ex → List Token
  | num text => [number text]
  | id text => [ident text]
  | paren e => tok 40 "(" :: (e.tokens ++ [tok 41 ")"])
  | bin op l r => l.tokens ++ op.token :: r.tokens

/-- The sub-tree of an expression: a leaf for a number or identifier, the tree of the inner
expression for parentheses, and the operator node over the operands' trees. -/
def tree : Ex → TREE
  | num text => newleaf "num" text
  | id text => newleaf "id" text
  | paren e => e.tree
  | bin op l r => newnode op.lexeme l.tree r.tree nptr nptr

/-- The rank of an expression: that of its operator, 0 for a primary. -/
def rank : Ex → Nat
  | bin op _ _ => op.rank
  | _ => 0

/-- The expression is derived by the non-terminal of rank `k` (0 = Expr, 1 = MULTEXPR,
2 = ADDEXPR, 3 = RELEXPR, 4 = EQUALITYEXPR, 5 = LOGICALANDEXPR, 6 = LOGICALOREXPR): an
operator of rank j at most k joins a left operand derived at rank j and a right operand
derived at rank j - 1, and parentheses enclose an expression derived at rank 6. -/
def derives : Nat → Ex → Bool
  | _, num _ => true
  | _, id _ => true
  | _, paren e => e.derives 6
  | k, bin op l r => decide (op.rank ≤ k) && l.derives op.rank && r.derives (op.rank - 1)

/-- A primary: a number, an identifier, or a derivable expression in parentheses. -/
def isPrimary : Ex → Bool
  | bin _ _ _ => false
  | e => e.derives 0

/-- A primary nested in `n` pairs of parentheses. -/
def nest : Nat → Ex → Ex
  | 0, e => e
  | n + 1, e => paren (nest n e)

end Ex

/-! ## Reachability between configurations of the driver -/

/-- The part of a configuration that a run of the driver on an expression determines: all
of the state except the capacity of the stacks and the stale cells above the top. The
error status is 0 throughout. -/
structure Core where
  yyss : List Int
  yyvs : List YACC
  yychar : Int
  yylval : YACC
  yyin : List Token
  yynerrs : Int
  root : TREE

/-- A state has the given core, no error pending, and room on its stacks. -/
def Core.fits (c : Core) (s : YYState) : Prop :=
  s.yyss = c.yyss ∧ s.yyvs = c.yyvs ∧ s.yychar = c.yychar ∧ s.yylval = c.yylval ∧
  s.yyin = c.yyin ∧ s.yynerrs = c.yynerrs ∧ s.root = c.root ∧ s.yyerrstatus = 0 ∧
  s.yyss.length < s.yystacksize ∧ s.yystacksize ≤ YYMAXDEPTH

/-- From every state with core `c` the driver loop comes, after some number of steps, to a
state with core `c'`: the loop started at the former behaves like the loop started at the
latter. -/
def Reach (u : Nat → Nat → YACC) (c c' : Core) : Prop :=
  ∀ s, c.fits s → ∃ s' k, c'.fits s' ∧ ∀ n, yyloop u (k + n) s = yyloop u n s'

/-- The shift that the tables prescribe in state `top` on the token number `yytoken`, if
they prescribe one. -/
def shiftTo (top yytoken : Int) : Option Int :=
  if tbl yypact top = YYPACT_NINF then none
  else if tbl yypact top + yytoken < 0 ∨ YYLAST < tbl yypact top + yytoken
      ∨ tbl yycheck (tbl yypact top + yytoken) ≠ yytoken then none
  else if tbl yytable (tbl yypact top + yytoken) ≤ 0 then none
  else some (tbl yytable (tbl yypact top + yytoken))

/-- The rule by which the tables make the parser reduce in state `top` when the token number
of the lookahead is `yytoken`, if they prescribe a reduction (0 stands for an error). -/
def reduceBy (top yytoken : Int) : Option Int :=
  if tbl yypact top = YYPACT_NINF then some (tbl yydefact top)
  else if tbl yypact top + yytoken < 0 ∨ YYLAST < tbl yypact top + yytoken
      ∨ tbl yycheck (tbl yypact top + yytoken) ≠ yytoken then some (tbl yydefact top)
  else if tbl yytable (tbl yypact top + yytoken) ≤ 0
  then some (-tbl yytable (tbl yypact top + yytoken))
  else none

/-- The state entered after a reduction to the non-terminal `lhs` that uncovers `top`. -/
def gotoState (lhs top : Int) : Int :=
  if 0 ≤ tbl yypgoto (lhs - YYNTOKENS) + top ∧ tbl yypgoto (lhs - YYNTOKENS) + top ≤ YYLAST
      ∧ tbl yycheck (tbl yypgoto (lhs - YYNTOKENS) + top) = top
  then tbl yytable (tbl yypgoto (lhs - YYNTOKENS) + top)
  else tbl yydefgoto (lhs - YYNTOKENS)

/-! ## The states of the automaton in which an expression starts -/

/-- The states in which the expressions of an assignment start: state 95 behind the
assignment operator, state 35 behind an opening parenthesis, and the states 80 to 92
behind the thirteen binary operators. -/
def startStates : List Int := [35, 95, 80, 81, 82, 83, 84, 85, 86, 87, 88, 89, 90, 91, 92]

/-- The highest rank of an expression that the items of a start state ask for. -/
def topRank (s : Int) : Nat :=
  if s = 35 ∨ s = 95 then 6
  else if s = 80 then 5
  else if s = 81 then 4
  else if s = 82 ∨ s = 83 then 3
  else if s = 84 ∨ s = 85 ∨ s = 86 ∨ s = 87 then 2
  else if s = 88 ∨ s = 89 then 1
  else 0

/-- The number of the non-terminal of rank `k` (93 = Expr down to 87 = LOGICALOREXPR). -/
def ntOfRank (k : Nat) : Int := 93 - k

/-- The unit production that lifts rank `k` to rank `k + 1` (rules 91, 87, 84, 79, 76, 74). -/
def unitRule (k : Nat) : Int := [91, 87, 84, 79, 76, 74].getD k 0

/-- The rank of a token code: the rank of the binary operator with that code, and 7 for
every other token. -/
def rankOfCode (code : Int) : Nat :=
  if code = T_MUL ∨ code = T_DIV ∨ code = T_MOD then 1
  else if code = T_ADD ∨ code = T_SUB then 2
  else if code = T_GT ∨ code = T_LT ∨ code = T_GTEQ ∨ code = T_LTEQ then 3
  else if code = T_EQ ∨ code = T_NEQ then 4
  else if code = T_LOGAND then 5
  else if code = T_LOGOR then 6
  else 7

/-- The token codes that follow an expression in an assignment: the binary operators, the
closing parenthesis and the semicolon. -/
def followCodes : List Int :=
  [T_LOGOR, T_LOGAND, T_EQ, T_NEQ, T_GTEQ, T_LTEQ, T_GT, T_LT, T_ADD, T_SUB, T_MUL, T_DIV, T_MOD,
   41, 59]

/-- All binary operators. -/
def allBinOps : List BinOp :=
  [BinOp.lor, BinOp.land, BinOp.eq, BinOp.ne, BinOp.ge, BinOp.le, BinOp.gt, BinOp.lt,
   BinOp.add, BinOp.sub, BinOp.mul, BinOp.div, BinOp.mod]

/-- What the driver does on the tokens of a primary `e` in a start state: it ends with the
state reached on Expr on top of the state stack and the tree of `e` on top of the value
stack, without having read the token behind the primary. -/
def PrimStmt (u : Nat → Nat → YACC) (e : Ex) : Prop :=
  ∀ s ∈ startStates, ∀ (c : Core) (rest : List Token),
    c.yyss.headD 0 = s → c.yychar = YYEMPTY → c.yyin = e.tokens ++ rest →
    c.yyss.length + e.tokens.length + 1 < YYMAXDEPTH →
    ∃ v lv, Reach u c { c with
      yyss := gotoState (ntOfRank 0) s :: c.yyss
      yyvs := ⟨v, e.tree⟩ :: c.yyvs
      yylval := lv
      yyin := rest }

/-- What the driver does on the tokens of an expression `e` followed by the token `a` in a
start state that asks for a rank of at least 1: it ends with the tree of `e` on top of the
value stack, the lookahead `a` read, and on top of the state stack the state reached on the
non-terminal whose rank is that of `a`, or the top rank of the start state if that is
lower. -/
def ChainStmt (u : Nat → Nat → YACC) (e : Ex) : Prop :=
  ∀ s ∈ startStates, 1 ≤ topRank s → e.derives (topRank s) = true →
    ∀ (a : Token), a.code ∈ followCodes → e.rank ≤ rankOfCode a.code →
    ∀ (c : Core) (rest : List Token),
      c.yyss.headD 0 = s → c.yychar = YYEMPTY → c.yyin = e.tokens ++ a :: rest →
      c.yyss.length + e.tokens.length + 1 < YYMAXDEPTH →
      ∃ v, Reach u c { c with
        yyss := gotoState (ntOfRank (min (rankOfCode a.code) (topRank s))) s :: c.yyss
        yyvs := ⟨v, e.tree⟩ :: c.yyvs
        yychar := a.code
        yylval := a.lval
        yyin := rest }

/-- From every state with core `c` the driver loop returns, after some number of steps, a
result with the property `Q`. -/
def Ends (u : Nat → Nat → YACC) (c : Core) (Q : Int × YYState → Prop) : Prop :=
  ∀ s, c.fits s → ∃ k r, Q r ∧ ∀ n, yyloop u (k + 1 + n) s = some r

/-! ## The calls of the tree printer -/

/-- The segment that a call with the flag `isLeft` appends to its prefix to make the prefix
of its children. -/
def seg (isLeft : Int) : String := if isLeft = 0 then "    " else "│   "

/-- One call of `printBT` on a node that is not `NULL`: the prefix it receives, the flags
of the calls on the ancestors of the node (outermost first), its own flag and the node. -/
structure Call where
  pfx : String
  anc : List Int
  isLeft : Int
  node : TREE

namespace Call

/-- The line that the call writes. -/
def line (c : Call) : String :=
  c.pfx ++ (if c.isLeft = 0 then "└──" else "├──") ++ c.node.content ++ "\n"

/-- The content of the buffer `new_prefix` that the call fills. -/
def new_prefix (c : Call) : String :=
  if c.isLeft = 0 then c.pfx ++ "    " else c.pfx ++ "│   "

/-- The depth of the node of the call, the root being at depth 0. -/
def depth (c : Call) : Nat := c.anc.length

end Call

/-- The calls of `printBT` on nodes that are not `NULL`, in the order in which they are
made: the recursion is that of `printBT`, with the flags of the enclosing calls recorded. -/
def calls (pfx : String) (anc : List Int) : TREE → Int → List Call
  | TREE.null, _ => []
  | TREE.node opr value c1 c2 c3 c4, isLeft =>
    let here : Call := ⟨pfx, anc, isLeft, TREE.node opr value c1 c2 c3 c4⟩
    let new_prefix := if isLeft = 0 then pfx ++ "    " else pfx ++ "│   "
    let down := anc ++ [isLeft]
    if !c1.isNull && c2.isNull && c3.isNull && c4.isNull then
      here :: (calls new_prefix down c1 0 ++ calls new_prefix down c2 0
        ++ calls new_prefix down c3 0 ++ calls new_prefix down c4 0)
    else if !c1.isNull && !c2.isNull && c3.isNull && c4.isNull then
      here :: (calls new_prefix down c1 1 ++ calls new_prefix down c2 0
        ++ calls new_prefix down c3 0 ++ calls new_prefix down c4 0)
    else if !c1.isNull && !c2.isNull && !c3.isNull && c4.isNull then
      here :: (calls new_prefix down c1 1 ++ calls new_prefix down c2 1
        ++ calls new_prefix down c3 0 ++ calls new_prefix down c4 0)
    else if !c1.isNull && !c2.isNull && !c3.isNull && !c4.isNull then
      here :: (calls new_prefix down c1 1 ++ calls new_prefix down c2 1
        ++ calls new_prefix down c3 1 ++ calls new_prefix down c4 0)
    else [here]

namespace TREE

/-- The number of nodes on the longest path from the root down: 0 for the absent tree, so
that the deepest node of a tree of height `h + 1` is at depth `h`. -/
def height : TREE → Nat
  | null => 0
  | node _ _ c1 c2 c3 c4 => 1 + max (max c1.height c2.height) (max c3.height c4.height)

end TREE

/-- The tree of `a + a + ... + a` with `n` operators: every operator node has the tree of
the shorter sum in slot 1 and a leaf in slot 2. -/
def leftChain : Nat → TREE
  | 0 => newleaf "id" "a"
  | n + 1 => newnode "+" (leftChain n) (newleaf "id" "a") nptr nptr

/-- The tree built for a program whose method body is the statement `x;` written `n` times,
when the empty statement sequence behind the last one is absent. -/
def chainProgram (n : Nat) : TREE :=
  newnode "CLASS DECLARATION"
    (newnode "modifier" (newleaf "access modifier" "public") nptr nptr nptr)
    (newleaf "classname" "public")
    (newnode "METHOD DECLARATION"
      (newnode "modifier" (newleaf "access modifier" "public")
        (newleaf "access modifier" "static") nptr nptr)
      (newleaf "datatype" "void") (newleaf "datatype" "String")
      (buildBody (List.replicate n ⟨StmtKind.unrexpr, newleaf "id" "x", TREE.null⟩) TREE.null))
    nptr

/-! ## The buffer of the tree printer -/

namespace Call

/-- The content of `new_prefix` that the call builds fits, with its terminating zero byte,
the 1000 bytes of the buffer. -/
def fits (c : Call) : Bool := decide (c.new_prefix.utf8ByteSize + 1 ≤ 1000)

end Call

/-- No call of `printBT` made for printBT(prefix, node, isLeft) overruns its buffer. -/
def fitsBuffer (pfx : String) (t : TREE) (isLeft : Int) : Bool :=
  (calls pfx [] t isLeft).all Call.fits

/-- The lines that the calls made for printBT(prefix, node, isLeft) write, in order. -/
def drawn (pfx : String) (t : TREE) (isLeft : Int) : List String :=
  (calls pfx [] t isLeft).map Call.line

/-! ## Wild pointers and the driver -/

namespace TREE

/-- The node is a place-holder that stands for a wild pointer: its label is the name of a
cell of the value-stack array.  A cell name starts with the character of code 0, which no
string of the C program contains, so no node that an action builds has such a label. -/
def isWild : TREE → Bool
  | null => false
  | node o _ _ _ _ _ => (cellOf o).isSome

end TREE

/-- The never-written cells of the value-stack array as the tree printer meets them: the
bytes found in such a cell form no pointer to a node unless they are zero, so a `ptr` field
that is not NULL is replaced by the place-holder of the cell. -/
def wildStack (uninit : Nat → Nat → YACC) : Nat → Nat → YACC :=
  fun size index =>
    if (uninit size index).ptr.isNull then uninit size index
    else ⟨(uninit size index).v, (symStack size index).ptr⟩

/-- Whether printBT("", ast->root, 0) follows a wild pointer after the run of `yyparse`:
one of its calls is made on a pointer that the parser read from a never-written cell of its
value stack and that is not NULL.  The calls are those on the root that the parser stores
when the never-written cells hold place-holders for such pointers. -/
def followsWild (fuel : Nat) (uninit : Nat → Nat → YACC) (yyin : List Token) : Bool :=
  match yyparse fuel (wildStack uninit) TREE.null yyin with
  | none => false
  | some (_, s) => (calls "" [] s.root 0).any (fun c => c.node.isWild)

/-- `main`: open `AST.txt`, set `ast->root = NULL`, parse the input, and on success print
the messages, the header line, the tree and an empty line.  The result is `none` when the
fuel does not suffice for the parser, and when the behaviour of the run is undefined: after
a successful parse `printBT` follows a wild pointer or overruns its buffer. -/
def main (fuel : Nat) (uninit : Nat → Nat → YACC) (yyin : List Token) : Option Output :=
  match yyparse fuel uninit TREE.null yyin with
  | none => none
  | some (yyresult, s) =>
    if yyresult = 0 then
      if followsWild fuel uninit yyin then none
      else
        match printBT ["Abstract Syntax Tree\n"] "" s.root 0 with
        | none => none
        | some (fp, _) =>
          some { stdout := ["Parsing succesful\n", "AST generated\n"], fp := fp ++ ["\n"] }
    else
      some { stdout := ["Unsuccessful\n"], fp := [] }

/-! ## Properties of the outcome of a step -/

/-- A property of the outcome of a step: `I` of the state when the loop goes on, `Q` of the
result and the state when `yyparse` returns. -/
def Outcome.sat (I : YYState → Prop) (Q : Int → YYState → Prop) : Outcome → Prop
  | Outcome.continue_ s => I s
  | Outcome.return_ yyresult s => Q yyresult s

/-- The variables after `yybackup` has made sure that there is a lookahead: a token is read
if there is none, and everything at or below `YYEOF` becomes `YYEOF`. -/
def peek (s : YYState) : YYState :=
  let s := if s.yychar = YYEMPTY then yylex s else s
  if s.yychar ≤ YYEOF then { s with yychar := YYEOF } else s

/-- The token number `yytoken` of the lookahead. -/
def tokenOf (s : YYState) : Int := if s.yychar ≤ YYEOF then YYEOF else YYTRANSLATE s.yychar

/-- The variables after the shift of the lookahead, before the new state is pushed. -/
def shifted (s : YYState) : YYState :=
  let s := if s.yyerrstatus ≠ 0 then { s with yyerrstatus := s.yyerrstatus - 1 } else s
  let s := { s with yychar := YYEMPTY }
  s.pushValue s.yylval

/-- The variables after the right-hand side of rule `yyn` has been popped and the value of
its action pushed, before the goto state is pushed. -/
def reduced (uninit : Nat → Nat → YACC) (s : YYState) (yyn : Int) : YYState :=
  let yylen := tbl yyr2 yyn
  let yyval := s.yyvsp uninit (1 - yylen)
  let (yyval, root) := yyaction yyn (s.yyvsp uninit) yyval s.root
  let s := { s with root := root }
  (s.YYPOPSTACK yylen.toNat).pushValue yyval

/-- The token kinds that are declared but occur in no production: `<<`, `>>`, `^`, `&`, `|`
and `print`. -/
def deadCodes : List Int := [T_LS, T_RS, T_XOR, T_AND, T_OR, T_PRINT]

/-- The invariant of a run up to its first syntax error: no error has been counted, none is
being recovered from, and the state stack has room. -/
def clean (s : YYState) : Prop :=
  s.yynerrs = 0 ∧ s.yyerrstatus = 0 ∧ s.yyss.length < s.yystacksize

/-- The results of `yyparse` with the values of the error counter that go with them. -/
def counted (yyresult : Int) (s : YYState) : Prop :=
  (yyresult = 0 ∧ s.yynerrs = 0) ∨ (yyresult = 1 ∧ s.yynerrs = 2) ∨
  (yyresult = 2 ∧ s.yynerrs = 1)

/-- The invariant of a run on an input with a token of a dead kind: the tokens not yet read
have positive codes, the lookahead is a token if there is one, and a token of a dead kind
is the lookahead or is still to be read. -/
def blocked (s : YYState) : Prop :=
  (∀ t ∈ s.yyin, 0 < t.code) ∧ (s.yychar = YYEMPTY ∨ 0 < s.yychar) ∧
  ((∃ t ∈ s.yyin, t.code ∈ deadCodes) ∨ s.yychar ∈ deadCodes)

/-! ## Runs that may exhaust the stack -/

/-- From every state with core `c` the driver loop comes to a state with core `c'`, or
`yyparse` returns 2 (memory exhausted) after one call of `yyerror`, with the root as it is
in `c`. -/
def Flows (u : Nat → Nat → YACC) (c c' : Core) : Prop :=
  ∀ s, c.fits s →
    (∃ s' k, c'.fits s' ∧ ∀ n, yyloop u (k + n) s = yyloop u n s') ∨
    (∃ k r, (r.1 = 2 ∧ r.2.root = c.root ∧ r.2.yynerrs = c.yynerrs + 1) ∧
      ∀ n, yyloop u (k + 1 + n) s = some r)

/-- What the driver does on the tokens of a primary `e` in a start state, whatever room
the stack has: it ends with the state reached on Expr on top of the state stack and the
tree of `e` on top of the value stack, or the stack is exhausted. -/
def PrimFlow (u : Nat → Nat → YACC) (e : Ex) : Prop :=
  ∀ s ∈ startStates, ∀ (c : Core) (rest : List Token),
    c.yyss.headD 0 = s → c.yychar = YYEMPTY → c.yyin = e.tokens ++ rest →
    ∃ v lv, Flows u c { c with
      yyss := gotoState (ntOfRank 0) s :: c.yyss
      yyvs := ⟨v, e.tree⟩ :: c.yyvs
      yylval := lv
      yyin := rest }

/-- What the driver does on the tokens of an expression `e` followed by the token `a` in a
start state that asks for a rank of at least 1, whatever room the stack has: it ends with
the tree of `e` on top of the value stack and the lookahead `a` read, or the stack is
exhausted. -/
def ChainFlow (u : Nat → Nat → YACC) (e : Ex) : Prop :=
  ∀ s ∈ startStates, 1 ≤ topRank s → e.derives (topRank s) = true →
    ∀ (a : Token), a.code ∈ followCodes → e.rank ≤ rankOfCode a.code →
    ∀ (c : Core) (rest : List Token),
      c.yyss.headD 0 = s → c.yychar = YYEMPTY → c.yyin = e.tokens ++ a :: rest →
      ∃ v, Flows u c { c with
        yyss := gotoState (ntOfRank (min (rankOfCode a.code) (topRank s))) s :: c.yyss
        yyvs := ⟨v, e.tree⟩ :: c.yyvs
        yychar := a.code
        yylval := a.lval
        yyin := rest }

namespace TREE

/-- The in-order reading of a tree: a leaf contributes its value, any other node the
reading of slot 1, its label and the reading of slot 2. -/
def inorder : TREE → List String
  | null => []
  | node o v c1 c2 c3 c4 =>
    if c1.isNull && c2.isNull && c3.isNull && c4.isNull then [v]
    else c1.inorder ++ [o] ++ c2.inorder

end TREE

/-- The texts of the tokens in source order, the parenthesis tokens left out. -/
def textsWithoutParens (toks : List Token) : List String :=
  (toks.filter (fun t => decide (t.code ≠ 40 ∧ t.code ≠ 41))).map (fun t => t.lval.v)

/-! ## A deep program -/

/-- The tree that the parser stores for the program whose method body is the one statement
`t = e;`: `t` is the tree of `e`, and `rest` is the value that the empty statement sequence
behind the statement is given (rule 14 has no action). -/
def assignRoot (t rest : TREE) : TREE :=
  newnode "CLASS DECLARATION"
    (newnode "modifier" (newleaf "access modifier" "public") TREE.null TREE.null TREE.null)
    (newleaf "classname" "public")
    (newnode "METHOD DECLARATION"
      (newnode "modifier" (newleaf "access modifier" "public")
        (newleaf "access modifier" "static") TREE.null TREE.null)
      (newleaf "datatype" "void") (newleaf "datatype" "String")
      (newnode "INITIALIZATION"
        (newnode "ASSIGNMENT STATEMENT"
          (newnode "=" (newleaf "id" "t") t TREE.null TREE.null) TREE.null TREE.null TREE.null)
        rest TREE.null TREE.null))
    TREE.null

namespace Ex

/-- The expression `a + a + ... + a` with `n` operators. -/
def sum : Nat → Ex
  | 0 => Ex.id "a"
  | n + 1 => Ex.bin BinOp.add (sum n) (Ex.id "a")

end Ex
/-! ## Lemmas: substitution commutes with the parser -/

theorem subst_null (h : String → String) (g : String → TREE) :
    TREE.null.subst h g = TREE.null := rfl

theorem fix_newnode (h : String → String) (g : String → TREE) (hN : h "N/A" = "N/A")
    (o : String) (c1 c2 c3 c4 : TREE) :
    (newnode o c1 c2 c3 c4).subst h g
      = newnode (h o) (c1.subst h g) (c2.subst h g) (c3.subst h g) (c4.subst h g) := by
  simp [newnode, TREE.subst, hN]

theorem fix_newleaf (h : String → String) (g : String → TREE) (o v : String) :
    (newleaf o v).subst h g = newleaf (h o) (h v) := by
  simp [newleaf, TREE.subst, TREE.isNull]

theorem yyaction_subst (h : String → String) (g : String → TREE)
    (hfix : ∀ s ∈ literals, h s = s) (yyn : Int) (yyvsp : Int → YACC) (yyval : YACC)
    (root : TREE) :
    yyaction yyn (fun i => (yyvsp i).subst h g) (yyval.subst h g) (root.subst h g)
      = (((yyaction yyn yyvsp yyval root).1).subst h g,
         ((yyaction yyn yyvsp yyval root).2).subst h g) := by
  have hN : h "N/A" = "N/A" := hfix _ (by decide)
  have hl := hfix
  simp only [literals, List.forall_mem_cons, List.mem_cons, List.mem_singleton, forall_eq_or_imp,
    forall_eq, List.not_mem_nil, false_imp_iff, implies_true, and_true] at hl
  unfold yyaction
  split <;>
    simp only [fix_newnode h g hN, fix_newleaf, YACC.setPtr, YACC.setV, YACC.subst, nptr,
      subst_null, hl]
section

variable (h : String → String) (g : String → TREE)

@[simp] theorem subst_yyss (s : YYState) : (s.subst h g).yyss = s.yyss := rfl
@[simp] theorem subst_yyvs (s : YYState) : (s.subst h g).yyvs = s.yyvs.map (YACC.subst h g) := rfl
@[simp] theorem subst_above (s : YYState) : (s.subst h g).above = s.above.map (YACC.subst h g) := rfl
@[simp] theorem subst_yystacksize (s : YYState) : (s.subst h g).yystacksize = s.yystacksize := rfl
@[simp] theorem subst_yychar (s : YYState) : (s.subst h g).yychar = s.yychar := rfl
@[simp] theorem subst_yylval (s : YYState) : (s.subst h g).yylval = s.yylval.subst h g := rfl
@[simp] theorem subst_yyin (s : YYState) : (s.subst h g).yyin = s.yyin.map (Token.subst h g) := rfl
@[simp] theorem subst_yynerrs (s : YYState) : (s.subst h g).yynerrs = s.yynerrs := rfl
@[simp] theorem subst_yyerrstatus (s : YYState) : (s.subst h g).yyerrstatus = s.yyerrstatus := rfl
@[simp] theorem subst_root (s : YYState) : (s.subst h g).root = s.root.subst h g := rfl

theorem yyvsp_subst (u : Nat → Nat → YACC) (s : YYState) (i : Int) :
    (s.subst h g).yyvsp (fun a b => (u a b).subst h g) i = (s.yyvsp u i).subst h g := by
  unfold YYState.yyvsp
  split <;> simp [List.getD_map]

theorem YYPOPSTACK_subst (s : YYState) (n : Nat) :
    (s.subst h g).YYPOPSTACK n = (s.YYPOPSTACK n).subst h g := by
  simp [YYState.YYPOPSTACK, YYState.subst, List.map_drop, List.map_take, List.map_reverse]

theorem pushValue_subst (s : YYState) (x : YACC) :
    (s.subst h g).pushValue (x.subst h g) = (s.pushValue x).subst h g := by
  simp [YYState.pushValue, YYState.subst, List.map_tail]

theorem yyerror_subst (s : YYState) : yyerror (s.subst h g) = (yyerror s).subst h g := rfl

theorem yyreturn_subst (s : YYState) (r : Int) :
    yyreturn (s.subst h g) r = (yyreturn s r).subst h g := by
  simp [yyreturn, Outcome.subst, YYPOPSTACK_subst]

theorem yysetstate_subst (s : YYState) :
    yysetstate (s.subst h g) = (yysetstate s).subst h g := by
  unfold yysetstate yyexhaustedlab yyabortlab yyacceptlab
  simp only [subst_yyss, subst_yystacksize]
  split_ifs <;> first
    | rfl
    | exact yyreturn_subst h g (yyerror s) 2
    | exact yyreturn_subst h g s 0
    | exact yyreturn_subst h g
        { s with yystacksize := min (2 * s.yystacksize) YYMAXDEPTH, above := [] } 1
    | exact yyreturn_subst h g
        { s with yystacksize := min (2 * s.yystacksize) YYMAXDEPTH, above := [] } 0

theorem yynewstate_subst (s : YYState) (yystate : Int) :
    yynewstate (s.subst h g) yystate = (yynewstate s yystate).subst h g := by
  unfold yynewstate
  exact yysetstate_subst h g { s with yyss := yystate :: s.yyss }

theorem yyreduce_subst (hfix : ∀ s ∈ literals, h s = s) (u : Nat → Nat → YACC) (s : YYState)
    (yyn : Int) :
    yyreduce (fun a b => (u a b).subst h g) (s.subst h g) yyn
      = (yyreduce u s yyn).subst h g := by
  unfold yyreduce
  have e : (YYState.yyvsp (fun a b => (u a b).subst h g) (s.subst h g))
      = fun i => (s.yyvsp u i).subst h g := by
    funext i; exact yyvsp_subst h g u s i
  simp only [e, subst_root, yyaction_subst h g hfix]
  rw [← yynewstate_subst]
  congr 1
  rw [← pushValue_subst, ← YYPOPSTACK_subst]
  rfl

theorem yylex_subst (s : YYState) : yylex (s.subst h g) = (yylex s).subst h g := by
  unfold yylex
  cases hs : s.yyin <;> simp [YYState.subst, hs, Token.subst]

theorem yyerrpop_subst (l : List Int) (s : YYState) :
    yyerrpop l (s.subst h g) = ((yyerrpop l s).1.subst h g, (yyerrpop l s).2) := by
  induction l generalizing s with
  | nil => rfl
  | cons a rest ih =>
    unfold yyerrpop
    dsimp only []
    split_ifs
    · rfl
    · cases rest with
      | nil => rfl
      | cons b more =>
        dsimp only []
        rw [YYPOPSTACK_subst, ih]

theorem yyerrlab1_subst (s : YYState) :
    yyerrlab1 (s.subst h g) = (yyerrlab1 s).subst h g := by
  unfold yyerrlab1
  have e := yyerrpop_subst h g s.yyss { s with yyerrstatus := 3 }
  simp only [subst_yyss]
  change (match yyerrpop s.yyss (YYState.subst h g { s with yyerrstatus := 3 }) with
    | (s, none) => yyabortlab s
    | (s, some yyn) => yynewstate (s.pushValue s.yylval) yyn) = _
  rw [e]
  cases hp : (yyerrpop s.yyss { s with yyerrstatus := 3 }).2 with
  | none =>
    simp only [hp]
    have : yyerrpop s.yyss { s with yyerrstatus := 3 }
        = ((yyerrpop s.yyss { s with yyerrstatus := 3 }).1, none) := by
      rw [← hp]
    rw [this]
    exact yyreturn_subst h g _ 1
  | some yyn =>
    simp only [hp]
    have : yyerrpop s.yyss { s with yyerrstatus := 3 }
        = ((yyerrpop s.yyss { s with yyerrstatus := 3 }).1, some yyn) := by
      rw [← hp]
    rw [this]
    simp only []
    rw [← yynewstate_subst, ← pushValue_subst]
    rfl

theorem yyerrlab_subst (s : YYState) :
    yyerrlab (s.subst h g) = (yyerrlab s).subst h g := by
  have key : (if (s.subst h g).yyerrstatus = 0
        then yyerror { (s.subst h g) with yynerrs := (s.subst h g).yynerrs + 1 }
        else s.subst h g)
      = (if s.yyerrstatus = 0 then yyerror { s with yynerrs := s.yynerrs + 1 } else s).subst h g := by
    simp only [subst_yyerrstatus]
    split_ifs <;> rfl
  unfold yyerrlab
  dsimp only []
  rw [key]
  generalize (if s.yyerrstatus = 0 then yyerror { s with yynerrs := s.yynerrs + 1 } else s) = t
  simp only [subst_yyerrstatus, subst_yychar]
  split_ifs <;> first
    | exact yyerrlab1_subst h g _
    | exact yyreturn_subst h g _ 1
    | exact yyerrlab1_subst h g { t with yychar := YYEMPTY }

theorem yydefault_subst (hfix : ∀ s ∈ literals, h s = s) (u : Nat → Nat → YACC) (s : YYState) :
    yydefault (fun a b => (u a b).subst h g) (s.subst h g) = (yydefault u s).subst h g := by
  unfold yydefault
  simp only [subst_yyss]
  split_ifs
  · exact yyerrlab_subst h g s
  · exact yyreduce_subst h g hfix u s _

theorem yybackup_subst (hfix : ∀ s ∈ literals, h s = s) (u : Nat → Nat → YACC) (s : YYState) :
    yybackup (fun a b => (u a b).subst h g) (s.subst h g) = (yybackup u s).subst h g := by
  have key1 : (if (s.subst h g).yychar = YYEMPTY then yylex (s.subst h g) else s.subst h g)
      = (if s.yychar = YYEMPTY then yylex s else s).subst h g := by
    simp only [subst_yychar]
    split_ifs
    · exact yylex_subst h g s
    · rfl
  have key2 : ∀ t : YYState,
      (if (t.subst h g).yychar ≤ YYEOF then { (t.subst h g) with yychar := YYEOF } else t.subst h g)
      = (if t.yychar ≤ YYEOF then { t with yychar := YYEOF } else t).subst h g := by
    intro t
    simp only [subst_yychar]
    split_ifs <;> rfl
  unfold yybackup
  dsimp only []
  simp only [subst_yyss]
  by_cases hp : tbl yypact (s.yyss.headD 0) = YYPACT_NINF
  · rw [if_pos hp, if_pos hp]
    exact yydefault_subst h g hfix u s
  · rw [if_neg hp, if_neg hp, key1]
    generalize (if s.yychar = YYEMPTY then yylex s else s) = t1
    rw [key2]
    generalize (if t1.yychar ≤ YYEOF then { t1 with yychar := YYEOF } else t1) = t2
    simp only [subst_yychar, subst_yyss]
    generalize tbl yypact (s.yyss.headD 0) + (if t2.yychar ≤ YYEOF then YYEOF else YYTRANSLATE t2.yychar) = n
    by_cases h1 : n < 0 ∨ YYLAST < n ∨ tbl yycheck n ≠ (if t2.yychar ≤ YYEOF then YYEOF else YYTRANSLATE t2.yychar)
    · rw [if_pos h1, if_pos h1]
      exact yydefault_subst h g hfix u t2
    · rw [if_neg h1, if_neg h1]
      by_cases h2 : tbl yytable n ≤ 0
      · rw [if_pos h2, if_pos h2]
        exact yyreduce_subst h g hfix u t2 _
      · rw [if_neg h2, if_neg h2]
        by_cases he : t2.yyerrstatus = 0
        · simp only [subst_yyerrstatus, he, ne_eq, not_true_eq_false, if_false]
          rw [← yynewstate_subst, ← pushValue_subst]
          rfl
        · simp only [subst_yyerrstatus, he, ne_eq, not_false_eq_true, if_true]
          rw [← yynewstate_subst, ← pushValue_subst]
          rfl

theorem yyloop_subst (hfix : ∀ s ∈ literals, h s = s) (u : Nat → Nat → YACC) (fuel : Nat)
    (s : YYState) :
    yyloop (fun a b => (u a b).subst h g) fuel (s.subst h g)
      = (yyloop u fuel s).map (fun r => (r.1, r.2.subst h g)) := by
  induction fuel generalizing s with
  | zero => rfl
  | succ n ih =>
    unfold yyloop
    rw [yybackup_subst h g hfix]
    cases hb : yybackup u s with
    | continue_ t => simp only [Outcome.subst]; exact ih t
    | return_ r t => simp only [Outcome.subst]; rfl

theorem yyparse_subst (hfix : ∀ s ∈ literals, h s = s) (u : Nat → Nat → YACC) (fuel : Nat)
    (root : TREE) (yyin : List Token) :
    yyparse fuel (fun a b => (u a b).subst h g) (root.subst h g) (yyin.map (Token.subst h g))
      = (yyparse fuel u root yyin).map (fun r => (r.1, r.2.subst h g)) := by
  unfold yyparse
  have hl := hfix "" (by decide)
  have e : yyinit (root.subst h g) (yyin.map (Token.subst h g)) = (yyinit root yyin).subst h g := by
    simp [yyinit, YYState.subst, YACC.subst, hl, TREE.subst]
  rw [e, yysetstate_subst]
  cases hb : yysetstate (yyinit root yyin) with
  | continue_ t => simp only [Outcome.subst]; exact yyloop_subst h g hfix u fuel t
  | return_ r t => simp only [Outcome.subst]; rfl

end


theorem takeWhile_cell (n : Nat) (l : List Char) :
    (List.replicate n 'a' ++ 'b' :: l).takeWhile (fun x => x == 'a') = List.replicate n 'a' := by
  induction n with
  | zero => simp [List.takeWhile]
  | succ k ih => simp [List.replicate_succ, List.takeWhile, ih]

theorem dropWhile_cell (n : Nat) (l : List Char) :
    (List.replicate n 'a' ++ 'b' :: l).dropWhile (fun x => x == 'a') = 'b' :: l := by
  induction n with
  | zero => simp [List.dropWhile]
  | succ k ih => simp [List.replicate_succ, List.dropWhile, ih]

theorem cellOf_cellName (a b : Nat) : cellOf (cellName a b) = some (a, b) := by
  simp [cellOf, cellName, takeWhile_cell, dropWhile_cell]

theorem symStack_subst (u : Nat → Nat → YACC) (texts : Nat → String) (a b : Nat) :
    (symStack a b).subst (relabel u texts) (cellTree u) = u a b := by
  simp [symStack, YACC.subst, TREE.subst, relabel, cellTree, cellOf_cellName, newleaf,
    TREE.isNull]

theorem relabel_of_none (u : Nat → Nat → YACC) (texts : Nat → String) (s : String)
    (hs : cellOf s = none) : relabel u texts s = instText texts s := by
  simp [relabel, hs]

theorem relabel_fix (u : Nat → Nat → YACC) (texts : Nat → String) :
    ∀ s ∈ literals, relabel u texts s = s := by
  intro s hs
  have h1 : cellOf s = none := by
    revert s
    decide
  have h2 : varOf s = none := by
    revert s
    decide
  rw [relabel_of_none u texts s h1]
  simp [instText, h2]

theorem plain_subst (u : Nat → Nat → YACC) (texts : Nat → String) (t : TREE)
    (ht : t.plain = true) : t.subst (relabel u texts) (cellTree u) = t.inst texts := by
  induction t with
  | null => rfl
  | node o v c1 c2 c3 c4 ih1 ih2 ih3 ih4 =>
    simp only [TREE.plain, Bool.and_eq_true, Bool.not_eq_true', Option.isNone_iff_eq_none] at ht
    obtain ⟨⟨⟨⟨⟨⟨hh, ho⟩, hv⟩, h1⟩, h2⟩, h3⟩, h4⟩ := ht
    simp only [TREE.subst, TREE.inst, hh, Bool.false_eq_true, if_false,
      relabel_of_none u texts o ho, relabel_of_none u texts v hv, ih1 h1, ih2 h2, ih3 h3, ih4 h4]

theorem plain_token (u : Nat → Nat → YACC) (texts : Nat → String) (t : Token)
    (ht : t.plain = true) : t.subst (relabel u texts) (cellTree u) = t.inst texts := by
  simp only [Token.plain, Bool.and_eq_true, Option.isNone_iff_eq_none] at ht
  cases t with
  | mk code lval =>
    cases lval with
    | mk v ptr =>
      simp only [Token.subst, YACC.subst, Token.inst]
      rw [relabel_of_none u texts v ht.1, plain_subst u texts ptr ht.2]

theorem plain_tokens (u : Nat → Nat → YACC) (texts : Nat → String) (toks : List Token)
    (ht : toks.all Token.plain = true) :
    toks.map (Token.subst (relabel u texts) (cellTree u)) = toks.map (Token.inst texts) := by
  induction toks with
  | nil => rfl
  | cons t rest ih =>
    simp only [List.all_cons, Bool.and_eq_true] at ht
    simp only [List.map_cons, plain_token u texts t ht.1, ih ht.2]

theorem yyloop_mono (u : Nat → Nat → YACC) (n m : Nat) (s : YYState) (r : Int × YYState)
    (hr : yyloop u n s = some r) (hle : n ≤ m) : yyloop u m s = some r := by
  induction n generalizing m s with
  | zero => simp [yyloop] at hr
  | succ k ih =>
    cases m with
    | zero => omega
    | succ j =>
      unfold yyloop at hr ⊢
      cases hb : yybackup u s with
      | continue_ t =>
        rw [hb] at hr
        exact ih j t hr (by omega)
      | return_ c t =>
        rw [hb] at hr
        exact hr

theorem yyparse_mono (u : Nat → Nat → YACC) (n m : Nat) (root : TREE) (toks : List Token)
    (r : Int × YYState) (hr : yyparse n u root toks = some r) (hle : n ≤ m) :
    yyparse m u root toks = some r := by
  unfold yyparse at hr ⊢
  cases hb : yysetstate (yyinit root toks) with
  | continue_ t =>
    rw [hb] at hr
    exact yyloop_mono u n m t r hr hle
  | return_ c t =>
    rw [hb] at hr
    exact hr

/-- A run on the symbolic stack array, with text variables in the tokens, decides the run
on every stack array and for every choice of the texts. -/
theorem any_run (toks : List Token) (n : Nat) (rep : Report)
    (hrun : (yyparse n symStack TREE.null toks).map report = some rep)
    (htoks : toks.all Token.plain = true) (hrep : rep.root.plain = true)
    (u : Nat → Nat → YACC) (texts : Nat → String) (fuel : Nat) (hfuel : n ≤ fuel) :
    (yyparse fuel u TREE.null (toks.map (Token.inst texts))).map report
      = some (rep.inst texts) := by
  have hnat := yyparse_subst (relabel u texts) (cellTree u) (relabel_fix u texts) symStack n
    TREE.null toks
  rw [plain_tokens u texts toks htoks] at hnat
  have hu : (fun a b => (symStack a b).subst (relabel u texts) (cellTree u)) = u := by
    funext a b
    exact symStack_subst u texts a b
  rw [hu] at hnat
  simp only [TREE.subst] at hnat
  cases hp : yyparse n symStack TREE.null toks with
  | none => rw [hp] at hrun; simp at hrun
  | some r =>
    rw [hp] at hrun hnat
    simp only [Option.map_some', Option.some.injEq] at hrun hnat
    rw [yyparse_mono u n fuel TREE.null _ _ hnat hfuel]
    simp only [Option.map_some', Option.some.injEq]
    subst hrun
    simp only [report] at hrep ⊢
    simp only [Report.inst, subst_yynerrs, subst_root, subst_yyin, List.length_map,
      plain_subst u texts _ hrep]

/-- A successful closed check settles the run on every stack array and with any fuel
from `n` on. -/
theorem run_closed {α : Type} [DecidableEq α] (n : Nat) (toks : List Token) (f : Report → α)
    (a : α) (hcheck : closedCheck n toks f a = true) (u : Nat → Nat → YACC) (fuel : Nat) :
    (yyparse (n + fuel) u TREE.null toks).map (fun r => f (report r)) = some a := by
  unfold closedCheck at hcheck
  simp only [Bool.and_eq_true, decide_eq_true_eq] at hcheck
  obtain ⟨⟨htoks, hmap⟩, hm⟩ := hcheck
  cases hp : (yyparse n symStack TREE.null toks).map report with
  | none => rw [hp] at hm; simp at hm
  | some rep =>
    rw [hp] at hm
    simp only [Bool.and_eq_true, decide_eq_true_eq] at hm
    have key := any_run toks n rep hp htoks hm.1 u (fun _ => "") (n + fuel) (by omega)
    rw [hmap] at key
    cases hq : yyparse (n + fuel) u TREE.null toks with
    | none => rw [hq] at key; simp at key
    | some r =>
      rw [hq] at key
      simp only [Option.map_some', Option.some.injEq] at key ⊢
      rw [key]
      exact hm.2


/-! ## The rows of a drawing -/

theorem rows_null (pfx : String) (last : Bool) : rows pfx TREE.null last = [] := by
  simp [rows]

theorem rows_length (t : TREE) : ∀ (pfx : String) (last : Bool),
    (rows pfx t last).length = t.size := by
  induction t with
  | null => intro pfx last; simp [rows, TREE.size]
  | node o v c1 c2 c3 c4 ih1 ih2 ih3 ih4 =>
    intro pfx last
    simp only [rows, TREE.size, List.length_cons, List.length_append, ih1, ih2, ih3, ih4]
    omega

theorem rows_content (t : TREE) : ∀ (pfx : String) (last : Bool),
    (rows pfx t last).map Prod.snd = t.preorder.map TREE.content := by
  induction t with
  | null => intro pfx last; simp [rows, TREE.preorder]
  | node o v c1 c2 c3 c4 ih1 ih2 ih3 ih4 =>
    intro pfx last
    simp only [rows, TREE.preorder, List.map_cons, List.map_append, ih1, ih2, ih3, ih4]

/-! ## Occupied slots of built nodes -/

theorem isNull_null : TREE.null.isNull = true := rfl

theorem isNull_newleaf (l v : String) : (newleaf l v).isNull = false := rfl

theorem isNull_newnode (l : String) (c1 c2 c3 c4 : TREE) :
    (newnode l c1 c2 c3 c4).isNull = false := rfl

theorem contiguous_newleaf (l v : String) : (newleaf l v).contiguousHere = true := rfl

theorem contiguous_newnode (l : String) (c1 c2 c3 c4 : TREE) :
    (newnode l c1 c2 c3 c4).contiguousHere
      = ((c4.isNull || !c3.isNull) && (c3.isNull || !c2.isNull) && (c2.isNull || !c1.isNull)) := by
  cases c1 <;> cases c2 <;> cases c3 <;> cases c4 <;> rfl

theorem yyaction_root (yyn : Int) (hn : yyn ≠ 2) (yyvsp : Int → YACC) (yyval : YACC)
    (root : TREE) : (yyaction yyn yyvsp yyval root).2 = root := by
  unfold yyaction
  split <;> first | rfl | (exfalso; exact hn rfl)

theorem yyaction_root_two (yyvsp : Int → YACC) (yyval : YACC) (root : TREE) :
    (yyaction 2 yyvsp yyval root).2 = (yyaction 2 yyvsp yyval root).1.ptr := rfl

theorem cellsFrom_succ (t : List Int) (n : Nat) : cellsFrom t (n + 1) = cellsFrom t.tail n := rfl

theorem cellsFrom_of_length_le (n : Nat) : ∀ (t : List Int), t.length ≤ n → cellsFrom t n = [] := by
  induction n with
  | zero =>
    intro t h
    cases t with
    | nil => rfl
    | cons a l => simp at h
  | succ k ih =>
    intro t h
    rw [cellsFrom_succ]
    apply ih
    cases t with
    | nil => simp
    | cons a l =>
      simp only [List.length_cons] at h
      simp only [List.tail_cons]
      omega

/-- A table look-up at any integer is a look-up at a natural number below the length of
the table, or yields 0. -/
theorem tbl_elim (t : List Int) (j : Int) :
    (∃ n : Nat, n < t.length ∧ (j = n ∨ (j < 0 ∧ n = 0)) ∧ tbl t j = tbl t n) ∨ tbl t j = 0 := by
  by_cases h : j.toNat < t.length
  · left
    refine ⟨j.toNat, h, ?_, ?_⟩
    · by_cases hj : 0 ≤ j
      · left
        exact (Int.toNat_of_nonneg hj).symm
      · right
        constructor
        · omega
        · omega
    · simp only [tbl, Int.toNat_ofNat]
  · right
    have : cellsFrom t j.toNat = [] := cellsFrom_of_length_le _ _ (by omega)
    simp [tbl, this]

theorem fact_yytable : ∀ n < 236, (tbl yytable (n : Nat) = 3 ∨ tbl yytable (n : Nat) = 6) → n = 21 := by
  decide!

theorem fact_yycheck_error : ∀ n < 236, tbl yycheck (n : Nat) ≠ 1 := by
  decide!

theorem fact_yypact : ∀ n < 187, tbl yypact (n : Nat) = 21 → n = 3 := by
  decide!

theorem fact_yypgoto : ∀ n < 35, tbl yypgoto (n : Nat) ≠ 21 := by
  decide!

theorem fact_yydefgoto : ∀ n < 35, (tbl yydefgoto (n : Nat) = 3 ∨ tbl yydefgoto (n : Nat) = 6) → n = 1 := by
  decide!

theorem fact_yyr1 : ∀ n < 95, tbl yyr1 (n : Nat) = 60 → n = 2 := by
  decide!

theorem fact_lengths : yytable.length = 236 ∧ yycheck.length = 236 ∧ yypact.length = 187 ∧
    yypgoto.length = 35 ∧ yydefgoto.length = 35 ∧ yyr1.length = 95 := by
  decide

theorem yytable_hit (i : Int) (h0 : 0 ≤ i) (h1 : i ≤ 235)
    (h : tbl yytable i = 3 ∨ tbl yytable i = 6) : i = 21 := by
  have e : i = ((i.toNat : Nat) : Int) := (Int.toNat_of_nonneg h0).symm
  rw [e] at h
  have := fact_yytable i.toNat (by omega) h
  omega

theorem yycheck_no_error (i : Int) (h0 : 0 ≤ i) (h1 : i ≤ 235) : tbl yycheck i ≠ 1 := by
  have e : i = ((i.toNat : Nat) : Int) := (Int.toNat_of_nonneg h0).symm
  rw [e]
  exact fact_yycheck_error i.toNat (by omega)

theorem yypact_hit (j : Int) (h : tbl yypact j = 21) : j = 3 := by
  rcases tbl_elim yypact j with ⟨n, hn, hj, he⟩ | h0
  · rw [he] at h
    have := fact_yypact n (by simpa [fact_lengths.2.2.1] using hn) h
    rcases hj with hj | ⟨_, hz⟩
    · omega
    · omega
  · omega

theorem yypgoto_ne (j : Int) : tbl yypgoto j ≠ 21 := by
  rcases tbl_elim yypgoto j with ⟨n, hn, _, he⟩ | h0
  · rw [he]
    exact fact_yypgoto n (by simpa [fact_lengths.2.2.2.1] using hn)
  · omega

theorem yydefgoto_hit (j : Int) (h : tbl yydefgoto j = 3 ∨ tbl yydefgoto j = 6) : j = 1 := by
  rcases tbl_elim yydefgoto j with ⟨n, hn, hj, he⟩ | h0
  · rw [he] at h
    have := fact_yydefgoto n (by simpa [fact_lengths.2.2.2.2.1] using hn) h
    rcases hj with hj | ⟨_, hz⟩
    · omega
    · omega
  · omega

theorem yyr1_hit (j : Int) (h : tbl yyr1 j = 60) : j = 2 := by
  rcases tbl_elim yyr1 j with ⟨n, hn, hj, he⟩ | h0
  · rw [he] at h
    have := fact_yyr1 n (by simpa [fact_lengths.2.2.2.2.2] using hn) h
    rcases hj with hj | ⟨_, hz⟩
    · omega
    · omega
  · omega

theorem headD_mem (l : List Int) (a : Int) (ha : a ≠ 0) (h : l.headD 0 = a) : a ∈ l := by
  cases l with
  | nil => exact absurd h.symm ha
  | cons b rest =>
    simp only [List.headD_cons] at h
    simp [h]

theorem yyreturn_good (s : YYState) (yyresult : Int) (h : yyresult = 0 → isClassNode s.root) :
    (yyreturn s yyresult).good := h

theorem yysetstate_good (s : YYState) (h : rootInv s) : (yysetstate s).good := by
  have hacc : ∀ t : YYState, t.yyss = s.yyss → t.root = s.root → t.yyss.headD 0 = YYFINAL →
      isClassNode t.root := by
    intro t e1 e2 hf
    rw [e2]
    apply h
    right
    rw [← e1]
    exact headD_mem _ 6 (by decide) hf
  unfold yysetstate
  dsimp only []
  split_ifs with c1 c2 c3 c4 c5
  · exact yyreturn_good _ 2 (fun h2 => absurd h2 (by decide))
  · exact yyreturn_good _ 1 (fun h2 => absurd h2 (by decide))
  · exact yyreturn_good _ 0 (fun _ => hacc _ rfl rfl c4)
  · exact h
  · exact yyreturn_good _ 0 (fun _ => hacc _ rfl rfl c5)
  · exact h

theorem yynewstate_good (s : YYState) (yystate : Int)
    (hg : yystate = 3 ∨ yystate = 6 → isClassNode s.root) (h : rootInv s) :
    (yynewstate s yystate).good := by
  apply yysetstate_good
  intro hm
  simp only [List.mem_cons] at hm
  rcases hm with (h3 | h3) | (h6 | h6)
  · exact hg (Or.inl h3.symm)
  · exact h (Or.inl h3)
  · exact hg (Or.inr h6.symm)
  · exact h (Or.inr h6)

theorem goto_hit (lhs top : Int)
    (h : (if 0 ≤ tbl yypgoto (lhs - YYNTOKENS) + top ∧ tbl yypgoto (lhs - YYNTOKENS) + top ≤ YYLAST
            ∧ tbl yycheck (tbl yypgoto (lhs - YYNTOKENS) + top) = top
          then tbl yytable (tbl yypgoto (lhs - YYNTOKENS) + top)
          else tbl yydefgoto (lhs - YYNTOKENS)) = 3 ∨
         (if 0 ≤ tbl yypgoto (lhs - YYNTOKENS) + top ∧ tbl yypgoto (lhs - YYNTOKENS) + top ≤ YYLAST
            ∧ tbl yycheck (tbl yypgoto (lhs - YYNTOKENS) + top) = top
          then tbl yytable (tbl yypgoto (lhs - YYNTOKENS) + top)
          else tbl yydefgoto (lhs - YYNTOKENS)) = 6) : lhs = 60 := by
  by_cases c : 0 ≤ tbl yypgoto (lhs - YYNTOKENS) + top ∧ tbl yypgoto (lhs - YYNTOKENS) + top ≤ YYLAST
      ∧ tbl yycheck (tbl yypgoto (lhs - YYNTOKENS) + top) = top
  · rw [if_pos c] at h
    obtain ⟨c0, c1, c2⟩ := c
    have e := yytable_hit _ c0 c1 h
    rw [e] at c2
    have ht : top = 0 := by
      rw [← c2]
      decide
    rw [ht] at e
    exact absurd (by omega) (yypgoto_ne (lhs - YYNTOKENS))
  · rw [if_neg c] at h
    have := yydefgoto_hit _ h
    simp only [YYNTOKENS] at this
    omega

theorem mem_of_mem_drop_int (l : List Int) (n : Nat) (a : Int) (h : a ∈ l.drop n) : a ∈ l :=
  List.mem_of_mem_drop h

theorem yyreduce_good (u : Nat → Nat → YACC) (s : YYState) (yyn : Int) (h : rootInv s) :
    (yyreduce u s yyn).good := by
  unfold yyreduce
  dsimp only []
  apply yynewstate_good
  · intro hg
    have hl := goto_hit _ _ hg
    have h2 : yyn = 2 := yyr1_hit yyn hl
    subst h2
    exact ⟨s.yyvsp u, s.yyvsp u (1 - tbl yyr2 2), s.root, rfl⟩
  · intro hm
    by_cases h2 : yyn = 2
    · subst h2
      exact ⟨s.yyvsp u, s.yyvsp u (1 - tbl yyr2 2), s.root, rfl⟩
    · have hr := yyaction_root yyn h2 (s.yyvsp u) (s.yyvsp u (1 - tbl yyr2 yyn)) s.root
      have hs : isClassNode s.root := by
        apply h
        rcases hm with hm | hm
        · exact Or.inl (mem_of_mem_drop_int _ _ _ hm)
        · exact Or.inr (mem_of_mem_drop_int _ _ _ hm)
      show isClassNode (yyaction yyn (s.yyvsp u) (s.yyvsp u (1 - tbl yyr2 yyn)) s.root).2
      rw [hr]
      exact hs

theorem yyerrpop_none (l : List Int) : ∀ s : YYState, (yyerrpop l s).2 = none := by
  induction l with
  | nil => intro s; rfl
  | cons a rest ih =>
    intro s
    unfold yyerrpop
    dsimp only []
    split_ifs with c
    · obtain ⟨_, c0, c1, c2, _⟩ := c
      exact absurd c2 (yycheck_no_error _ c0 c1)
    · cases rest with
      | nil => rfl
      | cons b more => exact ih _

theorem yyerrlab1_good (s : YYState) : (yyerrlab1 s).good := by
  unfold yyerrlab1
  dsimp only []
  have hn := yyerrpop_none s.yyss { s with yyerrstatus := 3 }
  have e : yyerrpop s.yyss { s with yyerrstatus := 3 }
      = ((yyerrpop s.yyss { s with yyerrstatus := 3 }).1, none) := by
    rw [← hn]
  rw [e]
  exact yyreturn_good _ 1 (fun h2 => absurd h2 (by decide))

theorem yyerrlab_good (s : YYState) : (yyerrlab s).good := by
  unfold yyerrlab
  dsimp only []
  split_ifs <;> first
    | exact yyerrlab1_good _
    | exact yyreturn_good _ 1 (fun h2 => absurd h2 (by decide))

theorem yydefault_good (u : Nat → Nat → YACC) (s : YYState) (h : rootInv s) :
    (yydefault u s).good := by
  unfold yydefault
  dsimp only []
  split_ifs
  · exact yyerrlab_good s
  · exact yyreduce_good u s _ h

theorem yybackup_good (u : Nat → Nat → YACC) (s : YYState) (h : rootInv s) :
    (yybackup u s).good := by
  have c1 : ∀ t : YYState, rootInv t → rootInv (if t.yychar = YYEMPTY then yylex t else t) := by
    intro t ht
    split_ifs
    · unfold yylex
      split <;> exact ht
    · exact ht
  have c2 : ∀ t : YYState, rootInv t →
      rootInv (if t.yychar ≤ YYEOF then { t with yychar := YYEOF } else t) := by
    intro t ht
    split_ifs <;> exact ht
  have d1 : ∀ t : YYState, (if t.yychar = YYEMPTY then yylex t else t).yyss = t.yyss := by
    intro t
    split_ifs
    · unfold yylex
      split <;> rfl
    · rfl
  have d2 : ∀ t : YYState,
      (if t.yychar ≤ YYEOF then { t with yychar := YYEOF } else t).yyss = t.yyss := by
    intro t
    split_ifs <;> rfl
  unfold yybackup
  dsimp only []
  by_cases hp : tbl yypact (s.yyss.headD 0) = YYPACT_NINF
  · rw [if_pos hp]
    exact yydefault_good u s h
  · rw [if_neg hp]
    have i1 := c1 s h
    have e1 := d1 s
    generalize (if s.yychar = YYEMPTY then yylex s else s) = t1 at i1 e1 ⊢
    have i2 := c2 t1 i1
    have e2 := d2 t1
    generalize (if t1.yychar ≤ YYEOF then { t1 with yychar := YYEOF } else t1) = t2 at i2 e2 ⊢
    generalize (if t2.yychar ≤ YYEOF then YYEOF else YYTRANSLATE t2.yychar) = tk
    by_cases h1 : tbl yypact (s.yyss.headD 0) + tk < 0 ∨ YYLAST < tbl yypact (s.yyss.headD 0) + tk
        ∨ tbl yycheck (tbl yypact (s.yyss.headD 0) + tk) ≠ tk
    · rw [if_pos h1]
      exact yydefault_good u t2 i2
    · rw [if_neg h1]
      by_cases h2 : tbl yytable (tbl yypact (s.yyss.headD 0) + tk) ≤ 0
      · rw [if_pos h2]
        exact yyreduce_good u t2 _ i2
      · rw [if_neg h2]
        have hroot : tbl yytable (tbl yypact (s.yyss.headD 0) + tk) = 3
            ∨ tbl yytable (tbl yypact (s.yyss.headD 0) + tk) = 6 → isClassNode t2.root := by
          intro hg
          simp only [not_or, not_lt, ne_eq, not_not, YYLAST] at h1
          obtain ⟨b0, b1, b2⟩ := h1
          have e := yytable_hit _ b0 b1 hg
          rw [e] at b2
          have hk : tk = 0 := by
            rw [← b2]
            decide
          rw [hk] at e
          have ht : s.yyss.headD 0 = 3 := yypact_hit _ (by omega)
          apply i2
          left
          rw [e2, e1]
          exact headD_mem _ 3 (by decide) ht
        by_cases he : t2.yyerrstatus ≠ 0
        · rw [if_pos he]
          exact yynewstate_good _ _ hroot i2
        · rw [if_neg he]
          exact yynewstate_good _ _ hroot i2

theorem yyloop_good (u : Nat → Nat → YACC) (fuel : Nat) : ∀ (s : YYState), rootInv s →
    ∀ (t : YYState), yyloop u fuel s = some (0, t) → isClassNode t.root := by
  induction fuel with
  | zero => intro s _ t h; simp [yyloop] at h
  | succ k ih =>
    intro s hs t h
    unfold yyloop at h
    have hg := yybackup_good u s hs
    cases hb : yybackup u s with
    | continue_ s1 =>
      rw [hb] at h hg
      exact ih s1 hg t h
    | return_ c s1 =>
      rw [hb] at h hg
      simp only [Option.some.injEq, Prod.mk.injEq] at h
      obtain ⟨hc, hst⟩ := h
      rw [← hst]
      exact hg hc

theorem yyparse_good (u : Nat → Nat → YACC) (fuel : Nat) (root : TREE) (yyin : List Token)
    (t : YYState) (h : yyparse fuel u root yyin = some (0, t)) : isClassNode t.root := by
  unfold yyparse at h
  have hi : rootInv (yyinit root yyin) := by
    intro hm
    exfalso
    revert hm
    simp [yyinit]
  have hg := yysetstate_good _ hi
  cases hb : yysetstate (yyinit root yyin) with
  | continue_ s1 =>
    rw [hb] at h hg
    exact yyloop_good u fuel s1 hg t h
  | return_ c s1 =>
    rw [hb] at h hg
    simp only [Option.some.injEq, Prod.mk.injEq] at h
    obtain ⟨hc, hst⟩ := h
    rw [← hst]
    exact hg hc


theorem yysetstate_root (s : YYState) : (yysetstate s).state.root = s.root := by
  unfold yysetstate
  dsimp only []
  split_ifs <;> rfl

theorem yyreduce_root (u : Nat → Nat → YACC) (s : YYState) (yyn : Int) :
    (yyreduce u s yyn).state.root
      = (yyaction yyn (s.yyvsp u) (s.yyvsp u (1 - tbl yyr2 yyn)) s.root).2 := by
  unfold yyreduce yynewstate
  dsimp only []
  rw [yysetstate_root]
  rfl

theorem yyerrpop_root (l : List Int) : ∀ s : YYState, (yyerrpop l s).1.root = s.root := by
  induction l with
  | nil => intro s; rfl
  | cons a rest ih =>
    intro s
    unfold yyerrpop
    dsimp only []
    split_ifs
    · rfl
    · cases rest with
      | nil => rfl
      | cons b more => exact ih _

theorem yyerrlab1_root (s : YYState) : (yyerrlab1 s).state.root = s.root := by
  unfold yyerrlab1
  dsimp only []
  have hr := yyerrpop_root s.yyss { s with yyerrstatus := 3 }
  cases hp : yyerrpop s.yyss { s with yyerrstatus := 3 } with
  | mk t o =>
    rw [hp] at hr
    cases o with
    | none => exact hr
    | some yyn =>
      show (yynewstate _ _).state.root = s.root
      unfold yynewstate
      rw [yysetstate_root]
      exact hr

theorem yyerrlab_root (s : YYState) : (yyerrlab s).state.root = s.root := by
  unfold yyerrlab
  dsimp only []
  split_ifs <;> first
    | exact yyerrlab1_root _
    | rfl

/-- One step of the driver leaves the root as it was, or it reduces by some rule and the
root is what the action of that rule returns. -/
theorem yybackup_root (u : Nat → Nat → YACC) (s : YYState) :
    (yybackup u s).state.root = s.root ∨
    ∃ (yyn : Int) (yyvsp : Int → YACC) (yyval : YACC),
      (yybackup u s).state.root = (yyaction yyn yyvsp yyval s.root).2 := by
  have d1 : ∀ t : YYState, (if t.yychar = YYEMPTY then yylex t else t).root = t.root := by
    intro t
    split_ifs
    · unfold yylex
      split <;> rfl
    · rfl
  have d2 : ∀ t : YYState,
      (if t.yychar ≤ YYEOF then { t with yychar := YYEOF } else t).root = t.root := by
    intro t
    split_ifs <;> rfl
  have hdef : ∀ t : YYState, t.root = s.root →
      ((yydefault u t).state.root = s.root ∨
        ∃ (yyn : Int) (yyvsp : Int → YACC) (yyval : YACC),
          (yydefault u t).state.root = (yyaction yyn yyvsp yyval s.root).2) := by
    intro t ht
    unfold yydefault
    dsimp only []
    split_ifs
    · left
      rw [yyerrlab_root, ht]
    · right
      have hr := yyreduce_root u t (tbl yydefact (t.yyss.headD 0))
      rw [ht] at hr
      exact ⟨_, _, _, hr⟩
  unfold yybackup
  dsimp only []
  by_cases hp : tbl yypact (s.yyss.headD 0) = YYPACT_NINF
  · rw [if_pos hp]
    exact hdef s rfl
  · rw [if_neg hp]
    have e1 := d1 s
    generalize (if s.yychar = YYEMPTY then yylex s else s) = t1 at e1 ⊢
    have e2 := d2 t1
    generalize (if t1.yychar ≤ YYEOF then { t1 with yychar := YYEOF } else t1) = t2 at e2 ⊢
    generalize (if t2.yychar ≤ YYEOF then YYEOF else YYTRANSLATE t2.yychar) = tk
    split_ifs
    · exact hdef t2 (by rw [e2, e1])
    · right
      have hr := yyreduce_root u t2 (-tbl yytable (tbl yypact (s.yyss.headD 0) + tk))
      rw [e2, e1] at hr
      exact ⟨_, _, _, hr⟩
    · left
      unfold yynewstate
      rw [yysetstate_root]
      show t2.root = s.root
      rw [e2, e1]
    · left
      unfold yynewstate
      rw [yysetstate_root]
      show t2.root = s.root
      rw [e2, e1]

theorem keeps_or_class (yyn : Int) (yyvsp : Int → YACC) (yyval : YACC) (root : TREE) :
    (yyaction yyn yyvsp yyval root).2 = root ∨ isClassNode (yyaction yyn yyvsp yyval root).2 := by
  by_cases h2 : yyn = 2
  · right
    subst h2
    exact ⟨yyvsp, yyval, root, rfl⟩
  · left
    exact yyaction_root yyn h2 yyvsp yyval root

theorem yyloop_root (u : Nat → Nat → YACC) (root0 : TREE) (fuel : Nat) : ∀ (s : YYState),
    (s.root = root0 ∨ isClassNode s.root) →
    ∀ (r : Int × YYState), yyloop u fuel s = some r →
      r.2.root = root0 ∨ isClassNode r.2.root := by
  induction fuel with
  | zero => intro s _ r h; simp [yyloop] at h
  | succ k ih =>
    intro s hs r h
    unfold yyloop at h
    have hstep : (yybackup u s).state.root = root0 ∨ isClassNode (yybackup u s).state.root := by
      rcases yybackup_root u s with e | ⟨yyn, yyvsp, yyval, e⟩
      · rw [e]
        exact hs
      · rw [e]
        rcases keeps_or_class yyn yyvsp yyval s.root with k1 | k1
        · rw [k1]
          exact hs
        · exact Or.inr k1
    cases hb : yybackup u s with
    | continue_ s1 =>
      rw [hb] at h hstep
      exact ih s1 hstep r h
    | return_ c s1 =>
      rw [hb] at h hstep
      simp only [Option.some.injEq] at h
      rw [← h]
      exact hstep

theorem yyparse_root (u : Nat → Nat → YACC) (fuel : Nat) (root0 : TREE) (yyin : List Token)
    (r : Int × YYState) (h : yyparse fuel u root0 yyin = some r) :
    r.2.root = root0 ∨ isClassNode r.2.root := by
  unfold yyparse at h
  have hi := yysetstate_root (yyinit root0 yyin)
  cases hb : yysetstate (yyinit root0 yyin) with
  | continue_ s1 =>
    rw [hb] at h hi
    exact yyloop_root u root0 fuel s1 (Or.inl hi) r h
  | return_ c s1 =>
    rw [hb] at h hi
    simp only [Option.some.injEq] at h
    rw [← h]
    exact Or.inl hi

/-! ## Steps of the driver in terms of the tables -/

theorem yyloop_step (u : Nat → Nat → YACC) (s s' : YYState)
    (h : yybackup u s = Outcome.continue_ s') (n : Nat) :
    yyloop u (1 + n) s = yyloop u n s' := by
  rw [Nat.add_comm]
  show (match yybackup u s with
    | Outcome.return_ yyresult s => some (yyresult, s)
    | Outcome.continue_ s => yyloop u n s) = _
  rw [h]

theorem Reach.refl (u : Nat → Nat → YACC) (c : Core) : Reach u c c :=
  fun s hs => ⟨s, 0, hs, fun n => by rw [Nat.zero_add]⟩

theorem Reach.trans {u : Nat → Nat → YACC} {a b c : Core} (h1 : Reach u a b)
    (h2 : Reach u b c) : Reach u a c := by
  intro s hs
  obtain ⟨s1, k1, f1, e1⟩ := h1 s hs
  obtain ⟨s2, k2, f2, e2⟩ := h2 s1 f1
  refine ⟨s2, k1 + k2, f2, fun n => ?_⟩
  rw [Nat.add_assoc, e1, e2]

theorem reach_of_step (u : Nat → Nat → YACC) (c c' : Core)
    (h : ∀ s, c.fits s → ∃ s', yybackup u s = Outcome.continue_ s' ∧ c'.fits s') :
    Reach u c c' := by
  intro s hs
  obtain ⟨s', hb, hf⟩ := h s hs
  exact ⟨s', 1, hf, yyloop_step u s s' hb⟩

/-- Pushing a state that is not the final one continues the loop when the stacks have not
reached their maximal depth; the capacity may grow and the stale cells may be dropped. -/
theorem yysetstate_continue (s : YYState) (hlen : s.yyss.length < YYMAXDEPTH)
    (hsize : s.yyss.length ≤ s.yystacksize) (hpos : 0 < s.yystacksize)
    (hmax : s.yystacksize ≤ YYMAXDEPTH) (hne : s.yyss.headD 0 ≠ YYFINAL) :
    ∃ size above, yysetstate s = Outcome.continue_ { s with yystacksize := size, above := above }
      ∧ s.yyss.length < size ∧ size ≤ YYMAXDEPTH := by
  unfold yysetstate
  dsimp only []
  simp only [YYMAXDEPTH] at *
  by_cases h1 : s.yystacksize ≤ s.yyss.length
  · rw [if_pos h1]
    have h2 : ¬ (10000 ≤ s.yystacksize) := by omega
    rw [if_neg h2]
    have h3 : ¬ (min (2 * s.yystacksize) 10000 ≤ s.yyss.length) := by omega
    rw [if_neg h3, if_neg hne]
    exact ⟨min (2 * s.yystacksize) 10000, [], rfl, by omega, by omega⟩
  · rw [if_neg h1, if_neg hne]
    exact ⟨s.yystacksize, s.above, rfl, by omega, hmax⟩

theorem yybackup_lex (u : Nat → Nat → YACC) (s : YYState) (t : Token) (rest : List Token)
    (hp : tbl yypact (s.yyss.headD 0) ≠ YYPACT_NINF) (hc : s.yychar = YYEMPTY)
    (hin : s.yyin = t :: rest) (ht : 0 < t.code) :
    yybackup u s = yybackup u { s with yychar := t.code, yylval := t.lval, yyin := rest } := by
  have hl : yylex s = { s with yychar := t.code, yylval := t.lval, yyin := rest } := by
    unfold yylex
    rw [hin]
  have hne : ¬ (t.code = YYEMPTY) := by
    simp only [YYEMPTY]
    omega
  unfold yybackup
  dsimp only []
  rw [if_neg hp, if_neg hp, if_pos hc, hl, if_neg hne]

theorem yybackup_shift (u : Nat → Nat → YACC) (s : YYState) (n : Int) (hc : 0 < s.yychar)
    (hs : shiftTo (s.yyss.headD 0) (YYTRANSLATE s.yychar) = some n) (he : s.yyerrstatus = 0) :
    yybackup u s = yynewstate (({ s with yychar := YYEMPTY }).pushValue s.yylval) n := by
  unfold shiftTo at hs
  split_ifs at hs with h1 h2 h3
  simp only [Option.some.injEq] at hs
  have hne : ¬ (s.yychar = YYEMPTY) := by
    simp only [YYEMPTY]
    omega
  have heof : ¬ (s.yychar ≤ YYEOF) := by
    simp only [YYEOF]
    omega
  unfold yybackup
  dsimp only []
  rw [if_neg h1, if_neg hne, if_neg heof, if_neg heof, if_neg h2, if_neg h3]
  have he' : ¬ (s.yyerrstatus ≠ 0) := by simp [he]
  rw [if_neg he', hs]

theorem yybackup_reduce (u : Nat → Nat → YACC) (s : YYState) (r : Int)
    (hc : tbl yypact (s.yyss.headD 0) = YYPACT_NINF ∨ 0 < s.yychar)
    (hr : reduceBy (s.yyss.headD 0) (YYTRANSLATE s.yychar) = some r) (h0 : r ≠ 0) :
    yybackup u s = yyreduce u s r := by
  unfold reduceBy at hr
  unfold yybackup
  dsimp only []
  by_cases h1 : tbl yypact (s.yyss.headD 0) = YYPACT_NINF
  · rw [if_pos h1] at hr
    simp only [Option.some.injEq] at hr
    rw [if_pos h1]
    unfold yydefault
    dsimp only []
    rw [hr, if_neg h0]
  · rw [if_neg h1] at hr
    rw [if_neg h1]
    have hpos : 0 < s.yychar := hc.resolve_left h1
    have hne : ¬ (s.yychar = YYEMPTY) := by
      simp only [YYEMPTY]
      omega
    have heof : ¬ (s.yychar ≤ YYEOF) := by
      simp only [YYEOF]
      omega
    rw [if_neg hne, if_neg heof, if_neg heof]
    split_ifs at hr with h2 h3
    · simp only [Option.some.injEq] at hr
      rw [if_pos h2]
      unfold yydefault
      dsimp only []
      rw [hr, if_neg h0]
    · simp only [Option.some.injEq] at hr
      rw [if_neg h2, if_pos h3, hr]

/-! ## Facts of the tables about the expression states -/

theorem fact_prim_shift : ∀ s ∈ startStates,
    tbl yypact s ≠ YYPACT_NINF ∧ s ≠ YYFINAL ∧
    shiftTo s (YYTRANSLATE T_NUM) = some 32 ∧ shiftTo s (YYTRANSLATE T_ID) = some 33 ∧
    shiftTo s (YYTRANSLATE 40) = some 35 := by
  decide!

theorem fact_prim_reduce : ∀ s ∈ startStates,
    tbl yypact 32 = YYPACT_NINF ∧ tbl yydefact 32 = 93 ∧
    tbl yypact 33 = YYPACT_NINF ∧ tbl yydefact 33 = 94 ∧
    tbl yypact 103 = YYPACT_NINF ∧ tbl yydefact 103 = 92 ∧
    tbl yyr1 93 = ntOfRank 0 ∧ tbl yyr1 94 = ntOfRank 0 ∧ tbl yyr1 92 = ntOfRank 0 ∧
    tbl yyr2 93 = 1 ∧ tbl yyr2 94 = 1 ∧ tbl yyr2 92 = 3 ∧
    gotoState (ntOfRank 6) 35 = 58 ∧ shiftTo 58 (YYTRANSLATE 41) = some 103 ∧
    tbl yypact (gotoState (ntOfRank 0) s) = YYPACT_NINF ∧
    gotoState (ntOfRank 0) s ≠ YYFINAL := by
  decide!

/-- In the state reached on the non-terminal of rank `k` below the top rank, a follower
that is no operator of rank `k` makes the parser reduce by the unit production. -/
theorem fact_unit : ∀ s ∈ startStates, ∀ k < 6, k < topRank s →
    tbl yyr1 (unitRule k) = ntOfRank (k + 1) ∧ tbl yyr2 (unitRule k) = 1 ∧
    unitRule k ≠ 0 ∧ gotoState (ntOfRank (k + 1)) s ≠ YYFINAL ∧
    (1 ≤ k → tbl yypact (gotoState (ntOfRank k) s) ≠ YYPACT_NINF) ∧
    tbl yypact (gotoState (ntOfRank (k + 1)) s) ≠ YYPACT_NINF ∧
    ∀ a ∈ followCodes, k < rankOfCode a →
      reduceBy (gotoState (ntOfRank k) s) (YYTRANSLATE a) = some (unitRule k) := by
  decide!

/-- In the state reached on the non-terminal of its rank, an operator is shifted, and the
state entered is a start state whose top rank is one less. -/
theorem fact_op_shift : ∀ s ∈ startStates, ∀ op ∈ allBinOps, op.rank ≤ topRank s →
    shiftTo (gotoState (ntOfRank op.rank) s) (YYTRANSLATE op.code) = some op.shifted ∧
    op.shifted ∈ startStates ∧ topRank op.shifted = op.rank - 1 ∧ op.shifted ≠ YYFINAL ∧
    0 < op.code ∧ op.code ∈ followCodes ∧ rankOfCode op.code = op.rank ∧ 1 ≤ op.rank ∧
    op.rank ≤ 6 := by
  decide!

/-- Behind the right operand of an operator, a follower that does not bind tighter makes
the parser reduce by the production of the operator. -/
theorem fact_op_reduce : ∀ op ∈ allBinOps,
    tbl yyr1 op.rule = ntOfRank op.rank ∧ tbl yyr2 op.rule = 3 ∧ op.rule ≠ 0 ∧
    op.rule ∈ binaryRules ∧
    (op.rank = 1 → tbl yypact (gotoState (ntOfRank 0) op.shifted) = YYPACT_NINF ∧
      tbl yydefact (gotoState (ntOfRank 0) op.shifted) = op.rule) ∧
    ∀ a ∈ followCodes, op.rank ≤ rankOfCode a →
      reduceBy (gotoState (ntOfRank (op.rank - 1)) op.shifted) (YYTRANSLATE a)
        = some op.rule := by
  decide!

theorem fact_follow : ∀ a ∈ followCodes, 0 < a := by
  decide

theorem mem_allBinOps (op : BinOp) : op ∈ allBinOps := by
  cases op <;> decide

/-! ## Reachability by one step -/

theorem reach_lex (u : Nat → Nat → YACC) (c : Core) (t : Token) (rest : List Token)
    (hp : tbl yypact (c.yyss.headD 0) ≠ YYPACT_NINF) (hc : c.yychar = YYEMPTY)
    (hin : c.yyin = t :: rest) (ht : 0 < t.code) :
    Reach u c { c with yychar := t.code, yylval := t.lval, yyin := rest } := by
  intro s hs
  obtain ⟨h1, h2, h3, h4, h5, h6, h7, h8, h9, h10⟩ := hs
  refine ⟨{ s with yychar := t.code, yylval := t.lval, yyin := rest }, 0,
    ⟨h1, h2, rfl, rfl, rfl, h6, h7, h8, h9, h10⟩, fun n => ?_⟩
  rw [Nat.zero_add]
  cases n with
  | zero => rfl
  | succ m =>
    unfold yyloop
    rw [yybackup_lex u s t rest (by rw [h1]; exact hp) (by rw [h3]; exact hc)
      (by rw [h5]; exact hin) ht]

theorem reach_shift (u : Nat → Nat → YACC) (c : Core) (n : Int) (hc : 0 < c.yychar)
    (hs : shiftTo (c.yyss.headD 0) (YYTRANSLATE c.yychar) = some n) (hn : n ≠ YYFINAL)
    (hroom : c.yyss.length + 1 < YYMAXDEPTH) :
    Reach u c { c with yyss := n :: c.yyss, yyvs := c.yylval :: c.yyvs, yychar := YYEMPTY } := by
  apply reach_of_step
  intro s hf
  obtain ⟨h1, h2, h3, h4, h5, h6, h7, h8, h9, h10⟩ := hf
  have hb := yybackup_shift u s n (by rw [h3]; exact hc) (by rw [h1, h3]; exact hs) h8
  rw [hb]
  unfold yynewstate
  obtain ⟨size, above, e, l1, l2⟩ := yysetstate_continue
    { (({ s with yychar := YYEMPTY }).pushValue s.yylval) with
      yyss := n :: (({ s with yychar := YYEMPTY }).pushValue s.yylval).yyss }
    (by simp only [YYState.pushValue, List.length_cons, h1]; exact hroom)
    (by simp only [YYState.pushValue, List.length_cons]; omega)
    (by simp only [YYState.pushValue]; omega)
    (by simp only [YYState.pushValue]; exact h10)
    (by simp only [List.headD_cons]; exact hn)
  refine ⟨_, e, ?_⟩
  simp only [YYState.pushValue, List.length_cons] at l1
  refine ⟨?_, ?_, rfl, h4, h5, h6, h7, h8, ?_, l2⟩
  · simp only [YYState.pushValue, h1]
  · simp only [YYState.pushValue, h2, h4]
  · simp only [YYState.pushValue, List.length_cons]
    exact l1

theorem reach_reduce (u : Nat → Nat → YACC) (c : Core) (r : Int) (val : YACC)
    (hc : tbl yypact (c.yyss.headD 0) = YYPACT_NINF ∨ 0 < c.yychar)
    (hr : reduceBy (c.yyss.headD 0) (YYTRANSLATE c.yychar) = some r) (h0 : r ≠ 0)
    (hval : ∀ s, c.fits s →
      yyaction r (s.yyvsp u) (s.yyvsp u (1 - tbl yyr2 r)) s.root = (val, c.root))
    (hn : gotoState (tbl yyr1 r) ((c.yyss.drop (tbl yyr2 r).toNat).headD 0) ≠ YYFINAL)
    (hroom : (c.yyss.drop (tbl yyr2 r).toNat).length + 1 < YYMAXDEPTH)
    (hlen : 1 ≤ (tbl yyr2 r).toNat) :
    Reach u c { c with
      yyss := gotoState (tbl yyr1 r) ((c.yyss.drop (tbl yyr2 r).toNat).headD 0)
        :: c.yyss.drop (tbl yyr2 r).toNat,
      yyvs := val :: c.yyvs.drop (tbl yyr2 r).toNat } := by
  apply reach_of_step
  intro s hf
  have hv := hval s hf
  obtain ⟨h1, h2, h3, h4, h5, h6, h7, h8, h9, h10⟩ := hf
  have hb := yybackup_reduce u s r (by rw [h1, h3]; exact hc) (by rw [h1, h3]; exact hr) h0
  rw [hb]
  unfold yyreduce yynewstate
  dsimp only []
  rw [hv]
  dsimp only []
  have hd : (List.drop (tbl yyr2 r).toNat s.yyss).length ≤ s.yyss.length := by
    rw [List.length_drop]
    omega
  obtain ⟨size, above, e, l1, l2⟩ := yysetstate_continue
    { (({ s with root := c.root }.YYPOPSTACK (tbl yyr2 r).toNat).pushValue val) with
      yyss := gotoState (tbl yyr1 r)
        ((({ s with root := c.root }.YYPOPSTACK (tbl yyr2 r).toNat).pushValue val).yyss.headD 0)
        :: (({ s with root := c.root }.YYPOPSTACK (tbl yyr2 r).toNat).pushValue val).yyss }
    (by simp only [YYState.pushValue, YYState.YYPOPSTACK, List.length_cons, h1]; exact hroom)
    (by simp only [YYState.pushValue, YYState.YYPOPSTACK, List.length_cons]
        rw [List.length_drop]
        omega)
    (by simp only [YYState.pushValue, YYState.YYPOPSTACK]; omega)
    (by simp only [YYState.pushValue, YYState.YYPOPSTACK]; exact h10)
    (by simp only [YYState.pushValue, YYState.YYPOPSTACK, List.headD_cons, h1]; exact hn)
  refine ⟨_, e, ?_⟩
  simp only [YYState.pushValue, YYState.YYPOPSTACK, List.length_cons] at l1
  refine ⟨?_, ?_, h3, h4, h5, h6, rfl, h8, ?_, l2⟩
  · simp only [YYState.pushValue, YYState.YYPOPSTACK, h1]
  · simp only [YYState.pushValue, YYState.YYPOPSTACK, h2]
  · simp only [YYState.pushValue, YYState.YYPOPSTACK, List.length_cons]
    exact l1

/-! ## Values read by the actions -/

theorem fits_yyvsp (u : Nat → Nat → YACC) (c : Core) (s : YYState) (hf : c.fits s) (i : Nat)
    (v : YACC) (h : c.yyvs.get? i = some v) : s.yyvsp u (-(i : Int)) = v := by
  unfold YYState.yyvsp
  have h0 : (-(i : Int)) ≤ 0 := by omega
  rw [if_pos h0, hf.2.1]
  have e : (- -(i : Int)).toNat = i := by
    rw [Int.neg_neg]
    exact Int.toNat_natCast i
  rw [e, List.getD_eq_getElem?_getD]
  rw [List.get?_eq_getElem?] at h
  rw [h]
  rfl

theorem setPtr_self (x : YACC) : x.setPtr x.ptr = x := by
  cases x
  rfl

theorem act_unit (k : Nat) (hk : k < 6) (f : Int → YACC) (yv : YACC) (root : TREE) :
    yyaction (unitRule k) f yv root = (yv.setPtr (f 0).ptr, root) := by
  interval_cases k <;> rfl

theorem act_bin (op : BinOp) (f : Int → YACC) (yv : YACC) (root : TREE) :
    yyaction op.rule f yv root
      = (yv.setPtr (newnode (f (-1)).v (f (-2)).ptr (f 0).ptr nptr nptr), root) := by
  cases op <;> rfl

theorem reduceBy_default (top t : Int) (h : tbl yypact top = YYPACT_NINF) :
    reduceBy top t = some (tbl yydefact top) := by
  unfold reduceBy
  rw [if_pos h]

theorem core_eta (c : Core) :
    ({ c with yyss := c.yyss, yychar := c.yychar, yylval := c.yylval, yyin := c.yyin } : Core)
      = c := by
  cases c
  rfl

/-! ## Climbing the ladder by unit productions -/

theorem topRank_le : ∀ s ∈ startStates, topRank s ≤ 6 := by
  decide

theorem climb_step (u : Nat → Nat → YACC) (s : Int) (hs : s ∈ startStates) (a : Token)
    (ha : a.code ∈ followCodes) (k : Nat) (hk : k < topRank s) (hka : k < rankOfCode a.code)
    (c : Core) (base : List Int) (x : YACC) (vs : List YACC)
    (hss : c.yyss = gotoState (ntOfRank k) s :: base) (hb : base.headD 0 = s)
    (hvs : c.yyvs = x :: vs)
    (hmode : tbl yypact (gotoState (ntOfRank k) s) = YYPACT_NINF ∨ c.yychar = a.code)
    (hroom : base.length + 1 < YYMAXDEPTH) :
    Reach u c { c with yyss := gotoState (ntOfRank (k + 1)) s :: base } := by
  have h6 := topRank_le s hs
  obtain ⟨f1, f2, f3, f4, _, _, f7⟩ := fact_unit s hs k (by omega) hk
  have hred := f7 a.code ha hka
  have hapos : 0 < a.code := fact_follow _ ha
  have hr : reduceBy (c.yyss.headD 0) (YYTRANSLATE c.yychar) = some (unitRule k) := by
    rw [hss, List.headD_cons]
    rcases hmode with hn | hh
    · rw [reduceBy_default _ _ hn]
      rw [reduceBy_default _ _ hn] at hred
      exact hred
    · rw [hh]
      exact hred
  have hc : tbl yypact (c.yyss.headD 0) = YYPACT_NINF ∨ 0 < c.yychar := by
    rw [hss, List.headD_cons]
    rcases hmode with hn | hh
    · exact Or.inl hn
    · right
      rw [hh]
      exact hapos
  have hval : ∀ s', c.fits s' →
      yyaction (unitRule k) (s'.yyvsp u) (s'.yyvsp u (1 - tbl yyr2 (unitRule k))) s'.root
        = (x, c.root) := by
    intro s' hf
    have e0 := fits_yyvsp u c s' hf 0 x (by rw [hvs]; rfl)
    simp only [Nat.cast_zero, neg_zero] at e0
    rw [f2, act_unit k (by omega)]
    simp only [sub_self, e0, setPtr_self, hf.2.2.2.2.2.2.1]
  have key := reach_reduce u c (unitRule k) x hc hr f3 hval
    (by rw [f1, f2, hss]
        simp only [Int.toNat_one, List.drop_succ_cons, List.drop_zero, hb]
        exact f4)
    (by rw [f2, hss]
        simp only [Int.toNat_one, List.drop_succ_cons, List.drop_zero]
        exact hroom)
    (by rw [f2]; simp)
  have e : ({ c with
      yyss := gotoState (tbl yyr1 (unitRule k)) ((c.yyss.drop (tbl yyr2 (unitRule k)).toNat).headD 0)
        :: c.yyss.drop (tbl yyr2 (unitRule k)).toNat,
      yyvs := x :: c.yyvs.drop (tbl yyr2 (unitRule k)).toNat } : Core)
      = { c with yyss := gotoState (ntOfRank (k + 1)) s :: base } := by
    rw [f1, f2, hss, hvs]
    simp only [Int.toNat_one, List.drop_succ_cons, List.drop_zero, hb]
  rw [e] at key
  exact key

theorem climb (u : Nat → Nat → YACC) (s : Int) (hs : s ∈ startStates) (a : Token)
    (ha : a.code ∈ followCodes) (rest : List Token) (T : Nat) (hT1 : 1 ≤ T)
    (hT2 : T ≤ topRank s) (hTa : T ≤ rankOfCode a.code) :
    ∀ (d k : Nat), k + d = T → ∀ (c : Core) (base : List Int) (x : YACC) (vs : List YACC),
      c.yyss = gotoState (ntOfRank k) s :: base → base.headD 0 = s → c.yyvs = x :: vs →
      ((c.yychar = YYEMPTY ∧ c.yyin = a :: rest) ∨
        (c.yychar = a.code ∧ c.yylval = a.lval ∧ c.yyin = rest)) →
      base.length + 1 < YYMAXDEPTH →
      Reach u c { c with
        yyss := gotoState (ntOfRank T) s :: base
        yychar := a.code
        yylval := a.lval
        yyin := rest } := by
  have hapos : 0 < a.code := fact_follow _ ha
  have h6 := topRank_le s hs
  intro d
  induction d with
  | zero =>
    intro k hk c base x vs hss hb hvs hla hroom
    have hkT : k = T := by omega
    subst hkT
    have hnn : tbl yypact (gotoState (ntOfRank k) s) ≠ YYPACT_NINF := by
      have hf := (fact_unit s hs (k - 1) (by omega) (by omega)).2.2.2.2.2.1
      rwa [Nat.sub_add_cancel hT1] at hf
    rcases hla with ⟨e1, e2⟩ | ⟨e1, e2, e3⟩
    · have r := reach_lex u c a rest (by rw [hss]; exact hnn) e1 e2 hapos
      rw [← hss]
      exact r
    · rw [← hss, ← e1, ← e2, ← e3]
      exact Reach.refl u c
  | succ d ih =>
    intro k hk c base x vs hss hb hvs hla hroom
    have hkT : k < T := by omega
    obtain ⟨_, _, _, _, f5, _, _⟩ := fact_unit s hs k (by omega) (by omega)
    rcases hla with ⟨e1, e2⟩ | ⟨e1, e2, e3⟩
    · by_cases hk0 : k = 0
      · -- the state behind a primary reduces without a lookahead
        have hn : tbl yypact (gotoState (ntOfRank k) s) = YYPACT_NINF := by
          rw [hk0]
          exact (fact_prim_reduce s hs).2.2.2.2.2.2.2.2.2.2.2.2.2.2.1
        have st := climb_step u s hs a ha k (by omega) (by omega) c base x vs hss hb hvs
          (Or.inl hn) hroom
        have nx := ih (k + 1) (by omega) { c with yyss := gotoState (ntOfRank (k + 1)) s :: base }
          base x vs rfl hb hvs (Or.inl ⟨e1, e2⟩) hroom
        exact Reach.trans st nx
      · have hnn := f5 (by omega)
        have lx := reach_lex u c a rest (by rw [hss]; exact hnn) e1 e2 hapos
        have st := climb_step u s hs a ha k (by omega) (by omega)
          { c with yychar := a.code, yylval := a.lval, yyin := rest } base x vs hss hb hvs
          (Or.inr rfl) hroom
        have nx := ih (k + 1) (by omega)
          { c with
            yyss := gotoState (ntOfRank (k + 1)) s :: base
            yychar := a.code
            yylval := a.lval
            yyin := rest }
          base x vs rfl hb hvs (Or.inr ⟨rfl, rfl, rfl⟩) hroom
        exact Reach.trans lx (Reach.trans st nx)
    · have st := climb_step u s hs a ha k (by omega) (by omega) c base x vs hss hb hvs
        (Or.inr e1) hroom
      have nx := ih (k + 1) (by omega) { c with yyss := gotoState (ntOfRank (k + 1)) s :: base }
        base x vs rfl hb hvs (Or.inr ⟨e1, e2, e3⟩) hroom
      exact Reach.trans st nx

/-! ## The driver on expressions -/

theorem derives_mono (e : Ex) (k k' : Nat) (hk : k ≤ k') (h : e.derives k = true) :
    e.derives k' = true := by
  cases e with
  | num t => rfl
  | id t => rfl
  | paren e' => exact h
  | bin op l r =>
    simp only [Ex.derives, Bool.and_eq_true, decide_eq_true_eq] at h ⊢
    exact ⟨⟨by omega, h.1.2⟩, h.2⟩

theorem rank_le_of_derives (e : Ex) (k : Nat) (h : e.derives k = true) : e.rank ≤ k := by
  cases e with
  | num t => exact Nat.zero_le _
  | id t => exact Nat.zero_le _
  | paren e' => exact Nat.zero_le _
  | bin op l r =>
    simp only [Ex.derives, Bool.and_eq_true, decide_eq_true_eq] at h
    exact h.1.1

theorem isPrimary_of_derives_zero (e : Ex) (h : e.derives 0 = true) : e.isPrimary = true := by
  cases e with
  | num t => rfl
  | id t => rfl
  | paren e' => exact h
  | bin op l r =>
    simp only [Ex.derives, Bool.and_eq_true, decide_eq_true_eq] at h
    have := h.1.1
    simp only [BinOp.rank] at this
    omega

theorem tokens_pos (e : Ex) : 1 ≤ e.tokens.length := by
  cases e with
  | num t => simp [Ex.tokens]
  | id t => simp [Ex.tokens]
  | paren e' => simp [Ex.tokens]
  | bin op l r =>
    simp only [Ex.tokens, List.length_append, List.length_cons]
    omega

/-- A number or identifier token in a start state: it is shifted, and the state entered
reduces it to Expr at once. -/
theorem reach_leaf (u : Nat → Nat → YACC) (s : Int) (hs : s ∈ startStates) (c : Core)
    (rest : List Token) (code : Int) (text : String) (n r : Int) (lab : String)
    (hcode : 0 < code) (hsh : shiftTo s (YYTRANSLATE code) = some n) (hn6 : n ≠ YYFINAL)
    (hn : tbl yypact n = YYPACT_NINF) (hd : tbl yydefact n = r) (hr0 : r ≠ 0)
    (hr1 : tbl yyr1 r = ntOfRank 0) (hr2 : tbl yyr2 r = 1)
    (hact : ∀ (f : Int → YACC) (yv : YACC) (root : TREE),
      yyaction r f yv root = (yv.setPtr (newleaf lab (f 0).v), root))
    (htop : c.yyss.headD 0 = s) (hc : c.yychar = YYEMPTY) (hin : c.yyin = tok code text :: rest)
    (hroom : c.yyss.length + 2 < YYMAXDEPTH) :
    Reach u c { c with
      yyss := gotoState (ntOfRank 0) s :: c.yyss
      yyvs := ⟨text, newleaf lab text⟩ :: c.yyvs
      yylval := ⟨text, TREE.null⟩
      yyin := rest } := by
  obtain ⟨p1, _, _, _, _⟩ := fact_prim_shift s hs
  have g6 := (fact_prim_reduce s hs).2.2.2.2.2.2.2.2.2.2.2.2.2.2.2
  have lx := reach_lex u c (tok code text) rest (by rw [htop]; exact p1) hc hin hcode
  have sh := reach_shift u
    { c with yychar := (tok code text).code, yylval := (tok code text).lval, yyin := rest } n
    hcode (by show shiftTo (c.yyss.headD 0) (YYTRANSLATE code) = some n; rw [htop]; exact hsh)
    hn6 (by show c.yyss.length + 1 < YYMAXDEPTH; omega)
  have rd := reach_reduce u
    { c with yyss := n :: c.yyss, yyvs := (tok code text).lval :: c.yyvs, yychar := YYEMPTY,
             yylval := (tok code text).lval, yyin := rest }
    r ⟨text, newleaf lab text⟩ (Or.inl hn) (by
      show reduceBy n _ = some r
      rw [reduceBy_default _ _ hn, hd]) hr0
    (by
      intro s' hf
      have e0 := fits_yyvsp u _ s' hf 0 (tok code text).lval rfl
      simp only [Nat.cast_zero, neg_zero] at e0
      rw [hr2, hact]
      simp only [sub_self, e0, hf.2.2.2.2.2.2.1]
      rfl)
    (by
      rw [hr1, hr2]
      simp only [Int.toNat_one, List.drop_succ_cons, List.drop_zero, htop]
      exact g6)
    (by
      rw [hr2]
      simp only [Int.toNat_one, List.drop_succ_cons, List.drop_zero]
      omega)
    (by rw [hr2]; simp)
  have e : ({ c with
      yyss := gotoState (tbl yyr1 r)
          (((n :: c.yyss).drop (tbl yyr2 r).toNat).headD 0)
        :: (n :: c.yyss).drop (tbl yyr2 r).toNat
      yyvs := ⟨text, newleaf lab text⟩
        :: ((tok code text).lval :: c.yyvs).drop (tbl yyr2 r).toNat
      yychar := YYEMPTY
      yylval := (tok code text).lval
      yyin := rest } : Core)
      = { c with
          yyss := gotoState (ntOfRank 0) s :: c.yyss
          yyvs := ⟨text, newleaf lab text⟩ :: c.yyvs
          yylval := ⟨text, TREE.null⟩
          yyin := rest } := by
    rw [hr1, hr2]
    simp only [Int.toNat_one, List.drop_succ_cons, List.drop_zero, htop, hc]
    rfl
  rw [e] at rd
  exact Reach.trans lx (Reach.trans sh rd)

theorem prim_num (u : Nat → Nat → YACC) (t : String) : PrimStmt u (Ex.num t) := by
  intro s hs c rest htop hc hin hroom
  obtain ⟨_, _, sn, _, _⟩ := fact_prim_shift s hs
  obtain ⟨n1, n2, _, _, _, _, r1, _, _, r2, _⟩ := fact_prim_reduce s hs
  refine ⟨t, ⟨t, TREE.null⟩, ?_⟩
  have hroom' : c.yyss.length + 2 < YYMAXDEPTH := by
    simp only [Ex.tokens, List.length_singleton] at hroom
    omega
  exact reach_leaf u s hs c rest T_NUM t 32 93 "num" (by decide) sn (by decide) n1 n2
    (by decide) r1 r2 (fun _ _ _ => rfl) htop hc hin hroom'

theorem prim_id (u : Nat → Nat → YACC) (t : String) : PrimStmt u (Ex.id t) := by
  intro s hs c rest htop hc hin hroom
  obtain ⟨_, _, _, si, _⟩ := fact_prim_shift s hs
  obtain ⟨_, _, n1, n2, _, _, _, r1, _, _, r2, _⟩ := fact_prim_reduce s hs
  refine ⟨t, ⟨t, TREE.null⟩, ?_⟩
  have hroom' : c.yyss.length + 2 < YYMAXDEPTH := by
    simp only [Ex.tokens, List.length_singleton] at hroom
    omega
  exact reach_leaf u s hs c rest T_ID t 33 94 "id" (by decide) si (by decide) n1 n2
    (by decide) r1 r2 (fun _ _ _ => rfl) htop hc hin hroom'

theorem chain_of_prim (u : Nat → Nat → YACC) (e : Ex) (hp : PrimStmt u e) :
    ChainStmt u e := by
  intro s hs h1 _ a ha _ c rest htop hc hin hroom
  obtain ⟨v, lv, ps⟩ := hp s hs c (a :: rest) htop hc hin hroom
  have hra : 1 ≤ rankOfCode a.code := by
    revert ha
    generalize a.code = code
    revert code
    decide
  have cl := climb u s hs a ha rest (min (rankOfCode a.code) (topRank s)) (by omega)
    (Nat.min_le_right _ _) (Nat.min_le_left _ _)
    (min (rankOfCode a.code) (topRank s)) 0 (by omega)
    { c with
      yyss := gotoState (ntOfRank 0) s :: c.yyss
      yyvs := ⟨v, e.tree⟩ :: c.yyvs
      yylval := lv
      yyin := a :: rest }
    c.yyss ⟨v, e.tree⟩ c.yyvs rfl htop rfl (Or.inl ⟨hc, rfl⟩)
    (by have := tokens_pos e; omega)
  exact ⟨v, Reach.trans ps cl⟩

theorem prim_paren (u : Nat → Nat → YACC) (e : Ex) (ih : ChainStmt u e)
    (hd : e.derives 6 = true) : PrimStmt u (Ex.paren e) := by
  intro s hs c rest htop hc hin hroom
  obtain ⟨p1, _, _, _, sp⟩ := fact_prim_shift s hs
  obtain ⟨_, _, _, _, n103, d103, _, _, r1, _, _, r2, g58, s103, _, g6⟩ :=
    fact_prim_reduce s hs
  have hlen : (Ex.paren e).tokens.length = e.tokens.length + 2 := by
    simp [Ex.tokens]
  rw [hlen] at hroom
  have hin' : c.yyin = tok 40 "(" :: (e.tokens ++ tok 41 ")" :: rest) := by
    rw [hin]
    simp [Ex.tokens]
  have lx := reach_lex u c (tok 40 "(") (e.tokens ++ tok 41 ")" :: rest)
    (by rw [htop]; exact p1) hc hin' (by decide)
  have sh := reach_shift u
    { c with
      yychar := (tok 40 "(").code
      yylval := (tok 40 "(").lval
      yyin := e.tokens ++ tok 41 ")" :: rest }
    35 (by show (0 : Int) < 40; decide)
    (by show shiftTo (c.yyss.headD 0) (YYTRANSLATE 40) = some 35; rw [htop]; exact sp)
    (by decide) (by show c.yyss.length + 1 < YYMAXDEPTH; omega)
  have hrk : e.rank ≤ rankOfCode (tok 41 ")").code := by
    have := rank_le_of_derives e 6 hd
    have h7 : rankOfCode (tok 41 ")").code = 7 := by decide
    omega
  obtain ⟨v, ch⟩ := ih 35 (by decide) (by decide) hd (tok 41 ")") (by decide) hrk
    { yyss := 35 :: c.yyss
      yyvs := (tok 40 "(").lval :: c.yyvs
      yychar := YYEMPTY
      yylval := (tok 40 "(").lval
      yyin := e.tokens ++ tok 41 ")" :: rest
      yynerrs := c.yynerrs
      root := c.root }
    rest rfl rfl rfl
    (by show (35 :: c.yyss).length + e.tokens.length + 1 < YYMAXDEPTH
        simp only [List.length_cons]
        omega)
  have g : gotoState (ntOfRank (min (rankOfCode (tok 41 ")").code) (topRank 35))) 35 = 58 := by
    decide
  rw [g] at ch
  have sh2 := reach_shift u
    { yyss := 58 :: 35 :: c.yyss
      yyvs := ⟨v, e.tree⟩ :: (tok 40 "(").lval :: c.yyvs
      yychar := (tok 41 ")").code
      yylval := (tok 41 ")").lval
      yyin := rest
      yynerrs := c.yynerrs
      root := c.root }
    103 (by show (0 : Int) < 41; decide) s103 (by decide)
    (by show (58 :: 35 :: c.yyss).length + 1 < YYMAXDEPTH
        simp only [List.length_cons]
        omega)
  have rd := reach_reduce u
    { yyss := 103 :: 58 :: 35 :: c.yyss
      yyvs := (tok 41 ")").lval :: ⟨v, e.tree⟩ :: (tok 40 "(").lval :: c.yyvs
      yychar := YYEMPTY
      yylval := (tok 41 ")").lval
      yyin := rest
      yynerrs := c.yynerrs
      root := c.root }
    92 ⟨"(", e.tree⟩ (Or.inl n103)
    (by show reduceBy 103 _ = some 92
        rw [reduceBy_default _ _ n103, d103])
    (by decide)
    (by
      intro s' hf
      have e1 := fits_yyvsp u _ s' hf 1 ⟨v, e.tree⟩ rfl
      have e2 := fits_yyvsp u _ s' hf 2 (tok 40 "(").lval rfl
      simp only [Nat.cast_one, Nat.cast_ofNat] at e1 e2
      rw [r2]
      have e3 : (1 : Int) - 3 = -2 := by decide
      rw [e3, e2]
      show ((tok 40 "(").lval.setPtr (s'.yyvsp u (-1)).ptr, s'.root) = _
      rw [e1, hf.2.2.2.2.2.2.1]
      rfl)
    (by
      rw [r1, r2]
      show gotoState (ntOfRank 0) (c.yyss.headD 0) ≠ YYFINAL
      rw [htop]
      exact g6)
    (by
      rw [r2]
      show c.yyss.length + 1 < YYMAXDEPTH
      omega)
    (by rw [r2]; decide)
  have e : ({ yyss := gotoState (tbl yyr1 92)
                ((List.drop (tbl yyr2 92).toNat (103 :: 58 :: 35 :: c.yyss)).headD 0)
              :: List.drop (tbl yyr2 92).toNat (103 :: 58 :: 35 :: c.yyss)
              yyvs := ⟨"(", e.tree⟩
                :: List.drop (tbl yyr2 92).toNat
                    ((tok 41 ")").lval :: ⟨v, e.tree⟩ :: (tok 40 "(").lval :: c.yyvs)
              yychar := YYEMPTY
              yylval := (tok 41 ")").lval
              yyin := rest
              yynerrs := c.yynerrs
              root := c.root } : Core)
      = { c with
          yyss := gotoState (ntOfRank 0) s :: c.yyss
          yyvs := ⟨"(", (Ex.paren e).tree⟩ :: c.yyvs
          yylval := (tok 41 ")").lval
          yyin := rest } := by
    rw [r1, r2, hc]
    show ({ yyss := gotoState (ntOfRank 0) (c.yyss.headD 0) :: c.yyss
            yyvs := ⟨"(", e.tree⟩ :: c.yyvs
            yychar := YYEMPTY
            yylval := (tok 41 ")").lval
            yyin := rest
            yynerrs := c.yynerrs
            root := c.root } : Core) = _
    rw [htop]
    rfl
  refine ⟨"(", (tok 41 ")").lval, ?_⟩
  rw [← e]
  exact Reach.trans lx (Reach.trans sh (Reach.trans ch (Reach.trans sh2 rd)))

/-- A reduction by a rule with three right-hand-side symbols. -/
theorem reach_reduce3 (u : Nat → Nat → YACC) (c : Core) (r lhs : Int) (val : YACC)
    (t1 t2 t3 : Int) (base : List Int) (w1 w2 w3 : YACC) (vs : List YACC)
    (hss : c.yyss = t1 :: t2 :: t3 :: base) (hvs : c.yyvs = w1 :: w2 :: w3 :: vs)
    (hc : tbl yypact t1 = YYPACT_NINF ∨ 0 < c.yychar)
    (hr : reduceBy t1 (YYTRANSLATE c.yychar) = some r) (h0 : r ≠ 0)
    (hr1 : tbl yyr1 r = lhs) (hr2 : tbl yyr2 r = 3)
    (hval : ∀ (f : Int → YACC) (root : TREE), f 0 = w1 → f (-1) = w2 → f (-2) = w3 →
      yyaction r f w3 root = (val, root))
    (hn : gotoState lhs (base.headD 0) ≠ YYFINAL) (hroom : base.length + 1 < YYMAXDEPTH) :
    Reach u c { c with yyss := gotoState lhs (base.headD 0) :: base, yyvs := val :: vs } := by
  have key := reach_reduce u c r val (by rw [hss]; exact hc) (by rw [hss]; exact hr) h0
    (by
      intro s' hf
      have e0 := fits_yyvsp u c s' hf 0 w1 (by rw [hvs]; rfl)
      have e1 := fits_yyvsp u c s' hf 1 w2 (by rw [hvs]; rfl)
      have e2 := fits_yyvsp u c s' hf 2 w3 (by rw [hvs]; rfl)
      simp only [Nat.cast_zero, neg_zero, Nat.cast_one, Nat.cast_ofNat] at e0 e1 e2
      rw [hr2]
      have e3 : (1 : Int) - 3 = -2 := by decide
      rw [e3, e2, hval (s'.yyvsp u) s'.root e0 e1 e2, hf.2.2.2.2.2.2.1])
    (by
      rw [hr1, hr2, hss]
      exact hn)
    (by
      rw [hr2, hss]
      exact hroom)
    (by rw [hr2]; decide)
  have e : ({ c with
      yyss := gotoState (tbl yyr1 r) ((c.yyss.drop (tbl yyr2 r).toNat).headD 0)
        :: c.yyss.drop (tbl yyr2 r).toNat
      yyvs := val :: c.yyvs.drop (tbl yyr2 r).toNat } : Core)
      = { c with yyss := gotoState lhs (base.headD 0) :: base, yyvs := val :: vs } := by
    rw [hr1, hr2, hss, hvs]
    rfl
  rw [e] at key
  exact key

theorem chain_bin (u : Nat → Nat → YACC) (op : BinOp) (l r : Ex) (hl : ChainStmt u l)
    (hr : ChainStmt u r) (hpr : r.isPrimary = true → PrimStmt u r) :
    ChainStmt u (Ex.bin op l r) := by
  intro s hs h1 hder a ha hrank c rest htop hc hin hroom
  simp only [Ex.derives, Bool.and_eq_true, decide_eq_true_eq] at hder
  obtain ⟨⟨hj, hdl⟩, hdr⟩ := hder
  obtain ⟨f_sh, f_mem, f_top, f_ne, f_pos, f_fol, f_rk, f_1, f_6⟩ :=
    fact_op_shift s hs op (mem_allBinOps op) hj
  obtain ⟨q1, q2, q0, _, qn, qr⟩ := fact_op_reduce op (mem_allBinOps op)
  have hrank' : op.rank ≤ rankOfCode a.code := hrank
  have hapos : 0 < a.code := fact_follow _ ha
  have h6 := topRank_le s hs
  have hlen : (Ex.bin op l r).tokens.length = l.tokens.length + 1 + r.tokens.length := by
    simp only [Ex.tokens, List.length_append, List.length_cons]
    omega
  rw [hlen] at hroom
  have hlpos := tokens_pos l
  have hrpos := tokens_pos r
  have hin' : c.yyin = l.tokens ++ op.token :: (r.tokens ++ a :: rest) := by
    rw [hin]
    simp [Ex.tokens]
  have hgoto : gotoState (ntOfRank op.rank) s ≠ YYFINAL := by
    have := (fact_unit s hs (op.rank - 1) (by omega) (by omega)).2.2.2.1
    rwa [Nat.sub_add_cancel f_1] at this
  have hact : ∀ (v1 v2 : String) (f : Int → YACC) (root : TREE),
      f 0 = ⟨v2, r.tree⟩ → f (-1) = op.token.lval → f (-2) = ⟨v1, l.tree⟩ →
      yyaction op.rule f ⟨v1, l.tree⟩ root = (⟨v1, (Ex.bin op l r).tree⟩, root) := by
    intro v1 v2 f root e0 e1 e2
    rw [act_bin, e0, e1, e2]
    rfl
  -- the left operand, with the operator as lookahead
  obtain ⟨v1, chl⟩ := hl s hs h1 (derives_mono l _ _ hj hdl) op.token f_fol
    (by show l.rank ≤ rankOfCode op.code
        rw [f_rk]
        exact rank_le_of_derives l _ hdl)
    c (r.tokens ++ a :: rest) htop hc hin' (by omega)
  have hmin : min (rankOfCode op.token.code) (topRank s) = op.rank := by
    show min (rankOfCode op.code) (topRank s) = op.rank
    rw [f_rk]
    exact Nat.min_eq_left hj
  rw [hmin] at chl
  -- the operator is shifted
  have sh := reach_shift u
    { c with
      yyss := gotoState (ntOfRank op.rank) s :: c.yyss
      yyvs := ⟨v1, l.tree⟩ :: c.yyvs
      yychar := op.token.code
      yylval := op.token.lval
      yyin := r.tokens ++ a :: rest }
    op.shifted f_pos f_sh f_ne
    (by show (gotoState (ntOfRank op.rank) s :: c.yyss).length + 1 < YYMAXDEPTH
        simp only [List.length_cons]
        omega)
  have hT1 : 1 ≤ min (rankOfCode a.code) (topRank s) := by omega
  have hTj : op.rank ≤ min (rankOfCode a.code) (topRank s) := by omega
  by_cases hj1 : op.rank = 1
  · -- the right operand is a primary
    have hrp : r.isPrimary = true :=
      isPrimary_of_derives_zero r (by rw [hj1] at hdr; exact hdr)
    obtain ⟨v2, lv, pr⟩ := hpr hrp op.shifted f_mem
      { yyss := op.shifted :: gotoState (ntOfRank op.rank) s :: c.yyss
        yyvs := op.token.lval :: ⟨v1, l.tree⟩ :: c.yyvs
        yychar := YYEMPTY
        yylval := op.token.lval
        yyin := r.tokens ++ a :: rest
        yynerrs := c.yynerrs
        root := c.root }
      (a :: rest) rfl rfl rfl
      (by show (op.shifted :: gotoState (ntOfRank op.rank) s :: c.yyss).length
            + r.tokens.length + 1 < YYMAXDEPTH
          simp only [List.length_cons]
          omega)
    obtain ⟨qn1, qn2⟩ := qn hj1
    have rd := reach_reduce3 u
      { yyss := gotoState (ntOfRank 0) op.shifted :: op.shifted
          :: gotoState (ntOfRank op.rank) s :: c.yyss
        yyvs := ⟨v2, r.tree⟩ :: op.token.lval :: ⟨v1, l.tree⟩ :: c.yyvs
        yychar := YYEMPTY
        yylval := lv
        yyin := a :: rest
        yynerrs := c.yynerrs
        root := c.root }
      op.rule (ntOfRank op.rank) ⟨v1, (Ex.bin op l r).tree⟩ _ _ _ c.yyss _ _ _ c.yyvs rfl rfl
      (Or.inl qn1) (by rw [reduceBy_default _ _ qn1, qn2]) q0 q1 q2
      (fun f root e0 e1 e2 => hact v1 v2 f root e0 e1 e2)
      (by rw [htop]; exact hgoto) (by omega)
    rw [htop] at rd
    have cl := climb u s hs a ha rest (min (rankOfCode a.code) (topRank s)) hT1
      (Nat.min_le_right _ _) (Nat.min_le_left _ _)
      (min (rankOfCode a.code) (topRank s) - op.rank) op.rank (by omega)
      { yyss := gotoState (ntOfRank op.rank) s :: c.yyss
        yyvs := ⟨v1, (Ex.bin op l r).tree⟩ :: c.yyvs
        yychar := YYEMPTY
        yylval := lv
        yyin := a :: rest
        yynerrs := c.yynerrs
        root := c.root }
      c.yyss ⟨v1, (Ex.bin op l r).tree⟩ c.yyvs rfl htop rfl (Or.inl ⟨rfl, rfl⟩) (by omega)
    exact ⟨v1, Reach.trans chl (Reach.trans sh (Reach.trans pr (Reach.trans rd cl)))⟩
  · -- the right operand is an expression of the next lower rank
    obtain ⟨v2, chr⟩ := hr op.shifted f_mem (by rw [f_top]; omega)
      (by rw [f_top]; exact hdr) a ha
      (by have := rank_le_of_derives r _ hdr; omega)
      { yyss := op.shifted :: gotoState (ntOfRank op.rank) s :: c.yyss
        yyvs := op.token.lval :: ⟨v1, l.tree⟩ :: c.yyvs
        yychar := YYEMPTY
        yylval := op.token.lval
        yyin := r.tokens ++ a :: rest
        yynerrs := c.yynerrs
        root := c.root }
      rest rfl rfl rfl
      (by show (op.shifted :: gotoState (ntOfRank op.rank) s :: c.yyss).length
            + r.tokens.length + 1 < YYMAXDEPTH
          simp only [List.length_cons]
          omega)
    have hmin2 : min (rankOfCode a.code) (topRank op.shifted) = op.rank - 1 := by
      rw [f_top]
      omega
    rw [hmin2] at chr
    have rd := reach_reduce3 u
      { yyss := gotoState (ntOfRank (op.rank - 1)) op.shifted :: op.shifted
          :: gotoState (ntOfRank op.rank) s :: c.yyss
        yyvs := ⟨v2, r.tree⟩ :: op.token.lval :: ⟨v1, l.tree⟩ :: c.yyvs
        yychar := a.code
        yylval := a.lval
        yyin := rest
        yynerrs := c.yynerrs
        root := c.root }
      op.rule (ntOfRank op.rank) ⟨v1, (Ex.bin op l r).tree⟩ _ _ _ c.yyss _ _ _ c.yyvs rfl rfl
      (Or.inr hapos) (qr a.code ha hrank') q0 q1 q2
      (fun f root e0 e1 e2 => hact v1 v2 f root e0 e1 e2)
      (by rw [htop]; exact hgoto) (by omega)
    rw [htop] at rd
    have cl := climb u s hs a ha rest (min (rankOfCode a.code) (topRank s)) hT1
      (Nat.min_le_right _ _) (Nat.min_le_left _ _)
      (min (rankOfCode a.code) (topRank s) - op.rank) op.rank (by omega)
      { yyss := gotoState (ntOfRank op.rank) s :: c.yyss
        yyvs := ⟨v1, (Ex.bin op l r).tree⟩ :: c.yyvs
        yychar := a.code
        yylval := a.lval
        yyin := rest
        yynerrs := c.yynerrs
        root := c.root }
      c.yyss ⟨v1, (Ex.bin op l r).tree⟩ c.yyvs rfl htop rfl (Or.inr ⟨rfl, rfl, rfl⟩)
      (by omega)
    exact ⟨v1, Reach.trans chl (Reach.trans sh (Reach.trans chr (Reach.trans rd cl)))⟩

/-- The driver on every expression: a primary is reduced to Expr, and a derivable
expression is reduced as far as its follower allows. -/
theorem expr_runs (u : Nat → Nat → YACC) (e : Ex) :
    (e.isPrimary = true → PrimStmt u e) ∧ ChainStmt u e := by
  induction e with
  | num t => exact ⟨fun _ => prim_num u t, chain_of_prim u _ (prim_num u t)⟩
  | id t => exact ⟨fun _ => prim_id u t, chain_of_prim u _ (prim_id u t)⟩
  | paren e ih =>
    refine ⟨fun h => prim_paren u e ih.2 h, ?_⟩
    intro s hs h1 hder
    exact chain_of_prim u _ (prim_paren u e ih.2 hder) s hs h1 hder
  | bin op l r ihl ihr =>
    refine ⟨fun h => ?_, chain_bin u op l r ihl.2 ihr.2 ihr.1⟩
    exact absurd h Bool.false_ne_true

/-! ## Steps on explicit configurations -/

theorem Ends.of_reach {u : Nat → Nat → YACC} {c c' : Core} {Q : Int × YYState → Prop}
    (h1 : Reach u c c') (h2 : Ends u c' Q) : Ends u c Q := by
  intro s hs
  obtain ⟨s1, k1, f1, e1⟩ := h1 s hs
  obtain ⟨k2, r, hq, e2⟩ := h2 s1 f1
  refine ⟨k1 + k2, r, hq, fun n => ?_⟩
  rw [Nat.add_assoc, Nat.add_assoc, e1, ← Nat.add_assoc, e2]

/-- Reading a token and shifting it. -/
theorem step_shift (u : Nat → Nat → YACC) (top : Int) (ss : List Int) (vs : List YACC)
    (lv : YACC) (t : Token) (rest : List Token) (n : Int) (nerrs : Int) (root : TREE)
    (h : shiftTo top (YYTRANSLATE t.code) = some n ∧ 0 < t.code
      ∧ tbl yypact top ≠ YYPACT_NINF ∧ n ≠ YYFINAL)
    (hroom : (top :: ss).length + 1 < YYMAXDEPTH) :
    Reach u ⟨top :: ss, vs, YYEMPTY, lv, t :: rest, nerrs, root⟩
      ⟨n :: top :: ss, t.lval :: vs, YYEMPTY, t.lval, rest, nerrs, root⟩ := by
  obtain ⟨h1, h2, h3, h4⟩ := h
  have lx := reach_lex u ⟨top :: ss, vs, YYEMPTY, lv, t :: rest, nerrs, root⟩ t rest h3 rfl rfl h2
  have sh := reach_shift u ⟨top :: ss, vs, t.code, t.lval, rest, nerrs, root⟩ n h2 h1 h4 hroom
  exact Reach.trans lx sh

/-- Shifting the token that has been read. -/
theorem step_shift_held (u : Nat → Nat → YACC) (top : Int) (ss : List Int) (vs : List YACC)
    (lv : YACC) (code : Int) (rest : List Token) (n : Int) (nerrs : Int) (root : TREE)
    (h : shiftTo top (YYTRANSLATE code) = some n ∧ 0 < code ∧ n ≠ YYFINAL)
    (hroom : (top :: ss).length + 1 < YYMAXDEPTH) :
    Reach u ⟨top :: ss, vs, code, lv, rest, nerrs, root⟩
      ⟨n :: top :: ss, lv :: vs, YYEMPTY, lv, rest, nerrs, root⟩ :=
  reach_shift u ⟨top :: ss, vs, code, lv, rest, nerrs, root⟩ n h.2.1 h.1 h.2.2 hroom

/-- Reading a token without acting on it yet. -/
theorem step_lex (u : Nat → Nat → YACC) (top : Int) (ss : List Int) (vs : List YACC)
    (lv : YACC) (t : Token) (rest : List Token) (nerrs : Int) (root : TREE)
    (h : 0 < t.code ∧ tbl yypact top ≠ YYPACT_NINF) :
    Reach u ⟨top :: ss, vs, YYEMPTY, lv, t :: rest, nerrs, root⟩
      ⟨top :: ss, vs, t.code, t.lval, rest, nerrs, root⟩ :=
  reach_lex u ⟨top :: ss, vs, YYEMPTY, lv, t :: rest, nerrs, root⟩ t rest h.2 rfl rfl h.1

/-- A reduction by a rule with an empty right-hand side: the value pushed is computed from
the stale cell above the top of the value stack, whatever it holds. -/
theorem step_reduce_empty (u : Nat → Nat → YACC) (c : Core) (r : Int) (val : YACC → YACC)
    (h : (tbl yypact (c.yyss.headD 0) = YYPACT_NINF ∨ 0 < c.yychar)
      ∧ reduceBy (c.yyss.headD 0) (YYTRANSLATE c.yychar) = some r ∧ r ≠ 0
      ∧ tbl yyr2 r = 0)
    (hg : gotoState (tbl yyr1 r) (c.yyss.headD 0) ≠ YYFINAL
      ∧ c.yyss.length + 1 < YYMAXDEPTH)
    (hval : ∀ (f : Int → YACC) (yv : YACC) (root : TREE),
      yyaction r f yv root = (val yv, root)) :
    ∀ s, c.fits s → ∃ (J : YACC) (s' : YYState),
      ({ c with
          yyss := gotoState (tbl yyr1 r) (c.yyss.headD 0) :: c.yyss
          yyvs := val J :: c.yyvs } : Core).fits s'
      ∧ ∀ n, yyloop u (1 + n) s = yyloop u n s' := by
  intro s hf
  obtain ⟨h1, h2, h3, h4, h5, h6, h7, h8, h9, h10⟩ := hf
  obtain ⟨ha, hb, hc, hd⟩ := h
  have hbk := yybackup_reduce u s r (by rw [h1, h3]; exact ha) (by rw [h1, h3]; exact hb) hc
  have hred : yyreduce u s r = yysetstate
      { (s.pushValue (val (s.yyvsp u 1))) with
        yyss := gotoState (tbl yyr1 r) (s.yyss.headD 0) :: s.yyss } := by
    unfold yyreduce yynewstate
    dsimp only []
    rw [hval, hd]
    rfl
  obtain ⟨size, above, e, l1, l2⟩ := yysetstate_continue
    { (s.pushValue (val (s.yyvsp u 1))) with
      yyss := gotoState (tbl yyr1 r) (s.yyss.headD 0) :: s.yyss }
    (by simp only [List.length_cons, h1]; exact hg.2)
    (by simp only [YYState.pushValue, List.length_cons]; omega)
    (by simp only [YYState.pushValue]; omega)
    (by simp only [YYState.pushValue]; exact h10)
    (by simp only [List.headD_cons, h1]; exact hg.1)
  refine ⟨s.yyvsp u 1, _, ?_, yyloop_step u s _ (by rw [hbk, hred, e])⟩
  simp only [List.length_cons] at l1
  refine ⟨?_, ?_, h3, h4, h5, h6, h7, h8, ?_, l2⟩
  · simp only [YYState.pushValue, h1]
  · simp only [YYState.pushValue, h2]
  · simp only [YYState.pushValue, List.length_cons]
    exact l1

theorem reach_through_empty (u : Nat → Nat → YACC) (c c' : Core) (r : Int) (val : YACC → YACC)
    (h : (tbl yypact (c.yyss.headD 0) = YYPACT_NINF ∨ 0 < c.yychar)
      ∧ reduceBy (c.yyss.headD 0) (YYTRANSLATE c.yychar) = some r ∧ r ≠ 0
      ∧ tbl yyr2 r = 0)
    (hg : gotoState (tbl yyr1 r) (c.yyss.headD 0) ≠ YYFINAL
      ∧ c.yyss.length + 1 < YYMAXDEPTH)
    (hval : ∀ (f : Int → YACC) (yv : YACC) (root : TREE),
      yyaction r f yv root = (val yv, root))
    (next : ∀ J : YACC, Reach u { c with
        yyss := gotoState (tbl yyr1 r) (c.yyss.headD 0) :: c.yyss
        yyvs := val J :: c.yyvs } c') :
    Reach u c c' := by
  intro s hf
  obtain ⟨J, s1, f1, e1⟩ := step_reduce_empty u c r val h hg hval s hf
  obtain ⟨s2, k, f2, e2⟩ := next J s1 f1
  refine ⟨s2, 1 + k, f2, fun n => ?_⟩
  rw [Nat.add_assoc, e1, e2]

theorem ends_through_empty (u : Nat → Nat → YACC) (c : Core) (r : Int) (val : YACC → YACC)
    (Q : Int × YYState → Prop)
    (h : (tbl yypact (c.yyss.headD 0) = YYPACT_NINF ∨ 0 < c.yychar)
      ∧ reduceBy (c.yyss.headD 0) (YYTRANSLATE c.yychar) = some r ∧ r ≠ 0
      ∧ tbl yyr2 r = 0)
    (hg : gotoState (tbl yyr1 r) (c.yyss.headD 0) ≠ YYFINAL
      ∧ c.yyss.length + 1 < YYMAXDEPTH)
    (hval : ∀ (f : Int → YACC) (yv : YACC) (root : TREE),
      yyaction r f yv root = (val yv, root))
    (next : ∀ J : YACC, Ends u { c with
        yyss := gotoState (tbl yyr1 r) (c.yyss.headD 0) :: c.yyss
        yyvs := val J :: c.yyvs } Q) :
    Ends u c Q := by
  intro s hf
  obtain ⟨J, s1, f1, e1⟩ := step_reduce_empty u c r val h hg hval s hf
  obtain ⟨k, res, hq, e2⟩ := next J s1 f1
  refine ⟨1 + k, res, hq, fun n => ?_⟩
  rw [Nat.add_assoc, Nat.add_assoc, e1, ← Nat.add_assoc, e2]

theorem yysetstate_accept (s : YYState) (hlen : s.yyss.length < YYMAXDEPTH)
    (hsize : s.yyss.length ≤ s.yystacksize) (hpos : 0 < s.yystacksize)
    (hmax : s.yystacksize ≤ YYMAXDEPTH) (hf : s.yyss.headD 0 = YYFINAL) :
    ∃ t, yysetstate s = Outcome.return_ 0 t ∧ t.root = s.root ∧ t.yynerrs = s.yynerrs := by
  unfold yysetstate
  dsimp only []
  simp only [YYMAXDEPTH] at *
  by_cases h1 : s.yystacksize ≤ s.yyss.length
  · rw [if_pos h1]
    have h2 : ¬ (10000 ≤ s.yystacksize) := by omega
    rw [if_neg h2]
    have h3 : ¬ (min (2 * s.yystacksize) 10000 ≤ s.yyss.length) := by omega
    rw [if_neg h3, if_pos hf]
    exact ⟨_, rfl, rfl, rfl⟩
  · rw [if_neg h1, if_pos hf]
    exact ⟨_, rfl, rfl, rfl⟩

/-- In state 3 at the end of the input the parser shifts the end marker and accepts. -/
theorem ends_accept (u : Nat → Nat → YACC) (ss : List Int) (vs : List YACC) (lv : YACC)
    (nerrs : Int) (root : TREE) (hroom : (3 :: ss).length + 1 < YYMAXDEPTH) :
    Ends u ⟨3 :: ss, vs, YYEMPTY, lv, [], nerrs, root⟩
      (fun res => res.1 = 0 ∧ res.2.root = root ∧ res.2.yynerrs = nerrs) := by
  intro s hf
  obtain ⟨h1, h2, h3, h4, h5, h6, h7, h8, h9, h10⟩ := hf
  simp only at h1 h2 h3 h4 h5 h6 h7
  have hl : yylex s = { s with yychar := 0 } := by
    unfold yylex
    rw [h5]
  have p3 : tbl yypact 3 = 21 := by decide
  have c1 : tbl yycheck 21 = 0 := by decide
  have c2 : tbl yytable 21 = 6 := by decide
  have hb : yybackup u s
      = yynewstate (({ s with yychar := YYEMPTY }).pushValue s.yylval) 6 := by
    unfold yybackup
    dsimp only []
    rw [h1, List.headD_cons, p3, if_neg (by decide), if_pos h3, hl]
    simp only [YYEOF, YYLAST, le_refl, if_true, add_zero, c1, c2, h8]
    rw [if_neg (by decide), if_neg (by decide), if_neg (by decide)]
    simp only [YYState.pushValue, h8, h1]
  obtain ⟨t, e, r1, r2⟩ := yysetstate_accept
    { (({ s with yychar := YYEMPTY } : YYState).pushValue s.yylval) with yyss := 6 :: s.yyss }
    (by simp only [List.length_cons, h1]; exact hroom)
    (by simp only [YYState.pushValue, List.length_cons]; omega)
    (by simp only [YYState.pushValue]; omega)
    (by simp only [YYState.pushValue]; exact h10)
    rfl
  refine ⟨0, (0, t), ⟨rfl, ?_, ?_⟩, fun n => ?_⟩
  · rw [r1]
    exact h7
  · rw [r2]
    exact h6
  · rw [Nat.zero_add, Nat.add_comm]
    show (match yybackup u s with
      | Outcome.return_ yyresult s => some (yyresult, s)
      | Outcome.continue_ s => yyloop u n s) = _
    have e2 : yynewstate (({ s with yychar := YYEMPTY }).pushValue s.yylval) 6
        = Outcome.return_ 0 t := e
    rw [hb, e2]

/-- A reduction by a rule with a non-empty right-hand side, on an explicit configuration. -/
theorem step_reduce (u : Nat → Nat → YACC) (ss : List Int) (vs : List YACC) (ch : Int)
    (lv : YACC) (inp : List Token) (nerrs : Int) (root root' : TREE) (r : Int) (val : YACC)
    (ss' : List Int) (g : Int) (vs' : List YACC)
    (h : (tbl yypact (ss.headD 0) = YYPACT_NINF ∨ 0 < ch)
      ∧ reduceBy (ss.headD 0) (YYTRANSLATE ch) = some r ∧ r ≠ 0
      ∧ 1 ≤ (tbl yyr2 r).toNat ∧ ss.drop (tbl yyr2 r).toNat = ss'
      ∧ gotoState (tbl yyr1 r) (ss'.headD 0) = g ∧ g ≠ YYFINAL
      ∧ ss'.length + 1 < YYMAXDEPTH)
    (hvs : vs.drop (tbl yyr2 r).toNat = vs')
    (hval : ∀ s, Core.fits ⟨ss, vs, ch, lv, inp, nerrs, root⟩ s →
      yyaction r (s.yyvsp u) (s.yyvsp u (1 - tbl yyr2 r)) s.root = (val, root')) :
    Reach u ⟨ss, vs, ch, lv, inp, nerrs, root⟩ ⟨g :: ss', val :: vs', ch, lv, inp, nerrs, root'⟩ := by
  obtain ⟨hc, hr, h0, hlen, hss, hg, hn, hroom⟩ := h
  subst hss hg hvs
  apply reach_of_step
  intro s hf
  have hv := hval s hf
  obtain ⟨h1, h2, h3, h4, h5, h6, h7, h8, h9, h10⟩ := hf
  simp only at h1 h2 h3 h4 h5 h6 h7
  have hb := yybackup_reduce u s r (by rw [h1, h3]; exact hc) (by rw [h1, h3]; exact hr) h0
  rw [hb]
  unfold yyreduce yynewstate
  dsimp only []
  rw [hv]
  dsimp only []
  have hd : (List.drop (tbl yyr2 r).toNat s.yyss).length ≤ s.yyss.length := by
    rw [List.length_drop]
    omega
  obtain ⟨size, above, e, l1, l2⟩ := yysetstate_continue
    { (({ s with root := root' }.YYPOPSTACK (tbl yyr2 r).toNat).pushValue val) with
      yyss := gotoState (tbl yyr1 r)
        ((({ s with root := root' }.YYPOPSTACK (tbl yyr2 r).toNat).pushValue val).yyss.headD 0)
        :: (({ s with root := root' }.YYPOPSTACK (tbl yyr2 r).toNat).pushValue val).yyss }
    (by simp only [YYState.pushValue, YYState.YYPOPSTACK, List.length_cons, h1]; exact hroom)
    (by simp only [YYState.pushValue, YYState.YYPOPSTACK, List.length_cons]
        rw [List.length_drop]
        omega)
    (by simp only [YYState.pushValue, YYState.YYPOPSTACK]; omega)
    (by simp only [YYState.pushValue, YYState.YYPOPSTACK]; exact h10)
    (by simp only [YYState.pushValue, YYState.YYPOPSTACK, List.headD_cons, h1]; exact hn)
  refine ⟨_, e, ?_⟩
  simp only [YYState.pushValue, YYState.YYPOPSTACK, List.length_cons] at l1
  refine ⟨?_, ?_, h3, h4, h5, h6, rfl, h8, ?_, l2⟩
  · simp only [YYState.pushValue, YYState.YYPOPSTACK, h1]
  · simp only [YYState.pushValue, YYState.YYPOPSTACK, h2]
  · simp only [YYState.pushValue, YYState.YYPOPSTACK, List.length_cons]
    exact l1

/-- A reduction by an empty rule on an explicit configuration, followed by a run that does
not depend on the stale value. -/
theorem step_empty (u : Nat → Nat → YACC) (top : Int) (ss : List Int) (vs : List YACC)
    (ch : Int) (lv : YACC) (inp : List Token) (nerrs : Int) (root : TREE) (r : Int)
    (val : YACC → YACC) (g : Int) (c' : Core)
    (h : (tbl yypact top = YYPACT_NINF ∨ 0 < ch)
      ∧ reduceBy top (YYTRANSLATE ch) = some r ∧ r ≠ 0 ∧ tbl yyr2 r = 0
      ∧ gotoState (tbl yyr1 r) top = g ∧ g ≠ YYFINAL)
    (hroom : (top :: ss).length + 1 < YYMAXDEPTH)
    (hval : ∀ (f : Int → YACC) (yv : YACC) (root : TREE),
      yyaction r f yv root = (val yv, root))
    (next : ∀ J : YACC,
      Reach u ⟨g :: top :: ss, val J :: vs, ch, lv, inp, nerrs, root⟩ c') :
    Reach u ⟨top :: ss, vs, ch, lv, inp, nerrs, root⟩ c' := by
  obtain ⟨h1, h2, h3, h4, h5, h6⟩ := h
  subst h5
  exact reach_through_empty u ⟨top :: ss, vs, ch, lv, inp, nerrs, root⟩ c' r val
    ⟨h1, h2, h3, h4⟩ ⟨h6, hroom⟩ hval next

theorem step_empty_ends (u : Nat → Nat → YACC) (top : Int) (ss : List Int) (vs : List YACC)
    (ch : Int) (lv : YACC) (inp : List Token) (nerrs : Int) (root : TREE) (r : Int)
    (val : YACC → YACC) (g : Int) (Q : Int × YYState → Prop)
    (h : (tbl yypact top = YYPACT_NINF ∨ 0 < ch)
      ∧ reduceBy top (YYTRANSLATE ch) = some r ∧ r ≠ 0 ∧ tbl yyr2 r = 0
      ∧ gotoState (tbl yyr1 r) top = g ∧ g ≠ YYFINAL)
    (hroom : (top :: ss).length + 1 < YYMAXDEPTH)
    (hval : ∀ (f : Int → YACC) (yv : YACC) (root : TREE),
      yyaction r f yv root = (val yv, root))
    (next : ∀ J : YACC,
      Ends u ⟨g :: top :: ss, val J :: vs, ch, lv, inp, nerrs, root⟩ Q) :
    Ends u ⟨top :: ss, vs, ch, lv, inp, nerrs, root⟩ Q := by
  obtain ⟨h1, h2, h3, h4, h5, h6⟩ := h
  subst h5
  exact ends_through_empty u ⟨top :: ss, vs, ch, lv, inp, nerrs, root⟩ r val Q
    ⟨h1, h2, h3, h4⟩ ⟨h6, hroom⟩ hval next

theorem Ends.mono {u : Nat → Nat → YACC} {c : Core} {Q Q' : Int × YYState → Prop}
    (h : ∀ r, Q r → Q' r) (h1 : Ends u c Q) : Ends u c Q' := by
  intro s hs
  obtain ⟨k, r, hq, e⟩ := h1 s hs
  exact ⟨k, r, h r hq, e⟩

/-! ## The run over the class and method headers -/

/-- The tokens of the class and method headers and of `t =` take the parser from its start
to the state after an assignment operator. -/
theorem prefix_runs (u : Nat → Nat → YACC) (rest : List Token) :
    Reach u
      ⟨[0],
       [],
       YYEMPTY, ⟨"", TREE.null⟩,
        tok T_PUBLIC "public" :: tok T_CLASS "class" :: tok T_ID "A" :: tok 123 "\x7b" ::
        tok T_PUBLIC "public" :: tok T_STATIC "static" :: tok T_VOID "void" ::
        tok T_MAIN "main" :: tok 40 "(" :: tok T_STRING "String" :: tok 91 "[" :: tok 93 "]" ::
        tok T_ARGS "args" :: tok 41 ")" :: tok 123 "\x7b" :: tok T_ID "t" :: tok T_ASSGN "=" ::
        rest,
       0, TREE.null⟩
      ⟨[95, 53, 28, 27, 26, 25, 24, 23, 22, 21, 20, 13, 11, 10, 7, 4, 0],
       [⟨"=", TREE.null⟩, ⟨"t", newleaf "id" "t"⟩, ⟨"\x7b", TREE.null⟩, ⟨")", TREE.null⟩,
        ⟨"args", TREE.null⟩, ⟨"]", TREE.null⟩, ⟨"[", TREE.null⟩,
        ⟨"String", newleaf "datatype" "String"⟩, ⟨"(", TREE.null⟩, ⟨"main", TREE.null⟩,
        ⟨"void", newleaf "datatype" "void"⟩,
        ⟨"public", newnode "modifier" (newleaf "access modifier" "public") (newleaf
            "access modifier" "static") TREE.null TREE.null⟩,
        ⟨"\x7b", TREE.null⟩, ⟨"A", TREE.null⟩, ⟨"class", TREE.null⟩,
        ⟨"public", newnode "modifier" (newleaf "access modifier" "public") TREE.null TREE.null
            TREE.null⟩],
       YYEMPTY, ⟨"=", TREE.null⟩,
        rest,
       0, TREE.null⟩ := by
  refine Reach.trans (step_shift u _ _ _ _ _ _ 1 _ _ (by decide) (by decide)) ?_
  refine Reach.trans (step_reduce u _ _ _ _ _ _ _ _ 5
    ⟨"public", newleaf "access modifier" "public"⟩
    [0] 5 _ (by decide) rfl
    (fun s hf => by
      obtain ⟨_, h2, _, _, _, _, h7, _⟩ := hf
      unfold YYState.yyvsp
      rw [h2, h7]
      rfl)) ?_
  refine Reach.trans (step_lex u _ _ _ _ _ _ _ _ (by decide)) ?_
  refine step_empty u _ _ _ _ _ _ _ _ 8 (fun yv => yv.setPtr nptr) 9 _ (by decide) (by decide)
    (fun _ _ _ => rfl) (fun J => ?_)
  refine Reach.trans (step_reduce u _ _ _ _ _ _ _ _ 4
    ⟨"public", newnode "modifier" (newleaf "access modifier" "public") TREE.null TREE.null
        TREE.null⟩
    [0] 4 _ (by decide) rfl
    (fun s hf => by
      obtain ⟨_, h2, _, _, _, _, h7, _⟩ := hf
      unfold YYState.yyvsp
      rw [h2, h7]
      rfl)) ?_
  refine Reach.trans (step_shift_held u _ _ _ _ _ _ 7 _ _ (by decide) (by decide)) ?_
  refine Reach.trans (step_shift u _ _ _ _ _ _ 10 _ _ (by decide) (by decide)) ?_
  refine Reach.trans (step_shift u _ _ _ _ _ _ 11 _ _ (by decide) (by decide)) ?_
  refine Reach.trans (step_shift u _ _ _ _ _ _ 1 _ _ (by decide) (by decide)) ?_
  refine Reach.trans (step_reduce u _ _ _ _ _ _ _ _ 5
    ⟨"public", newleaf "access modifier" "public"⟩
    [11, 10, 7, 4, 0] 5 _ (by decide) rfl
    (fun s hf => by
      obtain ⟨_, h2, _, _, _, _, h7, _⟩ := hf
      unfold YYState.yyvsp
      rw [h2, h7]
      rfl)) ?_
  refine Reach.trans (step_shift u _ _ _ _ _ _ 8 _ _ (by decide) (by decide)) ?_
  refine Reach.trans (step_reduce u _ _ _ _ _ _ _ _ 7
    ⟨"static", newleaf "access modifier" "static"⟩
    [5, 11, 10, 7, 4, 0] 9 _ (by decide) rfl
    (fun s hf => by
      obtain ⟨_, h2, _, _, _, _, h7, _⟩ := hf
      unfold YYState.yyvsp
      rw [h2, h7]
      rfl)) ?_
  refine Reach.trans (step_reduce u _ _ _ _ _ _ _ _ 4
    ⟨"public", newnode "modifier" (newleaf "access modifier" "public") (newleaf "access modifier"
        "static") TREE.null TREE.null⟩
    [11, 10, 7, 4, 0] 13 _ (by decide) rfl
    (fun s hf => by
      obtain ⟨_, h2, _, _, _, _, h7, _⟩ := hf
      unfold YYState.yyvsp
      rw [h2, h7]
      rfl)) ?_
  refine Reach.trans (step_shift u _ _ _ _ _ _ 15 _ _ (by decide) (by decide)) ?_
  refine Reach.trans (step_reduce u _ _ _ _ _ _ _ _ 62
    ⟨"void", newleaf "datatype" "void"⟩
    [13, 11, 10, 7, 4, 0] 20 _ (by decide) rfl
    (fun s hf => by
      obtain ⟨_, h2, _, _, _, _, h7, _⟩ := hf
      unfold YYState.yyvsp
      rw [h2, h7]
      rfl)) ?_
  refine Reach.trans (step_shift u _ _ _ _ _ _ 21 _ _ (by decide) (by decide)) ?_
  refine Reach.trans (step_shift u _ _ _ _ _ _ 22 _ _ (by decide) (by decide)) ?_
  refine Reach.trans (step_shift u _ _ _ _ _ _ 19 _ _ (by decide) (by decide)) ?_
  refine Reach.trans (step_reduce u _ _ _ _ _ _ _ _ 61
    ⟨"String", newleaf "datatype" "String"⟩
    [22, 21, 20, 13, 11, 10, 7, 4, 0] 23 _ (by decide) rfl
    (fun s hf => by
      obtain ⟨_, h2, _, _, _, _, h7, _⟩ := hf
      unfold YYState.yyvsp
      rw [h2, h7]
      rfl)) ?_
  refine Reach.trans (step_shift u _ _ _ _ _ _ 24 _ _ (by decide) (by decide)) ?_
  refine Reach.trans (step_shift u _ _ _ _ _ _ 25 _ _ (by decide) (by decide)) ?_
  refine Reach.trans (step_shift u _ _ _ _ _ _ 26 _ _ (by decide) (by decide)) ?_
  refine Reach.trans (step_shift u _ _ _ _ _ _ 27 _ _ (by decide) (by decide)) ?_
  refine Reach.trans (step_shift u _ _ _ _ _ _ 28 _ _ (by decide) (by decide)) ?_
  refine Reach.trans (step_shift u _ _ _ _ _ _ 33 _ _ (by decide) (by decide)) ?_
  refine Reach.trans (step_reduce u _ _ _ _ _ _ _ _ 94
    ⟨"t", newleaf "id" "t"⟩
    [28, 27, 26, 25, 24, 23, 22, 21, 20, 13, 11, 10, 7, 4, 0] 53 _ (by decide) rfl
    (fun s hf => by
      obtain ⟨_, h2, _, _, _, _, h7, _⟩ := hf
      unfold YYState.yyvsp
      rw [h2, h7]
      rfl)) ?_
  refine Reach.trans (step_shift u _ _ _ _ _ _ 67 _ _ (by decide) (by decide)) ?_
  refine Reach.trans (step_reduce u _ _ _ _ _ _ _ _ 64
    ⟨"=", TREE.null⟩
    [53, 28, 27, 26, 25, 24, 23, 22, 21, 20, 13, 11, 10, 7, 4, 0] 95 _ (by decide) rfl
    (fun s hf => by
      obtain ⟨_, h2, _, _, _, _, h7, _⟩ := hf
      unfold YYState.yyvsp
      rw [h2, h7]
      rfl)) ?_
  exact Reach.refl u _

/-! ## The run after the assignment's right-hand side -/

/-- With the right-hand side on the stack and the semicolon read, the two closing braces
take the parser to acceptance, and the tree of the right-hand side is the second child of
the assignment's node in the tree at `ast->root`. -/
theorem suffix_ends (u : Nat → Nat → YACC) (v : String) (t : TREE) :
    Ends u
      ⟨[135, 95, 53, 28, 27, 26, 25, 24, 23, 22, 21, 20, 13, 11, 10, 7, 4, 0],
       [⟨v, t⟩, ⟨"=", TREE.null⟩, ⟨"t", newleaf "id" "t"⟩, ⟨"\x7b", TREE.null⟩,
        ⟨")", TREE.null⟩, ⟨"args", TREE.null⟩, ⟨"]", TREE.null⟩, ⟨"[", TREE.null⟩,
        ⟨"String", newleaf "datatype" "String"⟩, ⟨"(", TREE.null⟩, ⟨"main", TREE.null⟩,
        ⟨"void", newleaf "datatype" "void"⟩,
        ⟨"public", newnode "modifier" (newleaf "access modifier" "public") (newleaf
            "access modifier" "static") TREE.null TREE.null⟩,
        ⟨"\x7b", TREE.null⟩, ⟨"A", TREE.null⟩, ⟨"class", TREE.null⟩,
        ⟨"public", newnode "modifier" (newleaf "access modifier" "public") TREE.null TREE.null
            TREE.null⟩],
       59, ⟨";", TREE.null⟩,
        tok 125 "\x7d" :: tok 125 "\x7d" :: [],
       0, TREE.null⟩
      (fun res => res.1 = 0 ∧ (bodyOf res.2.root).c1.c1.c2 = t ∧ res.2.yynerrs = 0) := by
  refine Ends.of_reach (step_reduce u _ _ _ _ _ _ _ _ 63
    ⟨"t", newnode "=" (newleaf "id" "t") t TREE.null TREE.null⟩
    [28, 27, 26, 25, 24, 23, 22, 21, 20, 13, 11, 10, 7, 4, 0] 46 _ (by decide) rfl
    (fun s hf => by
      obtain ⟨_, h2, _, _, _, _, h7, _⟩ := hf
      unfold YYState.yyvsp
      rw [h2, h7]
      rfl)) ?_
  refine Ends.of_reach (step_reduce u _ _ _ _ _ _ _ _ 15
    ⟨"t", newnode "ASSIGNMENT STATEMENT" (newnode "=" (newleaf "id" "t") t TREE.null TREE.null)
        TREE.null TREE.null TREE.null⟩
    [28, 27, 26, 25, 24, 23, 22, 21, 20, 13, 11, 10, 7, 4, 0] 37 _ (by decide) rfl
    (fun s hf => by
      obtain ⟨_, h2, _, _, _, _, h7, _⟩ := hf
      unfold YYState.yyvsp
      rw [h2, h7]
      rfl)) ?_
  refine Ends.of_reach (step_shift_held u _ _ _ _ _ _ 61 _ _ (by decide) (by decide)) ?_
  refine Ends.of_reach (step_lex u _ _ _ _ _ _ _ _ (by decide)) ?_
  refine step_empty_ends u _ _ _ _ _ _ _ _ 14 (fun yv => yv) 104 _ (by decide) (by decide)
    (fun _ _ _ => rfl) (fun J => ?_)
  refine Ends.of_reach (step_reduce u _ _ _ _ _ _ _ _ 10
    ⟨"t", newnode "INITIALIZATION" (newnode "ASSIGNMENT STATEMENT" (newnode "=" (newleaf "id"
        "t") t TREE.null TREE.null) TREE.null TREE.null TREE.null) J.ptr TREE.null TREE.null⟩
    [28, 27, 26, 25, 24, 23, 22, 21, 20, 13, 11, 10, 7, 4, 0] 36 _ (by decide) rfl
    (fun s hf => by
      obtain ⟨_, h2, _, _, _, _, h7, _⟩ := hf
      unfold YYState.yyvsp
      rw [h2, h7]
      rfl)) ?_
  refine Ends.of_reach (step_shift_held u _ _ _ _ _ _ 60 _ _ (by decide) (by decide)) ?_
  refine Ends.of_reach (step_reduce u _ _ _ _ _ _ _ _ 3
    ⟨"public", newnode "METHOD DECLARATION" (newnode "modifier" (newleaf "access modifier"
        "public") (newleaf "access modifier" "static") TREE.null TREE.null) (newleaf "datatype"
        "void") (newleaf "datatype" "String") (newnode "INITIALIZATION" (newnode
        "ASSIGNMENT STATEMENT" (newnode "=" (newleaf "id" "t") t TREE.null TREE.null) TREE.null
        TREE.null TREE.null) J.ptr TREE.null TREE.null)⟩
    [11, 10, 7, 4, 0] 12 _ (by decide) rfl
    (fun s hf => by
      obtain ⟨_, h2, _, _, _, _, h7, _⟩ := hf
      unfold YYState.yyvsp
      rw [h2, h7]
      rfl)) ?_
  refine Ends.of_reach (step_shift u _ _ _ _ _ _ 14 _ _ (by decide) (by decide)) ?_
  refine Ends.of_reach (step_reduce u _ _ _ _ _ _ _
    (newnode "CLASS DECLARATION" (newnode "modifier" (newleaf "access modifier" "public")
        TREE.null TREE.null TREE.null) (newleaf "classname" "public") (newnode
        "METHOD DECLARATION" (newnode "modifier" (newleaf "access modifier" "public") (newleaf
        "access modifier" "static") TREE.null TREE.null) (newleaf "datatype" "void") (newleaf
        "datatype" "String") (newnode "INITIALIZATION" (newnode "ASSIGNMENT STATEMENT" (newnode
        "=" (newleaf "id" "t") t TREE.null TREE.null) TREE.null TREE.null TREE.null) J.ptr
        TREE.null TREE.null)) TREE.null)
    2
    ⟨"public", newnode "CLASS DECLARATION" (newnode "modifier" (newleaf "access modifier"
        "public") TREE.null TREE.null TREE.null) (newleaf "classname" "public") (newnode
        "METHOD DECLARATION" (newnode "modifier" (newleaf "access modifier" "public") (newleaf
        "access modifier" "static") TREE.null TREE.null) (newleaf "datatype" "void") (newleaf
        "datatype" "String") (newnode "INITIALIZATION" (newnode "ASSIGNMENT STATEMENT" (newnode
        "=" (newleaf "id" "t") t TREE.null TREE.null) TREE.null TREE.null TREE.null) J.ptr
        TREE.null TREE.null)) TREE.null⟩
    [0] 3 _ (by decide) rfl
    (fun s hf => by
      obtain ⟨_, h2, _, _, _, _, h7, _⟩ := hf
      unfold YYState.yyvsp
      rw [h2, h7]
      rfl)) ?_
  refine Ends.mono (fun res h => ⟨h.1, ?_, h.2.2⟩) (ends_accept u _ _ _ _ _ (by decide))
  rw [h.2.1]
  rfl

/-! ## A whole program around one assignment -/

theorem derives_of_isPrimary (e : Ex) (k : Nat) (h : e.isPrimary = true) :
    e.derives k = true := by
  refine derives_mono e 0 k (Nat.zero_le k) ?_
  cases e with
  | num a => rfl
  | id a => rfl
  | paren a => exact h
  | bin op l r => exact absurd h Bool.false_ne_true

/-- The program whose method body is the one statement `t = e;` is accepted, and the tree
of `e` is the second child of the statement's operator node. -/
theorem assign_program (u : Nat → Nat → YACC) (e : Ex) (hd : e.derives 6 = true)
    (hsize : e.tokens.length + 18 < YYMAXDEPTH) :
    ∃ k, ∀ n,
      (yyparse (k + n) u TREE.null
        (program (ident "t" :: tok T_ASSGN "=" :: (e.tokens ++ [semi])))).map
          (fun r => (r.1, (bodyOf r.2.root).c1.c1.c2)) = some (0, e.tree) := by
  have hpre := prefix_runs u (e.tokens ++ semi :: classClose)
  obtain ⟨v, hch⟩ := (expr_runs u e).2 95 (by decide) (by decide) hd semi (by decide)
    (Nat.le_trans (rank_le_of_derives e 6 hd) (by decide))
    ⟨[95, 53, 28, 27, 26, 25, 24, 23, 22, 21, 20, 13, 11, 10, 7, 4, 0],
     [⟨"=", TREE.null⟩, ⟨"t", newleaf "id" "t"⟩, ⟨"\x7b", TREE.null⟩, ⟨")", TREE.null⟩,
      ⟨"args", TREE.null⟩, ⟨"]", TREE.null⟩, ⟨"[", TREE.null⟩,
      ⟨"String", newleaf "datatype" "String"⟩, ⟨"(", TREE.null⟩, ⟨"main", TREE.null⟩,
      ⟨"void", newleaf "datatype" "void"⟩,
      ⟨"public", newnode "modifier" (newleaf "access modifier" "public")
        (newleaf "access modifier" "static") TREE.null TREE.null⟩,
      ⟨"\x7b", TREE.null⟩, ⟨"A", TREE.null⟩, ⟨"class", TREE.null⟩,
      ⟨"public", newnode "modifier" (newleaf "access modifier" "public")
        TREE.null TREE.null TREE.null⟩],
     YYEMPTY, ⟨"=", TREE.null⟩, e.tokens ++ semi :: classClose, 0, TREE.null⟩
    classClose rfl rfl rfl (by simp only [List.length_cons, List.length_nil]; omega)
  have hall := Ends.of_reach hpre (Ends.of_reach hch (suffix_ends u v e.tree))
  have htoks : program (ident "t" :: tok T_ASSGN "=" :: (e.tokens ++ [semi]))
      = tok T_PUBLIC "public" :: tok T_CLASS "class" :: tok T_ID "A" :: tok 123 "\x7b" ::
        tok T_PUBLIC "public" :: tok T_STATIC "static" :: tok T_VOID "void" ::
        tok T_MAIN "main" :: tok 40 "(" :: tok T_STRING "String" :: tok 91 "[" ::
        tok 93 "]" :: tok T_ARGS "args" :: tok 41 ")" :: tok 123 "\x7b" :: tok T_ID "t" ::
        tok T_ASSGN "=" :: (e.tokens ++ semi :: classClose) := by
    simp only [program, classOpen, ident, List.cons_append, List.nil_append, List.append_assoc]
  rw [htoks]
  obtain ⟨k, r, hq, hk⟩ := hall (yyinit TREE.null _)
    ⟨rfl, rfl, rfl, rfl, rfl, rfl, rfl, rfl, by show 1 < 200; decide,
      by show 200 ≤ 10000; decide⟩
  refine ⟨k + 1, fun n => ?_⟩
  have e1 : ∀ m toks, yyparse m u TREE.null toks = yyloop u m (yyinit TREE.null toks) :=
    fun _ _ => rfl
  rw [e1, hk, Option.map_some', hq.1, hq.2.1]

/-! ## Exhausting the parser stack -/

theorem nest_tokens (n : Nat) (e : Ex) :
    (Ex.nest n e).tokens
      = List.replicate n (tok 40 "(") ++ (e.tokens ++ List.replicate n (tok 41 ")")) := by
  induction n with
  | zero => simp [Ex.nest]
  | succ m ih =>
    show tok 40 "(" :: ((Ex.nest m e).tokens ++ [tok 41 ")"]) = _
    rw [ih, List.replicate_succ, List.replicate_succ']
    simp only [List.cons_append, List.append_assoc]

theorem nest_isPrimary (n : Nat) (e : Ex) (h : e.isPrimary = true) :
    (Ex.nest n e).isPrimary = true := by
  induction n with
  | zero => exact h
  | succ m ih => exact derives_of_isPrimary _ 6 ih

/-- Opening parentheses are shifted one after the other while the stack has room. -/
theorem parens_run (u : Nat → Nat → YACC) (n : Nat) :
    ∀ (c : Core) (rest : List Token),
      (c.yyss.headD 0 = 95 ∨ c.yyss.headD 0 = 35) → c.yychar = YYEMPTY →
      c.yyin = List.replicate n (tok 40 "(") ++ rest →
      c.yyss.length + n < YYMAXDEPTH →
      ∃ c' : Core, Reach u c c' ∧ c'.yyss.length = c.yyss.length + n
        ∧ (c'.yyss.headD 0 = 95 ∨ c'.yyss.headD 0 = 35) ∧ c'.yychar = YYEMPTY
        ∧ c'.yyin = rest ∧ c'.root = c.root ∧ c'.yynerrs = c.yynerrs := by
  induction n with
  | zero =>
    intro c rest htop hc hin _
    exact ⟨c, Reach.refl u c, rfl, htop, hc, by simpa using hin, rfl, rfl⟩
  | succ m ih =>
    intro c rest htop hc hin hroom
    rw [List.replicate_succ, List.cons_append] at hin
    have hp : tbl yypact (c.yyss.headD 0) ≠ YYPACT_NINF := by
      rcases htop with h | h <;> rw [h] <;> decide
    have hs : shiftTo (c.yyss.headD 0) (YYTRANSLATE 40) = some 35 := by
      rcases htop with h | h <;> rw [h] <;> decide
    have r1 := reach_lex u c (tok 40 "(") _ hp hc hin (by decide)
    have r2 := reach_shift u
      { c with yychar := (tok 40 "(").code, yylval := (tok 40 "(").lval,
               yyin := List.replicate m (tok 40 "(") ++ rest }
      35 (by show (0 : Int) < 40; decide) hs (by decide) (by show c.yyss.length + 1 < _; omega)
    obtain ⟨c', r3, hl, ht, hch, hi, hr, hn⟩ := ih
      { c with
        yyss := 35 :: c.yyss
        yyvs := (tok 40 "(").lval :: c.yyvs
        yychar := YYEMPTY
        yylval := (tok 40 "(").lval
        yyin := List.replicate m (tok 40 "(") ++ rest }
      rest (Or.inr rfl) rfl rfl
      (by show (c.yyss.length + 1) + m < _; omega)
    refine ⟨c', Reach.trans r1 (Reach.trans r2 r3), ?_, ht, hch, hi, hr, hn⟩
    rw [hl]
    show (c.yyss.length + 1) + m = _
    omega

theorem yysetstate_exhausted (s : YYState) (hsize : s.yystacksize ≤ s.yyss.length)
    (hmax : YYMAXDEPTH ≤ s.yystacksize) :
    ∃ t, yysetstate s = Outcome.return_ 2 t ∧ t.root = s.root
      ∧ t.yynerrs = s.yynerrs + 1 := by
  unfold yysetstate
  dsimp only []
  rw [if_pos hsize, if_pos hmax]
  exact ⟨_, rfl, rfl, rfl⟩

/-- One more opening parenthesis when the stack is at its maximal depth: memory exhausted. -/
theorem overflow_step (u : Nat → Nat → YACC) (c : Core) (rest : List Token)
    (htop : c.yyss.headD 0 = 95 ∨ c.yyss.headD 0 = 35) (hc : c.yychar = YYEMPTY)
    (hin : c.yyin = tok 40 "(" :: rest) (hfull : c.yyss.length + 1 = YYMAXDEPTH) :
    Ends u c (fun res => res.1 = 2 ∧ res.2.root = c.root
      ∧ res.2.yynerrs = c.yynerrs + 1) := by
  intro s hf
  obtain ⟨h1, h2, h3, h4, h5, h6, h7, h8, h9, h10⟩ := hf
  have hp : tbl yypact (s.yyss.headD 0) ≠ YYPACT_NINF := by
    rw [h1]
    rcases htop with h | h <;> rw [h] <;> decide
  have hs : shiftTo (s.yyss.headD 0) (YYTRANSLATE 40) = some 35 := by
    rw [h1]
    rcases htop with h | h <;> rw [h] <;> decide
  have b1 := yybackup_lex u s (tok 40 "(") rest hp (by rw [h3]; exact hc)
    (by rw [h5]; exact hin) (by decide)
  have b2 := yybackup_shift u
    { s with yychar := (tok 40 "(").code, yylval := (tok 40 "(").lval, yyin := rest } 35
    (by show (0 : Int) < 40; decide) hs h8
  obtain ⟨t, e, r1, r2⟩ := yysetstate_exhausted
    { (({ s with yychar := YYEMPTY, yylval := (tok 40 "(").lval, yyin := rest } :
          YYState).pushValue (tok 40 "(").lval) with
      yyss := 35 :: s.yyss }
    (by simp only [YYState.pushValue, List.length_cons, h1]; omega)
    (by simp only [YYState.pushValue]; rw [h1] at h9; omega)
  refine ⟨0, (2, t), ⟨rfl, ?_, ?_⟩, fun n => ?_⟩
  · rw [r1]
    exact h7
  · rw [r2]
    show s.yynerrs + 1 = _
    rw [h6]
  · rw [Nat.zero_add, Nat.add_comm]
    show (match yybackup u s with
      | Outcome.return_ yyresult s => some (yyresult, s)
      | Outcome.continue_ s => yyloop u n s) = _
    have e2 : yynewstate
        (({ ({ s with yychar := (tok 40 "(").code, yylval := (tok 40 "(").lval,
                      yyin := rest } : YYState) with yychar := YYEMPTY }).pushValue
          (tok 40 "(").lval) 35 = Outcome.return_ 2 t := e
    rw [b1, b2, e2]

theorem fails_after (u : Nat → Nat → YACC) (c0 c : Core) (n : Nat) (rest : List Token)
    (h : Reach u c0 c) (htop : c.yyss.headD 0 = 95 ∨ c.yyss.headD 0 = 35)
    (hc : c.yychar = YYEMPTY)
    (hin : c.yyin = List.replicate n (tok 40 "(") ++ tok 40 "(" :: rest)
    (hlen : c.yyss.length + n + 1 = YYMAXDEPTH) :
    Ends u c0 (fun res => res.1 = 2 ∧ res.2.root = c.root
      ∧ res.2.yynerrs = c.yynerrs + 1) := by
  obtain ⟨c', r3, hl, ht, hch, hi, hr, hn⟩ := parens_run u n c
    (tok 40 "(" :: rest) htop hc hin (by omega)
  have hend := overflow_step u c' rest ht hch hi (by rw [hl]; exact hlen)
  rw [hr, hn] at hend
  exact Ends.of_reach h (Ends.of_reach r3 hend)

/-- A right-hand side that opens with 9983 parentheses exhausts the parser stack: yyparse
returns 2 after one call of yyerror, and no root is stored. -/
theorem deep_fails (u : Nat → Nat → YACC) (rest : List Token) :
    ∃ k, ∀ n,
      (yyparse (k + n) u TREE.null
        (program (ident "t" :: tok T_ASSGN "=" ::
          (List.replicate 9982 (tok 40 "(") ++ tok 40 "(" :: rest)))).map
          (fun r => (r.1, r.2.root, r.2.yynerrs)) = some (2, TREE.null, 1) := by
  have htoks : program (ident "t" :: tok T_ASSGN "=" ::
        (List.replicate 9982 (tok 40 "(") ++ tok 40 "(" :: rest))
      = tok T_PUBLIC "public" :: tok T_CLASS "class" :: tok T_ID "A" :: tok 123 "\x7b" ::
        tok T_PUBLIC "public" :: tok T_STATIC "static" :: tok T_VOID "void" ::
        tok T_MAIN "main" :: tok 40 "(" :: tok T_STRING "String" :: tok 91 "[" ::
        tok 93 "]" :: tok T_ARGS "args" :: tok 41 ")" :: tok 123 "\x7b" :: tok T_ID "t" ::
        tok T_ASSGN "=" ::
          (List.replicate 9982 (tok 40 "(") ++ (tok 40 "(" :: (rest ++ classClose))) := by
    simp only [program, classOpen, ident, List.cons_append, List.nil_append, List.append_assoc]
  rw [htoks]
  have hpre := prefix_runs u
    (List.replicate 9982 (tok 40 "(") ++ (tok 40 "(" :: (rest ++ classClose)))
  have hall := fails_after u _ _ 9982 (rest ++ classClose) hpre (Or.inl rfl) rfl rfl
    (by show 17 + 9982 + 1 = 10000; decide)
  obtain ⟨k, r, hq, hk⟩ := hall (yyinit TREE.null _)
    ⟨rfl, rfl, rfl, rfl, rfl, rfl, rfl, rfl, by show 1 < 200; decide,
      by show 200 ≤ 10000; decide⟩
  refine ⟨k + 1, fun n => ?_⟩
  have e1 : ∀ m toks, yyparse m u TREE.null toks = yyloop u m (yyinit TREE.null toks) :=
    fun _ _ => rfl
  rw [e1, hk, Option.map_some', hq.1, hq.2.1, hq.2.2]
  rfl

theorem replicate_split (a : Token) :
    List.replicate 10000 a = List.replicate 9982 a ++ a :: List.replicate 17 a := by
  have h : (10000 : Nat) = 9982 + (17 + 1) := by decide
  have e1 : List.replicate (17 + 1) a = a :: List.replicate 17 a := List.replicate_succ a 17
  rw [h, List.replicate_add, e1]

/-! ## The calls of the printer and the lines it writes -/

theorem deeper_seg (pfx : String) (isLeft : Int) : deeper pfx isLeft = pfx ++ seg isLeft := by
  unfold deeper seg
  split_ifs <;> rfl

theorem new_prefix_seg (c : Call) : c.new_prefix = c.pfx ++ seg c.isLeft := by
  unfold Call.new_prefix seg
  split_ifs <;> rfl

theorem join_snoc (l : List String) (a : String) : String.join (l ++ [a]) = String.join l ++ a := by
  unfold String.join
  rw [List.foldl_append]
  rfl

/-- The calls on a node: the call on the node itself, and the calls on the children that are
visited, each with the prefix and the flags extended by those of the node. -/
theorem calls_node (pfx : String) (anc : List Int) (o v : String) (c1 c2 c3 c4 : TREE)
    (l : Int) :
    (⟨pfx, anc, l, TREE.node o v c1 c2 c3 c4⟩ : Call) ∈ calls pfx anc (TREE.node o v c1 c2 c3 c4) l
    ∧ ∀ c ∈ calls pfx anc (TREE.node o v c1 c2 c3 c4) l,
      c = ⟨pfx, anc, l, TREE.node o v c1 c2 c3 c4⟩ ∨
      ∃ (child : TREE) (f : Int),
        (child = c1 ∨ child = c2 ∨ child = c3 ∨ child = c4) ∧
        c ∈ calls (pfx ++ seg l) (anc ++ [l]) child f ∧
        ∀ c', c' ∈ calls (pfx ++ seg l) (anc ++ [l]) child f →
          c' ∈ calls pfx anc (TREE.node o v c1 c2 c3 c4) l := by
  have hs : (if l = 0 then pfx ++ "    " else pfx ++ "│   ") = pfx ++ seg l := by
    unfold seg
    split_ifs <;> rfl
  simp only [calls, hs]
  split_ifs with b1 b2 b3 b4
  all_goals
    refine ⟨by simp, fun c hc => ?_⟩
    simp only [List.mem_cons, List.mem_append, List.mem_singleton, List.not_mem_nil,
      or_false] at hc
  · rcases hc with h | ((h | h) | h) | h
    · exact Or.inl h
    · exact Or.inr ⟨_, _, Or.inl rfl, h, fun c' h' => by simp [h']⟩
    · exact Or.inr ⟨_, _, Or.inr (Or.inl rfl), h, fun c' h' => by simp [h']⟩
    · exact Or.inr ⟨_, _, Or.inr (Or.inr (Or.inl rfl)), h, fun c' h' => by simp [h']⟩
    · exact Or.inr ⟨_, _, Or.inr (Or.inr (Or.inr rfl)), h, fun c' h' => by simp [h']⟩
  · rcases hc with h | ((h | h) | h) | h
    · exact Or.inl h
    · exact Or.inr ⟨_, _, Or.inl rfl, h, fun c' h' => by simp [h']⟩
    · exact Or.inr ⟨_, _, Or.inr (Or.inl rfl), h, fun c' h' => by simp [h']⟩
    · exact Or.inr ⟨_, _, Or.inr (Or.inr (Or.inl rfl)), h, fun c' h' => by simp [h']⟩
    · exact Or.inr ⟨_, _, Or.inr (Or.inr (Or.inr rfl)), h, fun c' h' => by simp [h']⟩
  · rcases hc with h | ((h | h) | h) | h
    · exact Or.inl h
    · exact Or.inr ⟨_, _, Or.inl rfl, h, fun c' h' => by simp [h']⟩
    · exact Or.inr ⟨_, _, Or.inr (Or.inl rfl), h, fun c' h' => by simp [h']⟩
    · exact Or.inr ⟨_, _, Or.inr (Or.inr (Or.inl rfl)), h, fun c' h' => by simp [h']⟩
    · exact Or.inr ⟨_, _, Or.inr (Or.inr (Or.inr rfl)), h, fun c' h' => by simp [h']⟩
  · rcases hc with h | ((h | h) | h) | h
    · exact Or.inl h
    · exact Or.inr ⟨_, _, Or.inl rfl, h, fun c' h' => by simp [h']⟩
    · exact Or.inr ⟨_, _, Or.inr (Or.inl rfl), h, fun c' h' => by simp [h']⟩
    · exact Or.inr ⟨_, _, Or.inr (Or.inr (Or.inl rfl)), h, fun c' h' => by simp [h']⟩
    · exact Or.inr ⟨_, _, Or.inr (Or.inr (Or.inr rfl)), h, fun c' h' => by simp [h']⟩
  · exact Or.inl hc

theorem height_child (o v : String) (c1 c2 c3 c4 child : TREE)
    (h : child = c1 ∨ child = c2 ∨ child = c3 ∨ child = c4) :
    child.height + 1 ≤ (TREE.node o v c1 c2 c3 c4).height := by
  simp only [TREE.height]
  rcases h with h | h | h | h <;> subst h <;> omega

theorem preorder_self (o v : String) (c1 c2 c3 c4 : TREE) :
    TREE.node o v c1 c2 c3 c4 ∈ (TREE.node o v c1 c2 c3 c4).preorder := by
  simp [TREE.preorder]

theorem preorder_child (o v : String) (c1 c2 c3 c4 child x : TREE)
    (h : child = c1 ∨ child = c2 ∨ child = c3 ∨ child = c4) (hx : x ∈ child.preorder) :
    x ∈ (TREE.node o v c1 c2 c3 c4).preorder := by
  simp only [TREE.preorder, List.mem_cons, List.mem_append]
  rcases h with h | h | h | h <;> subst h <;> simp [hx]

/-- Every call below a call extends its flags, carries the prefix made of the segments of
its flags, is on a node of the tree, and is less deep than the tree is high. -/
theorem calls_shape (t : TREE) : ∀ (pfx : String) (anc : List Int) (l : Int),
    ∀ c ∈ calls pfx anc t l,
      (∃ more, c.anc = anc ++ more ∧ c.pfx = pfx ++ String.join (more.map seg)) ∧
      c.node ∈ t.preorder ∧ c.anc.length < anc.length + t.height := by
  induction t with
  | null =>
    intro pfx anc l c hc
    simp [calls] at hc
  | node o v c1 c2 c3 c4 ih1 ih2 ih3 ih4 =>
    intro pfx anc l c hc
    rcases (calls_node pfx anc o v c1 c2 c3 c4 l).2 c hc with h | ⟨child, f, hch, hin, _⟩
    · subst h
      refine ⟨⟨[], by simp, by simp [String.join]⟩, preorder_self _ _ _ _ _ _, ?_⟩
      simp only [TREE.height]
      omega
    · have hh := height_child o v c1 c2 c3 c4 child hch
      have key : (∃ more, c.anc = (anc ++ [l]) ++ more
            ∧ c.pfx = (pfx ++ seg l) ++ String.join (more.map seg)) ∧
          c.node ∈ child.preorder ∧ c.anc.length < (anc ++ [l]).length + child.height := by
        rcases hch with h | h | h | h <;> subst h
        · exact ih1 _ _ _ c hin
        · exact ih2 _ _ _ c hin
        · exact ih3 _ _ _ c hin
        · exact ih4 _ _ _ c hin
      obtain ⟨⟨more, e1, e2⟩, k2, k3⟩ := key
      refine ⟨⟨l :: more, by simp [e1], ?_⟩, preorder_child o v c1 c2 c3 c4 child _ hch k2, ?_⟩
      · rw [e2, List.map_cons]
        have : String.join (seg l :: more.map seg) = seg l ++ String.join (more.map seg) := by
          unfold String.join
          simp only [List.foldl_cons]
          have g : ∀ (xs : List String) (a b : String),
              List.foldl (fun r s => r ++ s) (a ++ b) xs
                = a ++ List.foldl (fun r s => r ++ s) b xs := by
            intro xs
            induction xs with
            | nil => intro a b; rfl
            | cons x xs ih => intro a b; simp only [List.foldl_cons, String.append_assoc, ih]
          have g2 := g (more.map seg) (seg l) ""
          simp only [String.append_empty] at g2
          have e0 : ("" : String) ++ seg l = seg l := String.empty_append _
          rw [e0, g2]
        rw [this, String.append_assoc]
      · simp only [List.length_append, List.length_singleton] at k3
        omega

/-- The flags recorded in a call are those of calls that were made: for every position `k`
below the depth of a call there is a call at depth `k` whose flags are the first `k` flags,
whose own flag is the flag at position `k`, and whose node has the node of the call among
its descendants. -/
theorem calls_ancestor (t : TREE) : ∀ (pfx : String) (anc : List Int) (l : Int),
    ∀ c ∈ calls pfx anc t l, ∀ k, anc.length ≤ k → k < c.anc.length →
      ∃ c' ∈ calls pfx anc t l, c'.anc = c.anc.take k ∧ c'.isLeft = c.anc.getD k 0 ∧
        c.node ∈ c'.node.preorder := by
  induction t with
  | null =>
    intro pfx anc l c hc
    simp [calls] at hc
  | node o v c1 c2 c3 c4 ih1 ih2 ih3 ih4 =>
    intro pfx anc l c hc k hk1 hk2
    obtain ⟨hhere, hall⟩ := calls_node pfx anc o v c1 c2 c3 c4 l
    rcases hall c hc with h | ⟨child, f, hch, hin, hsub⟩
    · subst h
      exact absurd hk2 (by simp only []; omega)
    · obtain ⟨⟨more, e1, _⟩, k2, _⟩ := calls_shape child _ _ _ c hin
      by_cases hk : k = anc.length
      · refine ⟨_, hhere, ?_, ?_, preorder_child o v c1 c2 c3 c4 child _ hch k2⟩
        · rw [e1, hk]
          simp [List.take_append_eq_append_take, List.append_assoc]
        · rw [e1, hk, List.append_assoc, List.getD_eq_getElem?_getD,
            List.getElem?_append_right (Nat.le_refl _)]
          simp
      · have key : ∃ c' ∈ calls (pfx ++ seg l) (anc ++ [l]) child f,
            c'.anc = c.anc.take k ∧ c'.isLeft = c.anc.getD k 0 ∧ c.node ∈ c'.node.preorder := by
          have hk' : (anc ++ [l]).length ≤ k := by
            simp only [List.length_append, List.length_singleton]
            omega
          rcases hch with h | h | h | h <;> subst h
          · exact ih1 _ _ _ c hin k hk' hk2
          · exact ih2 _ _ _ c hin k hk' hk2
          · exact ih3 _ _ _ c hin k hk' hk2
          · exact ih4 _ _ _ c hin k hk' hk2
        obtain ⟨c', m, a1, a2, a3⟩ := key
        exact ⟨c', hsub c' m, a1, a2, a3⟩

/-! ## Byte lengths of the prefixes -/

theorem utf8_go_append (a b : List Char) :
    String.utf8ByteSize.go (a ++ b) = String.utf8ByteSize.go a + String.utf8ByteSize.go b := by
  induction a with
  | nil => simp [String.utf8ByteSize.go]
  | cons x xs ih =>
    have e : String.utf8ByteSize.go (x :: xs ++ b)
        = String.utf8ByteSize.go (xs ++ b) + x.utf8Size := rfl
    have e2 : String.utf8ByteSize.go (x :: xs) = String.utf8ByteSize.go xs + x.utf8Size := rfl
    rw [e, e2, ih]
    omega

theorem utf8_append (s t : String) :
    (s ++ t).utf8ByteSize = s.utf8ByteSize + t.utf8ByteSize := by
  cases s with
  | mk a =>
    cases t with
    | mk b => exact utf8_go_append a b

theorem seg_bytes (l : Int) : 4 ≤ (seg l).utf8ByteSize ∧ (seg l).utf8ByteSize ≤ 6 := by
  unfold seg
  split_ifs <;> decide

theorem join_seg_bytes (more : List Int) :
    4 * more.length ≤ (String.join (more.map seg)).utf8ByteSize ∧
    (String.join (more.map seg)).utf8ByteSize ≤ 6 * more.length := by
  induction more using List.reverseRecOn with
  | nil => exact ⟨Nat.le_refl _, Nat.le_refl _⟩
  | append_singleton xs a ih =>
    rw [List.map_append, List.map_singleton, join_snoc, utf8_append, List.length_append,
      List.length_singleton]
    have := seg_bytes a
    omega

theorem root_call_pfx (root : TREE) (c : Call) (hc : c ∈ calls "" [] root 0) :
    c.pfx = String.join (c.anc.map seg) := by
  obtain ⟨⟨more, e1, e2⟩, _, _⟩ := calls_shape root "" [] 0 c hc
  rw [e2, e1, List.nil_append, String.empty_append]

theorem height_leftChain (n : Nat) : (leftChain n).height = n + 1 := by
  induction n with
  | zero => rfl
  | succ k ih =>
    show 1 + max (max (leftChain k).height (newleaf "id" "a").height)
      (max nptr.height nptr.height) = k + 1 + 1
    rw [ih]
    have e1 : (newleaf "id" "a").height = 1 := rfl
    have e2 : nptr.height = 0 := rfl
    rw [e1, e2]
    omega

theorem isNull_leftChain (n : Nat) : (leftChain n).isNull = false := by
  cases n <;> rfl

/-- The deepest call on the tree of a sum with `n` operators builds a prefix with `n`
six-byte segments behind the prefix it started from and the segment of the first call. -/
theorem calls_leftChain (n : Nat) : ∀ (pfx : String) (anc : List Int) (l : Int),
    ∃ c ∈ calls pfx anc (leftChain n) l, c.anc.length = anc.length + n ∧
      c.new_prefix.utf8ByteSize = pfx.utf8ByteSize + (seg l).utf8ByteSize + 6 * n := by
  induction n with
  | zero =>
    intro pfx anc l
    refine ⟨⟨pfx, anc, l, leftChain 0⟩, (calls_node pfx anc _ _ _ _ _ _ l).1, rfl, ?_⟩
    rw [new_prefix_seg, utf8_append]
    simp only [Nat.mul_zero, Nat.add_zero]
  | succ k ih =>
    intro pfx anc l
    obtain ⟨c, hc, e1, e2⟩ := ih (pfx ++ seg l) (anc ++ [l]) 1
    refine ⟨c, ?_, ?_, ?_⟩
    · have hs : (if l = 0 then pfx ++ "    " else pfx ++ "│   ") = pfx ++ seg l := by
        unfold seg
        split_ifs <;> rfl
      show c ∈ calls pfx anc (TREE.node "+" "N/A" (leftChain k) (newleaf "id" "a")
        TREE.null TREE.null) l
      simp only [calls, hs, isNull_leftChain, isNull_newleaf, isNull_null, Bool.not_false,
        Bool.and_true, Bool.and_false, Bool.false_and, Bool.true_and, if_false, if_true,
        Bool.not_true, Bool.false_eq_true]
      simp [hc]
    · rw [e1]
      simp only [List.length_append, List.length_singleton]
      omega
    · rw [e2, utf8_append]
      have : (seg 1).utf8ByteSize = 6 := by decide
      omega

/-- The calls on the children of a node whose occupied slots form a prefix are among the
calls on the node. -/
theorem calls_into (pfx : String) (anc : List Int) (o v : String) (c1 c2 c3 c4 : TREE)
    (l : Int) (h : (TREE.node o v c1 c2 c3 c4).contiguousHere = true) :
    (∀ c ∈ calls (pfx ++ seg l) (anc ++ [l]) c1 (if c2.isNull then 0 else 1),
      c ∈ calls pfx anc (TREE.node o v c1 c2 c3 c4) l) ∧
    (∀ c ∈ calls (pfx ++ seg l) (anc ++ [l]) c2 (if c3.isNull then 0 else 1),
      c ∈ calls pfx anc (TREE.node o v c1 c2 c3 c4) l) ∧
    (∀ c ∈ calls (pfx ++ seg l) (anc ++ [l]) c3 (if c4.isNull then 0 else 1),
      c ∈ calls pfx anc (TREE.node o v c1 c2 c3 c4) l) ∧
    (∀ c ∈ calls (pfx ++ seg l) (anc ++ [l]) c4 0,
      c ∈ calls pfx anc (TREE.node o v c1 c2 c3 c4) l) := by
  have hs : (if l = 0 then pfx ++ "    " else pfx ++ "│   ") = pfx ++ seg l := by
    unfold seg
    split_ifs <;> rfl
  have hn : ∀ (t : TREE) (p : String) (a : List Int) (f : Int), t.isNull = true →
      calls p a t f = [] := by
    intro t p a f ht
    cases t with
    | null => rfl
    | node _ _ _ _ _ _ => exact absurd ht (by simp [TREE.isNull])
  rw [calls]
  simp only [hs]
  simp only [TREE.contiguousHere, TREE.occupied] at h
  cases h1 : c1.isNull <;> cases h2 : c2.isNull <;> cases h3 : c3.isNull <;>
    cases h4 : c4.isNull <;> simp only [h1, h2, h3, h4] at h ⊢ <;>
    first
    | (exact absurd h (by decide))
    | (refine ⟨?_, ?_, ?_, ?_⟩ <;> intro c hc <;>
        first
        | (rw [hn _ _ _ _ h1] at hc; exact absurd hc (List.not_mem_nil _))
        | (rw [hn _ _ _ _ h2] at hc; exact absurd hc (List.not_mem_nil _))
        | (rw [hn _ _ _ _ h3] at hc; exact absurd hc (List.not_mem_nil _))
        | (rw [hn _ _ _ _ h4] at hc; exact absurd hc (List.not_mem_nil _))
        | (try simp only [Bool.false_eq_true, if_false, if_true] at hc
           simp [hc]))

theorem isNull_buildBody (n : Nat) :
    (buildBody (List.replicate (n + 1) ⟨StmtKind.unrexpr, newleaf "id" "x", TREE.null⟩)
      TREE.null).isNull = false := rfl

/-- The call on the last node of a chain of `n + 1` statements builds a prefix with `n`
four-byte segments behind the prefix it started from and the segment of the first call. -/
theorem calls_chain (n : Nat) : ∀ (pfx : String) (anc : List Int) (l : Int),
    ∃ c ∈ calls pfx anc
        (buildBody (List.replicate (n + 1) ⟨StmtKind.unrexpr, newleaf "id" "x", TREE.null⟩)
          TREE.null) l,
      c.anc.length = anc.length + n ∧
      c.new_prefix.utf8ByteSize = pfx.utf8ByteSize + (seg l).utf8ByteSize + 4 * n := by
  induction n with
  | zero =>
    intro pfx anc l
    refine ⟨⟨pfx, anc, l, _⟩, (calls_node pfx anc _ _ _ _ _ _ l).1, rfl, ?_⟩
    rw [new_prefix_seg, utf8_append]
    simp only [Nat.mul_zero, Nat.add_zero]
  | succ k ih =>
    intro pfx anc l
    obtain ⟨c, hc, e1, e2⟩ := ih (pfx ++ seg l) (anc ++ [l]) 0
    have hin := (calls_into pfx anc "STATEMENT" "N/A" (newleaf "id" "x")
      (buildBody (List.replicate (k + 1) ⟨StmtKind.unrexpr, newleaf "id" "x", TREE.null⟩)
        TREE.null) TREE.null TREE.null l
      (by rw [show TREE.node "STATEMENT" "N/A" (newleaf "id" "x") _ TREE.null TREE.null
            = newnode "STATEMENT" (newleaf "id" "x") _ TREE.null TREE.null from rfl,
            contiguous_newnode]
          rfl)).2.1 c hc
    refine ⟨c, hin, ?_, ?_⟩
    · rw [e1]
      simp only [List.length_append, List.length_singleton]
      omega
    · rw [e2, utf8_append]
      have : (seg 0).utf8ByteSize = 4 := by decide
      omega

/-! ## Rules for the steps of the driver -/

theorem yyloop_sat (u : Nat → Nat → YACC) (I : YYState → Prop) (Q : Int → YYState → Prop)
    (step : ∀ s, I s → (yybackup u s).sat I Q) (fuel : Nat) :
    ∀ s, I s → ∀ r, yyloop u fuel s = some r → Q r.1 r.2 := by
  induction fuel with
  | zero => intro s _ r h; simp [yyloop] at h
  | succ k ih =>
    intro s hs r h
    unfold yyloop at h
    have hg := step s hs
    cases hb : yybackup u s with
    | continue_ s1 =>
      rw [hb] at h hg
      exact ih s1 hg r h
    | return_ c s1 =>
      rw [hb] at h hg
      simp only [Option.some.injEq] at h
      rw [← h]
      exact hg

theorem yyparse_sat (u : Nat → Nat → YACC) (I : YYState → Prop) (Q : Int → YYState → Prop)
    (root : TREE) (yyin : List Token) (start : (yysetstate (yyinit root yyin)).sat I Q)
    (step : ∀ s, I s → (yybackup u s).sat I Q) (fuel : Nat) (r : Int × YYState)
    (h : yyparse fuel u root yyin = some r) : Q r.1 r.2 := by
  unfold yyparse at h
  cases hb : yysetstate (yyinit root yyin) with
  | continue_ s1 =>
    rw [hb] at h start
    exact yyloop_sat u I Q step fuel s1 start r h
  | return_ c s1 =>
    rw [hb] at h start
    simp only [Option.some.injEq] at h
    rw [← h]
    exact start

/-- A step of the driver is the default action of the state, a reduction, or a shift. -/
theorem yybackup_rule (u : Nat → Nat → YACC) (s : YYState) (P : Outcome → Prop)
    (hd1 : tbl yypact (s.yyss.headD 0) = YYPACT_NINF → P (yydefault u s))
    (hd2 : tbl yypact (s.yyss.headD 0) ≠ YYPACT_NINF → P (yydefault u (peek s)))
    (hr : tbl yypact (s.yyss.headD 0) ≠ YYPACT_NINF → ∀ r, P (yyreduce u (peek s) r))
    (hs : ∀ n, shiftTo (s.yyss.headD 0) (tokenOf (peek s)) = some n →
      P (yynewstate (shifted (peek s)) n)) :
    P (yybackup u s) := by
  unfold yybackup
  dsimp only []
  by_cases hp : tbl yypact (s.yyss.headD 0) = YYPACT_NINF
  · rw [if_pos hp]
    exact hd1 hp
  · rw [if_neg hp]
    show P (if tbl yypact (s.yyss.headD 0) + tokenOf (peek s) < 0
        ∨ YYLAST < tbl yypact (s.yyss.headD 0) + tokenOf (peek s)
        ∨ tbl yycheck (tbl yypact (s.yyss.headD 0) + tokenOf (peek s)) ≠ tokenOf (peek s)
      then yydefault u (peek s)
      else if tbl yytable (tbl yypact (s.yyss.headD 0) + tokenOf (peek s)) ≤ 0
        then yyreduce u (peek s) (-tbl yytable (tbl yypact (s.yyss.headD 0) + tokenOf (peek s)))
        else yynewstate (shifted (peek s))
          (tbl yytable (tbl yypact (s.yyss.headD 0) + tokenOf (peek s))))
    by_cases h1 : tbl yypact (s.yyss.headD 0) + tokenOf (peek s) < 0
        ∨ YYLAST < tbl yypact (s.yyss.headD 0) + tokenOf (peek s)
        ∨ tbl yycheck (tbl yypact (s.yyss.headD 0) + tokenOf (peek s)) ≠ tokenOf (peek s)
    · rw [if_pos h1]
      exact hd2 hp
    · rw [if_neg h1]
      by_cases h2 : tbl yytable (tbl yypact (s.yyss.headD 0) + tokenOf (peek s)) ≤ 0
      · rw [if_pos h2]
        exact hr hp _
      · rw [if_neg h2]
        apply hs
        unfold shiftTo
        rw [if_neg hp, if_neg h1, if_neg h2]

theorem yydefault_rule (u : Nat → Nat → YACC) (s : YYState) (P : Outcome → Prop)
    (he : P (yyerrlab s)) (hr : ∀ r, P (yyreduce u s r)) : P (yydefault u s) := by
  unfold yydefault
  dsimp only []
  split_ifs
  · exact he
  · exact hr _

theorem yyreduce_reduced (u : Nat → Nat → YACC) (s : YYState) (yyn : Int) :
    yyreduce u s yyn
      = yynewstate (reduced u s yyn) (gotoState (tbl yyr1 yyn) ((reduced u s yyn).yyss.headD 0)) :=
  rfl

/-! ## What the parts of a step leave unchanged -/

theorem peek_keeps (s : YYState) :
    (peek s).yyss = s.yyss ∧ (peek s).yyvs = s.yyvs ∧ (peek s).yystacksize = s.yystacksize ∧
    (peek s).yynerrs = s.yynerrs ∧ (peek s).yyerrstatus = s.yyerrstatus ∧
    (peek s).root = s.root := by
  unfold peek yylex
  dsimp only []
  split_ifs <;> first
    | exact ⟨rfl, rfl, rfl, rfl, rfl, rfl⟩
    | (split <;> exact ⟨rfl, rfl, rfl, rfl, rfl, rfl⟩)

theorem shifted_keeps (s : YYState) :
    (shifted s).yyss = s.yyss ∧ (shifted s).yystacksize = s.yystacksize ∧
    (shifted s).yynerrs = s.yynerrs ∧ (shifted s).yyin = s.yyin ∧
    (shifted s).yychar = YYEMPTY ∧ (shifted s).root = s.root ∧
    (s.yyerrstatus = 0 → (shifted s).yyerrstatus = 0) := by
  unfold shifted
  dsimp only []
  split_ifs with h
  · exact ⟨rfl, rfl, rfl, rfl, rfl, rfl, fun h0 => absurd h0 h⟩
  · exact ⟨rfl, rfl, rfl, rfl, rfl, rfl, fun h0 => h0⟩

theorem reduced_keeps (u : Nat → Nat → YACC) (s : YYState) (yyn : Int) :
    (reduced u s yyn).yyss = s.yyss.drop (tbl yyr2 yyn).toNat ∧
    (reduced u s yyn).yystacksize = s.yystacksize ∧
    (reduced u s yyn).yynerrs = s.yynerrs ∧ (reduced u s yyn).yyin = s.yyin ∧
    (reduced u s yyn).yychar = s.yychar ∧ (reduced u s yyn).yyerrstatus = s.yyerrstatus :=
  ⟨rfl, rfl, rfl, rfl, rfl, rfl⟩

theorem yyerrpop_keeps (l : List Int) : ∀ s : YYState,
    (yyerrpop l s).1.yynerrs = s.yynerrs ∧ (yyerrpop l s).1.yyin = s.yyin ∧
    (yyerrpop l s).1.yychar = s.yychar ∧ (yyerrpop l s).1.root = s.root := by
  induction l with
  | nil => intro s; exact ⟨rfl, rfl, rfl, rfl⟩
  | cons a rest ih =>
    intro s
    unfold yyerrpop
    dsimp only []
    split_ifs
    · exact ⟨rfl, rfl, rfl, rfl⟩
    · cases rest with
      | nil => exact ⟨rfl, rfl, rfl, rfl⟩
      | cons b more => exact ih (s.YYPOPSTACK 1)

/-- Error recovery finds no state that shifts the error token: it pops the stack and
`yyparse` returns 1, with the counters, the input and the root as they were. -/
theorem yyerrlab1_aborts (s : YYState) :
    ∃ t, yyerrlab1 s = Outcome.return_ 1 t ∧ t.yynerrs = s.yynerrs ∧ t.yyin = s.yyin ∧
      t.yychar = s.yychar ∧ t.root = s.root ∧ t.yyss.length ≤ 1 := by
  unfold yyerrlab1
  dsimp only []
  have hn := yyerrpop_none s.yyss { s with yyerrstatus := 3 }
  have hk := yyerrpop_keeps s.yyss { s with yyerrstatus := 3 }
  cases hp : yyerrpop s.yyss { s with yyerrstatus := 3 } with
  | mk t o =>
    rw [hp] at hn hk
    simp only at hn hk
    subst hn
    refine ⟨_, rfl, hk.1, hk.2.1, hk.2.2.1, hk.2.2.2, ?_⟩
    show (t.yyss.drop (t.yyss.length - 1)).length ≤ 1
    rw [List.length_drop]
    omega

/-- A syntax error detected when no error is being recovered from: `yyerror` is called
once, no token is read, no action is run, the stack is popped and `yyparse` returns 1; the
error counter has grown by 2. -/
theorem yyerrlab_first (s : YYState) (h : s.yyerrstatus = 0) :
    ∃ t, yyerrlab s = Outcome.return_ 1 t ∧ t.yynerrs = s.yynerrs + 2 ∧ t.yyin = s.yyin ∧
      t.yychar = s.yychar ∧ t.root = s.root ∧ t.yyss.length ≤ 1 := by
  unfold yyerrlab
  dsimp only []
  rw [if_pos h]
  have h3 : ¬ ((yyerror { s with yynerrs := s.yynerrs + 1 }).yyerrstatus = 3) := by
    show ¬ (s.yyerrstatus = 3)
    rw [h]
    decide
  rw [if_neg h3]
  obtain ⟨t, e, a1, a2, a3, a4, a5⟩ := yyerrlab1_aborts (yyerror { s with yynerrs := s.yynerrs + 1 })
  refine ⟨t, e, ?_, a2, a3, a4, a5⟩
  rw [a1]
  show s.yynerrs + 1 + 1 = s.yynerrs + 2
  omega

/-- Whatever the error status, a syntax error makes `yyparse` return 1. -/
theorem yyerrlab_aborts (s : YYState) : ∃ t, yyerrlab s = Outcome.return_ 1 t := by
  unfold yyerrlab
  dsimp only []
  split_ifs
  all_goals first
    | exact ⟨_, rfl⟩
    | (obtain ⟨t, e, _⟩ := yyerrlab1_aborts _; exact ⟨t, e⟩)

/-! ## The error counter -/

theorem yysetstate_clean (s : YYState) (h1 : s.yynerrs = 0) (h2 : s.yyerrstatus = 0)
    (h3 : s.yyss.length ≤ s.yystacksize) (h4 : 0 < s.yystacksize) :
    (yysetstate s).sat clean counted := by
  unfold yysetstate
  dsimp only []
  split_ifs with c1 c2 c3 c4 c5
  · right; right
    exact ⟨rfl, by show s.yynerrs + 1 = 1; rw [h1]; rfl⟩
  · exfalso
    simp only [YYMAXDEPTH] at c2 c3
    omega
  · left
    exact ⟨rfl, h1⟩
  · refine ⟨h1, h2, ?_⟩
    show s.yyss.length < min (2 * s.yystacksize) YYMAXDEPTH
    omega
  · left
    exact ⟨rfl, h1⟩
  · exact ⟨h1, h2, by omega⟩

theorem yynewstate_clean (s : YYState) (n : Int) (h : clean s) :
    (yynewstate s n).sat clean counted := by
  obtain ⟨h1, h2, h3⟩ := h
  unfold yynewstate
  exact yysetstate_clean _ h1 h2 (by show s.yyss.length + 1 ≤ s.yystacksize; omega)
    (by show 0 < s.yystacksize; omega)

theorem yyreduce_clean (u : Nat → Nat → YACC) (s : YYState) (r : Int) (h : clean s) :
    (yyreduce u s r).sat clean counted := by
  rw [yyreduce_reduced]
  obtain ⟨k1, k2, k3, _, _, k6⟩ := reduced_keeps u s r
  apply yynewstate_clean
  refine ⟨by rw [k3]; exact h.1, by rw [k6]; exact h.2.1, ?_⟩
  rw [k1, k2, List.length_drop]
  have := h.2.2
  omega

theorem yyerrlab_clean (s : YYState) (h : clean s) : (yyerrlab s).sat clean counted := by
  obtain ⟨t, e, a1, _⟩ := yyerrlab_first s h.2.1
  rw [e]
  right; left
  exact ⟨rfl, by rw [a1, h.1]; rfl⟩

theorem yydefault_clean (u : Nat → Nat → YACC) (s : YYState) (h : clean s) :
    (yydefault u s).sat clean counted :=
  yydefault_rule u s _ (yyerrlab_clean s h) (fun r => yyreduce_clean u s r h)

theorem peek_clean (s : YYState) (h : clean s) : clean (peek s) := by
  obtain ⟨k1, _, k3, k4, k5, _⟩ := peek_keeps s
  exact ⟨by rw [k4]; exact h.1, by rw [k5]; exact h.2.1, by rw [k1, k3]; exact h.2.2⟩

theorem yybackup_clean (u : Nat → Nat → YACC) (s : YYState) (h : clean s) :
    (yybackup u s).sat clean counted := by
  apply yybackup_rule
  · exact fun _ => yydefault_clean u s h
  · exact fun _ => yydefault_clean u _ (peek_clean s h)
  · exact fun _ r => yyreduce_clean u _ r (peek_clean s h)
  · intro n _
    have hp := peek_clean s h
    obtain ⟨k1, k2, k3, _, _, _, k7⟩ := shifted_keeps (peek s)
    exact yynewstate_clean _ n ⟨by rw [k3]; exact hp.1, k7 hp.2.1, by rw [k1, k2]; exact hp.2.2⟩

/-- Every run of `yyparse` ends with the result 0 and no error counted, with the result 1
and the error counter at 2, or with the result 2 and the error counter at 1. -/
theorem yyparse_counted (u : Nat → Nat → YACC) (fuel : Nat) (root : TREE) (yyin : List Token)
    (r : Int × YYState) (h : yyparse fuel u root yyin = some r) : counted r.1 r.2 :=
  yyparse_sat u clean counted root yyin
    (yysetstate_clean _ rfl rfl (by show 1 ≤ 200; decide) (by show 0 < 200; decide))
    (yybackup_clean u) fuel r h

theorem shiftTo_error (top : Int) : shiftTo top YYTERROR = none := by
  unfold shiftTo
  split_ifs with h1 h2 h3
  · rfl
  · rfl
  · rfl
  · exfalso
    simp only [not_or, not_lt, ne_eq, not_not, YYLAST] at h2
    exact yycheck_no_error _ h2.1 h2.2.1 (by rw [h2.2.2]; rfl)

/-! ## Tokens that no state shifts -/

theorem fact_dead : ∀ n < 187, ∀ code ∈ deadCodes,
    shiftTo (n : Nat) (YYTRANSLATE code) = none := by
  decide!

theorem fact_dead_zero : ∀ code ∈ deadCodes,
    (if (0 : Int) = YYPACT_NINF then none
      else if 0 + YYTRANSLATE code < 0 ∨ YYLAST < 0 + YYTRANSLATE code
          ∨ tbl yycheck (0 + YYTRANSLATE code) ≠ YYTRANSLATE code then none
      else if tbl yytable (0 + YYTRANSLATE code) ≤ 0 then none
      else some (tbl yytable (0 + YYTRANSLATE code))) = none := by
  decide

theorem fact_translate : ∀ n < 306, 0 < n → tbl yytranslate (n : Nat) ≠ 0 := by
  decide!

theorem fact_dead_pos : ∀ code ∈ deadCodes, 0 < code := by
  decide

/-- No state shifts a token of a dead kind. -/
theorem shiftTo_dead (top : Int) (code : Int) (h : code ∈ deadCodes) :
    shiftTo top (YYTRANSLATE code) = none := by
  rcases tbl_elim yypact top with ⟨n, hn, _, he⟩ | h0
  · have := fact_dead n (by simpa [fact_lengths.2.2.1] using hn) code h
    unfold shiftTo at this ⊢
    rw [he]
    exact this
  · unfold shiftTo
    rw [h0]
    exact fact_dead_zero code h

theorem translate_pos (c : Int) (h : 0 < c) : YYTRANSLATE c ≠ 0 := by
  unfold YYTRANSLATE
  split_ifs with hc
  · have e : c = ((c.toNat : Nat) : Int) := (Int.toNat_of_nonneg (by omega)).symm
    rw [e]
    simp only [YYMAXUTOK] at hc
    exact fact_translate c.toNat (by omega) (by omega)
  · decide

/-- Only the end of the input is shifted into the final state. -/
theorem shiftTo_final (top tk : Int) (h : shiftTo top tk = some YYFINAL) : tk = 0 := by
  unfold shiftTo at h
  split_ifs at h with h1 h2 h3
  simp only [Option.some.injEq] at h
  simp only [not_or, not_lt, ne_eq, not_not, YYLAST] at h2
  have e := yytable_hit _ h2.1 h2.2.1 (Or.inr h)
  rw [e] at h2
  rw [← h2.2.2]
  decide

/-- No goto enters the final state. -/
theorem gotoState_ne_final (lhs top : Int) : gotoState lhs top ≠ YYFINAL := by
  intro h
  unfold gotoState at h
  split_ifs at h with h1
  · simp only [YYLAST] at h1
    have e := yytable_hit _ h1.1 h1.2.1 (Or.inr h)
    have ht : top = 0 := by
      rw [← h1.2.2, e]
      decide
    rw [ht, Int.add_zero] at e
    exact yypgoto_ne _ e
  · have e := yydefgoto_hit _ (Or.inr h)
    rw [e] at h
    revert h
    decide

theorem yysetstate_blocked (s : YYState) (hf : s.yyss.headD 0 ≠ YYFINAL) (h : blocked s) :
    (yysetstate s).sat blocked (fun yyresult _ => yyresult ≠ 0) := by
  unfold yysetstate
  dsimp only []
  split_ifs
  · show (2 : Int) ≠ 0
    decide
  · show (1 : Int) ≠ 0
    decide
  · exact h
  · exact h

theorem yyreduce_blocked (u : Nat → Nat → YACC) (s : YYState) (r : Int) (h : blocked s) :
    (yyreduce u s r).sat blocked (fun yyresult _ => yyresult ≠ 0) := by
  rw [yyreduce_reduced]
  unfold yynewstate
  exact yysetstate_blocked _ (gotoState_ne_final _ _) h

theorem yyerrlab_blocked (s : YYState) :
    (yyerrlab s).sat blocked (fun yyresult _ => yyresult ≠ 0) := by
  obtain ⟨t, e⟩ := yyerrlab_aborts s
  rw [e]
  show (1 : Int) ≠ 0
  decide

theorem yydefault_blocked (u : Nat → Nat → YACC) (s : YYState) (h : blocked s) :
    (yydefault u s).sat blocked (fun yyresult _ => yyresult ≠ 0) :=
  yydefault_rule u s _ (yyerrlab_blocked s) (fun r => yyreduce_blocked u s r h)

/-- With a token of a dead kind ahead, the lookahead that `yybackup` settles on is a token,
and a token of a dead kind is still ahead. -/
theorem peek_blocked (s : YYState) (h : blocked s) : blocked (peek s) ∧ 0 < (peek s).yychar := by
  obtain ⟨h1, h2, h3⟩ := h
  have hd : ∀ c ∈ deadCodes, c ≠ YYEMPTY := by decide
  unfold peek
  dsimp only []
  by_cases he : s.yychar = YYEMPTY
  · rw [if_pos he]
    have hin : ∃ t ∈ s.yyin, t.code ∈ deadCodes := by
      rcases h3 with h3 | h3
      · exact h3
      · exact absurd he (hd _ h3)
    cases hl : s.yyin with
    | nil =>
      rw [hl] at hin
      obtain ⟨t, ht, _⟩ := hin
      exact absurd ht (List.not_mem_nil _)
    | cons a rest =>
      have hy : yylex s = { s with yychar := a.code, yylval := a.lval, yyin := rest } := by
        unfold yylex
        rw [hl]
      have ha : 0 < a.code := h1 a (by rw [hl]; exact List.mem_cons_self _ _)
      rw [hy]
      have hne : ¬ (a.code ≤ YYEOF) := by
        simp only [YYEOF]
        omega
      simp only [hne, if_false]
      refine ⟨⟨fun t ht => h1 t (by rw [hl]; exact List.mem_cons_of_mem _ ht), Or.inr ha, ?_⟩, ha⟩
      obtain ⟨t, ht, hdead⟩ := hin
      rw [hl] at ht
      rcases List.mem_cons.mp ht with e | e
      · right
        rw [← e]
        exact hdead
      · left
        exact ⟨t, e, hdead⟩
  · rw [if_neg he]
    have hpos : 0 < s.yychar := by
      rcases h2 with h2 | h2
      · exact absurd h2 he
      · exact h2
    have hne : ¬ (s.yychar ≤ YYEOF) := by
      simp only [YYEOF]
      omega
    rw [if_neg hne]
    exact ⟨⟨h1, h2, h3⟩, hpos⟩

theorem yybackup_blocked (u : Nat → Nat → YACC) (s : YYState) (h : blocked s) :
    (yybackup u s).sat blocked (fun yyresult _ => yyresult ≠ 0) := by
  obtain ⟨hp, hpos⟩ := peek_blocked s h
  apply yybackup_rule
  · exact fun _ => yydefault_blocked u s h
  · exact fun _ => yydefault_blocked u _ hp
  · exact fun _ r => yyreduce_blocked u _ r hp
  · intro n hn
    have htk : tokenOf (peek s) = YYTRANSLATE (peek s).yychar := by
      unfold tokenOf
      rw [if_neg]
      simp only [YYEOF]
      omega
    rw [htk] at hn
    obtain ⟨_, _, _, k4, k5, _, _⟩ := shifted_keeps (peek s)
    unfold yynewstate
    apply yysetstate_blocked
    · show n ≠ YYFINAL
      intro e
      rw [e] at hn
      exact translate_pos _ hpos (shiftTo_final _ _ hn)
    · refine ⟨by rw [k4]; exact hp.1, Or.inl k5, Or.inl ?_⟩
      rw [k4]
      rcases hp.2.2 with h3 | h3
      · exact h3
      · rw [shiftTo_dead _ _ h3] at hn
        exact absurd hn (by simp)

/-- A token stream with a token of a dead kind is never accepted. -/
theorem yyparse_blocked (u : Nat → Nat → YACC) (fuel : Nat) (root : TREE) (yyin : List Token)
    (hpos : ∀ t ∈ yyin, 0 < t.code) (hdead : ∃ t ∈ yyin, t.code ∈ deadCodes)
    (r : Int × YYState) (h : yyparse fuel u root yyin = some r) : r.1 ≠ 0 :=
  yyparse_sat u blocked (fun yyresult _ => yyresult ≠ 0) root yyin
    (yysetstate_blocked _ (by show (0 : Int) ≠ 6; decide) ⟨hpos, Or.inl rfl, Or.inl hdead⟩)
    (yybackup_blocked u) fuel r h

/-- What a run has returned with some fuel it returns with more. -/
theorem map_mono {α : Type} (u : Nat → Nat → YACC) (n : Nat) (root : TREE)
    (toks : List Token) (f : Int × YYState → α) (a : α)
    (h : (yyparse n u root toks).map f = some a) (fuel : Nat) :
    (yyparse (n + fuel) u root toks).map f = some a := by
  cases hr : yyparse n u root toks with
  | none => rw [hr] at h; exact absurd h (by simp)
  | some r =>
    rw [yyparse_mono u n (n + fuel) root toks r hr (Nat.le_add_right _ _)]
    rw [hr] at h
    exact h

/-! ## Steps that may exhaust the stack -/

theorem flows_of_reach {u : Nat → Nat → YACC} {c c' : Core} (h : Reach u c c') :
    Flows u c c' :=
  fun s hs => Or.inl (h s hs)

theorem flows_trans {u : Nat → Nat → YACC} {a b c : Core} (h1 : Flows u a b)
    (h2 : Flows u b c) (hr : b.root = a.root) (hn : b.yynerrs = a.yynerrs) : Flows u a c := by
  intro s hs
  rcases h1 s hs with ⟨s1, k1, f1, e1⟩ | ⟨k1, r, q, e1⟩
  · rcases h2 s1 f1 with ⟨s2, k2, f2, e2⟩ | ⟨k2, r, q, e2⟩
    · left
      refine ⟨s2, k1 + k2, f2, fun n => ?_⟩
      rw [Nat.add_assoc, e1, e2]
    · right
      refine ⟨k1 + k2, r, ?_, fun n => ?_⟩
      · rw [← hr, ← hn]
        exact q
      · rw [Nat.add_assoc, Nat.add_assoc, e1, ← Nat.add_assoc, e2]
  · right
    exact ⟨k1, r, q, e1⟩

/-- A run that may exhaust the stack, followed by a run that returns. -/
theorem Ends.of_flows {u : Nat → Nat → YACC} {c c' : Core} {Q : Int × YYState → Prop}
    (h1 : Flows u c c') (h2 : Ends u c' Q) :
    Ends u c (fun r => Q r ∨ (r.1 = 2 ∧ r.2.root = c.root ∧ r.2.yynerrs = c.yynerrs + 1)) := by
  intro s hs
  rcases h1 s hs with ⟨s1, k1, f1, e1⟩ | ⟨k1, r, q, e1⟩
  · obtain ⟨k2, r, hq, e2⟩ := h2 s1 f1
    refine ⟨k1 + k2, r, Or.inl hq, fun n => ?_⟩
    rw [Nat.add_assoc, Nat.add_assoc, e1, ← Nat.add_assoc, e2]
  · exact ⟨k1, r, Or.inr q, e1⟩

/-- A statement about the runs from a core may use that some state has that core. -/
theorem reach_of_fits (u : Nat → Nat → YACC) (c c' : Core)
    (h : c.yyss.length < YYMAXDEPTH → Reach u c c') : Reach u c c' := by
  intro s hf
  have : c.yyss.length < YYMAXDEPTH := by
    obtain ⟨h1, _, _, _, _, _, _, _, h9, h10⟩ := hf
    rw [h1] at h9
    omega
  exact h this s hf

/-- The shift of the lookahead: the state is pushed, or the stack is exhausted. -/
theorem flows_shift (u : Nat → Nat → YACC) (c : Core) (n : Int) (hc : 0 < c.yychar)
    (hs : shiftTo (c.yyss.headD 0) (YYTRANSLATE c.yychar) = some n) (hn : n ≠ YYFINAL) :
    Flows u c { c with yyss := n :: c.yyss, yyvs := c.yylval :: c.yyvs, yychar := YYEMPTY } := by
  by_cases hroom : c.yyss.length + 1 < YYMAXDEPTH
  · exact flows_of_reach (reach_shift u c n hc hs hn hroom)
  · intro s hf
    right
    obtain ⟨h1, h2, h3, h4, h5, h6, h7, h8, h9, h10⟩ := hf
    have b2 := yybackup_shift u s n (by rw [h3]; exact hc) (by rw [h1, h3]; exact hs) h8
    obtain ⟨t, e, r1, r2⟩ := yysetstate_exhausted
      { (({ s with yychar := YYEMPTY } : YYState).pushValue s.yylval) with yyss := n :: s.yyss }
      (by simp only [YYState.pushValue, List.length_cons, h1]
          rw [h1] at h9
          omega)
      (by simp only [YYState.pushValue]
          rw [h1] at h9
          omega)
    refine ⟨0, (2, t), ⟨rfl, ?_, ?_⟩, fun k => ?_⟩
    · rw [r1]
      exact h7
    · rw [r2]
      show s.yynerrs + 1 = _
      rw [h6]
    · rw [Nat.zero_add, Nat.add_comm]
      show (match yybackup u s with
        | Outcome.return_ yyresult s => some (yyresult, s)
        | Outcome.continue_ s => yyloop u k s) = _
      have e2 : yynewstate (({ s with yychar := YYEMPTY } : YYState).pushValue s.yylval) n
          = Outcome.return_ 2 t := e
      rw [b2, e2]

theorem reach_reduce_free (u : Nat → Nat → YACC) (c : Core) (r : Int) (val : YACC)
    (hc : tbl yypact (c.yyss.headD 0) = YYPACT_NINF ∨ 0 < c.yychar)
    (hr : reduceBy (c.yyss.headD 0) (YYTRANSLATE c.yychar) = some r) (h0 : r ≠ 0)
    (hval : ∀ s, c.fits s →
      yyaction r (s.yyvsp u) (s.yyvsp u (1 - tbl yyr2 r)) s.root = (val, c.root))
    (hn : gotoState (tbl yyr1 r) ((c.yyss.drop (tbl yyr2 r).toNat).headD 0) ≠ YYFINAL)
    (hlen : 1 ≤ (tbl yyr2 r).toNat) :
    Reach u c { c with
      yyss := gotoState (tbl yyr1 r) ((c.yyss.drop (tbl yyr2 r).toNat).headD 0)
        :: c.yyss.drop (tbl yyr2 r).toNat,
      yyvs := val :: c.yyvs.drop (tbl yyr2 r).toNat } := by
  apply reach_of_fits
  intro hl
  refine reach_reduce u c r val hc hr h0 hval hn ?_ hlen
  rw [List.length_drop]
  simp only [YYMAXDEPTH] at hl ⊢
  omega

theorem reach_reduce3_free (u : Nat → Nat → YACC) (c : Core) (r lhs : Int) (val : YACC)
    (t1 t2 t3 : Int) (base : List Int) (w1 w2 w3 : YACC) (vs : List YACC)
    (hss : c.yyss = t1 :: t2 :: t3 :: base) (hvs : c.yyvs = w1 :: w2 :: w3 :: vs)
    (hc : tbl yypact t1 = YYPACT_NINF ∨ 0 < c.yychar)
    (hr : reduceBy t1 (YYTRANSLATE c.yychar) = some r) (h0 : r ≠ 0)
    (hr1 : tbl yyr1 r = lhs) (hr2 : tbl yyr2 r = 3)
    (hval : ∀ (f : Int → YACC) (root : TREE), f 0 = w1 → f (-1) = w2 → f (-2) = w3 →
      yyaction r f w3 root = (val, root))
    (hn : gotoState lhs (base.headD 0) ≠ YYFINAL) :
    Reach u c { c with yyss := gotoState lhs (base.headD 0) :: base, yyvs := val :: vs } := by
  apply reach_of_fits
  intro hl
  refine reach_reduce3 u c r lhs val t1 t2 t3 base w1 w2 w3 vs hss hvs hc hr h0 hr1 hr2 hval
    hn ?_
  rw [hss] at hl
  simp only [List.length_cons, YYMAXDEPTH] at hl ⊢
  omega

theorem climb_free (u : Nat → Nat → YACC) (s : Int) (hs : s ∈ startStates) (a : Token)
    (ha : a.code ∈ followCodes) (rest : List Token) (T : Nat) (hT1 : 1 ≤ T)
    (hT2 : T ≤ topRank s) (hTa : T ≤ rankOfCode a.code)
    (d k : Nat) (hk : k + d = T) (c : Core) (base : List Int) (x : YACC) (vs : List YACC)
    (hss : c.yyss = gotoState (ntOfRank k) s :: base) (hb : base.headD 0 = s)
    (hvs : c.yyvs = x :: vs)
    (hla : (c.yychar = YYEMPTY ∧ c.yyin = a :: rest) ∨
      (c.yychar = a.code ∧ c.yylval = a.lval ∧ c.yyin = rest)) :
    Reach u c { c with
      yyss := gotoState (ntOfRank T) s :: base
      yychar := a.code
      yylval := a.lval
      yyin := rest } := by
  apply reach_of_fits
  intro hl
  refine climb u s hs a ha rest T hT1 hT2 hTa d k hk c base x vs hss hb hvs hla ?_
  rw [hss] at hl
  simp only [List.length_cons] at hl
  exact hl

/-! ## The driver on expressions of any size -/

/-- A number or identifier token in a start state: it is shifted, and the state entered
reduces it to Expr at once. -/
theorem flows_leaf (u : Nat → Nat → YACC) (s : Int) (hs : s ∈ startStates) (c : Core)
    (rest : List Token) (code : Int) (text : String) (n r : Int) (lab : String)
    (hcode : 0 < code) (hsh : shiftTo s (YYTRANSLATE code) = some n) (hn6 : n ≠ YYFINAL)
    (hn : tbl yypact n = YYPACT_NINF) (hd : tbl yydefact n = r) (hr0 : r ≠ 0)
    (hr1 : tbl yyr1 r = ntOfRank 0) (hr2 : tbl yyr2 r = 1)
    (hact : ∀ (f : Int → YACC) (yv : YACC) (root : TREE),
      yyaction r f yv root = (yv.setPtr (newleaf lab (f 0).v), root))
    (htop : c.yyss.headD 0 = s) (hc : c.yychar = YYEMPTY) (hin : c.yyin = tok code text :: rest) :
    Flows u c { c with
      yyss := gotoState (ntOfRank 0) s :: c.yyss
      yyvs := ⟨text, newleaf lab text⟩ :: c.yyvs
      yylval := ⟨text, TREE.null⟩
      yyin := rest } := by
  obtain ⟨p1, _, _, _, _⟩ := fact_prim_shift s hs
  have g6 := (fact_prim_reduce s hs).2.2.2.2.2.2.2.2.2.2.2.2.2.2.2
  have lx := reach_lex u c (tok code text) rest (by rw [htop]; exact p1) hc hin hcode
  have sh := flows_shift u
    { c with yychar := (tok code text).code, yylval := (tok code text).lval, yyin := rest } n
    hcode (by show shiftTo (c.yyss.headD 0) (YYTRANSLATE code) = some n; rw [htop]; exact hsh)
    hn6
  have rd := reach_reduce_free u
    { c with yyss := n :: c.yyss, yyvs := (tok code text).lval :: c.yyvs, yychar := YYEMPTY,
             yylval := (tok code text).lval, yyin := rest }
    r ⟨text, newleaf lab text⟩ (Or.inl hn) (by
      show reduceBy n _ = some r
      rw [reduceBy_default _ _ hn, hd]) hr0
    (by
      intro s' hf
      have e0 := fits_yyvsp u _ s' hf 0 (tok code text).lval rfl
      simp only [Nat.cast_zero, neg_zero] at e0
      rw [hr2, hact]
      simp only [sub_self, e0, hf.2.2.2.2.2.2.1]
      rfl)
    (by
      rw [hr1, hr2]
      simp only [Int.toNat_one, List.drop_succ_cons, List.drop_zero, htop]
      exact g6)
    (by rw [hr2]; simp)
  have e : ({ c with
      yyss := gotoState (tbl yyr1 r)
          (((n :: c.yyss).drop (tbl yyr2 r).toNat).headD 0)
        :: (n :: c.yyss).drop (tbl yyr2 r).toNat
      yyvs := ⟨text, newleaf lab text⟩
        :: ((tok code text).lval :: c.yyvs).drop (tbl yyr2 r).toNat
      yychar := YYEMPTY
      yylval := (tok code text).lval
      yyin := rest } : Core)
      = { c with
          yyss := gotoState (ntOfRank 0) s :: c.yyss
          yyvs := ⟨text, newleaf lab text⟩ :: c.yyvs
          yylval := ⟨text, TREE.null⟩
          yyin := rest } := by
    rw [hr1, hr2]
    simp only [Int.toNat_one, List.drop_succ_cons, List.drop_zero, htop, hc]
    rfl
  rw [e] at rd
  exact flows_trans (flows_of_reach lx) (flows_trans sh (flows_of_reach rd) rfl rfl) rfl rfl

theorem flows_num (u : Nat → Nat → YACC) (t : String) : PrimFlow u (Ex.num t) := by
  intro s hs c rest htop hc hin
  obtain ⟨_, _, sn, _, _⟩ := fact_prim_shift s hs
  obtain ⟨n1, n2, _, _, _, _, r1, _, _, r2, _⟩ := fact_prim_reduce s hs
  refine ⟨t, ⟨t, TREE.null⟩, ?_⟩
  exact flows_leaf u s hs c rest T_NUM t 32 93 "num" (by decide) sn (by decide) n1 n2
    (by decide) r1 r2 (fun _ _ _ => rfl) htop hc hin

theorem flows_id (u : Nat → Nat → YACC) (t : String) : PrimFlow u (Ex.id t) := by
  intro s hs c rest htop hc hin
  obtain ⟨_, _, _, si, _⟩ := fact_prim_shift s hs
  obtain ⟨_, _, n1, n2, _, _, _, r1, _, _, r2, _⟩ := fact_prim_reduce s hs
  refine ⟨t, ⟨t, TREE.null⟩, ?_⟩
  exact flows_leaf u s hs c rest T_ID t 33 94 "id" (by decide) si (by decide) n1 n2
    (by decide) r1 r2 (fun _ _ _ => rfl) htop hc hin

theorem chainflow_of_prim (u : Nat → Nat → YACC) (e : Ex) (hp : PrimFlow u e) :
    ChainFlow u e := by
  intro s hs h1 _ a ha _ c rest htop hc hin
  obtain ⟨v, lv, ps⟩ := hp s hs c (a :: rest) htop hc hin
  have hra : 1 ≤ rankOfCode a.code := by
    revert ha
    generalize a.code = code
    revert code
    decide
  have cl := climb_free u s hs a ha rest (min (rankOfCode a.code) (topRank s)) (by omega)
    (Nat.min_le_right _ _) (Nat.min_le_left _ _)
    (min (rankOfCode a.code) (topRank s)) 0 (by omega)
    { c with
      yyss := gotoState (ntOfRank 0) s :: c.yyss
      yyvs := ⟨v, e.tree⟩ :: c.yyvs
      yylval := lv
      yyin := a :: rest }
    c.yyss ⟨v, e.tree⟩ c.yyvs rfl htop rfl (Or.inl ⟨hc, rfl⟩)
  exact ⟨v, flows_trans ps (flows_of_reach cl) rfl rfl⟩

theorem flows_paren (u : Nat → Nat → YACC) (e : Ex) (ih : ChainFlow u e)
    (hd : e.derives 6 = true) : PrimFlow u (Ex.paren e) := by
  intro s hs c rest htop hc hin
  obtain ⟨p1, _, _, _, sp⟩ := fact_prim_shift s hs
  obtain ⟨_, _, _, _, n103, d103, _, _, r1, _, _, r2, g58, s103, _, g6⟩ :=
    fact_prim_reduce s hs
  have hin' : c.yyin = tok 40 "(" :: (e.tokens ++ tok 41 ")" :: rest) := by
    rw [hin]
    simp [Ex.tokens]
  have lx := reach_lex u c (tok 40 "(") (e.tokens ++ tok 41 ")" :: rest)
    (by rw [htop]; exact p1) hc hin' (by decide)
  have sh := flows_shift u
    { c with
      yychar := (tok 40 "(").code
      yylval := (tok 40 "(").lval
      yyin := e.tokens ++ tok 41 ")" :: rest }
    35 (by show (0 : Int) < 40; decide)
    (by show shiftTo (c.yyss.headD 0) (YYTRANSLATE 40) = some 35; rw [htop]; exact sp)
    (by decide)
  have hrk : e.rank ≤ rankOfCode (tok 41 ")").code := by
    have := rank_le_of_derives e 6 hd
    have h7 : rankOfCode (tok 41 ")").code = 7 := by decide
    omega
  obtain ⟨v, ch⟩ := ih 35 (by decide) (by decide) hd (tok 41 ")") (by decide) hrk
    { yyss := 35 :: c.yyss
      yyvs := (tok 40 "(").lval :: c.yyvs
      yychar := YYEMPTY
      yylval := (tok 40 "(").lval
      yyin := e.tokens ++ tok 41 ")" :: rest
      yynerrs := c.yynerrs
      root := c.root }
    rest rfl rfl rfl
  have g : gotoState (ntOfRank (min (rankOfCode (tok 41 ")").code) (topRank 35))) 35 = 58 := by
    decide
  rw [g] at ch
  have sh2 := flows_shift u
    { yyss := 58 :: 35 :: c.yyss
      yyvs := ⟨v, e.tree⟩ :: (tok 40 "(").lval :: c.yyvs
      yychar := (tok 41 ")").code
      yylval := (tok 41 ")").lval
      yyin := rest
      yynerrs := c.yynerrs
      root := c.root }
    103 (by show (0 : Int) < 41; decide) s103 (by decide)
  have rd := reach_reduce_free u
    { yyss := 103 :: 58 :: 35 :: c.yyss
      yyvs := (tok 41 ")").lval :: ⟨v, e.tree⟩ :: (tok 40 "(").lval :: c.yyvs
      yychar := YYEMPTY
      yylval := (tok 41 ")").lval
      yyin := rest
      yynerrs := c.yynerrs
      root := c.root }
    92 ⟨"(", e.tree⟩ (Or.inl n103)
    (by show reduceBy 103 _ = some 92
        rw [reduceBy_default _ _ n103, d103])
    (by decide)
    (by
      intro s' hf
      have e1 := fits_yyvsp u _ s' hf 1 ⟨v, e.tree⟩ rfl
      have e2 := fits_yyvsp u _ s' hf 2 (tok 40 "(").lval rfl
      simp only [Nat.cast_one, Nat.cast_ofNat] at e1 e2
      rw [r2]
      have e3 : (1 : Int) - 3 = -2 := by decide
      rw [e3, e2]
      show ((tok 40 "(").lval.setPtr (s'.yyvsp u (-1)).ptr, s'.root) = _
      rw [e1, hf.2.2.2.2.2.2.1]
      rfl)
    (by
      rw [r1, r2]
      show gotoState (ntOfRank 0) (c.yyss.headD 0) ≠ YYFINAL
      rw [htop]
      exact g6)
    (by rw [r2]; decide)
  have e : ({ yyss := gotoState (tbl yyr1 92)
                ((List.drop (tbl yyr2 92).toNat (103 :: 58 :: 35 :: c.yyss)).headD 0)
              :: List.drop (tbl yyr2 92).toNat (103 :: 58 :: 35 :: c.yyss)
              yyvs := ⟨"(", e.tree⟩
                :: List.drop (tbl yyr2 92).toNat
                    ((tok 41 ")").lval :: ⟨v, e.tree⟩ :: (tok 40 "(").lval :: c.yyvs)
              yychar := YYEMPTY
              yylval := (tok 41 ")").lval
              yyin := rest
              yynerrs := c.yynerrs
              root := c.root } : Core)
      = { c with
          yyss := gotoState (ntOfRank 0) s :: c.yyss
          yyvs := ⟨"(", (Ex.paren e).tree⟩ :: c.yyvs
          yylval := (tok 41 ")").lval
          yyin := rest } := by
    rw [r1, r2, hc]
    show ({ yyss := gotoState (ntOfRank 0) (c.yyss.headD 0) :: c.yyss
            yyvs := ⟨"(", e.tree⟩ :: c.yyvs
            yychar := YYEMPTY
            yylval := (tok 41 ")").lval
            yyin := rest
            yynerrs := c.yynerrs
            root := c.root } : Core) = _
    rw [htop]
    rfl
  refine ⟨"(", (tok 41 ")").lval, ?_⟩
  rw [← e]
  exact flows_trans (flows_of_reach lx) (flows_trans sh (flows_trans ch
    (flows_trans sh2 (flows_of_reach rd) rfl rfl) rfl rfl) rfl rfl) rfl rfl

theorem chainflow_bin (u : Nat → Nat → YACC) (op : BinOp) (l r : Ex) (hl : ChainFlow u l)
    (hr : ChainFlow u r) (hpr : r.isPrimary = true → PrimFlow u r) :
    ChainFlow u (Ex.bin op l r) := by
  intro s hs h1 hder a ha hrank c rest htop hc hin
  simp only [Ex.derives, Bool.and_eq_true, decide_eq_true_eq] at hder
  obtain ⟨⟨hj, hdl⟩, hdr⟩ := hder
  obtain ⟨f_sh, f_mem, f_top, f_ne, f_pos, f_fol, f_rk, f_1, f_6⟩ :=
    fact_op_shift s hs op (mem_allBinOps op) hj
  obtain ⟨q1, q2, q0, _, qn, qr⟩ := fact_op_reduce op (mem_allBinOps op)
  have hrank' : op.rank ≤ rankOfCode a.code := hrank
  have hapos : 0 < a.code := fact_follow _ ha
  have h6 := topRank_le s hs
  have hin' : c.yyin = l.tokens ++ op.token :: (r.tokens ++ a :: rest) := by
    rw [hin]
    simp [Ex.tokens]
  have hgoto : gotoState (ntOfRank op.rank) s ≠ YYFINAL := by
    have := (fact_unit s hs (op.rank - 1) (by omega) (by omega)).2.2.2.1
    rwa [Nat.sub_add_cancel f_1] at this
  have hact : ∀ (v1 v2 : String) (f : Int → YACC) (root : TREE),
      f 0 = ⟨v2, r.tree⟩ → f (-1) = op.token.lval → f (-2) = ⟨v1, l.tree⟩ →
      yyaction op.rule f ⟨v1, l.tree⟩ root = (⟨v1, (Ex.bin op l r).tree⟩, root) := by
    intro v1 v2 f root e0 e1 e2
    rw [act_bin, e0, e1, e2]
    rfl
  -- the left operand, with the operator as lookahead
  obtain ⟨v1, chl⟩ := hl s hs h1 (derives_mono l _ _ hj hdl) op.token f_fol
    (by show l.rank ≤ rankOfCode op.code
        rw [f_rk]
        exact rank_le_of_derives l _ hdl)
    c (r.tokens ++ a :: rest) htop hc hin'
  have hmin : min (rankOfCode op.token.code) (topRank s) = op.rank := by
    show min (rankOfCode op.code) (topRank s) = op.rank
    rw [f_rk]
    exact Nat.min_eq_left hj
  rw [hmin] at chl
  -- the operator is shifted
  have sh := flows_shift u
    { c with
      yyss := gotoState (ntOfRank op.rank) s :: c.yyss
      yyvs := ⟨v1, l.tree⟩ :: c.yyvs
      yychar := op.token.code
      yylval := op.token.lval
      yyin := r.tokens ++ a :: rest }
    op.shifted f_pos f_sh f_ne
  have hT1 : 1 ≤ min (rankOfCode a.code) (topRank s) := by omega
  have hTj : op.rank ≤ min (rankOfCode a.code) (topRank s) := by omega
  by_cases hj1 : op.rank = 1
  · -- the right operand is a primary
    have hrp : r.isPrimary = true :=
      isPrimary_of_derives_zero r (by rw [hj1] at hdr; exact hdr)
    obtain ⟨v2, lv, pr⟩ := hpr hrp op.shifted f_mem
      { yyss := op.shifted :: gotoState (ntOfRank op.rank) s :: c.yyss
        yyvs := op.token.lval :: ⟨v1, l.tree⟩ :: c.yyvs
        yychar := YYEMPTY
        yylval := op.token.lval
        yyin := r.tokens ++ a :: rest
        yynerrs := c.yynerrs
        root := c.root }
      (a :: rest) rfl rfl rfl
    obtain ⟨qn1, qn2⟩ := qn hj1
    have rd := reach_reduce3_free u
      { yyss := gotoState (ntOfRank 0) op.shifted :: op.shifted
          :: gotoState (ntOfRank op.rank) s :: c.yyss
        yyvs := ⟨v2, r.tree⟩ :: op.token.lval :: ⟨v1, l.tree⟩ :: c.yyvs
        yychar := YYEMPTY
        yylval := lv
        yyin := a :: rest
        yynerrs := c.yynerrs
        root := c.root }
      op.rule (ntOfRank op.rank) ⟨v1, (Ex.bin op l r).tree⟩ _ _ _ c.yyss _ _ _ c.yyvs rfl rfl
      (Or.inl qn1) (by rw [reduceBy_default _ _ qn1, qn2]) q0 q1 q2
      (fun f root e0 e1 e2 => hact v1 v2 f root e0 e1 e2)
      (by rw [htop]; exact hgoto)
    rw [htop] at rd
    have cl := climb_free u s hs a ha rest (min (rankOfCode a.code) (topRank s)) hT1
      (Nat.min_le_right _ _) (Nat.min_le_left _ _)
      (min (rankOfCode a.code) (topRank s) - op.rank) op.rank (by omega)
      { yyss := gotoState (ntOfRank op.rank) s :: c.yyss
        yyvs := ⟨v1, (Ex.bin op l r).tree⟩ :: c.yyvs
        yychar := YYEMPTY
        yylval := lv
        yyin := a :: rest
        yynerrs := c.yynerrs
        root := c.root }
      c.yyss ⟨v1, (Ex.bin op l r).tree⟩ c.yyvs rfl htop rfl (Or.inl ⟨rfl, rfl⟩)
    exact ⟨v1, flows_trans chl (flows_trans sh (flows_trans pr
      (flows_of_reach (Reach.trans rd cl)) rfl rfl) rfl rfl) rfl rfl⟩
  · -- the right operand is an expression of the next lower rank
    obtain ⟨v2, chr⟩ := hr op.shifted f_mem (by rw [f_top]; omega)
      (by rw [f_top]; exact hdr) a ha
      (by have := rank_le_of_derives r _ hdr; omega)
      { yyss := op.shifted :: gotoState (ntOfRank op.rank) s :: c.yyss
        yyvs := op.token.lval :: ⟨v1, l.tree⟩ :: c.yyvs
        yychar := YYEMPTY
        yylval := op.token.lval
        yyin := r.tokens ++ a :: rest
        yynerrs := c.yynerrs
        root := c.root }
      rest rfl rfl rfl
    have hmin2 : min (rankOfCode a.code) (topRank op.shifted) = op.rank - 1 := by
      rw [f_top]
      omega
    rw [hmin2] at chr
    have rd := reach_reduce3_free u
      { yyss := gotoState (ntOfRank (op.rank - 1)) op.shifted :: op.shifted
          :: gotoState (ntOfRank op.rank) s :: c.yyss
        yyvs := ⟨v2, r.tree⟩ :: op.token.lval :: ⟨v1, l.tree⟩ :: c.yyvs
        yychar := a.code
        yylval := a.lval
        yyin := rest
        yynerrs := c.yynerrs
        root := c.root }
      op.rule (ntOfRank op.rank) ⟨v1, (Ex.bin op l r).tree⟩ _ _ _ c.yyss _ _ _ c.yyvs rfl rfl
      (Or.inr hapos) (qr a.code ha hrank') q0 q1 q2
      (fun f root e0 e1 e2 => hact v1 v2 f root e0 e1 e2)
      (by rw [htop]; exact hgoto)
    rw [htop] at rd
    have cl := climb_free u s hs a ha rest (min (rankOfCode a.code) (topRank s)) hT1
      (Nat.min_le_right _ _) (Nat.min_le_left _ _)
      (min (rankOfCode a.code) (topRank s) - op.rank) op.rank (by omega)
      { yyss := gotoState (ntOfRank op.rank) s :: c.yyss
        yyvs := ⟨v1, (Ex.bin op l r).tree⟩ :: c.yyvs
        yychar := a.code
        yylval := a.lval
        yyin := rest
        yynerrs := c.yynerrs
        root := c.root }
      c.yyss ⟨v1, (Ex.bin op l r).tree⟩ c.yyvs rfl htop rfl (Or.inr ⟨rfl, rfl, rfl⟩)
    exact ⟨v1, flows_trans chl (flows_trans sh (flows_trans chr
      (flows_of_reach (Reach.trans rd cl)) rfl rfl) rfl rfl) rfl rfl⟩

/-- The driver on every expression: a primary is reduced to Expr, and a derivable
expression is reduced as far as its follower allows. -/
theorem expr_flows (u : Nat → Nat → YACC) (e : Ex) :
    (e.isPrimary = true → PrimFlow u e) ∧ ChainFlow u e := by
  induction e with
  | num t => exact ⟨fun _ => flows_num u t, chainflow_of_prim u _ (flows_num u t)⟩
  | id t => exact ⟨fun _ => flows_id u t, chainflow_of_prim u _ (flows_id u t)⟩
  | paren e ih =>
    refine ⟨fun h => flows_paren u e ih.2 h, ?_⟩
    intro s hs h1 hder
    exact chainflow_of_prim u _ (flows_paren u e ih.2 hder) s hs h1 hder
  | bin op l r ihl ihr =>
    refine ⟨fun h => ?_, chainflow_bin u op l r ihl.2 ihr.2 ihr.1⟩
    exact absurd h Bool.false_ne_true

/-! ## A whole program around one assignment, of any size -/

/-- The program whose method body is the one statement `t = e;` is accepted with the tree
of `e` as the second child of the statement's operator node, unless the stack is exhausted:
then `yyparse` returns 2 after one call of `yyerror` and stores no root. -/
theorem assign_flows (u : Nat → Nat → YACC) (e : Ex) (hd : e.derives 6 = true) :
    ∃ k r,
      (∀ n, yyparse (k + n) u TREE.null
        (program (ident "t" :: tok T_ASSGN "=" :: (e.tokens ++ [semi]))) = some r) ∧
      ((r.1 = 0 ∧ (bodyOf r.2.root).c1.c1.c2 = e.tree ∧ r.2.yynerrs = 0) ∨
       (r.1 = 2 ∧ r.2.root = TREE.null ∧ r.2.yynerrs = 1)) := by
  have hpre := prefix_runs u (e.tokens ++ semi :: classClose)
  obtain ⟨v, hch⟩ := (expr_flows u e).2 95 (by decide) (by decide) hd semi (by decide)
    (Nat.le_trans (rank_le_of_derives e 6 hd) (by decide))
    ⟨[95, 53, 28, 27, 26, 25, 24, 23, 22, 21, 20, 13, 11, 10, 7, 4, 0],
     [⟨"=", TREE.null⟩, ⟨"t", newleaf "id" "t"⟩, ⟨"\x7b", TREE.null⟩, ⟨")", TREE.null⟩,
      ⟨"args", TREE.null⟩, ⟨"]", TREE.null⟩, ⟨"[", TREE.null⟩,
      ⟨"String", newleaf "datatype" "String"⟩, ⟨"(", TREE.null⟩, ⟨"main", TREE.null⟩,
      ⟨"void", newleaf "datatype" "void"⟩,
      ⟨"public", newnode "modifier" (newleaf "access modifier" "public")
        (newleaf "access modifier" "static") TREE.null TREE.null⟩,
      ⟨"\x7b", TREE.null⟩, ⟨"A", TREE.null⟩, ⟨"class", TREE.null⟩,
      ⟨"public", newnode "modifier" (newleaf "access modifier" "public")
        TREE.null TREE.null TREE.null⟩],
     YYEMPTY, ⟨"=", TREE.null⟩, e.tokens ++ semi :: classClose, 0, TREE.null⟩
    classClose rfl rfl rfl
  have hall := Ends.of_reach hpre (Ends.of_flows hch (suffix_ends u v e.tree))
  have htoks : program (ident "t" :: tok T_ASSGN "=" :: (e.tokens ++ [semi]))
      = tok T_PUBLIC "public" :: tok T_CLASS "class" :: tok T_ID "A" :: tok 123 "\x7b" ::
        tok T_PUBLIC "public" :: tok T_STATIC "static" :: tok T_VOID "void" ::
        tok T_MAIN "main" :: tok 40 "(" :: tok T_STRING "String" :: tok 91 "[" ::
        tok 93 "]" :: tok T_ARGS "args" :: tok 41 ")" :: tok 123 "\x7b" :: tok T_ID "t" ::
        tok T_ASSGN "=" :: (e.tokens ++ semi :: classClose) := by
    simp only [program, classOpen, ident, List.cons_append, List.nil_append, List.append_assoc]
  rw [htoks]
  obtain ⟨k, r, hq, hk⟩ := hall (yyinit TREE.null _)
    ⟨rfl, rfl, rfl, rfl, rfl, rfl, rfl, rfl, by show 1 < 200; decide,
      by show 200 ≤ 10000; decide⟩
  have e1 : ∀ m toks, yyparse m u TREE.null toks = yyloop u m (yyinit TREE.null toks) :=
    fun _ _ => rfl
  refine ⟨k + 1, r, fun n => by rw [e1, hk], ?_⟩
  rcases hq with h | h
  · exact Or.inl h
  · exact Or.inr h

/-- The same with the bound that keeps the stack from being exhausted. -/
theorem assign_both (u : Nat → Nat → YACC) (e : Ex) (hd : e.derives 6 = true) :
    ∃ k r,
      (∀ n, yyparse (k + n) u TREE.null
        (program (ident "t" :: tok T_ASSGN "=" :: (e.tokens ++ [semi]))) = some r) ∧
      ((r.1 = 0 ∧ (bodyOf r.2.root).c1.c1.c2 = e.tree ∧ r.2.yynerrs = 0) ∨
       (r.1 = 2 ∧ r.2.root = TREE.null ∧ r.2.yynerrs = 1)) ∧
      (e.tokens.length + 18 < YYMAXDEPTH → r.1 = 0) := by
  obtain ⟨k, r, hk, hq⟩ := assign_flows u e hd
  refine ⟨k, r, hk, hq, fun hsize => ?_⟩
  obtain ⟨k2, h2⟩ := assign_program u e hd hsize
  have a := hk k2
  have b := h2 k
  rw [Nat.add_comm k2 k, a] at b
  simp only [Option.map_some', Option.some.injEq, Prod.mk.injEq] at b
  exact b.1

theorem tree_isNull (e : Ex) : e.tree.isNull = false := by
  induction e with
  | num a => rfl
  | id a => rfl
  | paren a ih => exact ih
  | bin op l r _ _ => rfl

/-- The in-order reading of the tree of an expression is the sequence of the texts of its
tokens without the parentheses. -/
theorem inorder_tree (e : Ex) : e.tree.inorder = textsWithoutParens e.tokens := by
  induction e with
  | num a => rfl
  | id a => rfl
  | paren a ih =>
    show a.tree.inorder = _
    rw [ih]
    unfold textsWithoutParens
    simp [Ex.tokens, List.filter_cons, List.filter_append, tok]
  | bin op l r ihl ihr =>
    have h : (Ex.bin op l r).tree.inorder = l.tree.inorder ++ [op.lexeme] ++ r.tree.inorder := by
      show (if l.tree.isNull && r.tree.isNull && nptr.isNull && nptr.isNull then ["N/A"]
        else l.tree.inorder ++ [op.lexeme] ++ r.tree.inorder) = _
      rw [tree_isNull l]
      rfl
    rw [h, ihl, ihr]
    unfold textsWithoutParens
    have hop : decide (op.token.code ≠ 40 ∧ op.token.code ≠ 41) = true := by
      cases op <;> decide
    simp only [Ex.tokens, List.filter_append, List.filter_cons, hop, if_true, List.map_append,
      List.map_cons, List.append_assoc, List.singleton_append]
    rfl

theorem replicate_split_cons (a : Token) (l : List Token) :
    a :: (List.replicate 10000 a ++ l)
      = List.replicate 9982 a ++ a :: (List.replicate 18 a ++ l) := by
  have e0 : ∀ m : Nat, a :: List.replicate m a = List.replicate (m + 1) a :=
    fun m => (List.replicate_succ a m).symm
  have h : (10000 : Nat) = 9982 + 18 := by decide
  rw [h, List.replicate_add, List.append_assoc]
  generalize List.replicate 18 a ++ l = r
  generalize (9982 : Nat) = m
  induction m with
  | zero => rfl
  | succ j ih =>
    rw [List.replicate_succ, List.cons_append, List.cons_append, ih]

theorem group_tokens (X Y Z : List Token) (a b c d e : Token) :
    [a] ++ X ++ [b] ++ Y ++ [c] ++ [d] ++ Z ++ [e]
      = a :: (X ++ b :: (Y ++ c :: d :: (Z ++ [e]))) := by
  simp

/-! ## The printer and its calls -/

theorem calls_map_anc {α : Type} (f : Call → α)
    (hf : ∀ (p : String) (a a' : List Int) (l : Int) (n : TREE), f ⟨p, a, l, n⟩ = f ⟨p, a', l, n⟩)
    (t : TREE) : ∀ (pfx : String) (anc anc' : List Int) (l : Int),
    (calls pfx anc t l).map f = (calls pfx anc' t l).map f := by
  induction t with
  | null =>
    intro pfx anc anc' l
    simp [calls]
  | node o v c1 c2 c3 c4 ih1 ih2 ih3 ih4 =>
    intro pfx anc anc' l
    simp only [calls]
    split_ifs <;>
      simp only [List.map_cons, List.map_append, List.map_nil,
        ih1 _ (anc ++ [l]) (anc' ++ [l]), ih2 _ (anc ++ [l]) (anc' ++ [l]),
        ih3 _ (anc ++ [l]) (anc' ++ [l]), ih4 _ (anc ++ [l]) (anc' ++ [l]),
        hf pfx anc anc' l]

theorem calls_lines (pfx : String) (anc : List Int) (t : TREE) (l : Int) :
    (calls pfx anc t l).map Call.line = drawn pfx t l :=
  calls_map_anc Call.line (fun _ _ _ _ _ => rfl) t pfx anc [] l

theorem all_fits_map (cs : List Call) : cs.all Call.fits = (cs.map Call.fits).all id := by
  induction cs with
  | nil => rfl
  | cons c cs ih => simp [ih]

theorem calls_fits (pfx : String) (anc : List Int) (t : TREE) (l : Int) :
    (calls pfx anc t l).all Call.fits = fitsBuffer pfx t l := by
  have h := calls_map_anc Call.fits (fun _ _ _ _ _ => rfl) t pfx anc [] l
  unfold fitsBuffer
  rw [all_fits_map, all_fits_map (calls pfx [] t l), h]

theorem bind_four (a1 a2 a3 a4 : Bool) (fp l1 l2 l3 l4 : List String) (o v : String)
    (t1 t2 t3 t4 : TREE) :
    ((if a1 = true then some (fp ++ l1, t1) else none).bind fun r1 =>
      (if a2 = true then some (r1.1 ++ l2, t2) else none).bind fun r2 =>
      (if a3 = true then some (r2.1 ++ l3, t3) else none).bind fun r3 =>
      (if a4 = true then some (r3.1 ++ l4, t4) else none).bind fun r4 =>
      some (r4.1, TREE.node o v r1.2 r2.2 r3.2 r4.2))
      = if (a1 && (a2 && (a3 && a4))) = true
        then some (fp ++ (l1 ++ (l2 ++ (l3 ++ l4))), TREE.node o v t1 t2 t3 t4)
        else none := by
  cases a1 <;> cases a2 <;> cases a3 <;> cases a4 <;> simp

theorem calls_head (pfx : String) (anc : List Int) (o v : String) (c1 c2 c3 c4 : TREE)
    (l : Int) :
    ∃ rest, calls pfx anc (TREE.node o v c1 c2 c3 c4) l
      = ⟨pfx, anc, l, TREE.node o v c1 c2 c3 c4⟩ :: rest := by
  simp only [calls]
  split_ifs <;> exact ⟨_, rfl⟩

theorem line_here (pfx : String) (anc : List Int) (o v : String) (c1 c2 c3 c4 : TREE)
    (l : Int) :
    (⟨pfx, anc, l, TREE.node o v c1 c2 c3 c4⟩ : Call).line
      = pfx ++ (if l = 0 then "└──" else "├──") ++
        (if (c1.isNull && c2.isNull && c3.isNull && c4.isNull) = true
         then "(" ++ o ++ ", " ++ v ++ ")\n" else o ++ "\n") := by
  simp only [Call.line, TREE.content, TREE.c1, TREE.c2, TREE.c3, TREE.c4, TREE.label, TREE.val]
  split_ifs <;> simp only [String.append_assoc] <;> rfl

/-- The result of `printBT` in terms of its calls: when no call overruns the buffer, the
lines of the calls are appended to the output file and the tree is as it was; otherwise the
behaviour is undefined. -/
theorem printBT_calls (t : TREE) : ∀ (fp : List String) (pfx : String) (anc : List Int)
    (isLeft : Int), printBT fp pfx t isLeft
      = if (calls pfx anc t isLeft).all Call.fits
        then some (fp ++ (calls pfx anc t isLeft).map Call.line, t) else none := by
  induction t with
  | null =>
    intro fp pfx anc l
    simp [calls, printBT]
  | node o v c1 c2 c3 c4 ih1 ih2 ih3 ih4 =>
    intro fp pfx anc l
    have hfit : (⟨pfx, anc, l, TREE.node o v c1 c2 c3 c4⟩ : Call).fits
        = decide ((if l = 0 then pfx ++ "    " else pfx ++ "│   ").utf8ByteSize + 1 ≤ 1000) :=
      rfl
    by_cases hov : 1000 < (if l = 0 then pfx ++ "    " else pfx ++ "│   ").utf8ByteSize + 1
    · have hf : (⟨pfx, anc, l, TREE.node o v c1 c2 c3 c4⟩ : Call).fits = false := by
        rw [hfit, decide_eq_false_iff_not]
        omega
      obtain ⟨rest, e⟩ := calls_head pfx anc o v c1 c2 c3 c4 l
      rw [e, List.all_cons, hf, Bool.false_and, if_neg (by decide)]
      simp only [printBT]
      rw [if_pos hov]
    · have hf : (⟨pfx, anc, l, TREE.node o v c1 c2 c3 c4⟩ : Call).fits = true := by
        rw [hfit, decide_eq_true_eq]
        omega
      simp only [printBT, calls]
      rw [if_neg hov]
      have key : ∀ (x : Option (List String × TREE)) (y : List Call) (f1 f2 f3 : Int),
          x = (if ((calls (if l = 0 then pfx ++ "    " else pfx ++ "│   ") (anc ++ [l]) c1
                      f1).all Call.fits
                && ((calls (if l = 0 then pfx ++ "    " else pfx ++ "│   ") (anc ++ [l]) c2
                      f2).all Call.fits
                && ((calls (if l = 0 then pfx ++ "    " else pfx ++ "│   ") (anc ++ [l]) c3
                      f3).all Call.fits
                && (calls (if l = 0 then pfx ++ "    " else pfx ++ "│   ") (anc ++ [l]) c4
                      0).all Call.fits))) = true
              then some ((fp ++ [pfx ++ (if l = 0 then "└──" else "├──") ++
                  (if (c1.isNull && c2.isNull && c3.isNull && c4.isNull) = true
                   then "(" ++ o ++ ", " ++ v ++ ")\n" else o ++ "\n")])
                ++ ((calls (if l = 0 then pfx ++ "    " else pfx ++ "│   ") (anc ++ [l]) c1
                      f1).map Call.line
                ++ ((calls (if l = 0 then pfx ++ "    " else pfx ++ "│   ") (anc ++ [l]) c2
                      f2).map Call.line
                ++ ((calls (if l = 0 then pfx ++ "    " else pfx ++ "│   ") (anc ++ [l]) c3
                      f3).map Call.line
                ++ (calls (if l = 0 then pfx ++ "    " else pfx ++ "│   ") (anc ++ [l]) c4
                      0).map Call.line))), TREE.node o v c1 c2 c3 c4)
              else none) →
          y = ⟨pfx, anc, l, TREE.node o v c1 c2 c3 c4⟩ ::
              (calls (if l = 0 then pfx ++ "    " else pfx ++ "│   ") (anc ++ [l]) c1 f1
                ++ calls (if l = 0 then pfx ++ "    " else pfx ++ "│   ") (anc ++ [l]) c2 f2
                ++ calls (if l = 0 then pfx ++ "    " else pfx ++ "│   ") (anc ++ [l]) c3 f3
                ++ calls (if l = 0 then pfx ++ "    " else pfx ++ "│   ") (anc ++ [l]) c4 0) →
          x = if y.all Call.fits = true then some (fp ++ y.map Call.line, TREE.node o v c1 c2 c3 c4)
              else none := by
        intro x y f1 f2 f3 hx hy
        rw [hx, hy]
        simp only [List.all_cons, List.all_append, hf, Bool.true_and, List.map_cons,
          List.map_append, line_here, Bool.and_assoc, List.append_assoc, List.singleton_append]
      by_cases b1 : (!c1.isNull && c2.isNull && c3.isNull && c4.isNull) = true
      · simp only [if_pos b1]
        refine key _ _ 0 0 0 ?_ rfl
        rw [ih1 _ _ (anc ++ [l])]
        simp only [ih2 _ _ (anc ++ [l]), ih3 _ _ (anc ++ [l]), ih4 _ _ (anc ++ [l])]
        exact bind_four _ _ _ _ _ _ _ _ _ _ _ _ _ _ _
      simp only [if_neg b1]
      by_cases b2 : (!c1.isNull && !c2.isNull && c3.isNull && c4.isNull) = true
      · simp only [if_pos b2]
        refine key _ _ 1 0 0 ?_ rfl
        rw [ih1 _ _ (anc ++ [l])]
        simp only [ih2 _ _ (anc ++ [l]), ih3 _ _ (anc ++ [l]), ih4 _ _ (anc ++ [l])]
        exact bind_four _ _ _ _ _ _ _ _ _ _ _ _ _ _ _
      simp only [if_neg b2]
      by_cases b3 : (!c1.isNull && !c2.isNull && !c3.isNull && c4.isNull) = true
      · simp only [if_pos b3]
        refine key _ _ 1 1 0 ?_ rfl
        rw [ih1 _ _ (anc ++ [l])]
        simp only [ih2 _ _ (anc ++ [l]), ih3 _ _ (anc ++ [l]), ih4 _ _ (anc ++ [l])]
        exact bind_four _ _ _ _ _ _ _ _ _ _ _ _ _ _ _
      simp only [if_neg b3]
      by_cases b4 : (!c1.isNull && !c2.isNull && !c3.isNull && !c4.isNull) = true
      · simp only [if_pos b4]
        refine key _ _ 1 1 1 ?_ rfl
        rw [ih1 _ _ (anc ++ [l])]
        simp only [ih2 _ _ (anc ++ [l]), ih3 _ _ (anc ++ [l]), ih4 _ _ (anc ++ [l])]
        exact bind_four _ _ _ _ _ _ _ _ _ _ _ _ _ _ _
      simp only [if_neg b4, List.all_cons, List.all_nil, hf, Bool.and_self, if_true,
        List.map_cons, List.map_nil, line_here]

/-- The result of `printBT`: when no call overruns the buffer, the lines of the drawing are
appended to the output file and the tree is as it was; otherwise the behaviour is
undefined. -/
theorem printBT_eq (fp : List String) (pfx : String) (t : TREE) (isLeft : Int) :
    printBT fp pfx t isLeft
      = if fitsBuffer pfx t isLeft then some (fp ++ drawn pfx t isLeft, t) else none :=
  printBT_calls t fp pfx [] isLeft

theorem drawn_null (pfx : String) (isLeft : Int) : drawn pfx TREE.null isLeft = [] := rfl

theorem fits_null (pfx : String) (isLeft : Int) : fitsBuffer pfx TREE.null isLeft = true :=
  rfl

theorem calls_null (pfx : String) (anc : List Int) (isLeft : Int) :
    calls pfx anc TREE.null isLeft = [] := rfl

/-- The calls on a node: the call on the node itself and, when the occupied slots of the
node form a prefix of the four slots, the calls on the four children, each with the flag 0
exactly when no later slot is occupied. -/
theorem calls_node_eq (pfx : String) (anc : List Int) (o v : String) (c1 c2 c3 c4 : TREE)
    (l : Int) :
    calls pfx anc (TREE.node o v c1 c2 c3 c4) l
      = ⟨pfx, anc, l, TREE.node o v c1 c2 c3 c4⟩ ::
        (if (TREE.node o v c1 c2 c3 c4).contiguousHere then
          calls (deeper pfx l) (anc ++ [l]) c1 (if c2.isNull then 0 else 1)
            ++ calls (deeper pfx l) (anc ++ [l]) c2 (if c3.isNull then 0 else 1)
            ++ calls (deeper pfx l) (anc ++ [l]) c3 (if c4.isNull then 0 else 1)
            ++ calls (deeper pfx l) (anc ++ [l]) c4 0
         else []) := by
  simp only [calls, deeper]
  cases c1 <;> cases c2 <;> cases c3 <;> cases c4 <;>
    simp [TREE.isNull, TREE.contiguousHere, TREE.occupied, calls_null]

theorem drawn_node (pfx : String) (o v : String) (c1 c2 c3 c4 : TREE) (l : Int) :
    drawn pfx (TREE.node o v c1 c2 c3 c4) l
      = (pfx ++ glyph l ++ (TREE.node o v c1 c2 c3 c4).content ++ "\n") ::
        (if (TREE.node o v c1 c2 c3 c4).contiguousHere then
          drawn (deeper pfx l) c1 (if c2.isNull then 0 else 1)
            ++ drawn (deeper pfx l) c2 (if c3.isNull then 0 else 1)
            ++ drawn (deeper pfx l) c3 (if c4.isNull then 0 else 1)
            ++ drawn (deeper pfx l) c4 0
         else []) := by
  unfold drawn
  rw [calls_node_eq]
  split_ifs <;>
    simp only [List.map_cons, List.map_append, List.map_nil, calls_lines, Call.line, glyph]

theorem fits_node (pfx : String) (o v : String) (c1 c2 c3 c4 : TREE) (l : Int) :
    fitsBuffer pfx (TREE.node o v c1 c2 c3 c4) l
      = (decide ((deeper pfx l).utf8ByteSize + 1 ≤ 1000) &&
        (if (TREE.node o v c1 c2 c3 c4).contiguousHere then
          fitsBuffer (deeper pfx l) c1 (if c2.isNull then 0 else 1)
            && fitsBuffer (deeper pfx l) c2 (if c3.isNull then 0 else 1)
            && fitsBuffer (deeper pfx l) c3 (if c4.isNull then 0 else 1)
            && fitsBuffer (deeper pfx l) c4 0
         else true)) := by
  unfold fitsBuffer
  rw [calls_node_eq]
  split_ifs <;>
    simp only [List.all_cons, List.all_append, List.all_nil, calls_fits, Call.fits,
      Call.new_prefix, deeper]

/-- The drawing of a tree in which the occupied slots of every node form a prefix is made
of the rows of the tree. -/
theorem drawn_rows (t : TREE) : ∀ (pfx : String) (isLeft : Int), t.contiguousAll = true →
    drawn pfx t isLeft = (rows pfx t (decide (isLeft = 0))).map rowLine := by
  induction t with
  | null =>
    intro pfx l _
    simp [drawn_null, rows]
  | node o v c1 c2 c3 c4 ih1 ih2 ih3 ih4 =>
    intro pfx l ht
    simp only [TREE.contiguousAll, Bool.and_eq_true] at ht
    obtain ⟨⟨⟨⟨hh, h1⟩, h2⟩, h3⟩, h4⟩ := ht
    rw [drawn_node, if_pos hh, ih1 _ _ h1, ih2 _ _ h2, ih3 _ _ h3, ih4 _ _ h4]
    simp only [rows, deeper, glyph]
    cases c1 <;> cases c2 <;> cases c3 <;> cases c4 <;>
      first
      | (simp [TREE.contiguousHere, TREE.occupied, TREE.isNull] at hh; done)
      | (by_cases hl : l = 0 <;>
           simp [hl, TREE.isNull, rows_null, rowLine, String.append_assoc])

/-- Every call made for a tree whose deepest node is at depth at most 165 fits the buffer. -/
theorem fits_of_height (root : TREE) (h : root.height ≤ 166) :
    fitsBuffer "" root 0 = true := by
  unfold fitsBuffer
  rw [List.all_eq_true]
  intro c hc
  obtain ⟨_, _, hd⟩ := calls_shape root "" [] 0 c hc
  have h1 := (join_seg_bytes c.anc).2
  have h2 := (seg_bytes c.isLeft).2
  unfold Call.fits
  rw [decide_eq_true_eq, new_prefix_seg, utf8_append, root_call_pfx root c hc]
  simp only [List.length_nil] at hd
  omega

/-- A call that does not fit makes the whole printing undefined. -/
theorem overrun_of_call (fp : List String) (pfx : String) (t : TREE) (l : Int) (c : Call)
    (hc : c ∈ calls pfx [] t l) (h : 1000 < c.new_prefix.utf8ByteSize + 1) :
    printBT fp pfx t l = none := by
  rw [printBT_eq]
  have hf : fitsBuffer pfx t l = false := by
    unfold fitsBuffer
    rw [List.all_eq_false]
    refine ⟨c, hc, ?_⟩
    unfold Call.fits
    simp only [decide_eq_true_eq]
    omega
  rw [hf]
  rfl

/-- The printing of the tree of a sum with 166 operators overruns the buffer. -/
theorem overrun_leftChain (fp : List String) : printBT fp "" (leftChain 166) 0 = none := by
  obtain ⟨c, hc, _, e⟩ := calls_leftChain 166 "" [] 0
  refine overrun_of_call fp "" _ 0 c hc ?_
  rw [e]
  decide

theorem contiguousAll_leftChain (n : Nat) : (leftChain n).contiguousAll = true := by
  induction n with
  | zero => rfl
  | succ k ih =>
    show (TREE.node "+" "N/A" (leftChain k) (newleaf "id" "a") TREE.null
      TREE.null).contiguousAll = true
    have hk := isNull_leftChain k
    simp only [TREE.contiguousAll, ih, TREE.contiguousHere, TREE.occupied, hk,
      isNull_newleaf, isNull_null]
    decide

theorem size_leftChain (n : Nat) : (leftChain n).size = 2 * n + 1 := by
  induction n with
  | zero => rfl
  | succ k ih =>
    show (TREE.node "+" "N/A" (leftChain k) (newleaf "id" "a") TREE.null TREE.null).size
      = 2 * (k + 1) + 1
    simp only [TREE.size, ih, newleaf]
    omega

/-! ## The driver -/

/-- After a parse with a non-zero result `main` prints the failure message only. -/
theorem main_failure (fuel : Nat) (uninit : Nat → Nat → YACC) (yyin : List Token)
    (yyresult : Int)
    (h : (yyparse fuel uninit TREE.null yyin).map (fun r => r.1) = some yyresult)
    (hne : yyresult ≠ 0) :
    main fuel uninit yyin = some { stdout := ["Unsuccessful\n"], fp := [] } := by
  unfold main
  cases hp : yyparse fuel uninit TREE.null yyin with
  | none => rw [hp] at h; simp at h
  | some r =>
    obtain ⟨c, s⟩ := r
    rw [hp] at h
    simp only [Option.map_some', Option.some.injEq] at h
    subst h
    simp [hne]

/-- After a parse with the result 0 `main` prints the tree, unless the printing is
undefined. -/
theorem main_success (fuel : Nat) (uninit : Nat → Nat → YACC) (yyin : List Token)
    (h : (yyparse fuel uninit TREE.null yyin).map (fun r => r.1) = some 0) :
    main fuel uninit yyin
      = (yyparse fuel uninit TREE.null yyin).bind (fun r =>
          if followsWild fuel uninit yyin = true ∨ fitsBuffer "" r.2.root 0 = false then none
          else some { stdout := ["Parsing succesful\n", "AST generated\n"],
                      fp := ["Abstract Syntax Tree\n"] ++ drawn "" r.2.root 0 ++ ["\n"] }) := by
  unfold main
  cases hp : yyparse fuel uninit TREE.null yyin with
  | none => rfl
  | some r =>
    obtain ⟨c, s⟩ := r
    rw [hp] at h
    simp only [Option.map_some', Option.some.injEq] at h
    subst h
    simp only [if_true, Option.some_bind, printBT_eq]
    cases hw : followsWild fuel uninit yyin <;> cases hf : fitsBuffer "" s.root 0 <;> simp

/-- The output of `main` from two closed facts about the runs of the parser. -/
theorem main_of_runs (fuel : Nat) (uninit : Nat → Nat → YACC) (yyin : List Token)
    (out : List String)
    (h1 : (yyparse fuel uninit TREE.null yyin).map
      (fun r => (r.1, (printBT ["Abstract Syntax Tree\n"] "" r.2.root 0).map Prod.fst))
        = some (0, some out))
    (h2 : (yyparse fuel (wildStack uninit) TREE.null yyin).map
      (fun r => (calls "" [] r.2.root 0).any (fun c => c.node.isWild)) = some false) :
    main fuel uninit yyin
      = some { stdout := ["Parsing succesful\n", "AST generated\n"], fp := out ++ ["\n"] } := by
  have hw : followsWild fuel uninit yyin = false := by
    unfold followsWild
    cases hp : yyparse fuel (wildStack uninit) TREE.null yyin with
    | none => rfl
    | some r =>
      rw [hp] at h2
      simpa using h2
  unfold main
  cases hp : yyparse fuel uninit TREE.null yyin with
  | none => rw [hp] at h1; simp at h1
  | some r =>
    obtain ⟨c, s⟩ := r
    rw [hp] at h1
    simp only [Option.map_some', Option.some.injEq, Prod.mk.injEq] at h1
    obtain ⟨hc, ho⟩ := h1
    subst hc
    cases hq : printBT ["Abstract Syntax Tree\n"] "" s.root 0 with
    | none => rw [hq] at ho; simp at ho
    | some p =>
      rw [hq] at ho
      simp only [Option.map_some', Option.some.injEq] at ho
      subst ho
      simp [hw, hq]

/-- After a parse with the result 0, `main` is undefined when the printer follows a wild
pointer. -/
theorem main_wild (fuel : Nat) (uninit : Nat → Nat → YACC) (yyin : List Token)
    (h1 : (yyparse fuel uninit TREE.null yyin).map (fun r => r.1) = some 0)
    (h2 : (yyparse fuel (wildStack uninit) TREE.null yyin).map
      (fun r => (calls "" [] r.2.root 0).any (fun c => c.node.isWild)) = some true) :
    main fuel uninit yyin = none := by
  have hw : followsWild fuel uninit yyin = true := by
    unfold followsWild
    cases hp : yyparse fuel (wildStack uninit) TREE.null yyin with
    | none => rw [hp] at h2; simp at h2
    | some r =>
      rw [hp] at h2
      simpa using h2
  rw [main_success fuel uninit yyin h1]
  cases hp : yyparse fuel uninit TREE.null yyin with
  | none => rfl
  | some r => simp [hw]

/-- One call of `printBT` on a present node: it overruns the buffer, or it appends the line
of the node, which starts with the unchanged prefix, and then either calls itself on no
child or on the four children in slot order, each time with the new prefix. -/
theorem printBT_node (fp : List String) (pfx o v : String) (c1 c2 c3 c4 : TREE)
    (isLeft : Int) :
    printBT fp pfx (TREE.node o v c1 c2 c3 c4) isLeft
      = if 1000 < (if isLeft = 0 then pfx ++ "    " else pfx ++ "│   ").utf8ByteSize + 1 then
          none
        else if (TREE.node o v c1 c2 c3 c4).contiguousHere then
          (printBT (fp ++ [pfx ++ (glyph isLeft ++ (TREE.node o v c1 c2 c3 c4).content ++ "\n")])
            (if isLeft = 0 then pfx ++ "    " else pfx ++ "│   ") c1
            (if c2.isNull then 0 else 1)).bind fun r1 =>
          (printBT r1.1 (if isLeft = 0 then pfx ++ "    " else pfx ++ "│   ") c2
            (if c3.isNull then 0 else 1)).bind fun r2 =>
          (printBT r2.1 (if isLeft = 0 then pfx ++ "    " else pfx ++ "│   ") c3
            (if c4.isNull then 0 else 1)).bind fun r3 =>
          (printBT r3.1 (if isLeft = 0 then pfx ++ "    " else pfx ++ "│   ") c4 0).bind
            fun r4 => some (r4.1, TREE.node o v r1.2 r2.2 r3.2 r4.2)
        else
          some (fp ++ [pfx ++ (glyph isLeft ++ (TREE.node o v c1 c2 c3 c4).content ++ "\n")],
            TREE.node o v c1 c2 c3 c4) := by
  have hl : pfx ++ (glyph isLeft ++ (TREE.node o v c1 c2 c3 c4).content ++ "\n")
      = pfx ++ (if isLeft = 0 then "└──" else "├──") ++
        (if (c1.isNull && c2.isNull && c3.isNull && c4.isNull) = true
         then "(" ++ o ++ ", " ++ v ++ ")\n" else o ++ "\n") := by
    rw [← line_here pfx [] o v c1 c2 c3 c4 isLeft]
    simp only [Call.line, glyph, String.append_assoc]
  rw [hl]
  simp only [printBT]
  by_cases hov : 1000 < (if isLeft = 0 then pfx ++ "    " else pfx ++ "│   ").utf8ByteSize + 1
  · rw [if_pos hov, if_pos hov]
  · rw [if_neg hov, if_neg hov]
    cases c1 <;> cases c2 <;> cases c3 <;> cases c4 <;>
      simp [TREE.isNull, TREE.contiguousHere, TREE.occupied, printBT]

/-- Every line of a drawing starts with the prefix of the call. -/
theorem drawn_prefix (t : TREE) : ∀ (pfx : String) (l : Int), ∀ x ∈ drawn pfx t l,
    ∃ r, x = pfx ++ r := by
  induction t with
  | null =>
    intro pfx l x hx
    rw [drawn_null] at hx
    exact absurd hx (List.not_mem_nil _)
  | node o v c1 c2 c3 c4 ih1 ih2 ih3 ih4 =>
    intro pfx l x hx
    rw [drawn_node] at hx
    have hd : ∀ r, deeper pfx l ++ r = pfx ++ (seg l ++ r) := by
      intro r
      rw [deeper_seg, String.append_assoc]
    rcases List.mem_cons.mp hx with h | h
    · exact ⟨glyph l ++ (TREE.node o v c1 c2 c3 c4).content ++ "\n", by
        rw [h]; simp only [String.append_assoc]⟩
    · by_cases hcg : (TREE.node o v c1 c2 c3 c4).contiguousHere = true
      · rw [if_pos hcg] at h
        simp only [List.mem_append] at h
        rcases h with ((h | h) | h) | h
        · obtain ⟨r, e⟩ := ih1 _ _ x h
          exact ⟨_, by rw [e, hd]⟩
        · obtain ⟨r, e⟩ := ih2 _ _ x h
          exact ⟨_, by rw [e, hd]⟩
        · obtain ⟨r, e⟩ := ih3 _ _ x h
          exact ⟨_, by rw [e, hd]⟩
        · obtain ⟨r, e⟩ := ih4 _ _ x h
          exact ⟨_, by rw [e, hd]⟩
      · rw [if_neg hcg] at h
        exact absurd h (List.not_mem_nil _)

/-! ## The root of a program with one assignment -/

/-- With the right-hand side on the stack and the semicolon read, the two closing braces
take the parser to acceptance, and the tree at `ast->root` is the tree of the program with
the one assignment, whatever the empty statement sequence is given. -/
theorem suffix_root (u : Nat → Nat → YACC) (v : String) (t : TREE) :
    Ends u
      ⟨[135, 95, 53, 28, 27, 26, 25, 24, 23, 22, 21, 20, 13, 11, 10, 7, 4, 0],
       [⟨v, t⟩, ⟨"=", TREE.null⟩, ⟨"t", newleaf "id" "t"⟩, ⟨"\x7b", TREE.null⟩,
        ⟨")", TREE.null⟩, ⟨"args", TREE.null⟩, ⟨"]", TREE.null⟩, ⟨"[", TREE.null⟩,
        ⟨"String", newleaf "datatype" "String"⟩, ⟨"(", TREE.null⟩, ⟨"main", TREE.null⟩,
        ⟨"void", newleaf "datatype" "void"⟩,
        ⟨"public", newnode "modifier" (newleaf "access modifier" "public") (newleaf
            "access modifier" "static") TREE.null TREE.null⟩,
        ⟨"\x7b", TREE.null⟩, ⟨"A", TREE.null⟩, ⟨"class", TREE.null⟩,
        ⟨"public", newnode "modifier" (newleaf "access modifier" "public") TREE.null TREE.null
            TREE.null⟩],
       59, ⟨";", TREE.null⟩,
        tok 125 "\x7d" :: tok 125 "\x7d" :: [],
       0, TREE.null⟩
      (fun res => res.1 = 0 ∧ (∃ rest, res.2.root = assignRoot t rest) ∧
        res.2.yynerrs = 0) := by
  refine Ends.of_reach (step_reduce u _ _ _ _ _ _ _ _ 63
    ⟨"t", newnode "=" (newleaf "id" "t") t TREE.null TREE.null⟩
    [28, 27, 26, 25, 24, 23, 22, 21, 20, 13, 11, 10, 7, 4, 0] 46 _ (by decide) rfl
    (fun s hf => by
      obtain ⟨_, h2, _, _, _, _, h7, _⟩ := hf
      unfold YYState.yyvsp
      rw [h2, h7]
      rfl)) ?_
  refine Ends.of_reach (step_reduce u _ _ _ _ _ _ _ _ 15
    ⟨"t", newnode "ASSIGNMENT STATEMENT" (newnode "=" (newleaf "id" "t") t TREE.null TREE.null)
        TREE.null TREE.null TREE.null⟩
    [28, 27, 26, 25, 24, 23, 22, 21, 20, 13, 11, 10, 7, 4, 0] 37 _ (by decide) rfl
    (fun s hf => by
      obtain ⟨_, h2, _, _, _, _, h7, _⟩ := hf
      unfold YYState.yyvsp
      rw [h2, h7]
      rfl)) ?_
  refine Ends.of_reach (step_shift_held u _ _ _ _ _ _ 61 _ _ (by decide) (by decide)) ?_
  refine Ends.of_reach (step_lex u _ _ _ _ _ _ _ _ (by decide)) ?_
  refine step_empty_ends u _ _ _ _ _ _ _ _ 14 (fun yv => yv) 104 _ (by decide) (by decide)
    (fun _ _ _ => rfl) (fun J => ?_)
  refine Ends.of_reach (step_reduce u _ _ _ _ _ _ _ _ 10
    ⟨"t", newnode "INITIALIZATION" (newnode "ASSIGNMENT STATEMENT" (newnode "=" (newleaf "id"
        "t") t TREE.null TREE.null) TREE.null TREE.null TREE.null) J.ptr TREE.null TREE.null⟩
    [28, 27, 26, 25, 24, 23, 22, 21, 20, 13, 11, 10, 7, 4, 0] 36 _ (by decide) rfl
    (fun s hf => by
      obtain ⟨_, h2, _, _, _, _, h7, _⟩ := hf
      unfold YYState.yyvsp
      rw [h2, h7]
      rfl)) ?_
  refine Ends.of_reach (step_shift_held u _ _ _ _ _ _ 60 _ _ (by decide) (by decide)) ?_
  refine Ends.of_reach (step_reduce u _ _ _ _ _ _ _ _ 3
    ⟨"public", newnode "METHOD DECLARATION" (newnode "modifier" (newleaf "access modifier"
        "public") (newleaf "access modifier" "static") TREE.null TREE.null) (newleaf "datatype"
        "void") (newleaf "datatype" "String") (newnode "INITIALIZATION" (newnode
        "ASSIGNMENT STATEMENT" (newnode "=" (newleaf "id" "t") t TREE.null TREE.null) TREE.null
        TREE.null TREE.null) J.ptr TREE.null TREE.null)⟩
    [11, 10, 7, 4, 0] 12 _ (by decide) rfl
    (fun s hf => by
      obtain ⟨_, h2, _, _, _, _, h7, _⟩ := hf
      unfold YYState.yyvsp
      rw [h2, h7]
      rfl)) ?_
  refine Ends.of_reach (step_shift u _ _ _ _ _ _ 14 _ _ (by decide) (by decide)) ?_
  refine Ends.of_reach (step_reduce u _ _ _ _ _ _ _
    (newnode "CLASS DECLARATION" (newnode "modifier" (newleaf "access modifier" "public")
        TREE.null TREE.null TREE.null) (newleaf "classname" "public") (newnode
        "METHOD DECLARATION" (newnode "modifier" (newleaf "access modifier" "public") (newleaf
        "access modifier" "static") TREE.null TREE.null) (newleaf "datatype" "void") (newleaf
        "datatype" "String") (newnode "INITIALIZATION" (newnode "ASSIGNMENT STATEMENT" (newnode
        "=" (newleaf "id" "t") t TREE.null TREE.null) TREE.null TREE.null TREE.null) J.ptr
        TREE.null TREE.null)) TREE.null)
    2
    ⟨"public", newnode "CLASS DECLARATION" (newnode "modifier" (newleaf "access modifier"
        "public") TREE.null TREE.null TREE.null) (newleaf "classname" "public") (newnode
        "METHOD DECLARATION" (newnode "modifier" (newleaf "access modifier" "public") (newleaf
        "access modifier" "static") TREE.null TREE.null) (newleaf "datatype" "void") (newleaf
        "datatype" "String") (newnode "INITIALIZATION" (newnode "ASSIGNMENT STATEMENT" (newnode
        "=" (newleaf "id" "t") t TREE.null TREE.null) TREE.null TREE.null TREE.null) J.ptr
        TREE.null TREE.null)) TREE.null⟩
    [0] 3 _ (by decide) rfl
    (fun s hf => by
      obtain ⟨_, h2, _, _, _, _, h7, _⟩ := hf
      unfold YYState.yyvsp
      rw [h2, h7]
      rfl)) ?_
  refine Ends.mono (fun res h => ⟨h.1, ⟨J.ptr, ?_⟩, h.2.2⟩)
    (ends_accept u _ _ _ _ _ (by decide))
  rw [h.2.1]
  rfl

/-- The program whose method body is the statement `t = e;` is accepted with the root
`assignRoot`, when the expression is small enough for the parser stack. -/
theorem assign_root (u : Nat → Nat → YACC) (e : Ex) (hd : e.derives 6 = true)
    (hsize : e.tokens.length + 18 < YYMAXDEPTH) :
    ∃ k r, (∀ n, yyparse (k + n) u TREE.null
        (program (ident "t" :: tok T_ASSGN "=" :: (e.tokens ++ [semi]))) = some r) ∧
      r.1 = 0 ∧ ∃ rest, r.2.root = assignRoot e.tree rest := by
  have hpre := prefix_runs u (e.tokens ++ semi :: classClose)
  obtain ⟨v, hch⟩ := (expr_runs u e).2 95 (by decide) (by decide) hd semi (by decide)
    (Nat.le_trans (rank_le_of_derives e 6 hd) (by decide))
    ⟨[95, 53, 28, 27, 26, 25, 24, 23, 22, 21, 20, 13, 11, 10, 7, 4, 0],
     [⟨"=", TREE.null⟩, ⟨"t", newleaf "id" "t"⟩, ⟨"\x7b", TREE.null⟩, ⟨")", TREE.null⟩,
      ⟨"args", TREE.null⟩, ⟨"]", TREE.null⟩, ⟨"[", TREE.null⟩,
      ⟨"String", newleaf "datatype" "String"⟩, ⟨"(", TREE.null⟩, ⟨"main", TREE.null⟩,
      ⟨"void", newleaf "datatype" "void"⟩,
      ⟨"public", newnode "modifier" (newleaf "access modifier" "public")
        (newleaf "access modifier" "static") TREE.null TREE.null⟩,
      ⟨"\x7b", TREE.null⟩, ⟨"A", TREE.null⟩, ⟨"class", TREE.null⟩,
      ⟨"public", newnode "modifier" (newleaf "access modifier" "public")
        TREE.null TREE.null TREE.null⟩],
     YYEMPTY, ⟨"=", TREE.null⟩, e.tokens ++ semi :: classClose, 0, TREE.null⟩
    classClose rfl rfl rfl (by simp only [List.length_cons, List.length_nil]; omega)
  have hall := Ends.of_reach hpre (Ends.of_reach hch (suffix_root u v e.tree))
  have htoks : program (ident "t" :: tok T_ASSGN "=" :: (e.tokens ++ [semi]))
      = tok T_PUBLIC "public" :: tok T_CLASS "class" :: tok T_ID "A" :: tok 123 "\x7b" ::
        tok T_PUBLIC "public" :: tok T_STATIC "static" :: tok T_VOID "void" ::
        tok T_MAIN "main" :: tok 40 "(" :: tok T_STRING "String" :: tok 91 "[" ::
        tok 93 "]" :: tok T_ARGS "args" :: tok 41 ")" :: tok 123 "\x7b" :: tok T_ID "t" ::
        tok T_ASSGN "=" :: (e.tokens ++ semi :: classClose) := by
    simp only [program, classOpen, ident, List.cons_append, List.nil_append, List.append_assoc]
  rw [htoks]
  obtain ⟨k, r, hq, hk⟩ := hall (yyinit TREE.null _)
    ⟨rfl, rfl, rfl, rfl, rfl, rfl, rfl, rfl, by show 1 < 200; decide,
      by show 200 ≤ 10000; decide⟩
  refine ⟨k + 1, r, fun n => ?_, hq.1, hq.2.1⟩
  have e1 : ∀ m toks, yyparse m u TREE.null toks = yyloop u m (yyinit TREE.null toks) :=
    fun _ _ => rfl
  rw [e1, hk]

theorem sum_tree (n : Nat) : (Ex.sum n).tree = leftChain n := by
  induction n with
  | zero => rfl
  | succ k ih =>
    show newnode "+" (Ex.sum k).tree (newleaf "id" "a") nptr nptr = _
    rw [ih]
    rfl

theorem sum_derives (n : Nat) : (Ex.sum n).derives 2 = true ∧ (Ex.sum n).derives 6 = true := by
  induction n with
  | zero => exact ⟨rfl, rfl⟩
  | succ k ih =>
    have e : ∀ j, (Ex.sum (k + 1)).derives j
        = (decide (BinOp.add.rank ≤ j) && (Ex.sum k).derives BinOp.add.rank
            && (Ex.id "a").derives (BinOp.add.rank - 1)) := fun _ => rfl
    have hr : BinOp.add.rank = 2 := rfl
    rw [e, e, hr, ih.1]
    exact ⟨rfl, rfl⟩

theorem sum_length (n : Nat) : (Ex.sum n).tokens.length = 2 * n + 1 := by
  induction n with
  | zero => rfl
  | succ k ih =>
    show ((Ex.sum k).tokens ++ BinOp.add.token :: (Ex.id "a").tokens).length = _
    rw [List.length_append, ih]
    simp only [Ex.tokens, List.length_cons, List.length_nil]
    omega

/-- The printing of the program `t = a + a + ... + a;` with 166 operators overruns the
buffer, whatever the empty statement sequence behind the statement is given. -/
theorem overrun_assignRoot (rest : TREE) :
    fitsBuffer "" (assignRoot (leftChain 166) rest) 0 = false := by
  have hg : (TREE.node "INITIALIZATION" "N/A"
      (newnode "ASSIGNMENT STATEMENT"
        (newnode "=" (newleaf "id" "t") (leftChain 166) TREE.null TREE.null) TREE.null
        TREE.null TREE.null)
      rest TREE.null TREE.null).contiguousHere = true := by
    cases rest <;> rfl
  obtain ⟨c, hc, _, e⟩ := calls_leftChain 166
    ("" ++ seg 0 ++ seg 0 ++ seg 0 ++ seg (if rest.isNull then 0 else 1) ++ seg 0)
    ([] ++ [0] ++ [0] ++ [0] ++ [if rest.isNull then 0 else 1] ++ [0]) 0
  have h5 := (calls_into
    ("" ++ seg 0 ++ seg 0 ++ seg 0 ++ seg (if rest.isNull then 0 else 1))
    ([] ++ [0] ++ [0] ++ [0] ++ [if rest.isNull then 0 else 1])
    "=" "N/A" (newleaf "id" "t") (leftChain 166) TREE.null TREE.null 0
    (by rw [show TREE.node "=" "N/A" (newleaf "id" "t") (leftChain 166) TREE.null TREE.null
          = newnode "=" (newleaf "id" "t") (leftChain 166) TREE.null TREE.null from rfl,
          contiguous_newnode]
        rfl)).2.1 c hc
  have h4 := (calls_into
    ("" ++ seg 0 ++ seg 0 ++ seg 0) ([] ++ [0] ++ [0] ++ [0])
    "ASSIGNMENT STATEMENT" "N/A"
    (newnode "=" (newleaf "id" "t") (leftChain 166) TREE.null TREE.null) TREE.null TREE.null
    TREE.null (if rest.isNull then 0 else 1) rfl).1 c h5
  have h3 := (calls_into ("" ++ seg 0 ++ seg 0) ([] ++ [0] ++ [0])
    "INITIALIZATION" "N/A"
    (newnode "ASSIGNMENT STATEMENT"
      (newnode "=" (newleaf "id" "t") (leftChain 166) TREE.null TREE.null) TREE.null
      TREE.null TREE.null)
    rest TREE.null TREE.null 0 hg).1 c h4
  have h2 := (calls_into ("" ++ seg 0) ([] ++ [0]) "METHOD DECLARATION" "N/A"
    (newnode "modifier" (newleaf "access modifier" "public")
      (newleaf "access modifier" "static") TREE.null TREE.null)
    (newleaf "datatype" "void") (newleaf "datatype" "String")
    (newnode "INITIALIZATION"
      (newnode "ASSIGNMENT STATEMENT"
        (newnode "=" (newleaf "id" "t") (leftChain 166) TREE.null TREE.null) TREE.null
        TREE.null TREE.null)
      rest TREE.null TREE.null) 0 rfl).2.2.2 c h3
  have h1 := (calls_into "" [] "CLASS DECLARATION" "N/A"
    (newnode "modifier" (newleaf "access modifier" "public") TREE.null TREE.null TREE.null)
    (newleaf "classname" "public")
    (newnode "METHOD DECLARATION"
      (newnode "modifier" (newleaf "access modifier" "public")
        (newleaf "access modifier" "static") TREE.null TREE.null)
      (newleaf "datatype" "void") (newleaf "datatype" "String")
      (newnode "INITIALIZATION"
        (newnode "ASSIGNMENT STATEMENT"
          (newnode "=" (newleaf "id" "t") (leftChain 166) TREE.null TREE.null) TREE.null
          TREE.null TREE.null)
        rest TREE.null TREE.null))
    TREE.null 0 rfl).2.2.1 c h2
  unfold fitsBuffer
  rw [List.all_eq_false]
  refine ⟨c, h1, ?_⟩
  unfold Call.fits
  simp only [decide_eq_true_eq]
  have hs : (seg 0).utf8ByteSize = 4 := by decide
  rw [e, hs]
  omega

/-- The program `t = a + a + ... + a;` with 166 operators is accepted, and `main` is
undefined on it: the printer overruns its buffer. -/
theorem main_deep (u : Nat → Nat → YACC) :
    ∃ k, ∀ n,
      (yyparse (k + n) u TREE.null
        (program (ident "t" :: tok T_ASSGN "=" :: ((Ex.sum 166).tokens ++ [semi])))).map
          (fun r => r.1) = some 0 ∧
      main (k + n) u
        (program (ident "t" :: tok T_ASSGN "=" :: ((Ex.sum 166).tokens ++ [semi]))) = none := by
  obtain ⟨k, r, hk, h0, rest, hr⟩ := assign_root u (Ex.sum 166) (sum_derives 166).2
    (by rw [sum_length]; decide)
  refine ⟨k, fun n => ?_⟩
  have h1 : (yyparse (k + n) u TREE.null
      (program (ident "t" :: tok T_ASSGN "=" :: ((Ex.sum 166).tokens ++ [semi])))).map
        (fun r => r.1) = some 0 := by
    rw [hk n, Option.map_some', h0]
  refine ⟨h1, ?_⟩
  rw [main_success _ _ _ h1, hk n, Option.some_bind, hr, sum_tree, overrun_assignRoot]
  simp

/-! ## The claims -/

/-- C1: every binary production of the expression ladder (rules 73, 75, 77, 78, 80-83, 85,
86, 88-90) has three right-hand-side symbols and builds newnode(op, left, right, absent,
absent), where op is the text of the middle symbol, the operator token; and for each of the
thirteen operators the statement `t = a op b;` makes the parser build exactly
internal(op, leaf(id, a), leaf(id, b), absent, absent), which for `+` is the witness a+b. -/
theorem C1_binary_production_shape :
    (∀ yyn ∈ binaryRules, ∀ (yyvsp : Int → YACC) (yyval : YACC) (root : TREE),
      tbl yyr2 yyn = 3 ∧
      (yyaction yyn yyvsp yyval root).1.ptr
        = newnode (yyvsp (-1)).v (yyvsp (-2)).ptr (yyvsp 0).ptr nptr nptr) ∧
    (∀ (op : BinOp) (uninit : Nat → Nat → YACC) (fuel : Nat),
      (yyparse (100 + fuel) uninit TREE.null
          (program [ident "t", tok T_ASSGN "=", ident "a", op.token, ident "b", semi])).map
        (fun r => ((report r).yyresult, (bodyOf (report r).root).c1.c1.c2))
        = some (0, TREE.node op.lexeme "N/A" (newleaf "id" "a") (newleaf "id" "b")
            TREE.null TREE.null)) := by
  constructor
  · intro yyn h yyvsp yyval root
    simp only [binaryRules, List.mem_cons, List.mem_singleton, List.not_mem_nil, or_false] at h
    rcases h with rfl | rfl | rfl | rfl | rfl | rfl | rfl | rfl | rfl | rfl | rfl | rfl | rfl <;>
      exact ⟨by decide, rfl⟩
  · intro op uninit fuel
    cases op <;>
      exact run_closed 100 _ (fun rep => (rep.yyresult, (bodyOf rep.root).c1.c1.c2)) _
        (by decide!) uninit fuel

/-- C4: each of the eight for-header productions (rules 22-29) builds a node labelled
"FOR CONDITION" whose slot 1 is the init sub-tree when the production has an init clause
and absent otherwise, whose slot 2 is the condition sub-tree when it has a condition and
absent otherwise, whose slot 3 is the update sub-tree when it has an update and absent
otherwise, and whose slot 4 is absent; the parser builds for `for(;;)` a header with all
slots absent, for `for(int i=0;;)` one with only slot 1 occupied, and for `for(;;i++)` one
with only slot 3 occupied. -/
theorem C4_for_header_slots :
    (∀ (yyvsp : Int → YACC) (yyval : YACC) (root : TREE),
      (yyaction 22 yyvsp yyval root).1.ptr = newnode "FOR CONDITION" nptr nptr nptr nptr ∧
      (yyaction 23 yyvsp yyval root).1.ptr
        = newnode "FOR CONDITION" (yyvsp (-3)).ptr nptr nptr nptr ∧
      (yyaction 24 yyvsp yyval root).1.ptr
        = newnode "FOR CONDITION" (yyvsp (-4)).ptr (yyvsp (-2)).ptr nptr nptr ∧
      (yyaction 25 yyvsp yyval root).1.ptr
        = newnode "FOR CONDITION" (yyvsp (-4)).ptr nptr (yyvsp (-1)).ptr nptr ∧
      (yyaction 26 yyvsp yyval root).1.ptr
        = newnode "FOR CONDITION" nptr (yyvsp (-2)).ptr nptr nptr ∧
      (yyaction 27 yyvsp yyval root).1.ptr
        = newnode "FOR CONDITION" nptr (yyvsp (-3)).ptr (yyvsp (-1)).ptr nptr ∧
      (yyaction 28 yyvsp yyval root).1.ptr
        = newnode "FOR CONDITION" (yyvsp (-5)).ptr (yyvsp (-3)).ptr (yyvsp (-1)).ptr nptr ∧
      (yyaction 29 yyvsp yyval root).1.ptr
        = newnode "FOR CONDITION" nptr nptr (yyvsp (-1)).ptr nptr) ∧
    [22, 23, 24, 25, 26, 27, 28, 29].map (tbl yyr2) = [5, 6, 7, 7, 6, 7, 8, 6] ∧
    (∀ (uninit : Nat → Nat → YACC) (fuel : Nat),
      (yyparse (100 + fuel) uninit TREE.null
          (program [tok T_FOR "for", tok 40 "(", semi, semi, tok 41 ")", tok 123 "\x7b",
            tok 125 "\x7d"])).map
        (fun r => ((report r).yyresult, (bodyOf (report r).root).c1))
        = some (0, TREE.node "FOR CONDITION" "N/A" TREE.null TREE.null TREE.null TREE.null) ∧
      (yyparse (100 + fuel) uninit TREE.null
          (program [tok T_FOR "for", tok 40 "(", tok T_INT "int", ident "i", tok T_ASSGN "=",
            number "0", semi, semi, tok 41 ")", tok 123 "\x7b", tok 125 "\x7d"])).map
        (fun r => ((report r).yyresult, (bodyOf (report r).root).c1))
        = some (0, TREE.node "FOR CONDITION" "N/A"
            (TREE.node "variable initialisation" "N/A" (newleaf "datatype" "int")
              (newleaf "id" "i") (newleaf "num" "0") TREE.null)
            TREE.null TREE.null TREE.null) ∧
      (yyparse (100 + fuel) uninit TREE.null
          (program [tok T_FOR "for", tok 40 "(", semi, semi, ident "i", tok T_INC "++",
            tok 41 ")", tok 123 "\x7b", tok 125 "\x7d"])).map
        (fun r => ((report r).yyresult, (bodyOf (report r).root).c1))
        = some (0, TREE.node "FOR CONDITION" "N/A" TREE.null TREE.null
            (TREE.node "UNARY OPERATION" "N/A" (newleaf "id" "i") (newleaf "increment" "++")
              TREE.null TREE.null)
            TREE.null)) := by
  refine ⟨fun yyvsp yyval root => ⟨rfl, rfl, rfl, rfl, rfl, rfl, rfl, rfl⟩, by decide, ?_⟩
  intro uninit fuel
  refine ⟨?_, ?_, ?_⟩ <;>
    exact run_closed 100 _ (fun rep => (rep.yyresult, (bodyOf rep.root).c1)) _
      (by decide!) uninit fuel

/-- C5: on the token stream of a program whose body is `for(int i=0;;i++)` with an empty
block, the parser builds a FOR CONDITION node whose occupied slots are 1 and 3 and which
has eight nodes, and printBT emits for that node a single line: the nodes below a node
whose occupied slots are no prefix get no line. -/
theorem C5_for_header_children_not_drawn (uninit : Nat → Nat → YACC) (fuel : Nat) :
    (yyparse (100 + fuel) uninit TREE.null
        (program [tok T_FOR "for", tok 40 "(", tok T_INT "int", ident "i", tok T_ASSGN "=",
          number "0", semi, semi, ident "i", tok T_INC "++", tok 41 ")", tok 123 "\x7b",
          tok 125 "\x7d"])).map
      (fun r => ((report r).yyresult, (bodyOf (report r).root).c1.occupied,
        (bodyOf (report r).root).c1.size,
        (printBT [] "" (bodyOf (report r).root).c1 0).map Prod.fst))
      = some (0, [true, false, true, false], 8, some ["└──FOR CONDITION\n"]) :=
  run_closed 100 _ (fun rep => (rep.yyresult, (bodyOf rep.root).c1.occupied,
    (bodyOf rep.root).c1.size, (printBT [] "" (bodyOf rep.root).c1 0).map Prod.fst)) _
    (by decide!) uninit fuel

/-- C6, counterexample: the action of rule 22 builds its node with newnode, and the line
printBT emits for it has the content "(FOR CONDITION, N/A)", not the label alone. -/
theorem C6_newnode_without_children_counterexample :
    (yyaction 22 (fun _ => ⟨"", TREE.null⟩) ⟨"", TREE.null⟩ TREE.null).1.ptr
      = newnode "FOR CONDITION" nptr nptr nptr nptr ∧
    (printBT [] "" (newnode "FOR CONDITION" nptr nptr nptr nptr) 0).map Prod.fst
      = some ["└──(FOR CONDITION, N/A)\n"] ∧
    (printBT [] "" (newnode "FOR CONDITION" nptr nptr nptr nptr) 0).map Prod.fst
      ≠ some ["└──FOR CONDITION\n"] := by
  decide

/-- C6, amended: the content part of the line printBT emits for a node is
"(" + label + ", " + value + ")" when the node was built by newleaf; for a node built by
newnode it is exactly the label when at least one of the four slots is occupied, and
"(" + label + ", N/A)" when all four slots are absent. The call on a leaf emits this line
unless its prefix and segment overrun the buffer new_prefix, the call on another node
unless a call made for it does; then the behaviour is undefined. -/
theorem C6_line_content (fp : List String) (pfx : String) (isLeft : Int) (l v : String)
    (c1 c2 c3 c4 : TREE) :
    printBT fp pfx (newleaf l v) isLeft
      = (if 1000 < (deeper pfx isLeft).utf8ByteSize + 1 then none
         else some (fp ++ [pfx ++ (if isLeft = 0 then "└──" else "├──")
            ++ ("(" ++ l ++ ", " ++ v ++ ")") ++ "\n"], newleaf l v)) ∧
    ∃ below, printBT fp pfx (newnode l c1 c2 c3 c4) isLeft
      = if fitsBuffer pfx (newnode l c1 c2 c3 c4) isLeft then
          some (fp ++ [pfx ++ (if isLeft = 0 then "└──" else "├──")
            ++ (if c1.isNull && c2.isNull && c3.isNull && c4.isNull
                then "(" ++ l ++ ", " ++ "N/A" ++ ")" else l) ++ "\n"] ++ below,
            newnode l c1 c2 c3 c4)
        else none := by
  constructor
  · rw [newleaf, printBT_node]
    simp [TREE.contiguousHere, TREE.occupied, TREE.isNull, printBT, glyph, TREE.content,
      TREE.c1, TREE.c2, TREE.c3, TREE.c4, TREE.label, TREE.val, deeper, String.append_assoc]
  · refine ⟨(drawn pfx (newnode l c1 c2 c3 c4) isLeft).tail, ?_⟩
    rw [printBT_eq, newnode, drawn_node]
    simp [glyph, TREE.content, TREE.c1, TREE.c2, TREE.c3, TREE.c4, TREE.label, TREE.val]

/-- C7: printBT(prefix, node, isLeft) appends the lines of its drawing, unless one of its
calls overruns the buffer new_prefix (then no output is defined). In the drawing of
printBT("", root, 0) the line of the root uses the glyph `└──`; the line of a node printed
by a call with flag isLeft uses `└──` when the flag is 0 and `├──` otherwise; and the
children of a node are drawn by calls whose flag is 0 exactly for the child after which no
further slot is occupied, that is for the last occupied slot, and 1 for the children
before it. -/
theorem C7_glyph_marks_last_child (pfx o v : String) (c1 c2 c3 c4 : TREE) (isLeft : Int) :
    (∀ (fp : List String) (pfx : String) (t : TREE) (isLeft : Int),
      printBT fp pfx t isLeft
        = if fitsBuffer pfx t isLeft then some (fp ++ drawn pfx t isLeft, t) else none) ∧
    (drawn "" (TREE.node o v c1 c2 c3 c4) 0).head?
      = some ("" ++ "└──" ++ (TREE.node o v c1 c2 c3 c4).content ++ "\n") ∧
    (drawn pfx (TREE.node o v c1 c2 c3 c4) isLeft).head?
      = some (pfx ++ (if isLeft = 0 then "└──" else "├──")
          ++ (TREE.node o v c1 c2 c3 c4).content ++ "\n") ∧
    (drawn pfx (TREE.node o v c1 c2 c3 c4) isLeft).tail
      = (if (TREE.node o v c1 c2 c3 c4).contiguousHere then
          drawn (deeper pfx isLeft) c1 (if c2.isNull then 0 else 1)
            ++ drawn (deeper pfx isLeft) c2 (if c3.isNull then 0 else 1)
            ++ drawn (deeper pfx isLeft) c3 (if c4.isNull then 0 else 1)
            ++ drawn (deeper pfx isLeft) c4 0
        else []) ∧
    (∀ (pfx : String) (isLeft : Int), drawn pfx TREE.null isLeft = []) ∧
    (∀ root : TREE, root.height ≤ 166 → fitsBuffer "" root 0 = true) := by
  refine ⟨printBT_eq, ?_, ?_, ?_, drawn_null, fits_of_height⟩
  · rw [drawn_node]
    rfl
  · rw [drawn_node]
    rfl
  · rw [drawn_node]
    rfl

/-- C8, counterexample: the prefix of 249 segments of four spaces, which a node at depth
249 receives, has 996 bytes; the call of printBT with it on the tree of `a + b` overruns the
buffer new_prefix when it adds the segment and the terminator, so its behaviour is
undefined: no recursive call receives a prefix. -/
theorem C8_long_prefix_counterexample :
    (String.join (List.replicate 249 "    ")).utf8ByteSize = 996 ∧
    printBT [] (String.join (List.replicate 249 "    "))
      (newnode "+" (newleaf "id" "a") (newleaf "id" "b") nptr nptr) 0 = none := by
  decide

/-- C8, amended: a call printBT(prefix, node, isLeft) on a present node whose prefix, with
its segment and the terminating byte, fits the 1000 bytes of the buffer new_prefix, appends
the node's own line, which starts with the unchanged prefix, and then either makes no
recursive call or calls itself on the four children in slot order, each time with the
prefix prefix + "    " (four spaces) when isLeft = 0 and prefix + "│   " (vertical bar and
three spaces) otherwise; every line written by these calls starts with that prefix. A call
whose prefix does not fit overruns the buffer. -/
theorem C8_child_indentation (fp : List String) (pfx o v : String) (c1 c2 c3 c4 : TREE)
    (isLeft : Int) :
    printBT fp pfx (TREE.node o v c1 c2 c3 c4) isLeft
      = (if 1000 < (if isLeft = 0 then pfx ++ "    " else pfx ++ "│   ").utf8ByteSize + 1 then
          none
        else if (TREE.node o v c1 c2 c3 c4).contiguousHere then
          (printBT (fp ++ [pfx ++ (glyph isLeft ++ (TREE.node o v c1 c2 c3 c4).content ++ "\n")])
            (if isLeft = 0 then pfx ++ "    " else pfx ++ "│   ") c1
            (if c2.isNull then 0 else 1)).bind fun r1 =>
          (printBT r1.1 (if isLeft = 0 then pfx ++ "    " else pfx ++ "│   ") c2
            (if c3.isNull then 0 else 1)).bind fun r2 =>
          (printBT r2.1 (if isLeft = 0 then pfx ++ "    " else pfx ++ "│   ") c3
            (if c4.isNull then 0 else 1)).bind fun r3 =>
          (printBT r3.1 (if isLeft = 0 then pfx ++ "    " else pfx ++ "│   ") c4 0).bind
            fun r4 => some (r4.1, TREE.node o v r1.2 r2.2 r3.2 r4.2)
        else
          some (fp ++ [pfx ++ (glyph isLeft ++ (TREE.node o v c1 c2 c3 c4).content ++ "\n")],
            TREE.node o v c1 c2 c3 c4)) ∧
    (∀ (out : List String) (p : String) (t : TREE) (l : Int),
      printBT out p t l
        = if fitsBuffer p t l then some (out ++ drawn p t l, t) else none) ∧
    (∀ (p : String) (t : TREE) (l : Int), ∀ x ∈ drawn p t l, ∃ r, x = p ++ r) :=
  ⟨printBT_node fp pfx o v c1 c2 c3 c4 isLeft, printBT_eq, fun p t l => drawn_prefix t p l⟩

/-- C9, counterexample: for the tree of a sum with 166 operators, whose deepest node is at
depth 166, a call printBT("", root, 0) overruns the buffer new_prefix, whatever the output
held before: its behaviour is undefined, so neither the text it appends nor the memory
after it is determined. -/
theorem C9_deep_tree_counterexample :
    (leftChain 166).height = 167 ∧
    ∀ fp : List String, printBT fp "" (leftChain 166) 0 = none :=
  ⟨height_leftChain 166, overrun_leftChain⟩

/-- C9, amended: printing is a pure read for every tree that printBT("", root, 0) prints
without overrunning its buffer new_prefix, as it does every tree whose deepest node is at
depth at most 165: the call appends the lines of its calls to the output and leaves the
tree as it was, and a second call, made on the output and the tree that the first one
left, appends the same lines once more and leaves the same tree. -/
theorem C9_printing_twice_appends_twice (fp : List String) (root : TREE) :
    printBT fp "" root 0
      = (if fitsBuffer "" root 0 then some (fp ++ drawn "" root 0, root) else none) ∧
    ((printBT fp "" root 0).bind fun r => printBT r.1 "" r.2 0)
      = (if fitsBuffer "" root 0 then some (fp ++ drawn "" root 0 ++ drawn "" root 0, root)
         else none) ∧
    drawn "" root 0 = (calls "" [] root 0).map Call.line ∧
    (root.height ≤ 166 → fitsBuffer "" root 0 = true) := by
  refine ⟨printBT_eq fp "" root 0, ?_, rfl, fits_of_height root⟩
  rw [printBT_eq]
  cases hf : fitsBuffer "" root 0
  · rfl
  · simp only [if_true, Option.some_bind, printBT_eq, hf]

/-- C26: for all strings label and value, newleaf(label, value) returns a node whose label
is label, whose value is value and whose four child slots are all absent. -/
theorem C26_newleaf (l v : String) :
    (newleaf l v).label = l ∧ (newleaf l v).val = v ∧ (newleaf l v).isNull = false ∧
    (newleaf l v).c1 = TREE.null ∧ (newleaf l v).c2 = TREE.null ∧
    (newleaf l v).c3 = TREE.null ∧ (newleaf l v).c4 = TREE.null :=
  ⟨rfl, rfl, rfl, rfl, rfl, rfl, rfl⟩

/-- C27: for every string label and all present-or-absent sub-trees c1, c2, c3, c4,
newnode(label, c1, c2, c3, c4) returns a node whose label is label, whose slots 1 to 4 are
exactly c1, c2, c3, c4 in that order, and whose value is the fixed placeholder "N/A". -/
theorem C27_newnode (l : String) (c1 c2 c3 c4 : TREE) :
    (newnode l c1 c2 c3 c4).label = l ∧ (newnode l c1 c2 c3 c4).val = "N/A" ∧
    (newnode l c1 c2 c3 c4).isNull = false ∧
    (newnode l c1 c2 c3 c4).c1 = c1 ∧ (newnode l c1 c2 c3 c4).c2 = c2 ∧
    (newnode l c1 c2 c3 c4).c3 = c3 ∧ (newnode l c1 c2 c3 c4).c4 = c4 :=
  ⟨rfl, rfl, rfl, rfl, rfl, rfl, rfl⟩

/-- C29, counterexample: in the tree of a sum with 166 operators the occupied slots of every
node form a prefix and there are 333 nodes, but printBT("", root, 0) overruns the buffer
new_prefix at depth 166: its behaviour is undefined and it does not emit 333 lines. -/
theorem C29_deep_tree_counterexample :
    (leftChain 166).contiguousAll = true ∧ (leftChain 166).size = 333 ∧
    (leftChain 166).height = 167 ∧
    printBT [] "" (leftChain 166) 0 = none :=
  ⟨contiguousAll_leftChain 166, size_leftChain 166, height_leftChain 166,
    overrun_leftChain []⟩

/-- C29, amended: for every tree in which the occupied slots of every node form a prefix
1..k and which printBT("", root, 0) prints without overrunning its buffer new_prefix, as it
does every tree whose deepest node is at depth at most 165, the call emits exactly as many
lines as the tree has nodes, the lines are the rows of the drawing in pre-order, and the
sequence of their contents is the pre-order listing of the nodes; otherwise the behaviour
of the call is undefined. -/
theorem C29_contiguous_tree_lines (root : TREE) (h : root.contiguousAll = true) :
    printBT [] "" root 0
      = (if fitsBuffer "" root 0 then some ((rows "" root true).map rowLine, root)
         else none) ∧
    ((rows "" root true).map rowLine).length = root.size ∧
    (rows "" root true).map Prod.snd = root.preorder.map TREE.content ∧
    (root.height ≤ 166 → fitsBuffer "" root 0 = true) := by
  have hd := drawn_rows root "" 0 h
  simp only [decide_True] at hd
  refine ⟨?_, by rw [List.length_map, rows_length], rows_content root "" true,
    fits_of_height root⟩
  rw [printBT_eq, hd, List.nil_append]

/-- C29, witness: the tree of `a + b`. -/
theorem C29_contiguous_tree_lines_witness :
    (newnode "+" (newleaf "id" "a") (newleaf "id" "b") nptr nptr).contiguousAll = true ∧
    (printBT [] "" (newnode "+" (newleaf "id" "a") (newleaf "id" "b") nptr nptr) 0
        = (if fitsBuffer "" (newnode "+" (newleaf "id" "a") (newleaf "id" "b") nptr nptr) 0
           then some ((rows "" (newnode "+" (newleaf "id" "a") (newleaf "id" "b") nptr nptr)
              true).map rowLine, newnode "+" (newleaf "id" "a") (newleaf "id" "b") nptr nptr)
           else none) ∧
     ((rows "" (newnode "+" (newleaf "id" "a") (newleaf "id" "b") nptr nptr) true).map
        rowLine).length = (newnode "+" (newleaf "id" "a") (newleaf "id" "b") nptr nptr).size ∧
     (rows "" (newnode "+" (newleaf "id" "a") (newleaf "id" "b") nptr nptr) true).map Prod.snd
        = (newnode "+" (newleaf "id" "a") (newleaf "id" "b") nptr nptr).preorder.map
            TREE.content ∧
     ((newnode "+" (newleaf "id" "a") (newleaf "id" "b") nptr nptr).height ≤ 166 →
        fitsBuffer "" (newnode "+" (newleaf "id" "a") (newleaf "id" "b") nptr nptr) 0
          = true)) :=
  ⟨by decide, C29_contiguous_tree_lines _ (by decide)⟩

/-- C10, counterexample: the token stream of `class A{ public static void main(String[]
args){ int x; x = 1+2; } }`, whose first token is the keyword class, is rejected: yyparse
returns 1, after two increments of the error counter, with all tokens but the first unread
and without storing a root. -/
theorem C10_class_without_modifier_counterexample :
    (yyparse 100 zeroStack TREE.null
        ([tok T_CLASS "class", ident "A", tok 123 "\x7b", tok T_PUBLIC "public",
          tok T_STATIC "static", tok T_VOID "void", tok T_MAIN "main", tok 40 "(",
          tok T_STRING "String", tok 91 "[", tok 93 "]", tok T_ARGS "args", tok 41 ")",
          tok 123 "\x7b"] ++ bodyA ++ classClose)).map report
      = some ⟨1, 2, TREE.null, 24⟩ := by
  decide!

/-- C10, amended: the token stream of `public class A{ public static void main(String[]
args){ int x; x = 1+2; } }`, whose first token is the access modifier public, is accepted by
yyparse (result 0) and the root it stores has the label "CLASS DECLARATION". -/
theorem C10_class_with_modifier_accepted (uninit : Nat → Nat → YACC) (fuel : Nat) :
    (yyparse (100 + fuel) uninit TREE.null (program bodyA)).map
      (fun r => ((report r).yyresult, (report r).root.label))
      = some (0, "CLASS DECLARATION") :=
  run_closed 100 _ (fun rep => (rep.yyresult, rep.root.label)) _ (by decide!) uninit fuel

/-- C11: for the accepted program with the body `int x; x = 1+2;` the body sub-tree holds one
node "VARIABLE DECLARATION" and one node "ASSIGNMENT STATEMENT", whose only child is "="
over leaf(id, x) and the "+" sub-tree; but the "+" sub-tree occurs twice in the tree, the
second time in slot 2 of the "INITIALIZATION" node, where the value of the empty statement
sequence (rule 14, which has no action) is a stale cell of the value stack. -/
theorem C11_plus_subtree_occurs_twice (uninit : Nat → Nat → YACC) (fuel : Nat) :
    (yyparse (100 + fuel) uninit TREE.null (program bodyA)).map
      (fun r => ((report r).yyresult, bodyOf (report r).root,
        [(bodyOf (report r).root).countLabel "VARIABLE DECLARATION",
         (bodyOf (report r).root).countLabel "ASSIGNMENT STATEMENT",
         (report r).root.occurrences
           (newnode "+" (newleaf "num" "1") (newleaf "num" "2") nptr nptr)]))
      = some (0,
          newnode "DECLARATION"
            (newnode "VARIABLE DECLARATION"
              (newnode "variable declaration" (newleaf "datatype" "int") (newleaf "id" "x")
                nptr nptr) nptr nptr nptr)
            (newnode "INITIALIZATION"
              (newnode "ASSIGNMENT STATEMENT"
                (newnode "=" (newleaf "id" "x")
                  (newnode "+" (newleaf "num" "1") (newleaf "num" "2") nptr nptr) nptr nptr)
                nptr nptr nptr)
              (newnode "+" (newleaf "num" "1") (newleaf "num" "2") nptr nptr) nptr nptr)
            nptr nptr,
          [1, 1, 2]) :=
  run_closed 100 _ (fun rep => (rep.yyresult, bodyOf rep.root,
    [(bodyOf rep.root).countLabel "VARIABLE DECLARATION",
     (bodyOf rep.root).countLabel "ASSIGNMENT STATEMENT",
     rep.root.occurrences (newnode "+" (newleaf "num" "1") (newleaf "num" "2") nptr nptr)])) _
    (by decide!) uninit fuel

/-- C12: the action of rule 2 builds "CLASS DECLARATION" with slot 1 = the modifier sub-tree
($1), slot 3 = the method sub-tree ($5) and slot 4 absent, but the value of the classname
leaf in slot 2 is the text of the first right-hand-side symbol ($1, the modifier), not of the
third (the class name): for `public class A` the leaf is (classname, public). -/
theorem C12_classname_leaf_holds_modifier_text :
    (∀ (yyvsp : Int → YACC) (yyval : YACC) (root : TREE),
      (yyaction 2 yyvsp yyval root).1.ptr
        = newnode "CLASS DECLARATION" (yyvsp (-5)).ptr (newleaf "classname" (yyvsp (-5)).v)
            (yyvsp (-1)).ptr nptr) ∧
    tbl yyr2 2 = 6 ∧
    (∀ (uninit : Nat → Nat → YACC) (fuel : Nat),
      (yyparse (100 + fuel) uninit TREE.null (program bodyA)).map
        (fun r => ((report r).yyresult, (report r).root.label, (report r).root.c2))
        = some (0, "CLASS DECLARATION", newleaf "classname" "public")) :=
  ⟨fun _ _ _ => rfl, by decide, fun uninit fuel =>
    run_closed 100 _ (fun rep => (rep.yyresult, rep.root.label, rep.root.c2)) _ (by decide!)
      uninit fuel⟩

/-- C13: rule 3 has twelve right-hand-side symbols and its action builds the node "METHOD
DECLARATION" with slot 1 = the modifier sub-tree ($1), slot 2 = the return-type leaf ($2),
slot 3 = the parameter-type leaf ($5) and slot 4 = the body sub-tree ($11); in the program
`public class A{ public static void main(String[] args){ int x; x = 1+2; } }` these are
the modifier node, (datatype, void), (datatype, String) and the "DECLARATION" chain. -/
theorem C13_method_declaration_slots :
    (∀ (yyvsp : Int → YACC) (yyval : YACC) (root : TREE),
      (yyaction 3 yyvsp yyval root).1.ptr
        = newnode "METHOD DECLARATION" (yyvsp (-11)).ptr (yyvsp (-10)).ptr (yyvsp (-7)).ptr
            (yyvsp (-1)).ptr) ∧
    tbl yyr2 3 = 12 ∧
    (∀ (uninit : Nat → Nat → YACC) (fuel : Nat),
      (yyparse (100 + fuel) uninit TREE.null (program bodyA)).map
        (fun r => ((report r).root.c3.label, (report r).root.c3.c1,
          [(report r).root.c3.c2, (report r).root.c3.c3], (report r).root.c3.c4.label))
        = some ("METHOD DECLARATION",
            newnode "modifier" (newleaf "access modifier" "public")
              (newleaf "access modifier" "static") nptr nptr,
            [newleaf "datatype" "void", newleaf "datatype" "String"], "DECLARATION")) :=
  ⟨fun _ _ _ => rfl, by decide, fun uninit fuel =>
    run_closed 100 _ (fun rep => (rep.root.c3.label, rep.root.c3.c1,
      [rep.root.c3.c2, rep.root.c3.c3], rep.root.c3.c4.label)) _ (by decide!) uninit fuel⟩

/-- C14: for the token stream of `public class A{ public static void main(String[] args){
int x x = 1; } }` yyparse returns the non-zero result 1, the error counter yynerrs is 2 when
it returns, and main prints "Unsuccessful" and writes nothing to the output file. -/
theorem C14_missing_semicolon_rejected (uninit : Nat → Nat → YACC) (fuel : Nat) :
    (yyparse (100 + fuel) uninit TREE.null (program bodyNoSemi)).map
      (fun r => ((report r).yyresult, (report r).yynerrs,
        decide ((report r).yyresult ≠ 0 ∧ 1 ≤ (report r).yynerrs)))
      = some (1, 2, true) ∧
    main (100 + fuel) uninit (program bodyNoSemi)
      = some { stdout := ["Unsuccessful\n"], fp := [] } := by
  constructor
  · exact run_closed 100 _ (fun rep => (rep.yyresult, rep.yynerrs,
      decide (rep.yyresult ≠ 0 ∧ 1 ≤ rep.yynerrs))) _ (by decide!) uninit fuel
  · exact main_failure (100 + fuel) uninit (program bodyNoSemi) 1
      (run_closed 100 _ (fun rep => rep.yyresult) 1 (by decide!) uninit fuel) (by decide)

/-- C15, counterexample: two accepted programs for which main does not write the tree.
When the never-written cells of the value stack hold bytes that are not zero, the program
with the empty method body is accepted with the content of such a cell in the body slot of
the root (rule 14 has no action), and printBT follows that wild pointer. The program with
the body `t = a + a + ... + a;` with 166 operators is accepted, and printBT overruns its
buffer new_prefix. In both runs yyparse returns 0 and the behaviour of main is undefined,
with any fuel that suffices for the parser. -/
theorem C15_undefined_printing_counterexample :
    (∀ fuel : Nat,
      (yyparse (100 + fuel) (fun _ _ => ⟨"", newleaf "stale" "memory"⟩) TREE.null
          (program [])).map (fun r => (r.1, bodyOf r.2.root))
        = some (0, newleaf "stale" "memory") ∧
      main (100 + fuel) (fun _ _ => ⟨"", newleaf "stale" "memory"⟩) (program []) = none) ∧
    (∃ k, ∀ n,
      (yyparse (k + n) zeroStack TREE.null
        (program (ident "t" :: tok T_ASSGN "=" :: ((Ex.sum 166).tokens ++ [semi])))).map
          (fun r => r.1) = some 0 ∧
      main (k + n) zeroStack
        (program (ident "t" :: tok T_ASSGN "=" :: ((Ex.sum 166).tokens ++ [semi]))) = none) := by
  refine ⟨fun fuel => ⟨map_mono _ 100 _ _ _ _ (by decide!) fuel, ?_⟩, main_deep zeroStack⟩
  exact main_wild (100 + fuel) _ (program [])
    (map_mono _ 100 _ _ _ _ (by decide!) fuel) (map_mono _ 100 _ _ _ _ (by decide!) fuel)

/-- C15, amended: when yyparse returns 0, main writes to stdout exactly "Parsing
succesful\n" followed by "AST generated\n" and to the output file exactly the header line
"Abstract Syntax Tree\n", then the lines of printBT("", root, 0) for the root that yyparse
left in the AST owner, then one "\n", provided that printBT follows no wild pointer (a
pointer that is not NULL and that the parser read from a never-written cell of its value
stack) and does not overrun its buffer new_prefix; otherwise the behaviour of main is
undefined. For the program with the body `int x; x = 1+2;` main writes the 25 lines of the
tree between the header and the empty line, whatever the never-written cells hold. -/
theorem C15_main_after_success (fuel : Nat) (uninit : Nat → Nat → YACC) (yyin : List Token)
    (h : (yyparse fuel uninit TREE.null yyin).map (fun r => r.1) = some 0) :
    main fuel uninit yyin
      = (yyparse fuel uninit TREE.null yyin).bind (fun r =>
          if followsWild fuel uninit yyin then none
          else (printBT [] "" r.2.root 0).map (fun p =>
            { stdout := ["Parsing succesful\n", "AST generated\n"],
              fp := ["Abstract Syntax Tree\n"] ++ p.1 ++ ["\n"] })) ∧
    (∀ (u : Nat → Nat → YACC) (f : Nat), main (100 + f) u (program bodyA)
      = some { stdout := ["Parsing succesful\n", "AST generated\n"],
               fp := ["Abstract Syntax Tree\n", "└──CLASS DECLARATION\n", "    ├──modifier\n",
          "    │   └──(access modifier, public)\n", "    ├──(classname, public)\n",
          "    └──METHOD DECLARATION\n", "        ├──modifier\n",
          "        │   ├──(access modifier, public)\n",
          "        │   └──(access modifier, static)\n", "        ├──(datatype, void)\n",
          "        ├──(datatype, String)\n", "        └──DECLARATION\n",
          "            ├──VARIABLE DECLARATION\n", "            │   └──variable declaration\n",
          "            │       ├──(datatype, int)\n", "            │       └──(id, x)\n",
          "            └──INITIALIZATION\n", "                ├──ASSIGNMENT STATEMENT\n",
          "                │   └──=\n", "                │       ├──(id, x)\n",
          "                │       └──+\n", "                │           ├──(num, 1)\n",
          "                │           └──(num, 2)\n", "                └──+\n",
          "                    ├──(num, 1)\n", "                    └──(num, 2)\n",
          "\n"] }) := by
  constructor
  · rw [main_success fuel uninit yyin h]
    cases hp : yyparse fuel uninit TREE.null yyin with
    | none => rfl
    | some r =>
      simp only [Option.some_bind, printBT_eq]
      cases hw : followsWild fuel uninit yyin <;> cases hf : fitsBuffer "" r.2.root 0 <;>
        simp
  · intro u f
    exact main_of_runs (100 + f) u (program bodyA) _
      (run_closed 100 _ (fun rep => (rep.yyresult,
        (printBT ["Abstract Syntax Tree\n"] "" rep.root 0).map Prod.fst))
        (0, some ["Abstract Syntax Tree\n", "└──CLASS DECLARATION\n", "    ├──modifier\n",
          "    │   └──(access modifier, public)\n", "    ├──(classname, public)\n",
          "    └──METHOD DECLARATION\n", "        ├──modifier\n",
          "        │   ├──(access modifier, public)\n",
          "        │   └──(access modifier, static)\n", "        ├──(datatype, void)\n",
          "        ├──(datatype, String)\n", "        └──DECLARATION\n",
          "            ├──VARIABLE DECLARATION\n", "            │   └──variable declaration\n",
          "            │       ├──(datatype, int)\n", "            │       └──(id, x)\n",
          "            └──INITIALIZATION\n", "                ├──ASSIGNMENT STATEMENT\n",
          "                │   └──=\n", "                │       ├──(id, x)\n",
          "                │       └──+\n", "                │           ├──(num, 1)\n",
          "                │           └──(num, 2)\n", "                └──+\n",
          "                    ├──(num, 1)\n", "                    └──(num, 2)\n"]) (by decide!) u f)
      (run_closed 100 _ (fun rep => (calls "" [] rep.root 0).any (fun c => c.node.isWild))
        false (by decide!) (wildStack u) f)

/-- C15, witness: the accepted program with the body `int x; x = 1+2;`, run on a stack
array of zero bytes. -/
theorem C15_main_after_success_witness :
    (yyparse 100 zeroStack TREE.null (program bodyA)).map (fun r => r.1) = some 0 ∧
    (main 100 zeroStack (program bodyA)
      = (yyparse 100 zeroStack TREE.null (program bodyA)).bind (fun r =>
          if followsWild 100 zeroStack (program bodyA) then none
          else (printBT [] "" r.2.root 0).map (fun p =>
            { stdout := ["Parsing succesful\n", "AST generated\n"],
              fp := ["Abstract Syntax Tree\n"] ++ p.1 ++ ["\n"] })) ∧
    (∀ (u : Nat → Nat → YACC) (f : Nat), main (100 + f) u (program bodyA)
      = some { stdout := ["Parsing succesful\n", "AST generated\n"],
               fp := ["Abstract Syntax Tree\n", "└──CLASS DECLARATION\n", "    ├──modifier\n",
          "    │   └──(access modifier, public)\n", "    ├──(classname, public)\n",
          "    └──METHOD DECLARATION\n", "        ├──modifier\n",
          "        │   ├──(access modifier, public)\n",
          "        │   └──(access modifier, static)\n", "        ├──(datatype, void)\n",
          "        ├──(datatype, String)\n", "        └──DECLARATION\n",
          "            ├──VARIABLE DECLARATION\n", "            │   └──variable declaration\n",
          "            │       ├──(datatype, int)\n", "            │       └──(id, x)\n",
          "            └──INITIALIZATION\n", "                ├──ASSIGNMENT STATEMENT\n",
          "                │   └──=\n", "                │       ├──(id, x)\n",
          "                │       └──+\n", "                │           ├──(num, 1)\n",
          "                │           └──(num, 2)\n", "                └──+\n",
          "                    ├──(num, 1)\n", "                    └──(num, 2)\n",
          "\n"] })) :=
  ⟨by decide!, C15_main_after_success 100 zeroStack (program bodyA) (by decide!)⟩

/-- C16: when yyparse returns a non-zero result, main writes nothing to the output file and
writes exactly "Unsuccessful\n" to stdout, whatever root was built. -/
theorem C16_main_after_failure (fuel : Nat) (uninit : Nat → Nat → YACC) (yyin : List Token)
    (yyresult : Int) (h : (yyparse fuel uninit TREE.null yyin).map (fun r => r.1) = some yyresult)
    (hne : yyresult ≠ 0) :
    main fuel uninit yyin = some { stdout := ["Unsuccessful\n"], fp := [] } := by
  unfold main
  cases hp : yyparse fuel uninit TREE.null yyin with
  | none => rw [hp] at h; simp at h
  | some r =>
    obtain ⟨c, s⟩ := r
    rw [hp] at h
    simp only [Option.map_some', Option.some.injEq] at h
    subst h
    simp [hne]

/-- C16, witness: the program with the missing semicolon. -/
theorem C16_main_after_failure_witness :
    (yyparse 100 zeroStack TREE.null (program bodyNoSemi)).map (fun r => r.1) = some 1 ∧
    (1 : Int) ≠ 0 ∧
    main 100 zeroStack (program bodyNoSemi) = some { stdout := ["Unsuccessful\n"], fp := [] } :=
  ⟨by decide!, by decide,
    C16_main_after_failure 100 zeroStack (program bodyNoSemi) 1 (by decide!) (by decide)⟩

/-- C17, counterexample: six accepted programs in which a builder rule outside the
for-header rules builds a node whose occupied slots are no prefix: rule 11 for an if without
else followed by a statement (slots 1 and 3), rule 12 for a for loop with an empty block
followed by a statement (slots 1 and 3), rule 40 for `int a, b, c;` (slot 2 only), rule 43
for `int [] a;` (slots 1 and 3), rule 45 for `int [][][] a;` (slot 2 only) and rule 51 for
`int a[] = {1};` (slots 1 and 3). -/
theorem C17_gaps_outside_for_headers_counterexample :
    (yyparse 100 zeroStack TREE.null
        (program [tok T_IF "if", tok 40 "(", ident "a", tok 41 ")", tok 123 "\x7b", ident "x",
          tok T_ASSGN "=", number "1", semi, tok 125 "\x7d", ident "y", tok T_ASSGN "=",
          number "2", semi])).map
      (fun r => (r.1, (bodyOf r.2.root).label, (bodyOf r.2.root).occupied))
      = some (0, "IF ELSE STATEMNET", [true, false, true, false]) ∧
    (yyparse 100 zeroStack TREE.null
        (program [tok T_FOR "for", tok 40 "(", semi, semi, tok 41 ")", tok 123 "\x7b",
          tok 125 "\x7d", ident "x", tok T_ASSGN "=", number "1", semi])).map
      (fun r => (r.1, (bodyOf r.2.root).label, (bodyOf r.2.root).occupied))
      = some (0, "FOR LOOP", [true, false, true, false]) ∧
    (yyparse 100 zeroStack TREE.null
        (program [tok T_INT "int", ident "a", tok 44 ",", ident "b", tok 44 ",", ident "c",
          semi])).map
      (fun r => (r.1, (bodyOf r.2.root).c1.c1.c3.label, (bodyOf r.2.root).c1.c1.c3.occupied))
      = some (0, "declaration continued", [false, true, false, false]) ∧
    (yyparse 100 zeroStack TREE.null
        (program [tok T_INT "int", tok 91 "[", tok 93 "]", ident "a", semi])).map
      (fun r => (r.1, (bodyOf r.2.root).c1.c1.label, (bodyOf r.2.root).c1.c1.occupied))
      = some (0, "array declaration", [true, false, true, false]) ∧
    (yyparse 100 zeroStack TREE.null
        (program [tok T_INT "int", tok 91 "[", tok 93 "]", tok 91 "[", tok 93 "]", tok 91 "[",
          tok 93 "]", ident "a", semi])).map
      (fun r => (r.1, (bodyOf r.2.root).c1.c1.c2.label, (bodyOf r.2.root).c1.c1.c2.occupied))
      = some (0, "bracket", [false, true, false, false]) ∧
    (yyparse 100 zeroStack TREE.null
        (program [tok T_INT "int", ident "a", tok 91 "[", tok 93 "]", tok T_ASSGN "=",
          tok 123 "\x7b", number "1", tok 125 "\x7d", semi])).map
      (fun r => (r.1, (bodyOf r.2.root).c1.c1.label, (bodyOf r.2.root).c1.c1.occupied))
      = some (0, "=", [true, false, true, false]) := by
  refine ⟨?_, ?_, ?_, ?_, ?_, ?_⟩ <;> decide!

/-- C17, amended: for every builder rule other than the eight for-header rules (22-29) and
other than rules 11, 12, 40, 43, 45 and 51, and for every combination of sub-results in
which the sub-results of the non-terminals that are never absent are present (those of
ELSE, X, B, W2 and S may be absent), the occupied child slots of the node it builds form a
prefix 1..k of the four slots. -/
theorem C17_contiguous_rules (yyn : Int) (hmem : yyn ∈ contiguousRules) (yyvsp : Int → YACC)
    (yyval : YACC) (root : TREE)
    (hp : ∀ i ∈ neverAbsent yyn, (yyvsp i).ptr.isNull = false) :
    ((yyaction yyn yyvsp yyval root).1.ptr).contiguousHere = true := by
  have hc : contiguousRules = [5, 6, 7, 49, 50, 55, 58, 59, 60, 61, 62, 93, 94, 2, 3, 4, 9, 10,
      13, 15, 16, 17, 18, 19, 20, 32, 33, 34, 35, 37, 38, 39, 42, 44, 48, 53, 54, 63, 73, 75,
      77, 78, 80, 81, 82, 83, 85, 86, 88, 89, 90] := by decide
  rw [hc] at hmem
  simp only [List.mem_cons, List.mem_singleton, List.not_mem_nil, or_false] at hmem
  have a0 := hp 0
  have a1 := hp (-1)
  have a2 := hp (-2)
  have a3 := hp (-3)
  have a4 := hp (-4)
  have a5 := hp (-5)
  have a7 := hp (-7)
  have a10 := hp (-10)
  have a11 := hp (-11)
  clear hp hc
  unfold yyaction
  split <;>
    first
    | (exfalso; omega)
    | (exfalso; simp only [imp_false] at *; omega)
    | (try (have b0 := a0 (by decide))
       try (have b1 := a1 (by decide))
       try (have b2 := a2 (by decide))
       try (have b3 := a3 (by decide))
       try (have b4 := a4 (by decide))
       try (have b5 := a5 (by decide))
       try (have b7 := a7 (by decide))
       try (have b10 := a10 (by decide))
       try (have b11 := a11 (by decide))
       clear a0 a1 a2 a3 a4 a5 a7 a10 a11
       simp only [YACC.setPtr, contiguous_newleaf, contiguous_newnode, isNull_null,
         isNull_newleaf, nptr, *]
       try simp)

/-- C17, witness: rule 9 with a present declaration and a present rest. -/
theorem C17_contiguous_rules_witness :
    (9 : Int) ∈ contiguousRules ∧
    (∀ i ∈ neverAbsent 9, ((fun _ => ⟨"", newleaf "id" "x"⟩ : Int → YACC) i).ptr.isNull = false) ∧
    ((yyaction 9 (fun _ => ⟨"", newleaf "id" "x"⟩) ⟨"", TREE.null⟩ TREE.null).1.ptr).contiguousHere
      = true :=
  ⟨by decide, fun _ _ => rfl,
    C17_contiguous_rules 9 (by decide) (fun _ => ⟨"", newleaf "id" "x"⟩) ⟨"", TREE.null⟩ TREE.null
      (fun _ _ => rfl)⟩

/-- C18, counterexample: for the body `if(a){x=1;}`, a bare if without else, the parser
builds an "IF ELSE STATEMNET" node whose slot 1 is the "IF STATEMENT" node and whose slot 2
is absent. -/
theorem C18_bare_if_is_wrapped_counterexample :
    (yyparse 100 zeroStack TREE.null
        (program [tok T_IF "if", tok 40 "(", ident "a", tok 41 ")", tok 123 "\x7b", ident "x",
          tok T_ASSGN "=", number "1", semi, tok 125 "\x7d"])).map
      (fun r => (r.1, (bodyOf r.2.root).label, (bodyOf r.2.root).c1.label,
        (bodyOf r.2.root).c2))
      = some (0, "IF ELSE STATEMNET", "IF STATEMENT", TREE.null) := by
  decide!

/-- C18, amended: for an if statement rule 19 builds an "IF STATEMENT" node with slots
(condition, then-branch, absent, absent), and rule 11 always wraps it in an "IF ELSE
STATEMNET" node whose slot 1 is that node and whose slot 2 is the result of the else clause:
absent (rule 21) when there is no else clause, an "ELSE STATEMENT" node (rule 20) otherwise.
The bodies `if(a){x=1;}` and `if(a){x=1;} else {y=2;}` show both. -/
theorem C18_if_always_wrapped :
    (∀ (yyvsp : Int → YACC) (yyval : YACC) (root : TREE),
      (yyaction 19 yyvsp yyval root).1.ptr
        = newnode "IF STATEMENT" (yyvsp (-4)).ptr (yyvsp (-1)).ptr nptr nptr ∧
      (yyaction 11 yyvsp yyval root).1.ptr
        = newnode "IF ELSE STATEMNET" (yyvsp (-2)).ptr (yyvsp (-1)).ptr (yyvsp 0).ptr nptr ∧
      (yyaction 21 yyvsp yyval root).1.ptr = nptr ∧
      (yyaction 20 yyvsp yyval root).1.ptr
        = newnode "ELSE STATEMENT" (yyvsp (-1)).ptr nptr nptr nptr) ∧
    (∀ (uninit : Nat → Nat → YACC) (fuel : Nat),
      (yyparse (100 + fuel) uninit TREE.null
          (program [tok T_IF "if", tok 40 "(", ident "a", tok 41 ")", tok 123 "\x7b",
            ident "x", tok T_ASSGN "=", number "1", semi, tok 125 "\x7d"])).map
        (fun r => ((report r).yyresult, (bodyOf (report r).root).label,
          [(bodyOf (report r).root).c1.label, (bodyOf (report r).root).c2.label],
          [(bodyOf (report r).root).c1.c1, (bodyOf (report r).root).c2,
           (bodyOf (report r).root).c1.c3, (bodyOf (report r).root).c1.c4]))
        = some (0, "IF ELSE STATEMNET", ["IF STATEMENT", ""],
            [newleaf "id" "a", TREE.null, TREE.null, TREE.null]) ∧
      (yyparse (100 + fuel) uninit TREE.null
          (program [tok T_IF "if", tok 40 "(", ident "a", tok 41 ")", tok 123 "\x7b",
            ident "x", tok T_ASSGN "=", number "1", semi, tok 125 "\x7d", tok T_ELSE "else",
            tok 123 "\x7b", ident "y", tok T_ASSGN "=", number "2", semi, tok 125 "\x7d"])).map
        (fun r => ((report r).yyresult, (bodyOf (report r).root).label,
          [(bodyOf (report r).root).c1.label, (bodyOf (report r).root).c2.label],
          [(bodyOf (report r).root).c1.c1, (bodyOf (report r).root).c2.c2,
           (bodyOf (report r).root).c1.c3, (bodyOf (report r).root).c1.c4]))
        = some (0, "IF ELSE STATEMNET", ["IF STATEMENT", "ELSE STATEMENT"],
            [newleaf "id" "a", TREE.null, TREE.null, TREE.null])) := by
  refine ⟨fun _ _ _ => ⟨rfl, rfl, rfl, rfl⟩, fun uninit fuel => ⟨?_, ?_⟩⟩
  · exact run_closed 100 _ (fun rep => (rep.yyresult, (bodyOf rep.root).label,
      [(bodyOf rep.root).c1.label, (bodyOf rep.root).c2.label],
      [(bodyOf rep.root).c1.c1, (bodyOf rep.root).c2, (bodyOf rep.root).c1.c3,
       (bodyOf rep.root).c1.c4])) _ (by decide!) uninit fuel
  · exact run_closed 100 _ (fun rep => (rep.yyresult, (bodyOf rep.root).label,
      [(bodyOf rep.root).c1.label, (bodyOf rep.root).c2.label],
      [(bodyOf rep.root).c1.c1, (bodyOf rep.root).c2.c2, (bodyOf rep.root).c1.c3,
       (bodyOf rep.root).c1.c4])) _ (by decide!) uninit fuel

/-- C20: rules 64-72 have one right-hand-side symbol and pass the operator token's text
through unchanged, rule 63 builds the node labelled with that text over the target ($1) and
the value expression ($3) with slots 3 and 4 absent, and rule 15 wraps it as the only
occupied slot of "ASSIGNMENT STATEMENT"; for each of the nine assignment operators the
parser builds this for the statement `x op 1;`. -/
theorem C20_assignment_operators :
    (∀ yyn ∈ [64, 65, 66, 67, 68, 69, 70, 71, 72],
      ∀ (yyvsp : Int → YACC) (yyval : YACC) (root : TREE),
        tbl yyr2 yyn = 1 ∧ (yyaction yyn yyvsp yyval root).1.v = (yyvsp 0).v) ∧
    (∀ (yyvsp : Int → YACC) (yyval : YACC) (root : TREE),
      (yyaction 63 yyvsp yyval root).1.ptr
        = newnode (yyvsp (-1)).v (yyvsp (-2)).ptr (yyvsp 0).ptr nptr nptr ∧
      (yyaction 15 yyvsp yyval root).1.ptr
        = newnode "ASSIGNMENT STATEMENT" (yyvsp 0).ptr nptr nptr nptr) ∧
    (∀ (op : AssignOp) (uninit : Nat → Nat → YACC) (fuel : Nat),
      (yyparse (100 + fuel) uninit TREE.null
          (program [ident "x", op.token, number "1", semi])).map
        (fun r => ((report r).yyresult, (bodyOf (report r).root).c1))
        = some (0, newnode "ASSIGNMENT STATEMENT"
            (newnode op.lexeme (newleaf "id" "x") (newleaf "num" "1") nptr nptr)
            nptr nptr nptr)) := by
  refine ⟨?_, fun _ _ _ => ⟨rfl, rfl⟩, ?_⟩
  · intro yyn h yyvsp yyval root
    simp only [List.mem_cons, List.mem_singleton, List.not_mem_nil, or_false] at h
    rcases h with rfl | rfl | rfl | rfl | rfl | rfl | rfl | rfl | rfl <;>
      exact ⟨by decide, rfl⟩
  · intro op uninit fuel
    cases op <;>
      exact run_closed 100 _ (fun rep => (rep.yyresult, (bodyOf rep.root).c1)) _
        (by decide!) uninit fuel

/-- C22: the four increment and decrement productions have two right-hand-side symbols and
build "UNARY OPERATION" with slots 3 and 4 absent: the prefix forms (rules 32, 33) put the
leaf (increment, operator text) in slot 1 and the operand in slot 2, the postfix forms
(rules 34, 35) put the operand in slot 1 and the operator leaf in slot 2. The parser builds
these nodes for the statements `++x;`, `--x;`, `x++;` and `x--;`. -/
theorem C22_unary_operations :
    (∀ (yyvsp : Int → YACC) (yyval : YACC) (root : TREE),
      (yyaction 32 yyvsp yyval root).1.ptr
        = newnode "UNARY OPERATION" (newleaf "increment" (yyvsp (-1)).v) (yyvsp 0).ptr nptr nptr ∧
      (yyaction 33 yyvsp yyval root).1.ptr
        = newnode "UNARY OPERATION" (newleaf "increment" (yyvsp (-1)).v) (yyvsp 0).ptr nptr nptr ∧
      (yyaction 34 yyvsp yyval root).1.ptr
        = newnode "UNARY OPERATION" (yyvsp (-1)).ptr (newleaf "increment" (yyvsp 0).v) nptr nptr ∧
      (yyaction 35 yyvsp yyval root).1.ptr
        = newnode "UNARY OPERATION" (yyvsp (-1)).ptr (newleaf "increment" (yyvsp 0).v) nptr nptr) ∧
    [32, 33, 34, 35].map (tbl yyr2) = [2, 2, 2, 2] ∧
    (∀ (uninit : Nat → Nat → YACC) (fuel : Nat),
      (yyparse (100 + fuel) uninit TREE.null
          (program [tok T_INC "++", ident "x", semi, ident "t", tok T_ASSGN "=", number "1",
            tok T_ADD "+", number "2", semi])).map
        (fun r => ((report r).yyresult, (bodyOf (report r).root).c1))
        = some (0, newnode "UNARY OPERATION" (newleaf "increment" "++") (newleaf "id" "x")
            nptr nptr) ∧
      (yyparse (100 + fuel) uninit TREE.null
          (program [tok T_DEC "--", ident "x", semi, ident "t", tok T_ASSGN "=", number "1",
            tok T_ADD "+", number "2", semi])).map
        (fun r => ((report r).yyresult, (bodyOf (report r).root).c1))
        = some (0, newnode "UNARY OPERATION" (newleaf "increment" "--") (newleaf "id" "x")
            nptr nptr) ∧
      (yyparse (100 + fuel) uninit TREE.null
          (program [ident "x", tok T_INC "++", semi, ident "t", tok T_ASSGN "=", number "1",
            tok T_ADD "+", number "2", semi])).map
        (fun r => ((report r).yyresult, (bodyOf (report r).root).c1))
        = some (0, newnode "UNARY OPERATION" (newleaf "id" "x") (newleaf "increment" "++")
            nptr nptr) ∧
      (yyparse (100 + fuel) uninit TREE.null
          (program [ident "x", tok T_DEC "--", semi, ident "t", tok T_ASSGN "=", number "1",
            tok T_ADD "+", number "2", semi])).map
        (fun r => ((report r).yyresult, (bodyOf (report r).root).c1))
        = some (0, newnode "UNARY OPERATION" (newleaf "id" "x") (newleaf "increment" "--")
            nptr nptr)) := by
  refine ⟨fun _ _ _ => ⟨rfl, rfl, rfl, rfl⟩, by decide, fun uninit fuel => ⟨?_, ?_, ?_, ?_⟩⟩ <;>
    exact run_closed 100 _ (fun rep => (rep.yyresult, (bodyOf rep.root).c1)) _
      (by decide!) uninit fuel

/-- C23, counterexample: the program whose body is the statement `x = a[1];` is rejected:
yyparse returns 1 at the token `[`, with five tokens unread and no root stored. -/
theorem C23_indexing_rejected_counterexample :
    (yyparse 100 zeroStack TREE.null
        (program [ident "x", tok T_ASSGN "=", ident "a", tok 91 "[", number "1", tok 93 "]",
          semi])).map report
      = some ⟨1, 2, TREE.null, 5⟩ := by
  decide!

/-- C23, amended: array indexing is no primary expression: the primaries are a
parenthesised expression, a number and an identifier (rules 92-94), and the program with
the statement `x = a[1];` is rejected (result 1, no root); a "bracket" node is built only
for the dimensions of an array declaration, by rule 45 from the `ptr` field of the token
`]` and the following brackets, and by rule 48 with the size in slot 1 and the following
dimensions in slot 2. -/
theorem C23_brackets_only_in_declarations :
    (∀ (yyvsp : Int → YACC) (yyval : YACC) (root : TREE),
      (yyaction 92 yyvsp yyval root).1.ptr = (yyvsp (-1)).ptr ∧
      (yyaction 93 yyvsp yyval root).1.ptr = newleaf "num" (yyvsp 0).v ∧
      (yyaction 94 yyvsp yyval root).1.ptr = newleaf "id" (yyvsp 0).v ∧
      (yyaction 45 yyvsp yyval root).1.ptr
        = newnode "bracket" (yyvsp (-1)).ptr (yyvsp 0).ptr nptr nptr ∧
      (yyaction 48 yyvsp yyval root).1.ptr
        = newnode "bracket" (yyvsp (-2)).ptr (yyvsp 0).ptr nptr nptr) ∧
    (∀ (uninit : Nat → Nat → YACC) (fuel : Nat),
      (yyparse (100 + fuel) uninit TREE.null
          (program [ident "x", tok T_ASSGN "=", ident "a", tok 91 "[", number "1",
            tok 93 "]", semi])).map
        (fun r => ((report r).yyresult, (report r).root))
        = some (1, TREE.null)) :=
  ⟨fun _ _ _ => ⟨rfl, rfl, rfl, rfl, rfl⟩, fun uninit fuel =>
    run_closed 100 _ (fun rep => (rep.yyresult, rep.root)) _ (by decide!) uninit fuel⟩

/-- C24: for the accepted program `public class A{ public static void main(String[] args){
int x; x = 1+2; } }` the values of the leaves, read from left to right, are public, public,
public, static, void, String, int, x, x, 1, 2, 1, 2: the class name A has no leaf, the text
of the first modifier appears twice, and the numbers 1 and 2 appear a second time. -/
theorem C24_leaf_values_of_program (uninit : Nat → Nat → YACC) (fuel : Nat) :
    (yyparse (100 + fuel) uninit TREE.null (program bodyA)).map
      (fun r => ((report r).yyresult, (report r).root.leafValues))
      = some (0, ["public", "public", "public", "static", "void", "String", "int", "x", "x",
          "1", "2", "1", "2"]) :=
  run_closed 100 _ (fun rep => (rep.yyresult, rep.root.leafValues)) _ (by decide!) uninit fuel

/-- C25, counterexample: the action of rule 22 calls newnode with four absent arguments, and
for the loop `for(;;)` the parser builds the node "FOR CONDITION" with the placeholder value
"N/A" and no occupied slot. -/
theorem C25_childless_internal_node_counterexample :
    (yyaction 22 (fun _ => ⟨"", TREE.null⟩) ⟨"", TREE.null⟩ TREE.null).1.ptr
      = TREE.node "FOR CONDITION" "N/A" TREE.null TREE.null TREE.null TREE.null ∧
    (yyparse 100 zeroStack TREE.null
        (program [tok T_FOR "for", tok 40 "(", semi, semi, tok 41 ")", tok 123 "\x7b",
          tok 125 "\x7d", ident "x", tok T_ASSGN "=", number "1", semi])).map
      (fun r => (r.1, (bodyOf r.2.root).c1))
      = some (0, TREE.node "FOR CONDITION" "N/A" TREE.null TREE.null TREE.null TREE.null) := by
  constructor
  · rfl
  · decide!

/-- C25, amended: every node that a builder rule produces is either a leaf built by newleaf
(all four slots absent, value = the text of the token on top of the stack) or a node built
by newnode, whose value is the placeholder "N/A"; a node built by newnode has at least one
occupied slot for every rule other than rules 20, 22, 40 and 45, provided the sub-results of
the non-terminals that are never absent are present. -/
theorem C25_leaf_or_internal (yyn : Int) (hmem : yyn ∈ leafRules ++ nodeRules)
    (yyvsp : Int → YACC) (yyval : YACC) (root : TREE)
    (hp : ∀ i ∈ neverAbsent yyn, (yyvsp i).ptr.isNull = false) :
    (yyn ∈ leafRules ∧
      (yyaction yyn yyvsp yyval root).1.ptr
        = newleaf (yyaction yyn yyvsp yyval root).1.ptr.label (yyvsp 0).v) ∨
    (yyn ∈ nodeRules ∧
      (yyaction yyn yyvsp yyval root).1.ptr.val = "N/A" ∧
      (yyaction yyn yyvsp yyval root).1.ptr.isNull = false ∧
      (yyn ∉ childlessRules →
        ((yyaction yyn yyvsp yyval root).1.ptr.c1.isNull &&
         (yyaction yyn yyvsp yyval root).1.ptr.c2.isNull &&
         (yyaction yyn yyvsp yyval root).1.ptr.c3.isNull &&
         (yyaction yyn yyvsp yyval root).1.ptr.c4.isNull) = false)) := by
  simp only [leafRules, nodeRules, List.mem_append, List.mem_cons, List.mem_singleton,
    List.not_mem_nil, or_false] at hmem
  have a0 := hp 0
  have a1 := hp (-1)
  have a2 := hp (-2)
  have a3 := hp (-3)
  have a4 := hp (-4)
  have a5 := hp (-5)
  have a11 := hp (-11)
  clear hp
  unfold yyaction
  split <;>
    first
    | (exfalso; omega)
    | (exfalso; simp only [imp_false] at *; omega)
    | (left; exact ⟨by decide, rfl⟩)
    | (right
       refine ⟨by decide, rfl, rfl, ?_⟩
       intro hn
       first
       | (exfalso; revert hn; decide)
       | (try (have b0 := a0 (by decide))
          try (have b1 := a1 (by decide))
          try (have b2 := a2 (by decide))
          try (have b3 := a3 (by decide))
          try (have b4 := a4 (by decide))
          try (have b5 := a5 (by decide))
          try (have b11 := a11 (by decide))
          clear a0 a1 a2 a3 a4 a5 a11
          simp only [YACC.setPtr, newnode, TREE.c1, TREE.c2, TREE.c3, TREE.c4, isNull_newleaf,
            Bool.false_and, Bool.and_false, *]))

/-- C25, witness: rule 9 with a present declaration. -/
theorem C25_leaf_or_internal_witness :
    (9 : Int) ∈ leafRules ++ nodeRules ∧
    (∀ i ∈ neverAbsent 9, ((fun _ => ⟨"", newleaf "id" "x"⟩ : Int → YACC) i).ptr.isNull = false) ∧
    (yyaction 9 (fun _ => ⟨"", newleaf "id" "x"⟩) ⟨"", TREE.null⟩ TREE.null).1.ptr.val = "N/A" :=
  ⟨by decide, fun _ _ => rfl,
    ((C25_leaf_or_internal 9 (by decide) (fun _ => ⟨"", newleaf "id" "x"⟩) ⟨"", TREE.null⟩
      TREE.null (fun _ _ => rfl)).resolve_left (fun h => absurd h.1 (by decide))).2.1⟩

/-- C30, counterexample: the program whose body is `int 5;` is accepted, and slot 2 of its
"variable declaration" node is the leaf (num, 5), not a leaf labelled "id". -/
theorem C30_number_as_declared_name_counterexample :
    (yyparse 100 zeroStack TREE.null
        (program [tok T_INT "int", number "5", semi])).map
      (fun r => (r.1, (bodyOf r.2.root).c1.c1.label, (bodyOf r.2.root).c1.c1.c2))
      = some (0, "variable declaration", newleaf "num" "5") := by
  decide!

/-- C30, amended: in the "variable declaration" (rule 38) or "variable initialisation"
(rule 37) node of an accepted declaration, slot 1 is the result of the Type production,
which is always a leaf labelled "datatype" (rules 58-62), and slot 2 is the result of the
primary expression in the name position: a leaf labelled "id" when that is an identifier
(rule 94), as in `int x;` and `int x = 3;`, and a leaf labelled "num" when it is a number
(rule 93), as in `int 5;`. -/
theorem C30_declaration_slots :
    (∀ (yyvsp : Int → YACC) (yyval : YACC) (root : TREE),
      (yyaction 37 yyvsp yyval root).1.ptr
        = newnode "variable initialisation" (yyvsp (-4)).ptr (yyvsp (-3)).ptr (yyvsp (-1)).ptr
            (yyvsp 0).ptr ∧
      (yyaction 38 yyvsp yyval root).1.ptr
        = newnode "variable declaration" (yyvsp (-2)).ptr (yyvsp (-1)).ptr (yyvsp 0).ptr nptr ∧
      (∀ yyn ∈ [58, 59, 60, 61, 62],
        (yyaction yyn yyvsp yyval root).1.ptr = newleaf "datatype" (yyvsp 0).v) ∧
      (yyaction 93 yyvsp yyval root).1.ptr = newleaf "num" (yyvsp 0).v ∧
      (yyaction 94 yyvsp yyval root).1.ptr = newleaf "id" (yyvsp 0).v) ∧
    (∀ (uninit : Nat → Nat → YACC) (fuel : Nat),
      (yyparse (100 + fuel) uninit TREE.null
          (program [tok T_INT "int", ident "x", semi, ident "x", tok T_ASSGN "=", number "1",
            tok T_ADD "+", number "2", semi])).map
        (fun r => ((report r).yyresult, (bodyOf (report r).root).c1.c1.label,
          [(bodyOf (report r).root).c1.c1.c1, (bodyOf (report r).root).c1.c1.c2]))
        = some (0, "variable declaration", [newleaf "datatype" "int", newleaf "id" "x"]) ∧
      (yyparse (100 + fuel) uninit TREE.null
          (program [tok T_INT "int", ident "x", tok T_ASSGN "=", number "3", semi, ident "x",
            tok T_ASSGN "=", number "1", tok T_ADD "+", number "2", semi])).map
        (fun r => ((report r).yyresult, (bodyOf (report r).root).c1.c1.label,
          [(bodyOf (report r).root).c1.c1.c1, (bodyOf (report r).root).c1.c1.c2]))
        = some (0, "variable initialisation", [newleaf "datatype" "int", newleaf "id" "x"]) ∧
      (yyparse (100 + fuel) uninit TREE.null
          (program [tok T_INT "int", number "5", semi, ident "x", tok T_ASSGN "=", number "1",
            tok T_ADD "+", number "2", semi])).map
        (fun r => ((report r).yyresult, (bodyOf (report r).root).c1.c1.label,
          [(bodyOf (report r).root).c1.c1.c1, (bodyOf (report r).root).c1.c1.c2]))
        = some (0, "variable declaration", [newleaf "datatype" "int", newleaf "num" "5"])) := by
  refine ⟨fun yyvsp yyval root => ⟨rfl, rfl, ?_, rfl, rfl⟩, fun uninit fuel => ⟨?_, ?_, ?_⟩⟩
  · intro yyn h
    simp only [List.mem_cons, List.mem_singleton, List.not_mem_nil, or_false] at h
    rcases h with rfl | rfl | rfl | rfl | rfl <;> rfl
  all_goals
    exact run_closed 100 _ (fun rep => (rep.yyresult, (bodyOf rep.root).c1.c1.label,
      [(bodyOf rep.root).c1.c1.c1, (bodyOf rep.root).c1.c1.c2])) _ (by decide!) uninit fuel

/-- C28: the root held by the AST owner is written only by the class-declaration action:
the action of every rule other than rule 2 returns the root unchanged, and the action of
rule 2 returns as root the "CLASS DECLARATION" node it has just built. Hence a step of the
driver leaves the root unchanged unless it reduces by a rule, a run that starts with an
absent root ends with an absent root or with a node built by rule 2, and after a
successful parse (result 0) the root is a node built by rule 2, as for the program
`public class A{ public static void main(String[] args){ int x; x = 1+2; } }`. -/
theorem C28_root_written_by_rule_two_only :
    (∀ (yyn : Int) (yyvsp : Int → YACC) (yyval : YACC) (root : TREE),
      yyn ≠ 2 → (yyaction yyn yyvsp yyval root).2 = root) ∧
    (∀ (yyvsp : Int → YACC) (yyval : YACC) (root : TREE),
      (yyaction 2 yyvsp yyval root).2 = (yyaction 2 yyvsp yyval root).1.ptr ∧
      (yyaction 2 yyvsp yyval root).2.label = "CLASS DECLARATION" ∧
      (yyaction 2 yyvsp yyval root).2.isNull = false) ∧
    (∀ (uninit : Nat → Nat → YACC) (s : YYState),
      (yybackup uninit s).state.root = s.root ∨
      ∃ (yyn : Int) (yyvsp : Int → YACC) (yyval : YACC),
        (yybackup uninit s).state.root = (yyaction yyn yyvsp yyval s.root).2) ∧
    (∀ (fuel : Nat) (uninit : Nat → Nat → YACC) (yyin : List Token) (r : Int × YYState),
      yyparse fuel uninit TREE.null yyin = some r →
        r.2.root = TREE.null ∨ isClassNode r.2.root) ∧
    (∀ (fuel : Nat) (uninit : Nat → Nat → YACC) (yyin : List Token) (s : YYState),
      yyparse fuel uninit TREE.null yyin = some (0, s) →
        isClassNode s.root ∧ s.root.label = "CLASS DECLARATION") ∧
    (∀ (uninit : Nat → Nat → YACC) (fuel : Nat),
      (yyparse (100 + fuel) uninit TREE.null (program bodyA)).map
        (fun r => ((report r).yyresult, (report r).root.label,
          (report r).root.c2.label, (report r).root.c3.label))
        = some (0, "CLASS DECLARATION", "classname", "METHOD DECLARATION")) := by
  refine ⟨fun yyn yyvsp yyval root h => yyaction_root yyn h yyvsp yyval root,
    fun _ _ _ => ⟨rfl, rfl, rfl⟩, yybackup_root,
    fun fuel uninit yyin r h => yyparse_root uninit fuel TREE.null yyin r h, ?_, ?_⟩
  · intro fuel uninit yyin s h
    have hc := yyparse_good uninit fuel TREE.null yyin s h
    refine ⟨hc, ?_⟩
    obtain ⟨yyvsp, yyval, root, e⟩ := hc
    rw [e]
    rfl
  · intro uninit fuel
    exact run_closed 100 _ (fun rep => (rep.yyresult, rep.root.label, rep.root.c2.label,
      rep.root.c3.label)) _ (by decide!) uninit fuel

/-! ## Precedence and associativity of the expression ladder -/

/-- C2, amended: for primaries x, y, z of fewer than 9980 tokens in all and binary operators
op1, op2 with op2 on a tighter ladder level than op1, the program whose body is the
statement `t = x op1 y op2 z;` is accepted with the tree op1(x, op2(y, z)) as the right-hand
side of the assignment, and the one with `t = x op2 y op1 z;` with op1(op2(x, y), z); enough
fuel gives these results, whatever the unwritten stack cells hold. -/
theorem C2_precedence (uninit : Nat → Nat → YACC) (x y z : Ex) (op1 op2 : BinOp)
    (hx : x.isPrimary = true) (hy : y.isPrimary = true) (hz : z.isPrimary = true)
    (hlev : op2.level < op1.level)
    (hsize : x.tokens.length + y.tokens.length + z.tokens.length < 9980) :
    (∃ k, ∀ n,
      (yyparse (k + n) uninit TREE.null
        (program (ident "t" :: tok T_ASSGN "=" ::
          (x.tokens ++ [op1.token] ++ y.tokens ++ [op2.token] ++ z.tokens ++ [semi])))).map
          (fun r => (r.1, (bodyOf r.2.root).c1.c1.c2))
        = some (0, newnode op1.lexeme x.tree
            (newnode op2.lexeme y.tree z.tree TREE.null TREE.null) TREE.null TREE.null))
    ∧ (∃ k, ∀ n,
      (yyparse (k + n) uninit TREE.null
        (program (ident "t" :: tok T_ASSGN "=" ::
          (x.tokens ++ [op2.token] ++ y.tokens ++ [op1.token] ++ z.tokens ++ [semi])))).map
          (fun r => (r.1, (bodyOf r.2.root).c1.c1.c2))
        = some (0, newnode op1.lexeme
            (newnode op2.lexeme x.tree y.tree TREE.null TREE.null) z.tree
            TREE.null TREE.null)) := by
  have r1 : op1.rank ≤ 6 := by cases op1 <;> decide
  have r2 : op2.rank + 1 ≤ op1.rank := by
    simp only [BinOp.rank]
    omega
  constructor
  · have hd : (Ex.bin op1 x (Ex.bin op2 y z)).derives 6 = true := by
      simp only [Ex.derives, Bool.and_eq_true, decide_eq_true_eq]
      exact ⟨⟨r1, derives_of_isPrimary x _ hx⟩,
        ⟨by omega, derives_of_isPrimary y _ hy⟩, derives_of_isPrimary z _ hz⟩
    obtain ⟨k, hk⟩ := assign_program uninit _ hd (by
      simp only [Ex.tokens, List.length_append, List.length_cons, YYMAXDEPTH]
      omega)
    refine ⟨k, fun n => ?_⟩
    have h := hk n
    simp only [Ex.tokens, Ex.tree, nptr, List.append_assoc, List.cons_append,
      List.nil_append] at h ⊢
    exact h
  · have hd : (Ex.bin op1 (Ex.bin op2 x y) z).derives 6 = true := by
      simp only [Ex.derives, Bool.and_eq_true, decide_eq_true_eq]
      exact ⟨⟨r1, ⟨by omega, derives_of_isPrimary x _ hx⟩, derives_of_isPrimary y _ hy⟩,
        derives_of_isPrimary z _ hz⟩
    obtain ⟨k, hk⟩ := assign_program uninit _ hd (by
      simp only [Ex.tokens, List.length_append, List.length_cons, YYMAXDEPTH]
      omega)
    refine ⟨k, fun n => ?_⟩
    have h := hk n
    simp only [Ex.tokens, Ex.tree, nptr, List.append_assoc, List.cons_append,
      List.nil_append] at h ⊢
    exact h

/-- C2, witness: `1 + 2 * 3` builds +(num 1, *(num 2, num 3)) and `1 * 2 + 3` builds
+(*(num 1, num 2), num 3). -/
theorem C2_precedence_witness :
    ((Ex.num "1").isPrimary = true ∧ (Ex.num "2").isPrimary = true
      ∧ (Ex.num "3").isPrimary = true ∧ BinOp.mul.level < BinOp.add.level
      ∧ (Ex.num "1").tokens.length + (Ex.num "2").tokens.length
          + (Ex.num "3").tokens.length < 9980)
    ∧ (∃ k, ∀ n,
      (yyparse (k + n) zeroStack TREE.null
        (program (ident "t" :: tok T_ASSGN "=" ::
          ([number "1"] ++ [tok T_ADD "+"] ++ [number "2"] ++ [tok T_MUL "*"]
            ++ [number "3"] ++ [semi])))).map
          (fun r => (r.1, (bodyOf r.2.root).c1.c1.c2))
        = some (0, newnode "+" (newleaf "num" "1")
            (newnode "*" (newleaf "num" "2") (newleaf "num" "3") TREE.null TREE.null)
            TREE.null TREE.null))
    ∧ (∃ k, ∀ n,
      (yyparse (k + n) zeroStack TREE.null
        (program (ident "t" :: tok T_ASSGN "=" ::
          ([number "1"] ++ [tok T_MUL "*"] ++ [number "2"] ++ [tok T_ADD "+"]
            ++ [number "3"] ++ [semi])))).map
          (fun r => (r.1, (bodyOf r.2.root).c1.c1.c2))
        = some (0, newnode "+"
            (newnode "*" (newleaf "num" "1") (newleaf "num" "2") TREE.null TREE.null)
            (newleaf "num" "3") TREE.null TREE.null)) :=
  ⟨⟨by decide, by decide, by decide, by decide, by decide⟩,
    C2_precedence zeroStack (Ex.num "1") (Ex.num "2") (Ex.num "3") BinOp.add BinOp.mul
      (by decide) (by decide) (by decide) (by decide) (by decide)⟩

/-- C2, counterexample: with the primary x made of the number 1 inside 10000 pairs of
parentheses, the tokens `t = x + 2 * 3;` exhaust the parser stack: yyparse returns 2 after
one call of yyerror and stores no root, so no tree is built for them. -/
theorem C2_deep_primary_counterexample :
    (Ex.nest 10000 (Ex.num "1")).isPrimary = true ∧ (Ex.num "2").isPrimary = true
    ∧ (Ex.num "3").isPrimary = true ∧ BinOp.mul.level < BinOp.add.level
    ∧ ∃ k, ∀ n,
      (yyparse (k + n) zeroStack TREE.null
        (program (ident "t" :: tok T_ASSGN "=" ::
          ((Ex.nest 10000 (Ex.num "1")).tokens ++ [BinOp.add.token] ++ (Ex.num "2").tokens
            ++ [BinOp.mul.token] ++ (Ex.num "3").tokens ++ [semi])))).map
          (fun r => (r.1, r.2.root, r.2.yynerrs)) = some (2, TREE.null, 1) := by
  refine ⟨nest_isPrimary 10000 _ rfl, by decide, by decide, by decide, ?_⟩
  rw [nest_tokens, replicate_split]
  simp only [List.append_assoc, List.cons_append]
  exact deep_fails zeroStack _

/-- C3, amended: for primaries x, y, z of fewer than 9980 tokens in all and binary operators
op, op' on the same ladder level, the program whose body is the statement
`t = x op y op' z;` is accepted with the tree op'(op(x, y), z) as the right-hand side of the
assignment; enough fuel gives this result, whatever the unwritten stack cells hold. -/
theorem C3_left_associativity (uninit : Nat → Nat → YACC) (x y z : Ex) (op op' : BinOp)
    (hx : x.isPrimary = true) (hy : y.isPrimary = true) (hz : z.isPrimary = true)
    (hlev : op.level = op'.level)
    (hsize : x.tokens.length + y.tokens.length + z.tokens.length < 9980) :
    ∃ k, ∀ n,
      (yyparse (k + n) uninit TREE.null
        (program (ident "t" :: tok T_ASSGN "=" ::
          (x.tokens ++ [op.token] ++ y.tokens ++ [op'.token] ++ z.tokens ++ [semi])))).map
          (fun r => (r.1, (bodyOf r.2.root).c1.c1.c2))
        = some (0, newnode op'.lexeme
            (newnode op.lexeme x.tree y.tree TREE.null TREE.null) z.tree
            TREE.null TREE.null) := by
  have r1 : op'.rank ≤ 6 := by cases op' <;> decide
  have r2 : op.rank = op'.rank := by
    simp only [BinOp.rank]
    omega
  have hd : (Ex.bin op' (Ex.bin op x y) z).derives 6 = true := by
    simp only [Ex.derives, Bool.and_eq_true, decide_eq_true_eq]
    exact ⟨⟨r1, ⟨by omega, derives_of_isPrimary x _ hx⟩, derives_of_isPrimary y _ hy⟩,
      derives_of_isPrimary z _ hz⟩
  obtain ⟨k, hk⟩ := assign_program uninit _ hd (by
    simp only [Ex.tokens, List.length_append, List.length_cons, YYMAXDEPTH]
    omega)
  refine ⟨k, fun n => ?_⟩
  have h := hk n
  simp only [Ex.tokens, Ex.tree, nptr, List.append_assoc, List.cons_append,
    List.nil_append] at h ⊢
  exact h

/-- C3, witness: `a - b - c` builds -(-(a, b), c). -/
theorem C3_left_associativity_witness :
    ((Ex.id "a").isPrimary = true ∧ (Ex.id "b").isPrimary = true
      ∧ (Ex.id "c").isPrimary = true ∧ BinOp.sub.level = BinOp.sub.level
      ∧ (Ex.id "a").tokens.length + (Ex.id "b").tokens.length
          + (Ex.id "c").tokens.length < 9980)
    ∧ ∃ k, ∀ n,
      (yyparse (k + n) zeroStack TREE.null
        (program (ident "t" :: tok T_ASSGN "=" ::
          ([ident "a"] ++ [tok T_SUB "-"] ++ [ident "b"] ++ [tok T_SUB "-"]
            ++ [ident "c"] ++ [semi])))).map
          (fun r => (r.1, (bodyOf r.2.root).c1.c1.c2))
        = some (0, newnode "-"
            (newnode "-" (newleaf "id" "a") (newleaf "id" "b") TREE.null TREE.null)
            (newleaf "id" "c") TREE.null TREE.null) :=
  ⟨⟨by decide, by decide, by decide, by decide, by decide⟩,
    C3_left_associativity zeroStack (Ex.id "a") (Ex.id "b") (Ex.id "c") BinOp.sub BinOp.sub
      (by decide) (by decide) (by decide) (by decide) (by decide)⟩

/-- C3, counterexample: with the primary x made of the identifier a inside 10000 pairs of
parentheses, the tokens `t = x - b - c;` exhaust the parser stack: yyparse returns 2 after
one call of yyerror and stores no root, so no tree is built for them. -/
theorem C3_deep_primary_counterexample :
    (Ex.nest 10000 (Ex.id "a")).isPrimary = true ∧ (Ex.id "b").isPrimary = true
    ∧ (Ex.id "c").isPrimary = true ∧ BinOp.sub.level = BinOp.sub.level
    ∧ ∃ k, ∀ n,
      (yyparse (k + n) zeroStack TREE.null
        (program (ident "t" :: tok T_ASSGN "=" ::
          ((Ex.nest 10000 (Ex.id "a")).tokens ++ [BinOp.sub.token] ++ (Ex.id "b").tokens
            ++ [BinOp.sub.token] ++ (Ex.id "c").tokens ++ [semi])))).map
          (fun r => (r.1, r.2.root, r.2.yynerrs)) = some (2, TREE.null, 1) := by
  refine ⟨nest_isPrimary 10000 _ rfl, by decide, by decide, rfl, ?_⟩
  rw [nest_tokens, replicate_split]
  simp only [List.append_assoc, List.cons_append]
  exact deep_fails zeroStack _

/-- C31, counterexample: the prefix of 249 segments of four spaces, which a node at depth
249 receives, has 996 bytes; a call of printBT with it on a FOR CONDITION node with the
slots 1 and 3 occupied overruns the buffer new_prefix, although it visits no child: its
behaviour is undefined. -/
theorem C31_long_prefix_counterexample :
    (String.join (List.replicate 249 "    ")).utf8ByteSize = 996 ∧
    (TREE.node "FOR CONDITION" "N/A" (newleaf "id" "i") nptr (newleaf "id" "j")
        nptr).contiguousHere = false ∧
    printBT [] (String.join (List.replicate 249 "    "))
      (TREE.node "FOR CONDITION" "N/A" (newleaf "id" "i") nptr (newleaf "id" "j") nptr) 1
      = none := by
  decide

/-- C31, amended: for a node that has an occupied slot but whose occupied slots are not a
prefix 1..k of the four slots, a call of printBT whose prefix, with its segment and the
terminating byte, fits the 1000 bytes of the buffer new_prefix appends exactly one line,
the prefix, the glyph and the label of the node, and no line for any descendant; a call
whose prefix does not fit overruns the buffer. -/
theorem C31_gapped_node_is_drawn_alone (fp : List String) (pfx : String) (o v : String)
    (c1 c2 c3 c4 : TREE) (isLeft : Int)
    (hocc : (c1.isNull && c2.isNull && c3.isNull && c4.isNull) = false)
    (hgap : (TREE.node o v c1 c2 c3 c4).contiguousHere = false) :
    printBT fp pfx (TREE.node o v c1 c2 c3 c4) isLeft
      = if 1000 < (deeper pfx isLeft).utf8ByteSize + 1 then none
        else some (fp ++ [pfx ++ glyph isLeft ++ o ++ "\n"], TREE.node o v c1 c2 c3 c4) := by
  rw [printBT_node, hgap]
  simp only [Bool.false_eq_true, if_false, TREE.content, TREE.c1, TREE.c2, TREE.c3, TREE.c4,
    hocc, TREE.label, deeper, String.append_assoc]

/-- C31, witness: a for-header node with the slots 1 and 3 occupied, as rule 25 builds for
`for(int i=0;;i++)`; its two children, which have children themselves, get no line. -/
theorem C31_gapped_node_is_drawn_alone_witness :
    ((newnode "=" (newleaf "id" "i") (newleaf "num" "0") nptr nptr).isNull && nptr.isNull
        && (newnode "UNARY OPERATION" (newleaf "id" "i") (newleaf "increment" "++") nptr
              nptr).isNull && nptr.isNull) = false ∧
    (TREE.node "FOR CONDITION" "N/A" (newnode "=" (newleaf "id" "i") (newleaf "num" "0") nptr nptr)
        nptr (newnode "UNARY OPERATION" (newleaf "id" "i") (newleaf "increment" "++") nptr nptr)
        nptr).contiguousHere = false ∧
    printBT ["Abstract Syntax Tree\n"] "    "
        (TREE.node "FOR CONDITION" "N/A"
          (newnode "=" (newleaf "id" "i") (newleaf "num" "0") nptr nptr) nptr
          (newnode "UNARY OPERATION" (newleaf "id" "i") (newleaf "increment" "++") nptr nptr)
          nptr) 1
      = (if 1000 < (deeper "    " 1).utf8ByteSize + 1 then none
         else some (["Abstract Syntax Tree\n"] ++ ["    " ++ glyph 1 ++ "FOR CONDITION" ++ "\n"],
          TREE.node "FOR CONDITION" "N/A"
            (newnode "=" (newleaf "id" "i") (newleaf "num" "0") nptr nptr) nptr
            (newnode "UNARY OPERATION" (newleaf "id" "i") (newleaf "increment" "++") nptr
              nptr) nptr)) :=
  ⟨by decide, by decide,
    C31_gapped_node_is_drawn_alone _ _ _ _ _ _ _ _ _ (by decide) (by decide)⟩

/-- C32: printBT("", root, 0) writes the lines of its calls on the nodes that are not NULL,
in order, unless a call overruns the buffer new_prefix (then no output is defined); no call
does when the deepest node is at depth at most 165. The line of a call at depth d is made
of the d segments of the flags of the calls on its ancestors, the glyph of its own flag,
the content of its node and a newline; a segment has four characters and is four spaces or
a bar and three spaces, the glyph has three; the segment of a flag is four spaces exactly
when the glyph of that flag is `└──`; and the flag at position k of a call is the flag of
a call at depth k on an ancestor of its node. The tree of `a + b` is drawn in this way. -/
theorem C32_line_layout :
    (∀ root : TREE, printBT [] "" root 0
      = if (calls "" [] root 0).all Call.fits
        then some ((calls "" [] root 0).map Call.line, root) else none) ∧
    (∀ root : TREE, root.height ≤ 166 →
      printBT [] "" root 0 = some ((calls "" [] root 0).map Call.line, root)) ∧
    (∀ (root : TREE), ∀ c ∈ calls "" [] root 0,
      c.anc.length = c.depth ∧
      c.line = String.join (c.anc.map seg) ++ glyph c.isLeft ++ c.node.content ++ "\n" ∧
      ∀ k, k < c.depth → ∃ c' ∈ calls "" [] root 0,
        c'.depth = k ∧ c'.isLeft = c.anc.getD k 0 ∧ c.node ∈ c'.node.preorder) ∧
    (∀ isLeft : Int,
      (seg isLeft).length = 4 ∧ (glyph isLeft).length = 3 ∧
      (seg isLeft = "    " ∨ seg isLeft = "│   ") ∧
      (glyph isLeft = "└──" ∨ glyph isLeft = "├──") ∧
      (seg isLeft = "    " ↔ glyph isLeft = "└──")) ∧
    printBT [] "" (newnode "+" (newleaf "id" "a") (newleaf "id" "b") nptr nptr) 0
      = some (["└──+\n", "    ├──(id, a)\n", "    └──(id, b)\n"],
          newnode "+" (newleaf "id" "a") (newleaf "id" "b") nptr nptr) := by
  have h0 : ∀ root : TREE, printBT [] "" root 0
      = if (calls "" [] root 0).all Call.fits
        then some ((calls "" [] root 0).map Call.line, root) else none := by
    intro root
    have := printBT_calls root [] "" [] 0
    rwa [List.nil_append] at this
  refine ⟨h0, fun root hh => ?_, fun root c hc => ⟨rfl, ?_, fun k hk => ?_⟩, fun l => ?_,
    by decide⟩
  · have hf : (calls "" [] root 0).all Call.fits = true := fits_of_height root hh
    rw [h0, if_pos hf]
  · unfold Call.line
    rw [root_call_pfx root c hc]
    rfl
  · obtain ⟨c', m, a1, a2, a3⟩ := calls_ancestor root "" [] 0 c hc k (Nat.zero_le _) hk
    refine ⟨c', m, ?_, a2, a3⟩
    unfold Call.depth at hk ⊢
    rw [a1, List.length_take]
    omega
  · unfold seg glyph
    split_ifs <;> decide

/-- C33: in printBT("", root, 0) the prefix passed to a node at depth d has between 4 d and
6 d bytes in UTF-8; when the deepest node of the tree is at depth at most 165 (height at
most 166), every content of new_prefix fits, with its terminator, in the 1000 bytes of the
buffer; a tree whose deepest node is at depth 166 can exceed it (the tree of a sum with 166
operators builds a prefix of 1000 bytes), and so can a method body of more than 166 chained
statements (248 statements `x;` build a prefix of 1000 bytes). -/
theorem C33_prefix_buffer :
    (∀ (root : TREE), ∀ c ∈ calls "" [] root 0,
      4 * c.depth ≤ c.pfx.utf8ByteSize ∧ c.pfx.utf8ByteSize ≤ 6 * c.depth) ∧
    (∀ (root : TREE), root.height ≤ 166 → ∀ c ∈ calls "" [] root 0,
      c.new_prefix.utf8ByteSize + 1 ≤ 1000) ∧
    ((leftChain 166).height = 167 ∧
      ∃ c ∈ calls "" [] (leftChain 166) 0, c.depth = 166 ∧
        1000 < c.new_prefix.utf8ByteSize + 1) ∧
    (∃ c ∈ calls "" [] (chainProgram 248) 0, 1000 < c.new_prefix.utf8ByteSize + 1) := by
  have hb : ∀ (root : TREE), ∀ c ∈ calls "" [] root 0,
      4 * c.depth ≤ c.pfx.utf8ByteSize ∧ c.pfx.utf8ByteSize ≤ 6 * c.depth := by
    intro root c hc
    rw [root_call_pfx root c hc]
    exact join_seg_bytes c.anc
  refine ⟨hb, fun root hh c hc => ?_, ⟨height_leftChain 166, ?_⟩, ?_⟩
  · obtain ⟨_, _, hd⟩ := calls_shape root "" [] 0 c hc
    have h1 := (hb root c hc).2
    have h2 := (seg_bytes c.isLeft).2
    rw [new_prefix_seg, utf8_append]
    unfold Call.depth at h1
    simp only [List.length_nil] at hd
    omega
  · obtain ⟨c, hc, e1, e2⟩ := calls_leftChain 166 "" [] 0
    refine ⟨c, hc, by simpa using e1, ?_⟩
    rw [e2]
    decide
  · obtain ⟨c, hc, _, e2⟩ := calls_chain 247 ("" ++ seg 0 ++ seg 0) ([] ++ [0] ++ [0]) 0
    have hm := (calls_into ("" ++ seg 0) ([] ++ [0]) "METHOD DECLARATION" "N/A"
      (newnode "modifier" (newleaf "access modifier" "public")
        (newleaf "access modifier" "static") nptr nptr)
      (newleaf "datatype" "void") (newleaf "datatype" "String")
      (buildBody (List.replicate 248 ⟨StmtKind.unrexpr, newleaf "id" "x", TREE.null⟩)
        TREE.null) 0 rfl).2.2.2 c hc
    have hr := (calls_into "" [] "CLASS DECLARATION" "N/A"
      (newnode "modifier" (newleaf "access modifier" "public") nptr nptr nptr)
      (newleaf "classname" "public")
      (newnode "METHOD DECLARATION"
        (newnode "modifier" (newleaf "access modifier" "public")
          (newleaf "access modifier" "static") nptr nptr)
        (newleaf "datatype" "void") (newleaf "datatype" "String")
        (buildBody (List.replicate 248 ⟨StmtKind.unrexpr, newleaf "id" "x", TREE.null⟩)
          TREE.null))
      TREE.null 0 rfl).2.2.1 c hm
    refine ⟨c, hr, ?_⟩
    rw [e2]
    decide

/-- C34: no state shifts the error token, so error recovery never finds a state to resume
in; a syntax error detected when no error is pending calls yyerror once, reads no token,
runs no action (the root stays as it was), pops the stack and makes yyparse return 1, the
error counter having grown by 2; in every run of yyparse that returns 1 the error counter
is 2 (and it is 0 with the result 0, 1 with the result 2). The program with the body
`int x x = 1;` is rejected in this way, with 5 of its 23 tokens unread. -/
theorem C34_first_syntax_error :
    (∀ top : Int, shiftTo top YYTERROR = none) ∧
    (∀ (yyss : List Int) (s : YYState), (yyerrpop yyss s).2 = none) ∧
    (∀ s : YYState, s.yyerrstatus = 0 →
      ∃ t, yyerrlab s = Outcome.return_ 1 t ∧ t.yynerrs = s.yynerrs + 2 ∧ t.yyin = s.yyin ∧
        t.yychar = s.yychar ∧ t.root = s.root ∧ t.yyss.length ≤ 1) ∧
    (∀ (fuel : Nat) (uninit : Nat → Nat → YACC) (root : TREE) (yyin : List Token)
        (r : Int × YYState), yyparse fuel uninit root yyin = some r →
      (r.1 = 0 ∧ r.2.yynerrs = 0) ∨ (r.1 = 1 ∧ r.2.yynerrs = 2) ∨
      (r.1 = 2 ∧ r.2.yynerrs = 1)) ∧
    (∀ (uninit : Nat → Nat → YACC) (fuel : Nat),
      (yyparse (100 + fuel) uninit TREE.null (program bodyNoSemi)).map
          (fun r => ((report r).yyresult, (report r).yynerrs, (report r).root,
            (report r).unread))
        = some (1, 2, TREE.null, 5)) :=
  ⟨shiftTo_error, yyerrpop_none, yyerrlab_first,
    fun fuel uninit root yyin r h => yyparse_counted uninit fuel root yyin r h,
    fun uninit fuel => run_closed 100 _
      (fun rep => (rep.yyresult, rep.yynerrs, rep.root, rep.unread)) _ (by decide!) uninit fuel⟩

/-- C35: rule 14 (S -> empty) has length 0 and no action, so its value is the default
`yyvsp[1-0]`, the stale cell above the top of the value stack, whereas the actions of the
rules 8, 21, 41 and 46 store an absent sub-tree. For the program with the body
`int x; x = 1+2;` the rest slot of the node of the last statement is therefore not absent:
it holds the "+" sub-tree that was last stored in that cell. For the program with an empty
body the body slot is what the never-written cell holds: absent in zeroed memory, the tree
found there otherwise. -/
theorem C35_empty_sequence_keeps_stale_value :
    tbl yyr2 14 = 0 ∧
    (∀ (yyvsp : Int → YACC) (yyval : YACC) (root : TREE),
      yyaction 14 yyvsp yyval root = (yyval, root)) ∧
    (∀ (uninit : Nat → Nat → YACC) (s : YYState),
      (reduced uninit s 14).yyvs = s.yyvsp uninit 1 :: s.yyvs) ∧
    (∀ (yyvsp : Int → YACC) (yyval : YACC) (root : TREE), ∀ k ∈ [8, 21, 41, 46],
      (yyaction k yyvsp yyval root).1.ptr = TREE.null) ∧
    (∀ (uninit : Nat → Nat → YACC) (fuel : Nat),
      (yyparse (100 + fuel) uninit TREE.null (program bodyA)).map
          (fun r => ((report r).yyresult, (bodyOf (report r).root).c2.label,
            (bodyOf (report r).root).c2.c2))
        = some (0, "INITIALIZATION",
            newnode "+" (newleaf "num" "1") (newleaf "num" "2") nptr nptr)) ∧
    (∀ fuel : Nat,
      (yyparse (100 + fuel) zeroStack TREE.null (program [])).map
          (fun r => (r.1, bodyOf r.2.root)) = some (0, TREE.null)) ∧
    (∀ fuel : Nat,
      (yyparse (100 + fuel) (fun _ _ => ⟨"", newleaf "stale" "memory"⟩) TREE.null
          (program [])).map (fun r => (r.1, bodyOf r.2.root))
        = some (0, newleaf "stale" "memory")) := by
  refine ⟨by decide, fun _ _ _ => rfl, fun _ _ => rfl, ?_, fun uninit fuel => ?_,
    fun fuel => ?_, fun fuel => ?_⟩
  · intro f yv root k hk
    simp only [List.mem_cons, List.mem_singleton, List.not_mem_nil, or_false] at hk
    rcases hk with h | h | h | h <;> subst h <;> rfl
  · exact run_closed 100 _ (fun rep => (rep.yyresult, (bodyOf rep.root).c2.label,
      (bodyOf rep.root).c2.c2)) _ (by decide!) uninit fuel
  · exact map_mono _ 100 _ _ _ _ (by decide!) fuel
  · exact map_mono _ 100 _ _ _ _ (by decide!) fuel

/-- C36: the actions of the rules 40 and 45 put the ptr field of their second symbol, a
token, into slot 1 of the node they build, and the action of rule 51 puts the ptr field of
the assignment operator, which the rules 64 to 72 leave as the token carried it, into slot
2. So two token streams with the same kinds and texts can build different trees: for
`int x, y;` slot 1 of the "declaration continued" node is the tree that the token `y`
carries in its ptr field, and it is absent when the token carries none. -/
theorem C36_token_pointer_reaches_the_tree (uninit : Nat → Nat → YACC) (fuel : Nat) :
    (∀ (yyvsp : Int → YACC) (yyval : YACC) (root : TREE),
      (yyaction 40 yyvsp yyval root).1.ptr.c1 = (yyvsp (-1)).ptr ∧
      (yyaction 45 yyvsp yyval root).1.ptr.c1 = (yyvsp (-1)).ptr ∧
      (yyaction 51 yyvsp yyval root).1.ptr.c2 = (yyvsp (-1)).ptr ∧
      ∀ k ∈ [64, 65, 66, 67, 68, 69, 70, 71, 72],
        (yyaction k yyvsp yyval root).1.ptr = yyval.ptr) ∧
    [tbl yyr2 40, tbl yyr2 45, tbl yyr2 51] = [3, 3, 3] ∧
    (∀ s : YYState, (shifted s).yyvs = s.yylval :: s.yyvs) ∧
    (program [tok T_INT "int", ident "x", tok 44 ",",
        ⟨T_ID, ⟨"y", newleaf "carried" "by the token"⟩⟩, semi]).map
        (fun t => (t.code, t.lval.v))
      = (program [tok T_INT "int", ident "x", tok 44 ",", ident "y", semi]).map
        (fun t => (t.code, t.lval.v)) ∧
    (yyparse (100 + fuel) uninit TREE.null
        (program [tok T_INT "int", ident "x", tok 44 ",",
          ⟨T_ID, ⟨"y", newleaf "carried" "by the token"⟩⟩, semi])).map
        (fun r => ((report r).yyresult, (bodyOf (report r).root).c1.c1.c3.label,
          (bodyOf (report r).root).c1.c1.c3.c1))
      = some (0, "declaration continued", newleaf "carried" "by the token") ∧
    (yyparse (100 + fuel) uninit TREE.null
        (program [tok T_INT "int", ident "x", tok 44 ",", ident "y", semi])).map
        (fun r => ((report r).yyresult, (bodyOf (report r).root).c1.c1.c3.label,
          (bodyOf (report r).root).c1.c1.c3.c1))
      = some (0, "declaration continued", TREE.null) := by
  refine ⟨fun f yv root => ⟨rfl, rfl, rfl, ?_⟩, by decide, ?_, by decide, ?_, ?_⟩
  · intro k hk
    simp only [List.mem_cons, List.mem_singleton, List.not_mem_nil, or_false] at hk
    rcases hk with h | h | h | h | h | h | h | h | h <;> subst h <;> rfl
  · intro s
    unfold shifted
    dsimp only []
    split_ifs <;> rfl
  · exact run_closed 100 _ (fun rep => (rep.yyresult, (bodyOf rep.root).c1.c1.c3.label,
      (bodyOf rep.root).c1.c1.c3.c1)) _ (by decide!) uninit fuel
  · exact run_closed 100 _ (fun rep => (rep.yyresult, (bodyOf rep.root).c1.c1.c3.label,
      (bodyOf rep.root).c1.c1.c3.c1)) _ (by decide!) uninit fuel

/-- C37: in no state do the tables prescribe the shift of a token of kind T_LS, T_RS,
T_XOR, T_AND, T_OR or T_PRINT, so yyparse accepts no token stream that contains one: every
run on such a stream (of tokens with the positive codes that yylex returns before the end
of the input) that returns, returns a non-zero result. The program with the body
`x = 1 ^ 2;` is rejected at the `^`. -/
theorem C37_dead_token_kinds :
    deadCodes = [288, 289, 286, 275, 274, 294] ∧
    (∀ (top : Int), ∀ code ∈ deadCodes, shiftTo top (YYTRANSLATE code) = none) ∧
    (∀ (fuel : Nat) (uninit : Nat → Nat → YACC) (root : TREE) (yyin : List Token),
      (∀ t ∈ yyin, 0 < t.code) → (∃ t ∈ yyin, t.code ∈ deadCodes) →
      ∀ r, yyparse fuel uninit root yyin = some r → r.1 ≠ 0) ∧
    (∀ (uninit : Nat → Nat → YACC) (fuel : Nat),
      (yyparse (100 + fuel) uninit TREE.null
          (program [ident "x", tok T_ASSGN "=", number "1", tok T_XOR "^", number "2",
            semi])).map
          (fun r => ((report r).yyresult, (report r).yynerrs, (report r).root,
            (report r).unread))
        = some (1, 2, TREE.null, 4)) :=
  ⟨rfl, shiftTo_dead,
    fun fuel uninit root yyin hpos hdead r h =>
      yyparse_blocked uninit fuel root yyin hpos hdead r h,
    fun uninit fuel => run_closed 100 _
      (fun rep => (rep.yyresult, rep.yynerrs, rep.root, rep.unread)) _ (by decide!) uninit fuel⟩

/-- C38, amended: the action of rule 92 passes the sub-tree of the inner expression on, so
for all primaries x, y, z the program whose body is the statement `t = ( x + y ) * z;` is
accepted with the tree *(+(x, y), z) as the right-hand side of the assignment, and the one
with `t = x - ( y - z );` with -(x, -(y, z)), unless the parse exhausts the parser stack:
then yyparse returns 2 and stores no root. The stack is not exhausted when x, y and z have
fewer than 9978 tokens in all. Enough fuel gives these results, whatever the unwritten
stack cells hold. -/
theorem C38_grouping_overrides_ladder (uninit : Nat → Nat → YACC) (x y z : Ex)
    (hx : x.isPrimary = true) (hy : y.isPrimary = true) (hz : z.isPrimary = true) :
    (∀ (yyvsp : Int → YACC) (yyval : YACC) (root : TREE),
      (yyaction 92 yyvsp yyval root).1.ptr = (yyvsp (-1)).ptr) ∧
    (∃ k r,
      (∀ n, yyparse (k + n) uninit TREE.null
        (program (ident "t" :: tok T_ASSGN "=" ::
          ([tok 40 "("] ++ x.tokens ++ [BinOp.add.token] ++ y.tokens ++ [tok 41 ")"]
            ++ [BinOp.mul.token] ++ z.tokens ++ [semi]))) = some r) ∧
      ((r.1 = 0 ∧ (bodyOf r.2.root).c1.c1.c2
          = newnode "*" (newnode "+" x.tree y.tree TREE.null TREE.null) z.tree
              TREE.null TREE.null) ∨
       (r.1 = 2 ∧ r.2.root = TREE.null)) ∧
      (x.tokens.length + y.tokens.length + z.tokens.length < 9978 → r.1 = 0)) ∧
    (∃ k r,
      (∀ n, yyparse (k + n) uninit TREE.null
        (program (ident "t" :: tok T_ASSGN "=" ::
          (x.tokens ++ [BinOp.sub.token] ++ [tok 40 "("] ++ y.tokens ++ [BinOp.sub.token]
            ++ z.tokens ++ [tok 41 ")"] ++ [semi]))) = some r) ∧
      ((r.1 = 0 ∧ (bodyOf r.2.root).c1.c1.c2
          = newnode "-" x.tree (newnode "-" y.tree z.tree TREE.null TREE.null)
              TREE.null TREE.null) ∨
       (r.1 = 2 ∧ r.2.root = TREE.null)) ∧
      (x.tokens.length + y.tokens.length + z.tokens.length < 9978 → r.1 = 0)) := by
  refine ⟨fun _ _ _ => rfl, ?_, ?_⟩
  · have hd : (Ex.bin BinOp.mul (Ex.paren (Ex.bin BinOp.add x y)) z).derives 6 = true := by
      simp only [Ex.derives, Bool.and_eq_true, decide_eq_true_eq]
      exact ⟨⟨by decide, ⟨by decide, derives_of_isPrimary x _ hx⟩,
        derives_of_isPrimary y _ hy⟩, derives_of_isPrimary z _ hz⟩
    obtain ⟨k, r, hk, hq, hb⟩ := assign_both uninit _ hd
    refine ⟨k, r, fun n => ?_, ?_, fun hsize => hb ?_⟩
    · have h := hk n
      simp only [Ex.tokens, List.append_assoc, List.cons_append, List.nil_append,
        List.singleton_append] at h ⊢
      exact h
    · rcases hq with ⟨h0, h1, _⟩ | ⟨h0, h1, _⟩
      · exact Or.inl ⟨h0, h1⟩
      · exact Or.inr ⟨h0, h1⟩
    · simp only [Ex.tokens, List.length_append, List.length_cons, List.length_nil, YYMAXDEPTH]
      omega
  · have hd : (Ex.bin BinOp.sub x (Ex.paren (Ex.bin BinOp.sub y z))).derives 6 = true := by
      simp only [Ex.derives, Bool.and_eq_true, decide_eq_true_eq]
      exact ⟨⟨by decide, derives_of_isPrimary x _ hx⟩, ⟨by decide,
        derives_of_isPrimary y _ hy⟩, derives_of_isPrimary z _ hz⟩
    obtain ⟨k, r, hk, hq, hb⟩ := assign_both uninit _ hd
    refine ⟨k, r, fun n => ?_, ?_, fun hsize => hb ?_⟩
    · have h := hk n
      simp only [Ex.tokens, List.append_assoc, List.cons_append, List.nil_append,
        List.singleton_append] at h ⊢
      exact h
    · rcases hq with ⟨h0, h1, _⟩ | ⟨h0, h1, _⟩
      · exact Or.inl ⟨h0, h1⟩
      · exact Or.inr ⟨h0, h1⟩
    · simp only [Ex.tokens, List.length_append, List.length_cons, List.length_nil, YYMAXDEPTH]
      omega

/-- C38, witness: `( a + b ) * c` and `a - ( b - c )`. -/
theorem C38_grouping_overrides_ladder_witness :
    ((Ex.id "a").isPrimary = true ∧ (Ex.id "b").isPrimary = true
      ∧ (Ex.id "c").isPrimary = true) ∧
    ((∀ (yyvsp : Int → YACC) (yyval : YACC) (root : TREE),
      (yyaction 92 yyvsp yyval root).1.ptr = (yyvsp (-1)).ptr) ∧
    (∃ k r,
      (∀ n, yyparse (k + n) zeroStack TREE.null
        (program (ident "t" :: tok T_ASSGN "=" ::
          ([tok 40 "("] ++ [ident "a"] ++ [tok T_ADD "+"] ++ [ident "b"] ++ [tok 41 ")"]
            ++ [tok T_MUL "*"] ++ [ident "c"] ++ [semi]))) = some r) ∧
      ((r.1 = 0 ∧ (bodyOf r.2.root).c1.c1.c2
          = newnode "*" (newnode "+" (newleaf "id" "a") (newleaf "id" "b") TREE.null TREE.null)
              (newleaf "id" "c") TREE.null TREE.null) ∨
       (r.1 = 2 ∧ r.2.root = TREE.null)) ∧
      ([ident "a"].length + [ident "b"].length + [ident "c"].length < 9978 → r.1 = 0)) ∧
    (∃ k r,
      (∀ n, yyparse (k + n) zeroStack TREE.null
        (program (ident "t" :: tok T_ASSGN "=" ::
          ([ident "a"] ++ [tok T_SUB "-"] ++ [tok 40 "("] ++ [ident "b"] ++ [tok T_SUB "-"]
            ++ [ident "c"] ++ [tok 41 ")"] ++ [semi]))) = some r) ∧
      ((r.1 = 0 ∧ (bodyOf r.2.root).c1.c1.c2
          = newnode "-" (newleaf "id" "a")
              (newnode "-" (newleaf "id" "b") (newleaf "id" "c") TREE.null TREE.null)
              TREE.null TREE.null) ∨
       (r.1 = 2 ∧ r.2.root = TREE.null)) ∧
      ([ident "a"].length + [ident "b"].length + [ident "c"].length < 9978 → r.1 = 0))) :=
  ⟨⟨by decide, by decide, by decide⟩,
    C38_grouping_overrides_ladder zeroStack (Ex.id "a") (Ex.id "b") (Ex.id "c")
      (by decide) (by decide) (by decide)⟩

/-- C38, counterexample: with the primary x made of the number 1 inside 10000 pairs of
parentheses, the tokens `t = ( x + 2 ) * 3;` exhaust the parser stack: yyparse returns 2
after one call of yyerror and stores no root, so no tree is built for them. -/
theorem C38_deep_primary_counterexample :
    (Ex.nest 10000 (Ex.num "1")).isPrimary = true ∧ (Ex.num "2").isPrimary = true
    ∧ (Ex.num "3").isPrimary = true
    ∧ ∃ k, ∀ n,
      (yyparse (k + n) zeroStack TREE.null
        (program (ident "t" :: tok T_ASSGN "=" ::
          ([tok 40 "("] ++ (Ex.nest 10000 (Ex.num "1")).tokens ++ [BinOp.add.token]
            ++ (Ex.num "2").tokens ++ [tok 41 ")"] ++ [BinOp.mul.token]
            ++ (Ex.num "3").tokens ++ [semi])))).map
          (fun r => (r.1, r.2.root, r.2.yynerrs)) = some (2, TREE.null, 1) := by
  refine ⟨nest_isPrimary 10000 _ rfl, by decide, by decide, ?_⟩
  rw [group_tokens, nest_tokens, List.append_assoc, replicate_split_cons]
  exact deep_fails zeroStack _

/-- C39: for every expression e derived by the ladder productions, the program whose body
is the statement `t = e;` is parsed to the end; when it is accepted, the in-order reading
of the tree built for e (the right-hand side of the assignment) is the sequence of the
texts of the tokens of e in source order without the parenthesis tokens; it is accepted
when e has fewer than 9982 tokens, and otherwise unless the parser stack is exhausted, in
which case yyparse returns 2 and no tree is built. Enough fuel gives these results,
whatever the unwritten stack cells hold. -/
theorem C39_inorder_reading (uninit : Nat → Nat → YACC) (e : Ex) (hd : e.derives 6 = true) :
    ∃ k r,
      (∀ n, yyparse (k + n) uninit TREE.null
        (program (ident "t" :: tok T_ASSGN "=" :: (e.tokens ++ [semi]))) = some r) ∧
      ((r.1 = 0 ∧ ((bodyOf r.2.root).c1.c1.c2).inorder = textsWithoutParens e.tokens) ∨
       (r.1 = 2 ∧ r.2.root = TREE.null)) ∧
      (e.tokens.length < 9982 → r.1 = 0) := by
  obtain ⟨k, r, hk, hq, hb⟩ := assign_both uninit e hd
  refine ⟨k, r, hk, ?_, fun hsize => hb (by simp only [YYMAXDEPTH]; omega)⟩
  rcases hq with ⟨h0, h1, _⟩ | ⟨h0, h1, _⟩
  · exact Or.inl ⟨h0, by rw [h1]; exact inorder_tree e⟩
  · exact Or.inr ⟨h0, h1⟩

/-- C39, witness: `( 1 + 2 ) * x - 4 / y` reads 1 + 2 * x - 4 / y. -/
theorem C39_inorder_reading_witness :
    (Ex.bin BinOp.sub
      (Ex.bin BinOp.mul (Ex.paren (Ex.bin BinOp.add (Ex.num "1") (Ex.num "2"))) (Ex.id "x"))
      (Ex.bin BinOp.div (Ex.num "4") (Ex.id "y"))).derives 6 = true ∧
    ∃ k r,
      (∀ n, yyparse (k + n) zeroStack TREE.null
        (program (ident "t" :: tok T_ASSGN "=" ::
          ([tok 40 "(", number "1", tok T_ADD "+", number "2", tok 41 ")", tok T_MUL "*",
            ident "x", tok T_SUB "-", number "4", tok T_DIV "/", ident "y"] ++ [semi])))
          = some r) ∧
      ((r.1 = 0 ∧ ((bodyOf r.2.root).c1.c1.c2).inorder
          = ["1", "+", "2", "*", "x", "-", "4", "/", "y"]) ∨
       (r.1 = 2 ∧ r.2.root = TREE.null)) ∧
      ([tok 40 "(", number "1", tok T_ADD "+", number "2", tok 41 ")", tok T_MUL "*",
            ident "x", tok T_SUB "-", number "4", tok T_DIV "/", ident "y"].length < 9982 →
        r.1 = 0) :=
  ⟨by decide, C39_inorder_reading zeroStack
    (Ex.bin BinOp.sub
      (Ex.bin BinOp.mul (Ex.paren (Ex.bin BinOp.add (Ex.num "1") (Ex.num "2"))) (Ex.id "x"))
      (Ex.bin BinOp.div (Ex.num "4") (Ex.id "y"))) (by decide)⟩

end MiniJava
